import Mathlib

/-! TIFF / BigTIFF directory and pixel-segment codec.

A shallow embedding of the Go package `tiff` (files `tiff.go`, `tag.go`,
`image.go`, `decode.go`, `encode.go`) together with theorems about it.

Modelling conventions.

* A byte is a natural number; the codec writes bytes with an explicit
  `% 256`, and the explicit Go conversions `uint16(x)`, `uint32(x)`,
  `uint64(x)` are `x % 2 ^ 16`, `x % 2 ^ 32`, `x % 2 ^ 64`.
* Go's `int` is 64 bits wide (the package only compiles on 64-bit platforms:
  it uses the array type `[1 << 48]uint16`).  `toInt64` is the wrap-around
  reading of a natural number as an `int64`.  The comparison of the buffer
  length with `pixelCount*samplePerPixel`, the payload size
  `Type.Size() * Count` of `DecodeIFD` and the size tests of `NumStrips` and
  `NumTiles` are made on wrapped values; the other products and sums of sizes
  are natural numbers, and every slice or index that leaves its buffer is a
  panic.
* The expected numbers of strips and tiles, which the source computes as
  `(int)(math.Ceil((float64)(a) / (float64)(b)))`, are the exact ceilings
  `ceilDiv a b` in `DecodeImage` and `EncodeImage`.  `ceilOfQuotient` is the
  value of the expression of the source; it is `ceilDiv a b` for every `a`
  below `2 ^ 53` (`ceilOfQuotient_eq_ceilDiv`) and differs from it above;
  `Image.segmentCountTest` is the test of the count of `DecodeImage` in the
  arithmetic of the source.
  The width and the height of an image are the natural numbers that the tags
  hold; the source converts them to `int`, so that the statements about
  `EncodeImage` and `DecodeImage` bound them where the conversion matters.
* An `io.ReaderAt` is a finite byte string; reading past its end fails.
* An `io.WriteSeeker` is a byte string with a cursor; writing never fails.
* A Go `map[TagID]*Tag` is the list of its tags in strictly increasing
  identifier order; a nil payload is the empty list.
* A run-time panic is the error `Error.fatal`.
* The header an image and its tags point to is a value; the byte order and
  the version of an encoder are set before its images are created.
-/

set_option maxRecDepth 100000

namespace Tiff

/-! ## Errors -/

/-- Errors of the package: `FormatError`, `UnsupportedError`, an error made
with `fmt.Errorf` (including wrapped I/O errors), `io.EOF`, and a run-time
panic. -/
inductive Error where
  | format (msg : String)
  | unsupported (msg : String)
  | other (msg : String)
  | eof
  | fatal (msg : String)
deriving DecidableEq, Repr

/-- Whether an error is a `FormatError`. -/
def Error.isFormat : Error → Bool
  | .format _ => true
  | _ => false

/-- Whether an error is an `UnsupportedError`. -/
def Error.isUnsupported : Error → Bool
  | .unsupported _ => true
  | _ => false

/-- Whether a result is an error. -/
def isError {α : Type} : Except Error α → Bool
  | .error _ => true
  | .ok _ => false

/-- Whether a result is a success. -/
def isOk {α : Type} : Except Error α → Bool
  | .error _ => false
  | .ok _ => true

/-! ## Machine integers and byte order -/

/-- Wrap-around reading of a natural number as a signed 64-bit integer. -/
def toInt64 (n : Nat) : Int :=
  if n % 2 ^ 64 < 2 ^ 63 then ((n % 2 ^ 64 : Nat) : Int) else ((n % 2 ^ 64 : Nat) : Int) - 2 ^ 64

/-- The constant `maxInt` of `tiff.go` (`int` has 64 bits). -/
def maxInt : Nat := 2 ^ 63 - 1

/-- The constant `math.MaxInt64`. -/
def maxInt64 : Nat := 2 ^ 63 - 1

/-- Go slice expression `b[lo:hi]` on a list (for `lo ≤ hi ≤ len b`). -/
def slice (b : List Nat) (lo hi : Nat) : List Nat := (b.drop lo).take (hi - lo)

/-- Little-endian value of a byte string. -/
def leNat : List Nat → Nat
  | [] => 0
  | b :: bs => b + 256 * leNat bs

/-- Little-endian bytes of the `w` low-order bytes of `v`. -/
def putLE : Nat → Nat → List Nat
  | 0, _ => []
  | w + 1, v => v % 256 :: putLE w (v / 256)

/-- Byte order of a file: `binary.LittleEndian` or `binary.BigEndian`. -/
inductive ByteOrder where
  | LittleEndian
  | BigEndian
deriving DecidableEq, Repr

/-- Value of the byte string `b` read in the given byte order. -/
def ByteOrder.Uint (bo : ByteOrder) (b : List Nat) : Nat :=
  match bo with
  | .LittleEndian => leNat b
  | .BigEndian => leNat b.reverse

/-- The `w` bytes that store `v` in the given byte order. -/
def ByteOrder.PutUint (bo : ByteOrder) (w v : Nat) : List Nat :=
  match bo with
  | .LittleEndian => putLE w v
  | .BigEndian => (putLE w v).reverse

/-- Method `ByteOrder.Uint16`: reads `b[0]`, `b[1]`. -/
def ByteOrder.Uint16 (bo : ByteOrder) (b : List Nat) : Nat := bo.Uint (b.take 2)

/-- Method `ByteOrder.Uint32`: reads `b[0..3]`. -/
def ByteOrder.Uint32 (bo : ByteOrder) (b : List Nat) : Nat := bo.Uint (b.take 4)

/-- Method `ByteOrder.Uint64`: reads `b[0..7]`. -/
def ByteOrder.Uint64 (bo : ByteOrder) (b : List Nat) : Nat := bo.Uint (b.take 8)

/-- Method `ByteOrder.PutUint16`. -/
def ByteOrder.PutUint16 (bo : ByteOrder) (v : Nat) : List Nat := bo.PutUint 2 v

/-- Method `ByteOrder.PutUint32`. -/
def ByteOrder.PutUint32 (bo : ByteOrder) (v : Nat) : List Nat := bo.PutUint 4 v

/-- Method `ByteOrder.PutUint64`. -/
def ByteOrder.PutUint64 (bo : ByteOrder) (v : Nat) : List Nat := bo.PutUint 8 v

/-! ## Header, versions, field types -/

/-- Constant `VersionClassicTIFF`. -/
def VersionClassicTIFF : Nat := 42

/-- Constant `VersionBigTIFF`. -/
def VersionBigTIFF : Nat := 43

/-- File header (`type Header`). -/
structure Header where
  ByteOrder : Tiff.ByteOrder
  Version : Nat
  OffsetFirstIFD : Nat
deriving DecidableEq, Repr

/-- Field type constants (`TagTypeByte` ... `TagTypeIFD8`). -/
def TagTypeByte : Nat := 1
/-- Field type ASCII. -/
def TagTypeASCII : Nat := 2
/-- Field type Short. -/
def TagTypeShort : Nat := 3
/-- Field type Long. -/
def TagTypeLong : Nat := 4
/-- Field type Rational. -/
def TagTypeRational : Nat := 5
/-- Field type SByte. -/
def TagTypeSByte : Nat := 6
/-- Field type Undefined. -/
def TagTypeUndefined : Nat := 7
/-- Field type SShort. -/
def TagTypeSShort : Nat := 8
/-- Field type SLong. -/
def TagTypeSLong : Nat := 9
/-- Field type SRational. -/
def TagTypeSRational : Nat := 10
/-- Field type Float. -/
def TagTypeFloat : Nat := 11
/-- Field type Double. -/
def TagTypeDouble : Nat := 12
/-- Field type IFD. -/
def TagTypeIFD : Nat := 13
/-- Field type Long8. -/
def TagTypeLong8 : Nat := 16
/-- Field type SLong8. -/
def TagTypeSLong8 : Nat := 17
/-- Field type IFD8. -/
def TagTypeIFD8 : Nat := 18

/-- Method `TagType.Size`: lookup in the table `typeSize`; a type that is not
in the table has size 0. -/
def TagType.Size (t : Nat) : Nat :=
  if t = 1 then 1 else if t = 2 then 1 else if t = 3 then 2 else if t = 4 then 4
  else if t = 5 then 8 else if t = 6 then 1 else if t = 7 then 1 else if t = 8 then 2
  else if t = 9 then 4 else if t = 10 then 8 else if t = 11 then 4 else if t = 12 then 8
  else if t = 13 then 4 else if t = 16 then 8 else if t = 17 then 8 else if t = 18 then 8
  else 0

/-! ## Tags -/

/-- One directory entry (`type Tag`).  `Typ` is the field `Type`. -/
structure Tag where
  ID : Nat
  Typ : Nat
  Count : Nat
  Data : List Nat
  Header : Option Tiff.Header
  OffsetEntry : Nat
  OffsetData : Nat
deriving DecidableEq, Repr

/-- The dynamically typed `value interface{}` argument of `NewTag`: the value
shapes the type switch distinguishes, and `invalid` for every other shape.
Strings are byte strings; floats are given by their IEEE bit patterns. -/
inductive Value where
  | string (v : List Nat)
  | uint16 (v : Nat)
  | uint32 (v : Nat)
  | uint64 (v : Nat)
  | int16 (v : Int)
  | int32 (v : Int)
  | int64 (v : Int)
  | float32 (v : Nat)
  | float64 (v : Nat)
  | rational (v : Nat × Nat)
  | srational (v : Int × Int)
  | int (v : Int)
  | ints (vs : List Int)
  | strings (vs : List (List Nat))
  | bytes (vs : List Nat)
  | uint16s (vs : List Nat)
  | uint32s (vs : List Nat)
  | uint64s (vs : List Nat)
  | int16s (vs : List Int)
  | int32s (vs : List Int)
  | int64s (vs : List Int)
  | float32s (vs : List Nat)
  | float64s (vs : List Nat)
  | rationals (vs : List (Nat × Nat))
  | srationals (vs : List (Int × Int))
  | invalid
deriving DecidableEq, Repr

/-- Conversion of a Go signed integer to an unsigned integer of `w` bytes. -/
def toUnsigned (w : Nat) (v : Int) : Nat := (v % (256 ^ w : Nat)).toNat

/-- Writes `bytes` at the start of the sub-slice `buf[lo:hi]`, as
`PutUint32(buf[lo:hi], v)` does: the slice expression panics unless
`lo ≤ hi ≤ len buf`, and the store panics when the sub-slice is shorter than
the value. -/
def putAt (buf : List Nat) (lo hi : Nat) (bytes : List Nat) : Except Error (List Nat) :=
  if lo ≤ hi ∧ hi ≤ buf.length then
    if bytes.length ≤ hi - lo then
      .ok (buf.take lo ++ bytes ++ buf.drop (lo + bytes.length))
    else .error (.fatal "index out of range")
  else .error (.fatal "slice bounds out of range")

/-- The loop of `NewTag` for `[]Rational` and `[]SRational` (components already
converted to `uint32`): element `i` is stored through the slices
`Data[8*i:8*(i+1)]` and `Data[8*(i+1):4*(i+2)]`. -/
def putRationals (bo : ByteOrder) : List (Nat × Nat) → Nat → List Nat → Except Error (List Nat)
  | [], _, buf => .ok buf
  | v :: vs, i, buf =>
    match putAt buf (8 * i) (8 * (i + 1)) (bo.PutUint32 v.1) with
    | .error e => .error e
    | .ok buf1 =>
      match putAt buf1 (8 * (i + 1)) (4 * (i + 2)) (bo.PutUint32 v.2) with
      | .error e => .error e
      | .ok buf2 => putRationals bo vs (i + 1) buf2

/-- Byte order used by `NewTag` through `header.ByteOrder`; a nil header is a
nil dereference as soon as a value is stored. -/
def headerOrder (header : Option Header) (n : Nat) : Except Error ByteOrder :=
  match header with
  | some h => .ok h.ByteOrder
  | none => if n = 0 then .ok .LittleEndian else .error (.fatal "nil pointer dereference")

/-- The slice cases of `NewTag` that store fixed-width integers: `width` bytes
per element.  `deref` is the number of times `header.ByteOrder` is evaluated
(once per element in the integer loops, once in all for `binary.Write`). -/
def newIntTag (id tagType : Nat) (header : Option Header) (width : Nat) (vs : List Nat)
    (deref : Nat) : Except Error Tag :=
  match headerOrder header deref with
  | .error e => .error e
  | .ok bo =>
    .ok { ID := id, Typ := tagType, Count := vs.length,
          Data := (vs.map (fun v => bo.PutUint width v)).flatten,
          Header := header, OffsetEntry := 0, OffsetData := 0 }

/-- The slice cases of `NewTag` (every case of the type switch that does not
re-dispatch). -/
def newTagSlice (id tagType : Nat) (value : Value) (header : Option Header) : Except Error Tag :=
  match value with
  | .strings vs =>
    if tagType ≠ TagTypeASCII then .error (.other "type mismatch: set string")
    else
      let data := (vs.map (fun v => v ++ [0])).flatten
      .ok { ID := id, Typ := tagType, Count := data.length, Data := data,
            Header := header, OffsetEntry := 0, OffsetData := 0 }
  | .bytes vs =>
    if tagType ≠ TagTypeByte ∧ tagType ≠ TagTypeUndefined then
      .error (.other "type mismatch: set byte")
    else
      .ok { ID := id, Typ := tagType, Count := vs.length, Data := vs,
            Header := header, OffsetEntry := 0, OffsetData := 0 }
  | .uint16s vs =>
    if tagType ≠ TagTypeShort then .error (.other "type mismatch: set uint16")
    else newIntTag id tagType header 2 vs vs.length
  | .uint32s vs =>
    if tagType ≠ TagTypeLong ∧ tagType ≠ TagTypeIFD then
      .error (.other "type mismatch: set uint32")
    else newIntTag id tagType header 4 vs vs.length
  | .uint64s vs =>
    if tagType ≠ TagTypeLong8 ∧ tagType ≠ TagTypeIFD8 then
      .error (.other "type mismatch: set uint64")
    else newIntTag id tagType header 8 vs vs.length
  | .int16s vs =>
    if tagType ≠ TagTypeSShort then .error (.other "type mismatch: set int16")
    else newIntTag id tagType header 2 (vs.map (toUnsigned 2)) vs.length
  | .int32s vs =>
    if tagType ≠ TagTypeSLong then .error (.other "type mismatch: set int32")
    else newIntTag id tagType header 4 (vs.map (toUnsigned 4)) vs.length
  | .int64s vs =>
    if tagType ≠ TagTypeSLong8 then .error (.other "type mismatch: set int64")
    else newIntTag id tagType header 8 (vs.map (toUnsigned 8)) vs.length
  | .float32s vs =>
    if tagType ≠ TagTypeFloat then .error (.other "type mismatch: set float32")
    else newIntTag id tagType header 4 vs 1
  | .float64s vs =>
    if tagType ≠ TagTypeDouble then .error (.other "type mismatch: set float64")
    else newIntTag id tagType header 8 vs 1
  | .rationals vs =>
    if tagType ≠ TagTypeRational then .error (.other "type mismatch: set Rational")
    else
      match headerOrder header vs.length with
      | .error e => .error e
      | .ok bo =>
        match putRationals bo vs 0 (List.replicate (vs.length * 8) 0) with
        | .error e => .error e
        | .ok data =>
          .ok { ID := id, Typ := tagType, Count := vs.length, Data := data,
                Header := header, OffsetEntry := 0, OffsetData := 0 }
  | .srationals vs =>
    if tagType ≠ TagTypeSRational then .error (.other "type mismatch: set SRational")
    else
      match headerOrder header vs.length with
      | .error e => .error e
      | .ok bo =>
        match putRationals bo (vs.map (fun v => (toUnsigned 4 v.1, toUnsigned 4 v.2))) 0
            (List.replicate (vs.length * 8) 0) with
        | .error e => .error e
        | .ok data =>
          .ok { ID := id, Typ := tagType, Count := vs.length, Data := data,
                Header := header, OffsetEntry := 0, OffsetData := 0 }
  | _ => .error (.other "invalid value type")

/-- Function `NewTag`: a scalar is wrapped in a one-element slice, a `[]int`
is converted to `[]uint16` or `[]uint32` according to the field type, and the
slice cases build the tag. -/
def NewTag (id tagType : Nat) (value : Value) (header : Option Header) : Except Error Tag :=
  match value with
  | .string v => newTagSlice id tagType (.strings [v]) header
  | .uint16 v => newTagSlice id tagType (.uint16s [v]) header
  | .uint32 v => newTagSlice id tagType (.uint32s [v]) header
  | .uint64 v => newTagSlice id tagType (.uint64s [v]) header
  | .int16 v => newTagSlice id tagType (.int16s [v]) header
  | .int32 v => newTagSlice id tagType (.int32s [v]) header
  | .int64 v => newTagSlice id tagType (.int64s [v]) header
  | .float32 v => newTagSlice id tagType (.float32s [v]) header
  | .float64 v => newTagSlice id tagType (.float64s [v]) header
  | .rational v => newTagSlice id tagType (.rationals [v]) header
  | .srational v => newTagSlice id tagType (.srationals [v]) header
  | .int v =>
    if tagType = TagTypeShort then newTagSlice id tagType (.uint16s [toUnsigned 2 v]) header
    else if tagType = TagTypeLong then newTagSlice id tagType (.uint32s [toUnsigned 4 v]) header
    else .error (.other "type mismatch: set int")
  | .ints vs =>
    if tagType = TagTypeShort then
      newTagSlice id tagType (.uint16s (vs.map (toUnsigned 2))) header
    else if tagType = TagTypeLong then
      newTagSlice id tagType (.uint32s (vs.map (toUnsigned 4))) header
    else .error (.other "type mismatch: set int")
  | v => newTagSlice id tagType v header

/-! ## Tag identifiers used by the codec -/

/-- Constant `TagImageWidth`. -/
def TagImageWidth : Nat := 256
/-- Constant `TagImageLength`. -/
def TagImageLength : Nat := 257
/-- Constant `TagBitsPerSample`. -/
def TagBitsPerSample : Nat := 258
/-- Constant `TagCompression`. -/
def TagCompression : Nat := 259
/-- Constant `TagPhotometric`. -/
def TagPhotometric : Nat := 262
/-- Constant `TagStripOffsets`. -/
def TagStripOffsets : Nat := 273
/-- Constant `TagSamplesPerPixel`. -/
def TagSamplesPerPixel : Nat := 277
/-- Constant `TagRowsPerStrip`. -/
def TagRowsPerStrip : Nat := 278
/-- Constant `TagStripByteCounts`. -/
def TagStripByteCounts : Nat := 279
/-- Constant `TagPlanarConfig`. -/
def TagPlanarConfig : Nat := 284
/-- Constant `TagTileWidth`. -/
def TagTileWidth : Nat := 322
/-- Constant `TagTileLength`. -/
def TagTileLength : Nat := 323
/-- Constant `TagTileOffsets`. -/
def TagTileOffsets : Nat := 324
/-- Constant `TagTileByteCounts`. -/
def TagTileByteCounts : Nat := 325
/-- Constant `TagSubIFDs`. -/
def TagSubIFDs : Nat := 330
/-- Constant `TagJPEGTables`. -/
def TagJPEGTables : Nat := 347
/-- Constant `TagExifIFD`. -/
def TagExifIFD : Nat := 34665
/-- Constant `TagGPSIFD`. -/
def TagGPSIFD : Nat := 34853
/-- Constant `TagInteroperabilityIFD`. -/
def TagInteroperabilityIFD : Nat := 40965

/-- Constant `CompressionNone`. -/
def CompressionNone : Nat := 1
/-- Constant `CompressionLZW`. -/
def CompressionLZW : Nat := 5
/-- Constant `CompressionJPEG`. -/
def CompressionJPEG : Nat := 7
/-- Constant `CompressionDeflate`. -/
def CompressionDeflate : Nat := 8
/-- Constant `CompressionDeflateOld`. -/
def CompressionDeflateOld : Nat := 32946
/-- Constant `PlanarConfigContig`. -/
def PlanarConfigContig : Nat := 1

/-! ## Tag maps and directories -/

/-- Assignment `m[t.ID] = t` on a tag map: the tag replaces the one with the
same identifier, or is added at its place in identifier order. -/
def TagMap.insert : List Tag → Tag → List Tag
  | [], t => [t]
  | x :: xs, t =>
    if t.ID < x.ID then t :: x :: xs
    else if t.ID = x.ID then t :: xs
    else x :: TagMap.insert xs t

/-- Lookup `m[id]`; `none` is the nil tag of an absent identifier. -/
def TagMap.find (m : List Tag) (id : Nat) : Option Tag :=
  m.find? (fun t => t.ID == id)

/-- An entry of an Exif directory (`type ExifTag`). -/
structure ExifTag where
  ID : Nat
  Typ : Nat
  Count : Nat
  Data : List Nat
  Header : Option Tiff.Header
  OffsetEntry : Nat
  OffsetData : Nat
deriving DecidableEq, Repr

/-- An entry of a GPS directory (`type GPSTag`). -/
structure GPSTag where
  ID : Nat
  Typ : Nat
  Count : Nat
  Data : List Nat
  Header : Option Tiff.Header
  OffsetEntry : Nat
  OffsetData : Nat
deriving DecidableEq, Repr

/-- An entry of an Interoperability directory (`type InteroperabilityTag`). -/
structure InteroperabilityTag where
  ID : Nat
  Typ : Nat
  Count : Nat
  Data : List Nat
  Header : Option Tiff.Header
  OffsetEntry : Nat
  OffsetData : Nat
deriving DecidableEq, Repr

/-- Exif directory (`type ExifIFD`). -/
structure ExifIFD where
  Tag : List ExifTag
  Header : Option Tiff.Header
  Offset : Nat
  OffsetNext : Nat
deriving DecidableEq, Repr

/-- GPS directory (`type GPSIFD`). -/
structure GPSIFD where
  Tag : List GPSTag
  Header : Option Tiff.Header
  Offset : Nat
  OffsetNext : Nat
deriving DecidableEq, Repr

/-- Interoperability directory (`type InteroperabilityIFD`). -/
structure InteroperabilityIFD where
  Tag : List InteroperabilityTag
  Header : Option Tiff.Header
  Offset : Nat
  OffsetNext : Nat
deriving DecidableEq, Repr

/-- An image file directory (`type Image`).  The field `enc` of the source is
not stored: the encoder is passed to the encoding functions. -/
structure Image where
  Tag : List Tiff.Tag
  SubImage : List Image
  Exif : Option ExifIFD
  GPS : Option GPSIFD
  Interoperability : Option InteroperabilityIFD
  Header : Option Tiff.Header
  Offset : Nat
  OffsetNext : Nat
  rd : Option (List Nat)

/-- Method `Image.TagID`: the sorted identifiers of the image's tags. -/
def Image.TagID (im : Image) : List Nat := im.Tag.map (fun t => t.ID)

/-- Method `Image.SetTag`. -/
def Image.SetTag (im : Image) (id tagType : Nat) (value : Value) : Image × Option Error :=
  match NewTag id tagType value im.Header with
  | .error e => (im, some e)
  | .ok tag => ({ im with Tag := TagMap.insert im.Tag tag }, none)

/-! ## Encoding a directory -/

/-- One directory entry written by the loop of `EncodeTags`; `bufOffsetExtended`
is the position of the next out-of-line payload in the output buffer. -/
def encodeEntry (h : Header) (offset bufOffsetExtended : Nat) (tag : Tag) : List Nat :=
  if h.Version = VersionClassicTIFF then
    h.ByteOrder.PutUint16 (tag.ID % 2 ^ 16) ++ h.ByteOrder.PutUint16 (tag.Typ % 2 ^ 16) ++
      h.ByteOrder.PutUint32 (tag.Count % 2 ^ 32) ++
      (if tag.Data.length ≤ 4 then tag.Data ++ List.replicate (4 - tag.Data.length) 0
       else h.ByteOrder.PutUint32 ((offset + bufOffsetExtended) % 2 ^ 32))
  else
    h.ByteOrder.PutUint16 (tag.ID % 2 ^ 16) ++ h.ByteOrder.PutUint16 (tag.Typ % 2 ^ 16) ++
      h.ByteOrder.PutUint64 (tag.Count % 2 ^ 64) ++
      (if tag.Data.length ≤ 8 then tag.Data ++ List.replicate (8 - tag.Data.length) 0
       else h.ByteOrder.PutUint64 ((offset + bufOffsetExtended) % 2 ^ 64))

/-- The entry loop of `EncodeTags` over the tags in identifier order: the bytes
of the entry table and the bytes of the out-of-line area. -/
def encodeEntries (h : Header) (offset byteOfOffset : Nat) :
    List Tag → Nat → List Nat × List Nat
  | [], _ => ([], [])
  | tag :: rest, bufOffsetExtended =>
    if tag.Data.length ≤ byteOfOffset then
      let r := encodeEntries h offset byteOfOffset rest bufOffsetExtended
      (encodeEntry h offset bufOffsetExtended tag ++ r.1, r.2)
    else
      let r := encodeEntries h offset byteOfOffset rest (bufOffsetExtended + tag.Data.length)
      (encodeEntry h offset bufOffsetExtended tag ++ r.1, tag.Data ++ r.2)

/-- Method `Image.EncodeTags`: the image with `Offset` set, and the encoded
directory (count field, entries, next-directory pointer, out-of-line area). -/
def Image.EncodeTags (im : Image) (offset : Nat) : Image × Except Error (List Nat) :=
  let im1 := { im with Offset := offset }
  let ids := im1.TagID
  if ids.length = 0 then (im1, .error (.other "at least one tag is required"))
  else
    match im1.Header with
    | none => (im1, .error (.other "missing Header"))
    | some h =>
      if h.Version = VersionClassicTIFF then
        let bufOffsetOffsetNext := 2 + ids.length * 12
        let r := encodeEntries h offset 4 im1.Tag (bufOffsetOffsetNext + 4)
        (im1, .ok (h.ByteOrder.PutUint16 (ids.length % 2 ^ 16) ++ r.1 ++
          h.ByteOrder.PutUint32 (im1.OffsetNext % 2 ^ 32) ++ r.2))
      else if h.Version = VersionBigTIFF then
        let bufOffsetOffsetNext := 8 + ids.length * 20
        let r := encodeEntries h offset 8 im1.Tag (bufOffsetOffsetNext + 8)
        (im1, .ok (h.ByteOrder.PutUint64 (ids.length % 2 ^ 64) ++ r.1 ++
          h.ByteOrder.PutUint64 (im1.OffsetNext % 2 ^ 64) ++ r.2))
      else (im1, .error (.fatal "invalid TIFF version in header"))

/-! ## Decoding a directory -/

/-- Method `ReadAt` of the byte source: the `n` bytes at offset `off`, or
a failure when the source ends before. -/
def ReadAt (r : List Nat) (n off : Nat) : Option (List Nat) :=
  if off + n ≤ r.length then some (slice r off (off + n)) else none

/-- A decoder (`type Decoder`): the header and the byte source. -/
structure Decoder where
  Header : Tiff.Header
  r : List Nat

/-- The body of the entry loop of `DecodeIFD` up to (not including) the test on
the order of identifiers: entry `i` of the directory at `offset`. -/
def decodeEntry (d : Decoder) (offset i : Nat) : Except Error Tag :=
  let classic := d.Header.Version = VersionClassicTIFF
  let bytesOfNumTags := if classic then 2 else 8
  let bytesOfEntry := if classic then 12 else 20
  let byteOfOffset := if classic then 4 else 8
  let offsetEntry := offset + bytesOfNumTags + i * bytesOfEntry
  match ReadAt d.r bytesOfEntry offsetEntry with
  | none => .error (.other "cannot read IFD")
  | some buf =>
    let id := d.Header.ByteOrder.Uint16 (slice buf 0 2)
    let ty := d.Header.ByteOrder.Uint16 (slice buf 2 4)
    let count := if classic then d.Header.ByteOrder.Uint32 (slice buf 4 8)
      else d.Header.ByteOrder.Uint64 (slice buf 4 12)
    if ¬ classic ∧ count > maxInt then .error (.other "invalid IFD: count overflows int")
    else
      let bytesOfData := toInt64 (TagType.Size ty * count)
      if bytesOfData < 0 then .error (.fatal "makeslice: len out of range")
      else if bytesOfData > byteOfOffset then
        let offsetData := if classic then d.Header.ByteOrder.Uint32 (slice buf 8 12)
          else d.Header.ByteOrder.Uint64 (slice buf 12 20)
        if ¬ classic ∧ offsetData > maxInt64 then
          .error (.other "invalid IFD: offset to data overflows int64")
        else
          match ReadAt d.r bytesOfData.toNat offsetData with
          | none => .error (.other "cannot read IFD")
          | some data =>
            .ok { ID := id, Typ := ty, Count := count, Data := data, Header := some d.Header,
                  OffsetEntry := offsetEntry, OffsetData := offsetData }
      else
        let field := if classic then slice buf 8 12 else slice buf 12 20
        .ok { ID := id, Typ := ty, Count := count, Data := field.take bytesOfData.toNat,
              Header := some d.Header, OffsetEntry := offsetEntry, OffsetData := 0 }

/-- The entry loop of `DecodeIFD`: `n` iterations starting at index `i`.  The
variable `lastTagID` is compared with every identifier and is never assigned
in the loop. -/
def decodeEntries (d : Decoder) (offset : Nat) (lastTagID : Int) :
    Nat → Nat → List Tag → Except Error (List Tag)
  | 0, _, m => .ok m
  | n + 1, i, m =>
    match decodeEntry d offset i with
    | .error e => .error e
    | .ok t =>
      if (t.ID : Int) ≤ lastTagID then
        .error (.other "invalid IFD: entries are not sorted by tag")
      else decodeEntries d offset lastTagID n (i + 1) (TagMap.insert m t)

/-- Wrap-around of a signed result to 64 bits. -/
def wrapInt64 (z : Int) : Int := toInt64 (z % 2 ^ 64).toNat

/-- `ReadAt` at a signed offset: a negative offset is an error. -/
def readAtInt (r : List Nat) (n : Nat) (off : Int) : Option (List Nat) :=
  if off < 0 then none else ReadAt r n off.toNat

/-- Method `Decoder.DecodeIFD`. -/
def Decoder.DecodeIFD (d : Decoder) (offset : Nat) : Except Error Image :=
  if d.Header.Version ≠ VersionClassicTIFF ∧ d.Header.Version ≠ VersionBigTIFF then
    .error (.fatal "invalid TIFF version in header")
  else
    let classic := d.Header.Version = VersionClassicTIFF
    let bytesOfNumTags := if classic then 2 else 8
    let bytesOfEntry := if classic then 12 else 20
    let byteOfOffset := if classic then 4 else 8
    match ReadAt d.r bytesOfNumTags offset with
    | none => .error (.other "cannot read IFD")
    | some buf =>
      let numEntries : Int := if classic then (d.Header.ByteOrder.Uint16 buf : Int)
        else toInt64 (d.Header.ByteOrder.Uint64 buf)
      let lastTagID : Int := 0
      match decodeEntries d offset lastTagID numEntries.toNat 0 [] with
      | .error e => .error e
      | .ok tags =>
        let pos : Int := wrapInt64 ((offset : Int) + bytesOfNumTags + numEntries * bytesOfEntry)
        match readAtInt d.r byteOfOffset pos with
        | none => .error (.other "cannot read IFD")
        | some nbuf =>
          let offsetNext := if classic then d.Header.ByteOrder.Uint32 nbuf
            else d.Header.ByteOrder.Uint64 nbuf
          if ¬ classic ∧ offsetNext > maxInt64 then
            .error (.other "invalid IFD: offset to next IFD overflows int64")
          else
            .ok { Tag := tags, SubImage := [], Exif := none, GPS := none,
                  Interoperability := none, Header := none, Offset := offset,
                  OffsetNext := offsetNext, rd := none }

/-! ## Typed accessors -/

/-- The loop shared by `DecodeShort`, `DecodeLong` and `DecodeLong8`: `count`
values of `width` bytes each, read at increasing offsets. -/
def decodeChunks (bo : ByteOrder) (width : Nat) : Nat → List Nat → List Nat
  | 0, _ => []
  | n + 1, data => bo.Uint (data.take width) :: decodeChunks bo width n (data.drop width)

/-- Function `DecodeShort`; it panics when the payload length is not `2 * count`. -/
def DecodeShort (count : Nat) (data : List Nat) (bo : ByteOrder) : Except Error (List Nat) :=
  if data.length ≠ count * TagType.Size TagTypeShort then
    .error (.fatal "decode tag: unexpected size of data")
  else .ok (decodeChunks bo (TagType.Size TagTypeShort) count data)

/-- Function `DecodeLong`; it panics when the payload length is not `4 * count`. -/
def DecodeLong (count : Nat) (data : List Nat) (bo : ByteOrder) : Except Error (List Nat) :=
  if data.length ≠ count * TagType.Size TagTypeLong then
    .error (.fatal "decode tag: unexpected size of data")
  else .ok (decodeChunks bo (TagType.Size TagTypeLong) count data)

/-- Function `DecodeLong8`; it panics when the payload length is not `8 * count`. -/
def DecodeLong8 (count : Nat) (data : List Nat) (bo : ByteOrder) : Except Error (List Nat) :=
  if data.length ≠ count * TagType.Size TagTypeLong8 then
    .error (.fatal "decode tag: unexpected size of data")
  else .ok (decodeChunks bo (TagType.Size TagTypeLong8) count data)

/-- The decoded unsigned values of a tag of type Short, Long, IFD, Long8 or
IFD8 (`none` for another type), as the type switch of `Uint` and `UintSlice`
computes them; reading `t.Header.ByteOrder` through a nil header panics. -/
def Tag.decodeUnsigned (t : Tag) : Except Error (Option (List Nat)) :=
  if t.Typ = TagTypeShort ∨ t.Typ = TagTypeLong ∨ t.Typ = TagTypeIFD ∨
      t.Typ = TagTypeLong8 ∨ t.Typ = TagTypeIFD8 then
    match t.Header with
    | none => .error (.fatal "nil pointer dereference")
    | some h =>
      let r := if t.Typ = TagTypeShort then DecodeShort t.Count t.Data h.ByteOrder
        else if t.Typ = TagTypeLong ∨ t.Typ = TagTypeIFD then DecodeLong t.Count t.Data h.ByteOrder
        else DecodeLong8 t.Count t.Data h.ByteOrder
      match r with
      | .error e => .error e
      | .ok v => .ok (some v)
  else .ok none

/-- Method `Tag.Uint` on a possibly nil tag: `(value, ok)`. -/
def Tag.Uint (t : Option Tag) : Except Error (Nat × Bool) :=
  match t with
  | none => .ok (0, false)
  | some t =>
    if t.Count ≠ 1 then .ok (0, false)
    else
      match t.decodeUnsigned with
      | .error e => .error e
      | .ok none => .ok (0, false)
      | .ok (some []) => .error (.fatal "index out of range")
      | .ok (some (v :: _)) => .ok (v, true)

/-- Method `Tag.UintSlice` on a possibly nil tag: `(value, ok)`. -/
def Tag.UintSlice (t : Option Tag) : Except Error (List Nat × Bool) :=
  match t with
  | none => .ok ([], false)
  | some t =>
    if t.Count = 0 then .ok ([], false)
    else
      match t.decodeUnsigned with
      | .error e => .error e
      | .ok none => .ok ([], false)
      | .ok (some v) => .ok (v, true)

/-- Method `Image.WidthHeight`. -/
def Image.WidthHeight (im : Image) : Except Error (Nat × Nat) :=
  match Tag.Uint (TagMap.find im.Tag TagImageWidth) with
  | .error e => .error e
  | .ok (w, okW) =>
    if ¬ okW then .ok (0, 0)
    else
      match Tag.Uint (TagMap.find im.Tag TagImageLength) with
      | .error e => .error e
      | .ok (h, okH) => if ¬ okH then .ok (w, 0) else .ok (w, h)

/-- Method `Image.SamplesPerPixel`. -/
def Image.SamplesPerPixel (im : Image) : Except Error Nat :=
  match Tag.Uint (TagMap.find im.Tag TagSamplesPerPixel) with
  | .error e => .error e
  | .ok (v, ok) => if ¬ ok then .ok 0 else .ok v

/-- Method `Image.PlanarConfig`. -/
def Image.PlanarConfig (im : Image) : Except Error Nat :=
  match TagMap.find im.Tag TagPlanarConfig with
  | none => .ok 1
  | some e =>
    match Tag.Uint (some e) with
    | .error err => .error err
    | .ok (v, _) => .ok v

/-- Method `Image.BitDepth`. -/
def Image.BitDepth (im : Image) : Except Error Nat :=
  match Tag.UintSlice (TagMap.find im.Tag TagBitsPerSample) with
  | .error e => .error e
  | .ok (bitsPerSample, ok) =>
    if ¬ ok ∨ bitsPerSample.length = 0 then .ok 0
    else
      match im.SamplesPerPixel with
      | .error e => .error e
      | .ok samplePerPixel =>
        if bitsPerSample.length ≠ samplePerPixel then .ok 0
        else
          let bitDepth := bitsPerSample.headD 0
          if bitsPerSample.all (fun bits => bits == bitDepth) then .ok bitDepth else .ok 0

/-- Method `Image.Compression`. -/
def Image.Compression (im : Image) : Except Error Nat :=
  match Tag.Uint (TagMap.find im.Tag TagCompression) with
  | .error e => .error e
  | .ok (v, ok) => if ¬ ok then .ok CompressionNone else .ok v

/-- The count of a pair of offset / byte-count tags, as `NumStrips` and
`NumTiles` compute it.  `len(Data)` and the product `Type.Size() * Count` are
values of type `int`, and the product wraps around.  The test `Data == nil`
has no counterpart: the payload of a tag is a list here, and the tags that
`NewTag` and `DecodeIFD` build have a `Data` that is not nil (it is made with
`make` or converted from the value). -/
def numSegments (offsetTag byteCountTag : Option Tag) : Nat :=
  match offsetTag, byteCountTag with
  | some o, some b =>
    if toInt64 o.Data.length ≠ toInt64 (TagType.Size o.Typ * o.Count) then 0
    else if toInt64 b.Data.length ≠ toInt64 (TagType.Size b.Typ * b.Count) then 0
    else if o.Count ≠ b.Count then 0
    else o.Count
  | _, _ => 0

/-- Method `Image.NumStrips`. -/
def Image.NumStrips (im : Image) : Nat :=
  numSegments (TagMap.find im.Tag TagStripOffsets) (TagMap.find im.Tag TagStripByteCounts)

/-- Method `Image.NumTiles`. -/
def Image.NumTiles (im : Image) : Nat :=
  numSegments (TagMap.find im.Tag TagTileOffsets) (TagMap.find im.Tag TagTileByteCounts)

/-! ## Pixel buffers, segment readers, external codecs -/

/-- The caller's pixel buffer (`buffer interface{}`): a `[]uint8`, a
`[]uint16`, or a value of another type. -/
inductive Buffer where
  | u8 (b : List Nat)
  | u16 (b : List Nat)
  | invalid
deriving DecidableEq, Repr

/-- The compression codecs, which are external to the package: the LZW and
zlib readers, the JPEG decoder followed by the YCbCr repacking of
`decodeJPEGSegment`, and the zlib writer. -/
structure Codecs where
  lzw : List Nat → List Nat
  zlib : List Nat → Except Error (List Nat)
  jpeg : List Nat → Except Error (List Nat)
  deflate : List Nat → List Nat

/-- The expression `(int)(math.Ceil((float64)(a) / (float64)(b)))`.  For
operands below `2 ^ 53` both conversions are exact and the correctly rounded
quotient has the ceiling of the exact quotient, which is the value given
here; with `b = 0` the source converts an infinity, which gives no value that
a segment count can equal, as the 0 obtained here.  Operands from `2 ^ 53` on
are outside this model: `ceilOfQuotient` is the value of the expression for
all operands, and the theorem `ceilOfQuotient_eq_ceilDiv` relates the two. -/
def ceilDiv (a b : Nat) : Nat := (a + b - 1) / b

/-- The bytes of the section `[off, off + n)` of a byte source, as an
`io.SectionReader` delivers them (offsets converted with `int64(...)`). -/
def sectionBytes (rd : List Nat) (off n : Nat) : List Nat :=
  if toInt64 off < 0 ∨ toInt64 n < 0 then [] else (rd.drop off).take n

/-- Function `io.ReadFull` on the remaining bytes of a reader: the `n` bytes
read and the bytes left, or a failure when fewer than `n` bytes remain. -/
def ReadFull (reader : List Nat) (n : Nat) : Option (List Nat × List Nat) :=
  if n ≤ reader.length then some (reader.take n, reader.drop n) else none

/-- Methods `Image.RawStripReader` and `Image.RawTileReader` for the given pair
of tags: the raw bytes of segment `index`; a panic when `index` is out of
range. -/
def rawSegmentReader (im : Image) (offsetID byteCountID index : Nat) : Except Error (List Nat) :=
  match Tag.UintSlice (TagMap.find im.Tag offsetID) with
  | .error e => .error e
  | .ok (offsets, _) =>
    match Tag.UintSlice (TagMap.find im.Tag byteCountID) with
    | .error e => .error e
    | .ok (byteCounts, _) =>
      if index ≥ offsets.length ∨ index ≥ byteCounts.length then
        .error (.fatal "tiff: RawStripReader: index out of range")
      else
        match im.rd with
        | none => .error (.fatal "nil pointer dereference")
        | some rd => .ok (sectionBytes rd (offsets.getD index 0) (byteCounts.getD index 0))

/-- Method `Image.decodeJPEGSegment`. -/
def Image.decodeJPEGSegment (c : Codecs) (im : Image) (raw : List Nat) : Except Error (List Nat) :=
  match TagMap.find im.Tag TagJPEGTables with
  | none => c.jpeg raw
  | some t =>
    if t.Data.length < 4 ∨ slice t.Data 0 2 ≠ [255, 216] ∨
        slice t.Data (t.Data.length - 2) t.Data.length ≠ [255, 217] then
      .error (.format "invalid JPEGTable")
    else
      match ReadFull raw 2 with
      | none => .error (.other "unexpected EOF")
      | some (buf, _) =>
        if buf ≠ [255, 216] then .error (.format "invalid JPEG data: missing SOI")
        else c.jpeg (slice t.Data 0 (t.Data.length - 2) ++ raw.drop 2)

/-- Method `Image.decodeRawSegment`: the decompressed bytes of a segment. -/
def Image.decodeRawSegment (c : Codecs) (im : Image) (raw : List Nat) : Except Error (List Nat) :=
  match im.Compression with
  | .error e => .error e
  | .ok compression =>
    if compression = CompressionNone then .ok raw
    else if compression = CompressionJPEG then im.decodeJPEGSegment c raw
    else if compression = CompressionLZW then .ok (c.lzw raw)
    else if compression = CompressionDeflate ∨ compression = CompressionDeflateOld then c.zlib raw
    else .error (.unsupported "compression")

/-- Method `Image.StripReader`. -/
def Image.StripReader (c : Codecs) (im : Image) (index : Nat) : Except Error (List Nat) :=
  match rawSegmentReader im TagStripOffsets TagStripByteCounts index with
  | .error e => .error e
  | .ok raw => im.decodeRawSegment c raw

/-- Method `Image.TileReader`. -/
def Image.TileReader (c : Codecs) (im : Image) (index : Nat) : Except Error (List Nat) :=
  match rawSegmentReader im TagTileOffsets TagTileByteCounts index with
  | .error e => .error e
  | .ok raw => im.decodeRawSegment c raw

/-! ## Validation shared by `DecodeImage` and `EncodeImage` -/

/-- The checked geometry of an image. -/
structure Geometry where
  width : Nat
  height : Nat
  samplePerPixel : Nat
  bitDepth : Nat
deriving DecidableEq, Repr

/-- The first part of `DecodeImage` and of `EncodeImage`: width and height,
bit depth against the type and the length of the buffer (the product
`pixelCount*samplePerPixel` is an `int` and wraps around), and the planar
configuration. -/
def Image.validate (im : Image) (buffer : Buffer) : Except Error Geometry :=
  match im.WidthHeight with
  | .error e => .error e
  | .ok (width, height) =>
    if width = 0 then .error (.other "invalid image width")
    else if height = 0 then .error (.other "invalid image height")
    else
      match im.SamplesPerPixel with
      | .error e => .error e
      | .ok samplePerPixel =>
        match im.BitDepth with
        | .error e => .error e
        | .ok bitDepth =>
          let sizeCheck : Except Error Unit :=
            if bitDepth = 1 then .error (.unsupported "1-bit image is not yet supported")
            else if bitDepth = 8 then
              match buffer with
              | .u8 buf =>
                if (buf.length : Int) ≠ toInt64 (width * height * samplePerPixel) then
                  .error (.other "wrong buffer size")
                else .ok ()
              | _ => .error (.other "expecting []uint8")
            else if bitDepth = 16 then
              match buffer with
              | .u16 buf =>
                if (buf.length : Int) ≠ toInt64 (width * height * samplePerPixel) then
                  .error (.other "wrong buffer size")
                else .ok ()
              | _ => .error (.other "expecting []uint16")
            else .error (.unsupported "BitsPerSample")
          match sizeCheck with
          | .error e => .error e
          | .ok _ =>
            match im.PlanarConfig with
            | .error e => .error e
            | .ok planarConfig =>
              if planarConfig ≠ PlanarConfigContig then
                .error (.unsupported "PlanarConfiguration")
              else .ok { width := width, height := height,
                         samplePerPixel := samplePerPixel, bitDepth := bitDepth }

/-! ## Decoding pixel data -/

/-- An error wrapped with `fmt.Errorf("...: %v", err)`: the result is a plain
error whatever the type of `err`; a panic is not an error value and passes
unchanged. -/
def wrapErr (msg : String) (e : Error) : Error :=
  match e with
  | .fatal m => .fatal m
  | _ => .other msg

/-- The text of an error value (method `Error()`): a `FormatError` and an
`UnsupportedError` put the package's words before their own text. -/
def Error.message : Error → String
  | .format m => "tiff: invalid format: " ++ m
  | .unsupported m => "tiff: unsupported feature: " ++ m
  | .other m => m
  | .eof => "EOF"
  | .fatal m => m

/-- An error wrapped with `fmt.Errorf(msg + "%s", err)`: a plain error whose
text is `msg` followed by the text of `err`; a panic is not an error value and
passes unchanged. -/
def wrapErrText (msg : String) (e : Error) : Error :=
  match e with
  | .fatal m => .fatal m
  | _ => .other (msg ++ e.message)

/-- The statement `copy(buf[off:off+n], src)` for a source of `n` elements. -/
def splice (buf : List Nat) (off : Nat) (src : List Nat) : List Nat :=
  buf.take off ++ src ++ buf.drop (off + src.length)

/-- The length of the scratch buffer `make([]byte, samples*bitDepth/8)` for
`samples` samples: the product is computed in `int`, so it wraps to 64 bits and
is read as a signed number, and the division truncates toward zero. -/
def scratchLen (samples bitDepth : Nat) : Int := (toInt64 (samples * bitDepth)).tdiv 8

/-- The body of the row loop in strip mode after the row has been read: the
row is stored at `destOffset`.  For a `[]uint16` buffer the row bytes are
read as 16-bit samples, through a pointer cast on a little-endian file (the
host is little-endian) and byte by byte on a big-endian one.  An index out of
range panics. -/
def storeRow (header : Option Header) (buffer : Buffer) (destOffset samplesPerRow : Nat)
    (rowBuf : List Nat) : Except Error Buffer :=
  match buffer with
  | .u8 buf =>
    if destOffset + samplesPerRow ≤ buf.length then
      .ok (.u8 (splice buf destOffset (rowBuf.take samplesPerRow)))
    else .error (.fatal "slice bounds out of range")
  | .u16 buf =>
    match header with
    | none => .error (.fatal "nil pointer dereference")
    | some h =>
      if h.ByteOrder = .LittleEndian ∧ rowBuf.length = 0 then
        .error (.fatal "index out of range")
      else if destOffset + samplesPerRow ≤ buf.length ∧ 2 * samplesPerRow ≤ rowBuf.length then
        .ok (.u16 (splice buf destOffset (decodeChunks h.ByteOrder 2 samplesPerRow rowBuf)))
      else .error (.fatal "index out of range")
  | .invalid => .ok .invalid

/-- The row loop of one strip: `numRows` rows are read from the strip reader
and stored at increasing offsets.  Returns the buffer, the destination offset
and the error, if any. -/
def decodeRows (header : Option Header) (samplesPerRow rowBytes : Nat) :
    Nat → List Nat → Buffer → Nat → Buffer × Nat × Option Error
  | 0, _, buffer, destOffset => (buffer, destOffset, none)
  | n + 1, reader, buffer, destOffset =>
    match ReadFull reader rowBytes with
    | none => (buffer, destOffset, some (.other "cannot read strip"))
    | some (rowBuf, rest) =>
      match storeRow header buffer destOffset samplesPerRow rowBuf with
      | .error e => (buffer, destOffset, some e)
      | .ok buffer1 =>
        decodeRows header samplesPerRow rowBytes n rest buffer1 (destOffset + samplesPerRow)

/-- The strip loop of `DecodeImage`: `n` strips starting with strip `iy`.  The
row buffer is the one allocated before the loop, of the length
`samplesPerRow*bitDepth/8`; a negative length panics (in the source before the
first strip is read). -/
def decodeStrips (c : Codecs) (im : Image) (g : Geometry) (rowsPerStrip ny : Nat) :
    Nat → Nat → Buffer → Nat → Buffer × Option Error
  | 0, _, buffer, _ => (buffer, none)
  | n + 1, iy, buffer, destOffset =>
    let samplesPerRow := g.width * g.samplePerPixel
    if scratchLen samplesPerRow g.bitDepth < 0 then
      (buffer, some (.fatal "makeslice: len out of range"))
    else
    match im.StripReader c iy with
    | .error e => (buffer, some (wrapErr "cannot get strip" e))
    | .ok stripReader =>
      let numRows := if iy = ny - 1 then g.height - iy * rowsPerStrip else rowsPerStrip
      match decodeRows im.Header samplesPerRow (scratchLen samplesPerRow g.bitDepth).toNat
          numRows stripReader buffer destOffset with
      | (buffer1, _, some e) => (buffer1, some e)
      | (buffer1, destOffset1, none) =>
        decodeStrips c im g rowsPerStrip ny n (iy + 1) buffer1 destOffset1

/-- One line of a tile copied into the buffer: `tileDX` samples from
`srcOffset` of the tile to `destOffset` of the buffer.  An index out of range
panics (a read through the pointer cast that would leave the tile buffer is
counted as one). -/
def storeTileLine (header : Option Header) (buffer : Buffer) (tileBuf : List Nat)
    (destOffset srcOffset tileDX : Nat) : Except Error Buffer :=
  match buffer with
  | .u8 buf =>
    if destOffset + tileDX ≤ buf.length ∧ srcOffset + tileDX ≤ tileBuf.length then
      .ok (.u8 (splice buf destOffset (slice tileBuf srcOffset (srcOffset + tileDX))))
    else .error (.fatal "slice bounds out of range")
  | .u16 buf =>
    match header with
    | none => .error (.fatal "nil pointer dereference")
    | some h =>
      if h.ByteOrder = .LittleEndian ∧ tileBuf.length ≤ 2 * srcOffset then
        .error (.fatal "index out of range")
      else if destOffset + tileDX ≤ buf.length ∧ 2 * (srcOffset + tileDX) ≤ tileBuf.length then
        .ok (.u16 (splice buf destOffset
          (decodeChunks h.ByteOrder 2 tileDX (tileBuf.drop (2 * srcOffset)))))
      else .error (.fatal "index out of range")
  | .invalid => .ok .invalid

/-- The line loop of one tile: `tileDY` lines, with the destination stride and
the source stride added after each line. -/
def storeTileLines (header : Option Header) (tileBuf : List Nat)
    (tileDX destStride srcStride : Nat) : Nat → Buffer → Nat → Nat → Buffer × Option Error
  | 0, buffer, _, _ => (buffer, none)
  | n + 1, buffer, destOffset, srcOffset =>
    match storeTileLine header buffer tileBuf destOffset srcOffset tileDX with
    | .error e => (buffer, some e)
    | .ok buffer1 =>
      storeTileLines header tileBuf tileDX destStride srcStride n buffer1
        (destOffset + destStride) (srcOffset + srcStride)

/-- The body of the tile loops of `DecodeImage` for tile `(ix, iy)`.  The tile
buffer is the one allocated before the loops, of the length
`samplesPerTile*bitDepth/8` with `samplesPerTile := int(tileWidth*tileHeight) *
samplePerPixel`; a negative length panics (in the source before the first
tile is read). -/
def decodeTile (c : Codecs) (im : Image) (g : Geometry) (tileWidth tileHeight nx ny : Nat)
    (iy ix : Nat) (buffer : Buffer) : Buffer × Option Error :=
  let samplesPerTile := (tileWidth * tileHeight) * g.samplePerPixel
  if scratchLen samplesPerTile g.bitDepth < 0 then
    (buffer, some (.fatal "makeslice: len out of range"))
  else
  match im.TileReader c (iy * nx + ix) with
  | .error e => (buffer, some (wrapErr "cannot get tile" e))
  | .ok tileReader =>
    match ReadFull tileReader (scratchLen samplesPerTile g.bitDepth).toNat with
    | none => (buffer, some (.other "cannot read tile"))
    | some (tileBuf, _) =>
      let tileX0 := ix * tileWidth
      let tileY0 := iy * tileHeight
      let destOffset := (tileY0 * g.width + tileX0) * g.samplePerPixel
      let destStride := g.width * g.samplePerPixel
      let tileDX := if ix = nx - 1 then (g.width - ix * tileWidth) * g.samplePerPixel
        else tileWidth * g.samplePerPixel
      let tileDY := if iy = ny - 1 then g.height - iy * tileHeight else tileHeight
      let srcStride := tileWidth * g.samplePerPixel
      storeTileLines im.Header tileBuf tileDX destStride srcStride tileDY buffer destOffset 0

/-- The inner tile loop (`ix`) of `DecodeImage`: `n` tiles of row `iy` starting
with column `ix`. -/
def decodeTileRow (c : Codecs) (im : Image) (g : Geometry) (tileWidth tileHeight nx ny : Nat)
    (iy : Nat) : Nat → Nat → Buffer → Buffer × Option Error
  | 0, _, buffer => (buffer, none)
  | n + 1, ix, buffer =>
    match decodeTile c im g tileWidth tileHeight nx ny iy ix buffer with
    | (buffer1, some e) => (buffer1, some e)
    | (buffer1, none) => decodeTileRow c im g tileWidth tileHeight nx ny iy n (ix + 1) buffer1

/-- The outer tile loop (`iy`) of `DecodeImage`: `n` rows of tiles starting
with row `iy`. -/
def decodeTileRows (c : Codecs) (im : Image) (g : Geometry) (tileWidth tileHeight nx ny : Nat) :
    Nat → Nat → Buffer → Buffer × Option Error
  | 0, _, buffer => (buffer, none)
  | n + 1, iy, buffer =>
    match decodeTileRow c im g tileWidth tileHeight nx ny iy nx 0 buffer with
    | (buffer1, some e) => (buffer1, some e)
    | (buffer1, none) => decodeTileRows c im g tileWidth tileHeight nx ny n (iy + 1) buffer1

/-- Method `Image.DecodeImage`: the buffer after the call and the error
returned (`none` for a nil error). -/
def Image.DecodeImage (c : Codecs) (im : Image) (buffer : Buffer) : Buffer × Option Error :=
  match im.validate buffer with
  | .error e => (buffer, some e)
  | .ok g =>
    let numStrips := im.NumStrips
    if numStrips > 0 then
      match Tag.Uint (TagMap.find im.Tag TagRowsPerStrip) with
      | .error e => (buffer, some e)
      | .ok (rowsPerStrip, ok) =>
        if ¬ ok then (buffer, some (.format "invalid RowsPerStrip"))
        else
          let ny := ceilDiv g.height rowsPerStrip
          if ny ≠ numStrips then (buffer, some (.format "expecting strips, found strips"))
          else decodeStrips c im g rowsPerStrip ny ny 0 buffer 0
    else
      let numTiles := im.NumTiles
      if numTiles > 0 then
        match Tag.Uint (TagMap.find im.Tag TagTileLength) with
        | .error e => (buffer, some e)
        | .ok (tileHeight, okH) =>
          if ¬ okH then (buffer, some (.format "invalid TagTileLength"))
          else
            let ny := ceilDiv g.height tileHeight
            match Tag.Uint (TagMap.find im.Tag TagTileWidth) with
            | .error e => (buffer, some e)
            | .ok (tileWidth, okW) =>
              if ¬ okW then (buffer, some (.format "invalid TagTileWidth"))
              else
                let nx := ceilDiv g.width tileWidth
                if nx * ny ≠ numTiles then
                  (buffer, some (.format "expecting tiles, found tiles"))
                else decodeTileRows c im g tileWidth tileHeight nx ny ny 0 buffer
      else (buffer, some (.other "no strip or tile found"))

/-! ## Header codec -/

/-- Function `decodeHeader`. -/
def decodeHeader (r : List Nat) : Except Error Header :=
  match ReadAt r 8 0 with
  | none => .error (.other "cannot read header")
  | some buf =>
    let order : Option ByteOrder :=
      if slice buf 0 2 = [73, 73] then some .LittleEndian
      else if slice buf 0 2 = [77, 77] then some .BigEndian
      else none
    match order with
    | none => .error (.format "invalid header")
    | some bo =>
      let version := bo.Uint16 (slice buf 2 4)
      if version = VersionClassicTIFF then
        .ok { ByteOrder := bo, Version := version, OffsetFirstIFD := bo.Uint32 (slice buf 4 8) }
      else if version = VersionBigTIFF then
        let bytesOfOffset := bo.Uint16 (slice buf 4 6)
        let zeroField := bo.Uint16 (slice buf 6 8)
        if bytesOfOffset ≠ 8 ∨ zeroField ≠ 0 then .error (.format "invalid header")
        else
          match ReadAt r 8 8 with
          | none => .error (.other "cannot read header")
          | some buf2 =>
            let offsetFirstIFD := bo.Uint64 (slice buf2 0 8)
            if offsetFirstIFD > maxInt64 then .error (.format "invalid header")
            else .ok { ByteOrder := bo, Version := version, OffsetFirstIFD := offsetFirstIFD }
      else .error (.format "invalid header")

/-- Method `Header.encodeBytes`; it panics on an invalid header. -/
def Header.encodeBytes (h : Header) : Except Error (List Nat) :=
  let mark : List Nat := if h.ByteOrder = .LittleEndian then [73, 73] else [77, 77]
  if h.Version = VersionClassicTIFF then
    if h.OffsetFirstIFD = 0 then .error (.fatal "tiff: invalid OffsetFirstIFD")
    else if h.OffsetFirstIFD > 2 ^ 32 - 1 then
      .error (.fatal "tiff: OffsetFirstIFD overflows uint32")
    else
      .ok (mark ++ h.ByteOrder.PutUint16 (h.Version % 2 ^ 16) ++
        h.ByteOrder.PutUint32 (h.OffsetFirstIFD % 2 ^ 32))
  else if h.Version = VersionBigTIFF then
    if h.OffsetFirstIFD = 0 then .error (.fatal "tiff: invalid OffsetFirstIFD")
    else
      .ok (mark ++ h.ByteOrder.PutUint16 (h.Version % 2 ^ 16) ++ h.ByteOrder.PutUint16 8 ++
        h.ByteOrder.PutUint16 0 ++ h.ByteOrder.PutUint64 (h.OffsetFirstIFD % 2 ^ 64))
  else .error (.fatal "tiff: invalid TIFF Version")

/-- Function `NewDecoder`. -/
def NewDecoder (r : List Nat) : Except Error Decoder :=
  match decodeHeader r with
  | .error e => .error e
  | .ok header => .ok { Header := header, r := r }

/-! ## Encoder -/

/-- An `io.WriteSeeker`: the bytes written so far and the cursor. -/
structure Sink where
  data : List Nat
  pos : Nat
deriving DecidableEq, Repr

/-- Method `Write` of the sink: the bytes replace or extend the content at the
cursor, which advances. -/
def Sink.Write (s : Sink) (b : List Nat) : Sink :=
  { data := s.data.take s.pos ++ List.replicate (s.pos - s.data.length) 0 ++ b ++
      s.data.drop (s.pos + b.length),
    pos := s.pos + b.length }

/-- Method `Seek(offset, io.SeekStart)` of the sink. -/
def Sink.Seek (s : Sink) (offset : Nat) : Sink := { s with pos := offset }

/-- An encoder (`type Encoder`); `Header` is the header every image of the
encoder points to. -/
structure Encoder where
  Header : Tiff.Header
  w : Sink
  offset : Nat
deriving DecidableEq, Repr

/-- Function `NewEncoder`. -/
def NewEncoder (w : Sink) : Encoder :=
  { Header := { ByteOrder := .LittleEndian, Version := VersionClassicTIFF, OffsetFirstIFD := 0 },
    w := w, offset := 0 }

/-- Method `Encoder.SetByteOrder`. -/
def Encoder.SetByteOrder (enc : Encoder) (byteOrder : ByteOrder) : Encoder :=
  { enc with Header := { enc.Header with ByteOrder := byteOrder } }

/-- Method `Encoder.SetVersion`. -/
def Encoder.SetVersion (enc : Encoder) (version : Nat) : Encoder :=
  { enc with Header := { enc.Header with Version := version } }

/-- Method `Encoder.NewImage`. -/
def Encoder.NewImage (enc : Encoder) : Image :=
  { Tag := [], SubImage := [], Exif := none, GPS := none, Interoperability := none,
    Header := some enc.Header, Offset := 0, OffsetNext := 0, rd := none }

/-- Method `Image.SetWidthHeight`. -/
def Image.SetWidthHeight (im : Image) (width height : Nat) : Image :=
  ((im.SetTag TagImageWidth TagTypeLong (.uint32 (width % 2 ^ 32))).1.SetTag
    TagImageLength TagTypeLong (.uint32 (height % 2 ^ 32))).1

/-- Method `Image.SetPixelFormat`. -/
def Image.SetPixelFormat (im : Image) (photometric samplePerPixel : Nat)
    (bitsPerSample : List Int) : Image :=
  (((im.SetTag TagPhotometric TagTypeLong (.uint32 (photometric % 2 ^ 32))).1.SetTag
    TagSamplesPerPixel TagTypeLong (.uint32 (samplePerPixel % 2 ^ 32))).1.SetTag
    TagBitsPerSample TagTypeLong (.ints bitsPerSample)).1

/-- Method `Image.SetCompression`. -/
def Image.SetCompression (im : Image) (compression : Nat) : Image :=
  (im.SetTag TagCompression TagTypeShort (.uint16 (compression % 2 ^ 16))).1

/-- Method `Image.SetRowsPerStrip`. -/
def Image.SetRowsPerStrip (im : Image) (rowsPerStrip : Nat) : Image :=
  (im.SetTag TagRowsPerStrip TagTypeLong (.uint32 (rowsPerStrip % 2 ^ 32))).1

/-- Method `Image.SetTileWidthHeight`. -/
def Image.SetTileWidthHeight (im : Image) (tileWidth tileHeight : Nat) : Image :=
  ((im.SetTag TagTileWidth TagTypeLong (.uint32 (tileWidth % 2 ^ 32))).1.SetTag
    TagTileLength TagTypeLong (.uint32 (tileHeight % 2 ^ 32))).1

/-- Method `Image.encodeSegment`: the encoder after the call and
`(offset, byteCount)`, or the error. -/
def Image.encodeSegment (c : Codecs) (im : Image) (enc : Encoder) (buf : List Nat) :
    Encoder × Except Error (Nat × Nat) :=
  let offset := enc.offset
  match im.Compression with
  | .error e => (enc, .error e)
  | .ok compression =>
    if compression = CompressionNone then
      ({ enc with w := enc.w.Write buf, offset := enc.offset + buf.length },
        .ok (offset, buf.length))
    else if compression = CompressionDeflate then
      let w := enc.w.Write (c.deflate buf)
      let currentOffset := w.pos
      ({ enc with w := w, offset := currentOffset },
        .ok (offset, (wrapInt64 ((currentOffset : Int) - offset)).toNat))
    else (enc, .error (.unsupported "compression is not supported"))

/-- The strip loop of `EncodeImage`: `n` strips starting with strip `iy`;
`samplesPerStrip` is the variable of that name, and the offsets and byte
counts of the strips written so far are collected in order. -/
def encodeStrips (c : Codecs) (im : Image) (buffer : Buffer)
    (width height samplePerPixel rowsPerStrip ny : Nat) :
    Nat → Nat → Nat → Encoder → List Nat → List Nat →
      Encoder × Except Error (List Nat × List Nat)
  | 0, _, _, enc, stripOffsets, stripByteCounts => (enc, .ok (stripOffsets, stripByteCounts))
  | n + 1, iy, samplesPerStrip0, enc, stripOffsets, stripByteCounts =>
    let offsetBuf := iy * samplesPerStrip0
    let samplesPerStrip := if iy = ny - 1 then (height - iy * rowsPerStrip) * width * samplePerPixel
      else samplesPerStrip0
    match buffer with
    | .u8 buf =>
      if offsetBuf + samplesPerStrip ≤ buf.length then
        match im.encodeSegment c enc (slice buf offsetBuf (offsetBuf + samplesPerStrip)) with
        | (enc1, .error e) => (enc1, .error e)
        | (enc1, .ok (offset, byteCount)) =>
          encodeStrips c im buffer width height samplePerPixel rowsPerStrip ny n (iy + 1)
            samplesPerStrip enc1 (stripOffsets ++ [offset % 2 ^ 32])
            (stripByteCounts ++ [byteCount % 2 ^ 32])
      else (enc, .error (.fatal "slice bounds out of range"))
    | .u16 buf =>
      if enc.Header.ByteOrder = .LittleEndian then
        if buf.length = 0 ∨ ¬ (offsetBuf + samplesPerStrip ≤ buf.length) then
          (enc, .error (.fatal "index out of range"))
        else
          let bufByte := ((slice buf offsetBuf (offsetBuf + samplesPerStrip)).map
            (fun v => putLE 2 v)).flatten
          match im.encodeSegment c enc bufByte with
          | (enc1, .error e) => (enc1, .error e)
          | (enc1, .ok (offset, byteCount)) =>
            encodeStrips c im buffer width height samplePerPixel rowsPerStrip ny n (iy + 1)
              samplesPerStrip enc1 (stripOffsets ++ [offset % 2 ^ 32])
              (stripByteCounts ++ [byteCount % 2 ^ 32])
      else (enc, .error (.unsupported "big endian is not yet supported"))
    | .invalid =>
      encodeStrips c im buffer width height samplePerPixel rowsPerStrip ny n (iy + 1)
        samplesPerStrip enc (stripOffsets ++ [0]) (stripByteCounts ++ [0])

/-- The segment layout `EncodeImage` derives from the tags (the part
"strip mode or tile mode"): the image with the placeholder offset and
byte-count tags, and `(numStrips, numTiles, ny, rowsPerStrip)`. -/
def Image.encodeLayout (im : Image) (width height : Nat) :
    Image × Except Error (Nat × Nat × Nat × Nat) :=
  let tileWidthTag := TagMap.find im.Tag TagTileWidth
  let tileLengthTag := TagMap.find im.Tag TagTileLength
  if tileWidthTag.isSome ∨ tileLengthTag.isSome then
    if tileWidthTag.isSome ∧ tileLengthTag.isNone then (im, .error (.other "missing TileLength tag"))
    else if tileWidthTag.isNone ∧ tileLengthTag.isSome then
      (im, .error (.other "missing TileWidth tag"))
    else
      match Tag.Uint tileWidthTag with
      | .error e => (im, .error e)
      | .ok (uintTileWidth, okW) =>
        if ¬ okW ∨ uintTileWidth = 0 then (im, .error (.other "invalid TileWidth tag"))
        else
          match Tag.Uint tileLengthTag with
          | .error e => (im, .error e)
          | .ok (uintTileHeight, okH) =>
            if ¬ okH ∨ uintTileHeight = 0 then (im, .error (.other "invalid TileLength tag"))
            else
              let nx := ceilDiv width uintTileWidth
              let ny := ceilDiv height uintTileHeight
              let numTiles := nx * ny
              let im1 := (im.SetTag TagStripOffsets TagTypeLong
                (.uint32s (List.replicate numTiles 0))).1
              let im2 := (im1.SetTag TagStripByteCounts TagTypeLong
                (.uint32s (List.replicate numTiles 0))).1
              (im2, .ok (0, numTiles, ny, 0))
  else
    let strips : Except Error (Nat × Nat) :=
      match TagMap.find im.Tag TagRowsPerStrip with
      | some t =>
        match Tag.Uint (some t) with
        | .error e => .error e
        | .ok (uintRowsPerStrip, ok) =>
          if ¬ ok ∨ uintRowsPerStrip = 0 then .error (.other "invalid RowsPerStrip tag")
          else .ok (ceilDiv height uintRowsPerStrip, uintRowsPerStrip)
      | none => .ok (1, height)
    match strips with
    | .error e => (im, .error e)
    | .ok (numStrips, rowsPerStrip) =>
      let im1 := (im.SetTag TagStripOffsets TagTypeLong
        (.uint32s (List.replicate numStrips 0))).1
      let im2 := (im1.SetTag TagStripByteCounts TagTypeLong
        (.uint32s (List.replicate numStrips 0))).1
      (im2, .ok (numStrips, 0, numStrips, rowsPerStrip))

/-- Method `Image.EncodeImage`: the encoder and the image after the call and
the error returned (`none` for a nil error).  The image's header is the
encoder's header (the same pointer in the source). -/
def Image.EncodeImage (c : Codecs) (enc : Encoder) (im0 : Image) (buffer : Buffer) :
    Encoder × Image × Option Error :=
  let im := { im0 with Header := some enc.Header }
  match im.validate buffer with
  | .error e => (enc, im, some e)
  | .ok g =>
    let im1 := if (TagMap.find im.Tag TagCompression).isNone then
        (im.SetTag TagCompression TagTypeShort (.int CompressionNone)).1
      else im
    match im1.encodeLayout g.width g.height with
    | (im2, .error e) => (enc, im2, some e)
    | (im2, .ok (numStrips, numTiles, ny, rowsPerStrip)) =>
      -- write the header
      let headerStep : Except Error Encoder :=
        if enc.offset = 0 then
          let h := { enc.Header with
            OffsetFirstIFD := if enc.Header.Version = VersionClassicTIFF then 8 else 16 }
          match h.encodeBytes with
          | .error e => .error e
          | .ok buf => .ok { Header := h, w := enc.w.Write buf, offset := enc.offset + buf.length }
        else .ok enc
      match headerStep with
      | .error e => (enc, im2, some e)
      | .ok enc1 =>
        let im3 := { im2 with Header := some enc1.Header }
        -- write the directory
        match im3.EncodeTags enc1.offset with
        | (im4, .error e) => (enc1, im4, some e)
        | (im4, .ok buf) =>
          let enc2 := { enc1 with w := enc1.w.Write buf, offset := enc1.offset + buf.length }
          -- strip mode
          let stripStep : Encoder × Image × Option Error :=
            if numStrips > 0 then
              match encodeStrips c im4 buffer g.width g.height g.samplePerPixel rowsPerStrip ny
                  ny 0 (rowsPerStrip * g.width * g.samplePerPixel) enc2 [] [] with
              | (enc3, .error e) => (enc3, im4, some e)
              | (enc3, .ok (stripOffsets, stripByteCounts)) =>
                let im5 := (im4.SetTag TagStripOffsets TagTypeLong (.uint32s stripOffsets)).1
                let im6 := (im5.SetTag TagStripByteCounts TagTypeLong
                  (.uint32s stripByteCounts)).1
                match im6.EncodeTags im6.Offset with
                | (im7, .error e) => (enc3, im7, some e)
                | (im7, .ok buf2) =>
                  let w1 := ((enc3.w.Seek im7.Offset).Write buf2).Seek enc3.offset
                  ({ enc3 with w := w1 }, im7, none)
            else (enc2, im4, none)
          match stripStep with
          | (enc4, im8, some e) => (enc4, im8, some e)
          | (enc4, im8, none) =>
            if numTiles > 0 then (enc4, im8, some (.unsupported "tile mode is not yet supported"))
            else (enc4, im8, none)

/-! ## Directory chain -/

/-- The conversion of a decoded directory to an Exif directory. -/
def toExifIFD (ifd : Image) : ExifIFD :=
  { Tag := ifd.Tag.map fun t =>
      { ID := t.ID, Typ := t.Typ, Count := t.Count, Data := t.Data, Header := t.Header,
        OffsetEntry := t.OffsetEntry, OffsetData := t.OffsetData },
    Header := ifd.Header, Offset := ifd.Offset, OffsetNext := ifd.OffsetNext }

/-- The conversion of a decoded directory to a GPS directory. -/
def toGPSIFD (ifd : Image) : GPSIFD :=
  { Tag := ifd.Tag.map fun t =>
      { ID := t.ID, Typ := t.Typ, Count := t.Count, Data := t.Data, Header := t.Header,
        OffsetEntry := t.OffsetEntry, OffsetData := t.OffsetData },
    Header := ifd.Header, Offset := ifd.Offset, OffsetNext := ifd.OffsetNext }

/-- The conversion of a decoded directory to an Interoperability directory. -/
def toInteroperabilityIFD (ifd : Image) : InteroperabilityIFD :=
  { Tag := ifd.Tag.map fun t =>
      { ID := t.ID, Typ := t.Typ, Count := t.Count, Data := t.Data, Header := t.Header,
        OffsetEntry := t.OffsetEntry, OffsetData := t.OffsetData },
    Header := ifd.Header, Offset := ifd.Offset, OffsetNext := ifd.OffsetNext }

/-- Method `Decoder.DecodeExifIFD`. -/
def Decoder.DecodeExifIFD (d : Decoder) (offset : Nat) : Except Error ExifIFD :=
  match d.DecodeIFD offset with
  | .error e => .error e
  | .ok ifd => .ok (toExifIFD ifd)

/-- Method `Decoder.DecodeGPSIFD`. -/
def Decoder.DecodeGPSIFD (d : Decoder) (offset : Nat) : Except Error GPSIFD :=
  match d.DecodeIFD offset with
  | .error e => .error e
  | .ok ifd => .ok (toGPSIFD ifd)

/-- Method `Decoder.DecodeInteroperabilityIFD`. -/
def Decoder.DecodeInteroperabilityIFD (d : Decoder) (offset : Nat) :
    Except Error InteroperabilityIFD :=
  match d.DecodeIFD offset with
  | .error e => .error e
  | .ok ifd => .ok (toInteroperabilityIFD ifd)

/-- The loop of `decodeDirectories` over the offsets of the SubIFDs tag. -/
def decodeSubIFDs (d : Decoder) : List Nat → Except Error (List Image)
  | [] => .ok []
  | o :: os =>
    match d.DecodeIFD o with
    | .error e => .error (wrapErrText "cannot decode SubIFD: " e)
    | .ok subIFD =>
      match decodeSubIFDs d os with
      | .error e => .error e
      | .ok rest => .ok (subIFD :: rest)

/-- Method `Decoder.decodeDirectories`: the directory at `offset` together with
its sub-images and its Exif, GPS and Interoperability directories.  (On an
error the source also returns the partly filled image, which no caller
uses.) -/
def Decoder.decodeDirectories (d : Decoder) (offset : Nat) : Except Error Image :=
  match d.DecodeIFD offset with
  | .error e => .error e
  | .ok im =>
    match Tag.UintSlice (TagMap.find im.Tag TagSubIFDs) with
    | .error e => .error e
    | .ok (offsetSubIFD, hasSubIFD) =>
      let sub : Except Error (List Image) :=
        if hasSubIFD ∧ offsetSubIFD.length > 0 then decodeSubIFDs d offsetSubIFD else .ok []
      match sub with
      | .error e => .error e
      | .ok subImages =>
        let im1 := { im with SubImage := subImages }
        match Tag.Uint (TagMap.find im1.Tag TagExifIFD) with
        | .error e => .error e
        | .ok (offsetExifIFD, hasExif) =>
          let exif : Except Error (Option ExifIFD) :=
            if hasExif then
              match d.DecodeExifIFD offsetExifIFD with
              | .error e => .error (wrapErrText "cannot decode ExifIFD: " e)
              | .ok x => .ok (some x)
            else .ok none
          match exif with
          | .error e => .error e
          | .ok ex =>
            let im2 := { im1 with Exif := ex }
            match Tag.Uint (TagMap.find im2.Tag TagGPSIFD) with
            | .error e => .error e
            | .ok (offsetGPSIFD, hasGPS) =>
              let gps : Except Error (Option GPSIFD) :=
                if hasGPS then
                  match d.DecodeGPSIFD offsetGPSIFD with
                  | .error e => .error (wrapErrText "cannot decode GPSIFD: " e)
                  | .ok x => .ok (some x)
                else .ok none
              match gps with
              | .error e => .error e
              | .ok gp =>
                let im3 := { im2 with GPS := gp }
                match Tag.Uint (TagMap.find im3.Tag TagInteroperabilityIFD) with
                | .error e => .error e
                | .ok (offsetInteroperabilityIFD, hasInteroperability) =>
                  let iop : Except Error (Option InteroperabilityIFD) :=
                    if hasInteroperability then
                      match d.DecodeInteroperabilityIFD offsetInteroperabilityIFD with
                      | .error e => .error (wrapErrText "cannot decode Interoperability: " e)
                      | .ok x => .ok (some x)
                    else .ok none
                  match iop with
                  | .error e => .error e
                  | .ok io1 => .ok { im3 with Interoperability := io1 }

/-- An iterator over the images of a file (`type Iter`); `im = none` is the
nil image. -/
structure Iter where
  index : Int
  dec : Decoder
  im : Option Image
  err : Option Error

/-- Method `Decoder.Iter`. -/
def Decoder.Iter (d : Decoder) : Tiff.Iter :=
  { index := -1, dec := d,
    im := some { Tag := [], SubImage := [], Exif := none, GPS := none, Interoperability := none,
                 Header := some d.Header, Offset := 0, OffsetNext := d.Header.OffsetFirstIFD,
                 rd := some d.r },
    err := none }

/-- Method `Iter.Next` (on a non-nil iterator): the iterator after the call
and the result. -/
def Iter.Next (it : Iter) : Iter × Bool :=
  if it.err.isSome then (it, false)
  else
    match it.im with
    | none => ({ it with err := some .eof }, false)
    | some cur =>
      if cur.OffsetNext = 0 then ({ it with im := none }, false)
      else
        match it.dec.decodeDirectories cur.OffsetNext with
        | .error e => ({ it with err := some e }, false)
        | .ok im =>
          ({ it with im := some { im with rd := cur.rd, Header := cur.Header },
                     index := it.index + 1 }, true)

/-- Method `Iter.Image` (on a non-nil iterator): the iterator after the call
and the image returned (`none` for nil). -/
def Iter.Image (it : Iter) : Iter × Option Image :=
  match it.im with
  | none => (it, none)
  | some cur =>
    if cur.Offset = 0 then
      ({ it with err := some (.other "acesss image before first call of Next()") }, none)
    else (it, some cur)

/-- Method `Iter.Err`. -/
def Iter.Err (it : Iter) : Option Error := it.err

/-- The loop of `Iter.All`, bounded by `fuel` iterations: the iterator after
the loop and the images collected, or `none` when the bound is reached before
`Next` returns false. -/
def Iter.allLoop :
    Nat → Iter → List (Option Tiff.Image) → Option (Iter × List (Option Tiff.Image))
  | 0, _, _ => none
  | fuel + 1, it, ims =>
    match it.Next with
    | (it1, false) => some (it1, ims)
    | (it1, true) =>
      match it1.Image with
      | (it2, im) => Iter.allLoop fuel it2 (ims ++ [im])

/-- Method `Iter.All`, with the loop bounded by `fuel`: the iterator after the
call, the images (an element is `none` for a nil pointer) and the error. -/
def Iter.All (fuel : Nat) (it : Iter) :
    Option (Iter × List (Option Tiff.Image) × Option Error) :=
  match Iter.allLoop fuel it [] with
  | none => none
  | some (it1, ims) => some (it1, ims, it1.Err)

/-! ## Predicates used in the statements -/

/-- Width in bytes of an offset field: 4 for Classic TIFF, 8 for BigTIFF. -/
def Header.byteOfOffset (h : Header) : Nat := if h.Version = VersionClassicTIFF then 4 else 8

/-- Width in bytes of the entry-count field of a directory. -/
def Header.bytesOfNumTags (h : Header) : Nat := if h.Version = VersionClassicTIFF then 2 else 8

/-- Width in bytes of a directory entry. -/
def Header.bytesOfEntry (h : Header) : Nat := if h.Version = VersionClassicTIFF then 12 else 20

/-- The first offset that a file of this version cannot hold: `2 ^ 32` for
Classic TIFF; `2 ^ 63` for BigTIFF, whose 64-bit offsets are read as `int64`. -/
def Header.offsetLimit (h : Header) : Nat := if h.Version = VersionClassicTIFF then 2 ^ 32 else 2 ^ 63

/-- The tag map is in strictly increasing identifier order (the invariant of
the representation of a Go map). -/
def TagMap.Sorted (m : List Tag) : Prop := m.Pairwise (fun a b => a.ID < b.ID)

/-- The content of a tag that an encoded directory stores: identifier, type,
count and payload. -/
def Tag.content (t : Tag) : Nat × Nat × Nat × List Nat := (t.ID, t.Typ, t.Count, t.Data)

/-- A tag that `NewTag` can have returned for the identifier of its map key:
a 16-bit identifier, one of the field types of the table `typeSize`, and a
payload of `Size * Count` bytes. -/
def Tag.Built (t : Tag) : Prop :=
  t.ID < 2 ^ 16 ∧ 1 ≤ TagType.Size t.Typ ∧ t.Data.length = TagType.Size t.Typ * t.Count

/-- The tag `DecodeIFD` builds from entry number `i` of a directory at `offset`
when that entry was written by `EncodeTags` for the tag `t`, with the
out-of-line area at position `ext` of the directory. -/
def decodedTag (h : Header) (offset i ext : Nat) (t : Tag) : Tag :=
  { ID := t.ID, Typ := t.Typ, Count := t.Count, Data := t.Data, Header := some h,
    OffsetEntry := offset + h.bytesOfNumTags + i * h.bytesOfEntry,
    OffsetData := if t.Data.length ≤ h.byteOfOffset then 0 else offset + ext }

/-- The tags `DecodeIFD` builds from the entries `EncodeTags` writes for a list
of tags, the first one being entry number `i`. -/
def decodedTags (h : Header) (offset : Nat) : List Tag → Nat → Nat → List Tag
  | [], _, _ => []
  | t :: ts, i, ext =>
    decodedTag h offset i ext t ::
      decodedTags h offset ts (i + 1)
        (if t.Data.length ≤ h.byteOfOffset then ext else ext + t.Data.length)

/-- The invariant of the tag map of an image whose tags were all stored by
`SetTag` with 16-bit identifiers: identifier order, and every tag as `NewTag`
builds it. -/
def Image.TagsBuilt (im : Image) : Prop :=
  TagMap.Sorted im.Tag ∧ ∀ t ∈ im.Tag, t.Built

/-! ## Concrete inputs used in the statements -/

/-- A Classic little-endian file: the header, then at offset 8 a directory of
two Short entries whose identifiers are 10 and 5, in that order on disk. -/
def unsortedClassicFile : List Nat :=
  [73, 73, 42, 0, 8, 0, 0, 0,
   2, 0,
   10, 0, 3, 0, 1, 0, 0, 0, 7, 0, 0, 0,
   5, 0, 3, 0, 1, 0, 0, 0, 9, 0, 0, 0,
   0, 0, 0, 0]

/-- A BigTIFF big-endian file: the header, then at offset 16 a directory of two
Short entries whose identifiers are 10 and 5, in that order on disk. -/
def unsortedBigFile : List Nat :=
  [77, 77, 0, 43, 0, 8, 0, 0, 0, 0, 0, 0, 0, 0, 0, 16,
   0, 0, 0, 0, 0, 0, 0, 2,
   0, 10, 0, 3, 0, 0, 0, 0, 0, 0, 0, 1, 0, 7, 0, 0, 0, 0, 0, 0,
   0, 5, 0, 3, 0, 0, 0, 0, 0, 0, 0, 1, 0, 9, 0, 0, 0, 0, 0, 0,
   0, 0, 0, 0, 0, 0, 0, 0]

/-- The identifiers of the tags of a decoded directory, `none` on an error. -/
def decodedIDs (r : Except Error Image) : Option (List Nat) :=
  match r with
  | .ok im => some im.TagID
  | .error _ => none

/-- The error of a result, `none` on success. -/
def errorOf {α : Type} (r : Except Error α) : Option Error :=
  match r with
  | .ok _ => none
  | .error e => some e

/-- Codecs that leave the bytes unchanged (used where no compression occurs). -/
def idCodecs : Codecs :=
  { lzw := fun b => b, zlib := fun b => .ok b, jpeg := fun b => .ok b, deflate := fun b => b }

/-- A fresh encoder on an empty sink. -/
def freshEncoder : Encoder := NewEncoder { data := [], pos := 0 }

/-- An image with the single tag 0 (a Short of value 1), built with `SetTag`. -/
def zeroTagImage : Image := (freshEncoder.NewImage.SetTag 0 TagTypeShort (.uint16 1)).1

/-- A byte source holding, at offset 8, the directory `EncodeTags(8)` returns
for `zeroTagImage`. -/
def zeroTagSource : List Nat :=
  match (zeroTagImage.EncodeTags 8).2 with
  | .ok bytes => List.replicate 8 0 ++ bytes
  | .error _ => []

/-- The first image of a file, decoded into the buffer `init`: the result of
`NewDecoder`, `Iter().Next()`, `Image()` and `DecodeImage`; `none` when one
of the first three steps yields no image. -/
def decodeFirstImage (c : Codecs) (file : List Nat) (init : Buffer) :
    Option (Buffer × Option Error) :=
  match NewDecoder file with
  | .error _ => none
  | .ok d =>
    match d.Iter.Next with
    | (_, false) => none
    | (it, true) =>
      match it.Image with
      | (_, none) => none
      | (_, some im) => some (im.DecodeImage c init)

/-- A 2 x 2 image of three 8-bit samples per pixel on which no RowsPerStrip tag
is set. -/
def noRowsPerStripImage : Image :=
  (freshEncoder.NewImage.SetWidthHeight 2 2).SetPixelFormat 2 3 [8, 8, 8]

/-- The pixel bytes of the 2 x 2 image. -/
def rgbPixels : List Nat := [10, 11, 12, 20, 21, 22, 30, 31, 32, 40, 41, 42]

/-- A 1 x 1 image of one 8-bit sample, with RowsPerStrip 1. -/
def onePixelImage (enc : Encoder) : Image :=
  ((enc.NewImage.SetWidthHeight 1 1).SetPixelFormat 1 1 [8]).SetRowsPerStrip 1

/-- The encoder after two images of one pixel (values 7 and 9) have been
written one after the other on a fresh encoder, and the two errors. -/
def twoPages : Encoder × Option Error × Option Error :=
  match (onePixelImage freshEncoder).EncodeImage idCodecs freshEncoder (.u8 [7]) with
  | (enc1, _, e1) =>
    match (onePixelImage enc1).EncodeImage idCodecs enc1 (.u8 [9]) with
    | (enc2, _, e2) => (enc2, e1, e2)

/-- The offsets and next-pointers of the images `Iter.All` returns for a file
(bounded by `fuel`), and its error. -/
def chainOffsets (fuel : Nat) (file : List Nat) : Option (List (Option (Nat × Nat)) × Option Error) :=
  match NewDecoder file with
  | .error _ => none
  | .ok d =>
    match d.Iter.All fuel with
    | none => none
    | some (_, ims, err) =>
      some (ims.map (fun (o : Option Image) => o.map (fun im => (im.Offset, im.OffsetNext))), err)

/-! ## The directory chain of a file -/

/-- The directories of the chain that starts at offset `o`, as
`decodeDirectories` returns them, following at most `fuel` next-pointers:
`none` when a directory of the chain cannot be decoded or the chain does not
end with a next-pointer 0 within `fuel` steps. -/
def chainFrom (d : Decoder) : Nat → Nat → Option (List Image)
  | 0, _ => none
  | fuel + 1, o =>
    if o = 0 then some []
    else
      match d.decodeDirectories o with
      | .error _ => none
      | .ok im =>
        match chainFrom d fuel im.OffsetNext with
        | none => none
        | some rest => some (im :: rest)

/-- The offsets at which the directories of a chain are decoded: the first
offset, then the next-pointer of each directory but the last. -/
def chainStarts (o : Nat) : List Image → List Nat
  | [] => []
  | im :: rest => o :: chainStarts im.OffsetNext rest

/-- An image as the iterator yields it: the directory with the reader and the
header of the decoder. -/
def Decoder.yielded (d : Decoder) (im : Image) : Image :=
  { im with rd := some d.r, Header := some d.Header }

/-- A decoder on the Classic file `unsortedClassicFile`, whose chain has one
directory, at offset 8. -/
def chainDecoder : Decoder :=
  { Header := { ByteOrder := .LittleEndian, Version := VersionClassicTIFF, OffsetFirstIFD := 8 },
    r := unsortedClassicFile }

/-- The chain of `chainDecoder`. -/
def chainImages : List Image := (chainFrom chainDecoder 2 8).getD []

/-! ## Concrete images used as witnesses -/

/-- A file image of 32 bytes: four tiles of 8 bytes each, with the bytes
0, 1, ..., 31. -/
def tileBytes : List Nat := List.range 32

/-- A tiled image of width 5 and height 3 with one 8-bit sample per pixel and
tiles of width 4 and height 2 (2 x 2 tiles, those of the right column and of
the bottom row being clipped), reading the tiles from `tileBytes`. -/
def tiledImage : Image :=
  let im1 := freshEncoder.NewImage.SetWidthHeight 5 3
  let im2 := (im1.SetTag TagSamplesPerPixel TagTypeLong (.uint32 1)).1
  let im3 := (im2.SetTag TagBitsPerSample TagTypeLong (.uint32s [8])).1
  let im4 := im3.SetTileWidthHeight 4 2
  let im5 := (im4.SetTag TagTileOffsets TagTypeLong (.uint32s [0, 8, 16, 24])).1
  let im6 := (im5.SetTag TagTileByteCounts TagTypeLong (.uint32s [8, 8, 8, 8])).1
  { im6 with rd := some tileBytes }

/-- A strip image of width 2 and height 3 with one 16-bit sample per pixel and
2 rows per strip (2 strips, the second of one row) in a big-endian file,
reading the strips from the bytes 1, 2, ..., 12. -/
def stripImage16 : Image :=
  let im1 := (freshEncoder.SetByteOrder .BigEndian).NewImage.SetWidthHeight 2 3
  let im2 := (im1.SetTag TagSamplesPerPixel TagTypeLong (.uint32 1)).1
  let im3 := (im2.SetTag TagBitsPerSample TagTypeLong (.uint32s [16])).1
  let im4 := im3.SetRowsPerStrip 2
  let im5 := (im4.SetTag TagStripOffsets TagTypeLong (.uint32s [0, 8])).1
  let im6 := (im5.SetTag TagStripByteCounts TagTypeLong (.uint32s [8, 4])).1
  { im6 with rd := some [1, 2, 3, 4, 5, 6, 7, 8, 9, 10, 11, 12] }

/-! ## The samples a segment contributes -/

/-- The buffer of the element type that goes with a bit depth: `[]uint16` for
16, `[]uint8` otherwise. -/
def wrapBuf (bitDepth : Nat) (l : List Nat) : Buffer :=
  if bitDepth = 16 then .u16 l else .u8 l

/-- The first `k` samples that a byte stream holds: its first `k` bytes for
8-bit samples; for 16-bit samples the values of its first `k` byte pairs,
each read in the given byte order. -/
def samplesOf (bo : ByteOrder) (bitDepth k : Nat) (bytes : List Nat) : List Nat :=
  if bitDepth = 16 then decodeChunks bo 2 k bytes else bytes.take k

/-- The number of rows of strip `i` among `ny` strips: `rowsPerStrip`, except
for the last strip, which has the rows that remain. -/
def stripRows (height rowsPerStrip ny i : Nat) : Nat :=
  if i = ny - 1 then height - i * rowsPerStrip else rowsPerStrip

/-- The number of pixel columns tile column `ix` contributes: the tile width,
except for the last of the `nx` columns, which is clipped to the image. -/
def clipX (width tileWidth nx ix : Nat) : Nat :=
  if ix = nx - 1 then width - ix * tileWidth else tileWidth

/-- The number of pixel rows tile row `iy` contributes: the tile height,
except for the last of the `ny` rows, which is clipped to the image. -/
def clipY (height tileHeight ny iy : Nat) : Nat :=
  if iy = ny - 1 then height - iy * tileHeight else tileHeight

/-- The sample that belongs at index `k` of the buffer of a tiled image: with
`k = (y * width + x) * samplesPerPixel + s`, sample number
`((y mod tileHeight) * tileWidth + x mod tileWidth) * samplesPerPixel + s` of
tile number `(y div tileHeight) * nx + x div tileWidth`. -/
def tileSampleAt (bo : ByteOrder) (g : Geometry) (tileWidth tileHeight nx : Nat)
    (tiles : Nat → List Nat) (k : Nat) : Option Nat :=
  let s := k % g.samplePerPixel
  let p := k / g.samplePerPixel
  let x := p % g.width
  let y := p / g.width
  (samplesOf bo g.bitDepth (tileWidth * tileHeight * g.samplePerPixel)
    (tiles ((y / tileHeight) * nx + x / tileWidth)))[
      ((y % tileHeight) * tileWidth + x % tileWidth) * g.samplePerPixel + s]?

/-- The value of the two consecutive bytes `b0`, `b1` read as a 16-bit sample
in the given byte order. -/
def sample16 (bo : ByteOrder) (b0 b1 : Nat) : Nat :=
  match bo with
  | .BigEndian => 256 * b0 + b1
  | .LittleEndian => b0 + 256 * b1

/-- The bytes of tile `k` of `tiledImage`. -/
def tiledImageTiles (k : Nat) : List Nat := (tileBytes.drop (8 * k)).take 8

/-- The bytes of strip `i` of `stripImage16`. -/
def stripImage16Strips (i : Nat) : List Nat :=
  if i = 0 then [1, 2, 3, 4, 5, 6, 7, 8] else [9, 10, 11, 12]

/-- A tiled image of width 2 and height 1 with one 16-bit sample per pixel and
one tile of 2 x 1 in a big-endian file, the tile being the bytes 1, 2, 3, 4. -/
def tiledImage16 : Image :=
  let im1 := (freshEncoder.SetByteOrder .BigEndian).NewImage.SetWidthHeight 2 1
  let im2 := (im1.SetTag TagSamplesPerPixel TagTypeLong (.uint32 1)).1
  let im3 := (im2.SetTag TagBitsPerSample TagTypeLong (.uint32s [16])).1
  let im4 := im3.SetTileWidthHeight 2 1
  let im5 := (im4.SetTag TagTileOffsets TagTypeLong (.uint32s [0])).1
  let im6 := (im5.SetTag TagTileByteCounts TagTypeLong (.uint32s [4])).1
  { im6 with rd := some [1, 2, 3, 4] }

/-- A strip image of width 1 and height 1 with one 16-bit sample in a
big-endian file, its single strip being the two bytes 0x01, 0x02. -/
def bigEndianPixel16 : Image :=
  let im1 := (freshEncoder.SetByteOrder .BigEndian).NewImage.SetWidthHeight 1 1
  let im2 := (im1.SetTag TagSamplesPerPixel TagTypeLong (.uint32 1)).1
  let im3 := (im2.SetTag TagBitsPerSample TagTypeLong (.uint32s [16])).1
  let im4 := im3.SetRowsPerStrip 1
  let im5 := (im4.SetTag TagStripOffsets TagTypeLong (.uint32s [0])).1
  let im6 := (im5.SetTag TagStripByteCounts TagTypeLong (.uint32s [2])).1
  { im6 with rd := some [1, 2] }

/-- The bytes of tile `k` of `tiledImage16`. -/
def tiledImageTiles16 (k : Nat) : List Nat := if k = 0 then [1, 2, 3, 4] else []

/-! ## The strip image that the setters configure -/

/-- The tag that `NewTag` builds from a slice of unsigned integers of `width`
bytes each, for a header `hdr`. -/
def intTag (id typ : Nat) (hdr : Header) (width : Nat) (vs : List Nat) : Tag :=
  { ID := id, Typ := typ, Count := vs.length,
    Data := (vs.map (fun v => hdr.ByteOrder.PutUint width v)).flatten,
    Header := some hdr, OffsetEntry := 0, OffsetData := 0 }

/-- A fresh Classic-TIFF encoder with the byte order `bo`. -/
def stripEncoder (bo : ByteOrder) : Encoder := freshEncoder.SetByteOrder bo

/-- The image that `NewImage`, `SetWidthHeight`, `SetPixelFormat` (with
`samplePerPixel` entries `bits` in BitsPerSample) and `SetRowsPerStrip`
configure on `stripEncoder bo`; no Compression tag is set. -/
def configuredImage (bo : ByteOrder) (width height photometric samplePerPixel bits
    rowsPerStrip : Nat) : Image :=
  (((stripEncoder bo).NewImage.SetWidthHeight width height).SetPixelFormat photometric
    samplePerPixel (List.replicate samplePerPixel (bits : Int))).SetRowsPerStrip rowsPerStrip

/-- The property that a possibly nil tag is present and holds the unsigned
integers `vs` in `width` bytes each, with the field type `typ`, and refers to
a header of byte order `bo`. -/
def HoldsUint (t : Option Tag) (bo : ByteOrder) (typ width : Nat) (vs : List Nat) : Prop :=
  ∃ x hd, t = some x ∧ x.Typ = typ ∧ x.Count = vs.length ∧
    x.Data = (vs.map (fun v => bo.PutUint width v)).flatten ∧
    x.Header = some hd ∧ hd.ByteOrder = bo

/-- The offsets at which consecutive chunks lie when the first one starts at
`start`. -/
def layoutOffsets (start : Nat) : List (List Nat) → List Nat
  | [] => []
  | c :: cs => start :: layoutOffsets (start + c.length) cs

/-- The bytes that `EncodeImage` writes for a run of samples: the samples
themselves for a `[]uint8` buffer, the two little-endian bytes of each sample
for a `[]uint16` buffer. -/
def sampleBytes (bits : Nat) (samples : List Nat) : List Nat :=
  if bits = 16 then (samples.map (fun v => putLE 2 v)).flatten else samples

/-- The samples of strip `i` of a buffer: `rows_i * width * samplePerPixel`
samples from position `i * rowsPerStrip * width * samplePerPixel` on. -/
def stripSamplesOf (buf : List Nat) (width height samplePerPixel rowsPerStrip ny i : Nat) :
    List Nat :=
  slice buf (i * (rowsPerStrip * width * samplePerPixel))
    (i * (rowsPerStrip * width * samplePerPixel) +
      stripRows height rowsPerStrip ny i * width * samplePerPixel)

/-- An image of width `2 ^ 32` and height 1 with one 8-bit sample per pixel
and one row per strip, configured with the setters on a fresh encoder. -/
def wideImage : Image := configuredImage .LittleEndian (2 ^ 32) 1 1 1 8 1

/-- The header of `stripEncoder bo` before anything is written. -/
def stripHeader (bo : ByteOrder) : Header :=
  { ByteOrder := bo, Version := VersionClassicTIFF, OffsetFirstIFD := 0 }

/-- The header of `stripEncoder bo` once `EncodeImage` has written it. -/
def writtenHeader (bo : ByteOrder) : Header :=
  { ByteOrder := bo, Version := VersionClassicTIFF, OffsetFirstIFD := 8 }

/-- The tags of `configuredImage`, in identifier order. -/
def configuredTags (bo : ByteOrder) (width height photometric samplePerPixel bits
    rowsPerStrip : Nat) : List Tag :=
  [intTag TagImageWidth TagTypeLong (stripHeader bo) 4 [width % 2 ^ 32],
   intTag TagImageLength TagTypeLong (stripHeader bo) 4 [height % 2 ^ 32],
   intTag TagBitsPerSample TagTypeLong (stripHeader bo) 4 (List.replicate samplePerPixel bits),
   intTag TagPhotometric TagTypeLong (stripHeader bo) 4 [photometric % 2 ^ 32],
   intTag TagSamplesPerPixel TagTypeLong (stripHeader bo) 4 [samplePerPixel % 2 ^ 32],
   intTag TagRowsPerStrip TagTypeLong (stripHeader bo) 4 [rowsPerStrip % 2 ^ 32]]

/-- The tags of the image when `EncodeImage` writes its directory: those of
`configuredImage`, the Compression tag, and the StripOffsets and
StripByteCounts tags with the values `offsets` and `counts`, built for the
header `hdr`. -/
def writtenTags (bo : ByteOrder) (width height photometric samplePerPixel bits
    rowsPerStrip : Nat) (hdr : Header) (offsets counts : List Nat) : List Tag :=
  [intTag TagImageWidth TagTypeLong (stripHeader bo) 4 [width % 2 ^ 32],
   intTag TagImageLength TagTypeLong (stripHeader bo) 4 [height % 2 ^ 32],
   intTag TagBitsPerSample TagTypeLong (stripHeader bo) 4 (List.replicate samplePerPixel bits),
   intTag TagCompression TagTypeShort (stripHeader bo) 2 [CompressionNone],
   intTag TagPhotometric TagTypeLong (stripHeader bo) 4 [photometric % 2 ^ 32],
   intTag TagStripOffsets TagTypeLong hdr 4 offsets,
   intTag TagSamplesPerPixel TagTypeLong (stripHeader bo) 4 [samplePerPixel % 2 ^ 32],
   intTag TagRowsPerStrip TagTypeLong (stripHeader bo) 4 [rowsPerStrip % 2 ^ 32],
   intTag TagStripByteCounts TagTypeLong hdr 4 counts]

/-- The byte chunks of the strips `iy, ..., iy + n - 1` of a buffer, as
`EncodeImage` writes them without compression. -/
def stripChunks (bits : Nat) (buf : List Nat) (width height samplePerPixel rowsPerStrip ny : Nat)
    (iy n : Nat) : List (List Nat) :=
  (List.range' iy n).map (fun i =>
    sampleBytes bits (stripSamplesOf buf width height samplePerPixel rowsPerStrip ny i))

/-- The length of the directory `EncodeImage` writes for the strip image: the
count field, 9 entries, the next-directory pointer, and the out-of-line values
of BitsPerSample, StripOffsets and StripByteCounts. -/
def dirLength (samplePerPixel ny : Nat) : Nat :=
  2 + 9 * 12 + 4 + (if 4 * samplePerPixel ≤ 4 then 0 else 4 * samplePerPixel) +
    ((if 4 * ny ≤ 4 then 0 else 4 * ny) + (if 4 * ny ≤ 4 then 0 else 4 * ny))

/-- The offsets that `EncodeImage` records for the strips of the strip image:
the chunks lie one after the other behind the header and the directory. -/
def stripOffsetsOf (bits : Nat) (buf : List Nat) (width height samplePerPixel rowsPerStrip : Nat) :
    List Nat :=
  (layoutOffsets (8 + dirLength samplePerPixel (ceilDiv height rowsPerStrip))
    (stripChunks bits buf width height samplePerPixel rowsPerStrip (ceilDiv height rowsPerStrip)
      0 (ceilDiv height rowsPerStrip))).map (fun o => o % 2 ^ 32)

/-- The byte counts that `EncodeImage` records for the strips of the strip
image. -/
def stripCountsOf (bits : Nat) (buf : List Nat) (width height samplePerPixel rowsPerStrip : Nat) :
    List Nat :=
  (stripChunks bits buf width height samplePerPixel rowsPerStrip (ceilDiv height rowsPerStrip)
    0 (ceilDiv height rowsPerStrip)).map (fun ch => ch.length % 2 ^ 32)

/-- The strip image as `EncodeImage` leaves it: the tags with the offsets and
byte counts of the strips, at directory offset 8. -/
def writtenImage (bo : ByteOrder) (width height photometric samplePerPixel bits
    rowsPerStrip : Nat) (buf : List Nat) : Image :=
  { Tag := writtenTags bo width height photometric samplePerPixel bits rowsPerStrip
      (writtenHeader bo)
      (stripOffsetsOf bits buf width height samplePerPixel rowsPerStrip)
      (stripCountsOf bits buf width height samplePerPixel rowsPerStrip),
    SubImage := [], Exif := none, GPS := none, Interoperability := none,
    Header := some (writtenHeader bo), Offset := 8, OffsetNext := 0, rd := none }

/-- The image that `Iter.Next` and `Iter.Image` yield for the file `file` that
`EncodeImage` wrote for the strip image: the tags as `DecodeIFD` builds them
from the directory at offset 8. -/
def readImage (bo : ByteOrder) (width height photometric samplePerPixel bits
    rowsPerStrip : Nat) (buf : List Nat) (file : List Nat) : Image :=
  { Tag := decodedTags (writtenHeader bo) 8
      (writtenImage bo width height photometric samplePerPixel bits rowsPerStrip buf).Tag 0
      ((writtenHeader bo).bytesOfNumTags +
        (writtenImage bo width height photometric samplePerPixel bits rowsPerStrip buf).Tag.length *
          (writtenHeader bo).bytesOfEntry + (writtenHeader bo).byteOfOffset),
    SubImage := [], Exif := none, GPS := none, Interoperability := none,
    Header := some (writtenHeader bo), Offset := 8, OffsetNext := 0, rd := some file }

/-- The strip image of the round trip: `configuredImage`, on which
`SetCompression(CompressionNone)` is called as well when `setCompression` is
true. -/
def roundTripImage (setCompression : Bool) (bo : ByteOrder) (width height photometric
    samplePerPixel bits rowsPerStrip : Nat) : Image :=
  if setCompression then
    (configuredImage bo width height photometric samplePerPixel bits rowsPerStrip).SetCompression
      CompressionNone
  else configuredImage bo width height photometric samplePerPixel bits rowsPerStrip

/-! ## Signed values, strings, and the header with a signed offset -/

/-- Conversion of an unsigned integer of `w` bytes to the signed integer of
the same width (`int16(x)`, `int32(x)`, `int64(x)`). -/
def toSignedInt (w : Nat) (v : Nat) : Int :=
  if v % 256 ^ w < 256 ^ w / 2 then ((v % 256 ^ w : Nat) : Int)
  else ((v % 256 ^ w : Nat) : Int) - ((256 ^ w : Nat) : Int)

/-- Function `DecodeSShort`; it panics when the payload length is not `2 * count`. -/
def DecodeSShort (count : Nat) (data : List Nat) (bo : ByteOrder) : Except Error (List Int) :=
  if data.length ≠ count * TagType.Size TagTypeSShort then
    .error (.fatal "decode tag: unexpected size of data")
  else .ok ((decodeChunks bo (TagType.Size TagTypeSShort) count data).map (toSignedInt 2))

/-- Function `DecodeSLong`; it panics when the payload length is not `4 * count`. -/
def DecodeSLong (count : Nat) (data : List Nat) (bo : ByteOrder) : Except Error (List Int) :=
  if data.length ≠ count * TagType.Size TagTypeSLong then
    .error (.fatal "decode tag: unexpected size of data")
  else .ok ((decodeChunks bo (TagType.Size TagTypeSLong) count data).map (toSignedInt 4))

/-- Function `DecodeSLong8`; it panics when the payload length is not `8 * count`. -/
def DecodeSLong8 (count : Nat) (data : List Nat) (bo : ByteOrder) : Except Error (List Int) :=
  if data.length ≠ count * TagType.Size TagTypeSLong8 then
    .error (.fatal "decode tag: unexpected size of data")
  else .ok ((decodeChunks bo (TagType.Size TagTypeSLong8) count data).map (toSignedInt 8))

/-- The library call `strings.Split(s, "\x00")` on a byte string: the pieces
between the NUL bytes, one piece more than there are NUL bytes (the empty
string gives one empty piece). -/
def splitNul : List Nat → List (List Nat)
  | [] => [[]]
  | b :: bs =>
    if b = 0 then [] :: splitNul bs
    else
      match splitNul bs with
      | [] => [[b]]
      | s :: rest => (b :: s) :: rest

/-- Function `DecodeASCII`: a panic when the payload length is not `count`
and when the payload is empty (the index `len(data)-1` is out of range), an
error made with `fmt.Errorf` when the last byte is not NUL. -/
def DecodeASCII (count : Nat) (data : List Nat) (bo : ByteOrder) :
    Except Error (List (List Nat)) :=
  if data.length ≠ count then .error (.fatal "decode tag: unexpected size of data")
  else
    match data.getLast? with
    | none => .error (.fatal "index out of range")
    | some last =>
      if last ≠ 0 then .error (.other "decode ASCII: last byte is not 0")
      else .ok (splitNul (data.take (data.length - 1)))

/-- Method `Tag.String` on a possibly nil tag: `(value, ok)`; a panic of
`DecodeASCII` or of the read of `t.Header.ByteOrder` passes through. -/
def Tag.String (t : Option Tag) : Except Error (List Nat × Bool) :=
  match t with
  | none => .ok ([], false)
  | some t =>
    if t.Typ ≠ TagTypeASCII then .ok ([], false)
    else
      match t.Header with
      | none => .error (.fatal "nil pointer dereference")
      | some h =>
        match DecodeASCII t.Count t.Data h.ByteOrder with
        | .error (.fatal m) => .error (.fatal m)
        | .error _ => .ok ([], false)
        | .ok [] => .error (.fatal "index out of range")
        | .ok (s :: _) => .ok (s, true)

/-- Method `Tag.StringSlice` on a possibly nil tag: `(value, ok)`. -/
def Tag.StringSlice (t : Option Tag) : Except Error (List (List Nat) × Bool) :=
  match t with
  | none => .ok ([], false)
  | some t =>
    if t.Typ ≠ TagTypeASCII then .ok ([], false)
    else
      match t.Header with
      | none => .error (.fatal "nil pointer dereference")
      | some h =>
        match DecodeASCII t.Count t.Data h.ByteOrder with
        | .error (.fatal m) => .error (.fatal m)
        | .error _ => .ok ([], false)
        | .ok v => .ok (v, true)

/-- Method `Header.encodeBytes` for a header whose field `OffsetFirstIFD`, an
`int64`, may be negative. -/
def encodeHeaderBytes (bo : ByteOrder) (version : Nat) (offsetFirstIFD : Int) :
    Except Error (List Nat) :=
  let mark : List Nat := if bo = .LittleEndian then [73, 73] else [77, 77]
  if version = VersionClassicTIFF then
    if offsetFirstIFD ≤ 0 then .error (.fatal "tiff: invalid OffsetFirstIFD")
    else if offsetFirstIFD > 2 ^ 32 - 1 then
      .error (.fatal "tiff: OffsetFirstIFD overflows uint32")
    else
      .ok (mark ++ bo.PutUint16 (version % 2 ^ 16) ++
        bo.PutUint32 ((offsetFirstIFD % 2 ^ 32).toNat))
  else if version = VersionBigTIFF then
    if offsetFirstIFD ≤ 0 then .error (.fatal "tiff: invalid OffsetFirstIFD")
    else
      .ok (mark ++ bo.PutUint16 (version % 2 ^ 16) ++ bo.PutUint16 8 ++
        bo.PutUint16 0 ++ bo.PutUint64 ((offsetFirstIFD % 2 ^ 64).toNat))
  else .error (.fatal "tiff: invalid TIFF Version")

/-- Whether an error is a run-time panic. -/
def Error.isFatal : Error → Bool
  | .fatal _ => true
  | _ => false

/-! ### The header fields as the first 16 bytes of a source give them -/

/-- The byte order that bytes 0-1 select: little endian for "II", big endian
otherwise (the value is used only when the bytes are "II" or "MM"). -/
def selectedOrder (r : List Nat) : ByteOrder :=
  if slice r 0 2 = [73, 73] then .LittleEndian else .BigEndian

/-- The 16-bit version at bytes 2-3, in the selected byte order. -/
def headerVersion (r : List Nat) : Nat := (selectedOrder r).Uint (slice r 2 4)

/-- The first-directory pointer: bytes 4-7 for Classic TIFF, bytes 8-15
otherwise. -/
def headerPointer (r : List Nat) : Nat :=
  if headerVersion r = VersionClassicTIFF then (selectedOrder r).Uint (slice r 4 8)
  else (selectedOrder r).Uint (slice r 8 16)

/-- The conditions under which the first 16 bytes of a source are no valid
header: a byte-order mark other than "II" and "MM", a version other than 42
and 43, or, for version 43, a pointer width other than 8, a non-zero field at
bytes 6-7, or a pointer above `2 ^ 63 - 1`. -/
def InvalidHeaderBytes (r : List Nat) : Prop :=
  (slice r 0 2 ≠ [73, 73] ∧ slice r 0 2 ≠ [77, 77]) ∨
  (headerVersion r ≠ 42 ∧ headerVersion r ≠ 43) ∨
  (headerVersion r = 43 ∧
    ((selectedOrder r).Uint (slice r 4 6) ≠ 8 ∨ (selectedOrder r).Uint (slice r 6 8) ≠ 0 ∨
      (selectedOrder r).Uint (slice r 8 16) > 2 ^ 63 - 1))

/-! ### Concrete inputs -/

/-- A Classic little-endian file: the header, then at offset 8 a directory of
one entry with the identifier 270 (ImageDescription), the type ASCII and the
count 0. -/
def emptyAsciiFile : List Nat :=
  [73, 73, 42, 0, 8, 0, 0, 0,
   1, 0,
   14, 1, 2, 0, 0, 0, 0, 0, 0, 0, 0, 0,
   0, 0, 0, 0]

/-- The tag with the identifier `id` of the directory that `DecodeIFD` reads
at `offset`, `none` when the directory cannot be decoded or has no such tag. -/
def decodedTagAt (d : Decoder) (offset id : Nat) : Option Tag :=
  match d.DecodeIFD offset with
  | .ok im => TagMap.find im.Tag id
  | .error _ => none

/-- The error value `ErrInvalidHeader`, a `FormatError`. -/
def ErrInvalidHeader : Error := .format "invalid header"

/-- A Classic little-endian file of 8 bytes whose header points to a first
directory at offset 100, beyond the end of the file. -/
def danglingFile : List Nat := [73, 73, 42, 0, 100, 0, 0, 0]

/-- The iterator that `NewDecoder` followed by `Decoder.Iter` gives for a
source, `none` when the header is rejected. -/
def fileIter (r : List Nat) : Option Iter :=
  match NewDecoder r with
  | .ok d => some d.Iter
  | .error _ => none

/-! ## Definitions for the segment accessors, the validation and the layouts -/

/-- A Classic little-endian file of two directories: the one at offset 8 has
the single tag SubIFDs (330, type Long) with the one value 26, and the one at
offset 26 has the single tag ImageWidth (256, type Short) with the value 7. -/
def subIFDFile : List Nat :=
  [73, 73, 42, 0, 8, 0, 0, 0,
   1, 0,
   74, 1, 4, 0, 1, 0, 0, 0, 26, 0, 0, 0,
   0, 0, 0, 0,
   1, 0,
   0, 1, 3, 0, 1, 0, 0, 0, 7, 0, 0, 0,
   0, 0, 0, 0]

/-- The decoder of `subIFDFile`. -/
def subIFDDecoder : Decoder :=
  { Header := { ByteOrder := .LittleEndian, Version := VersionClassicTIFF, OffsetFirstIFD := 8 },
    r := subIFDFile }

/-- The directory at offset 26 of `subIFDFile`, as `DecodeIFD` returns it. -/
def subIFDChild : Image :=
  { Tag := [Tag.mk 256 TagTypeShort 1 [7, 0] (some subIFDDecoder.Header) 28 0],
    SubImage := [], Exif := none, GPS := none, Interoperability := none, Header := none,
    Offset := 26, OffsetNext := 0, rd := none }

/-- The directory at offset 8 of `subIFDFile` with its sub-image. -/
def subIFDParent : Image :=
  { Tag := [Tag.mk 330 TagTypeLong 1 [26, 0, 0, 0] (some subIFDDecoder.Header) 10 0],
    SubImage := [subIFDChild], Exif := none, GPS := none, Interoperability := none,
    Header := none, Offset := 8, OffsetNext := 0, rd := none }

/-- The compression identifier `CompressionZstd`. -/
def CompressionZstd : Nat := 50000

/-- A strip image of width 1 and height 1 with one 8-bit sample, one row per
strip and the given identifier in its Compression tag; its single strip is the
byte 7. -/
def compressedStripImage (compression : Nat) : Image :=
  let im1 := freshEncoder.NewImage.SetWidthHeight 1 1
  let im2 := (im1.SetTag TagSamplesPerPixel TagTypeLong (.uint32 1)).1
  let im3 := (im2.SetTag TagBitsPerSample TagTypeLong (.uint32s [8])).1
  let im4 := (im3.SetRowsPerStrip 1).SetCompression compression
  let im5 := (im4.SetTag TagStripOffsets TagTypeLong (.uint32s [0])).1
  let im6 := (im5.SetTag TagStripByteCounts TagTypeLong (.uint32s [1])).1
  { im6 with rd := some [7] }

/-- A tiled image of width 1 and height 1 with one 8-bit sample, one tile of
1 x 1 and the given identifier in its Compression tag; its single tile is the
byte 7. -/
def compressedTileImage (compression : Nat) : Image :=
  let im1 := freshEncoder.NewImage.SetWidthHeight 1 1
  let im2 := (im1.SetTag TagSamplesPerPixel TagTypeLong (.uint32 1)).1
  let im3 := (im2.SetTag TagBitsPerSample TagTypeLong (.uint32s [8])).1
  let im4 := (im3.SetTileWidthHeight 1 1).SetCompression compression
  let im5 := (im4.SetTag TagTileOffsets TagTypeLong (.uint32s [0])).1
  let im6 := (im5.SetTag TagTileByteCounts TagTypeLong (.uint32s [1])).1
  { im6 with rd := some [7] }

/-- An image of width 2 and height 2 with one 8-bit sample per pixel on which
tiles of 16 x 16 are set, as a caller of the encoder configures it. -/
def tileModeImage : Image :=
  ((freshEncoder.NewImage.SetWidthHeight 2 2).SetPixelFormat 1 1 [8]).SetTileWidthHeight 16 16

/-- An image whose StripOffsets tag holds three values and whose
StripByteCounts tag holds two, over the source bytes 7, 8, 9. -/
def mismatchedStripImage : Image :=
  let im1 := (freshEncoder.NewImage.SetTag TagStripOffsets TagTypeLong (.uint32s [0, 1, 2])).1
  let im2 := (im1.SetTag TagStripByteCounts TagTypeLong (.uint32s [1, 1])).1
  { im2 with rd := some [7, 8, 9] }

/-- An image whose StripOffsets and StripByteCounts tags have the type Byte and
one value each, over the source byte 7. -/
def byteTypedStripImage : Image :=
  let im1 := (freshEncoder.NewImage.SetTag TagStripOffsets TagTypeByte (.bytes [0])).1
  let im2 := (im1.SetTag TagStripByteCounts TagTypeByte (.bytes [1])).1
  { im2 with rd := some [7] }

/-- The block "Strip mode" of `DecodeImage`, entered when `NumStrips() > 0`. -/
def Image.decodeStripMode (c : Codecs) (im : Image) (g : Geometry) (buffer : Buffer) :
    Buffer × Option Error :=
  match Tag.Uint (TagMap.find im.Tag TagRowsPerStrip) with
  | .error e => (buffer, some e)
  | .ok (rowsPerStrip, ok) =>
    if ¬ ok then (buffer, some (.format "invalid RowsPerStrip"))
    else
      let ny := ceilDiv g.height rowsPerStrip
      if ny ≠ im.NumStrips then (buffer, some (.format "expecting strips, found strips"))
      else decodeStrips c im g rowsPerStrip ny ny 0 buffer 0

/-- The block "Tile mode" of `DecodeImage`, entered when `NumStrips()` is 0 and
`NumTiles() > 0`. -/
def Image.decodeTileMode (c : Codecs) (im : Image) (g : Geometry) (buffer : Buffer) :
    Buffer × Option Error :=
  match Tag.Uint (TagMap.find im.Tag TagTileLength) with
  | .error e => (buffer, some e)
  | .ok (tileHeight, okH) =>
    if ¬ okH then (buffer, some (.format "invalid TagTileLength"))
    else
      let ny := ceilDiv g.height tileHeight
      match Tag.Uint (TagMap.find im.Tag TagTileWidth) with
      | .error e => (buffer, some e)
      | .ok (tileWidth, okW) =>
        if ¬ okW then (buffer, some (.format "invalid TagTileWidth"))
        else
          let nx := ceilDiv g.width tileWidth
          if nx * ny ≠ im.NumTiles then
            (buffer, some (.format "expecting tiles, found tiles"))
          else decodeTileRows c im g tileWidth tileHeight nx ny ny 0 buffer

/-- Two images that have the same header and the same byte source and the
same tag under every identifier outside `ids`. -/
def Image.agreesExcept (ids : List Nat) (im im2 : Image) : Prop :=
  im.Header = im2.Header ∧ im.rd = im2.rd ∧
    ∀ id, id ∉ ids → TagMap.find im.Tag id = TagMap.find im2.Tag id

/-- The identifiers of the four tile tags. -/
def tileTagIDs : List Nat := [TagTileWidth, TagTileLength, TagTileOffsets, TagTileByteCounts]

/-- The identifiers of the three strip tags. -/
def stripTagIDs : List Nat := [TagStripOffsets, TagRowsPerStrip, TagStripByteCounts]

/-- A 1 x 1 image of one 8-bit sample over the source bytes 7, 9 without
segment tags. -/
def noLayoutImage : Image :=
  let im1 := freshEncoder.NewImage.SetWidthHeight 1 1
  let im2 := (im1.SetTag TagSamplesPerPixel TagTypeLong (.uint32 1)).1
  let im3 := (im2.SetTag TagBitsPerSample TagTypeLong (.uint32s [8])).1
  { im3 with rd := some [7, 9] }

/-- The image `noLayoutImage` with the tile tags of one tile of 1 x 1, which is
the byte 9 at offset 1. -/
def tileOnlyImage : Image :=
  let im1 := noLayoutImage.SetTileWidthHeight 1 1
  let im2 := (im1.SetTag TagTileOffsets TagTypeLong (.uint32s [1])).1
  (im2.SetTag TagTileByteCounts TagTypeLong (.uint32s [1])).1

/-- The image `tileOnlyImage` with, in addition, the strip tags of one strip
of one row, which is the byte 7 at offset 0. -/
def stripAndTileImage : Image :=
  let im1 := tileOnlyImage.SetRowsPerStrip 1
  let im2 := (im1.SetTag TagStripOffsets TagTypeLong (.uint32s [0])).1
  (im2.SetTag TagStripByteCounts TagTypeLong (.uint32s [1])).1

/-- The image `noLayoutImage` with the strip tags of one strip of one row,
which is the byte 7 at offset 0 (the image `stripAndTileImage` without its
tile tags). -/
def stripOnlyImage : Image :=
  let im1 := noLayoutImage.SetRowsPerStrip 1
  let im2 := (im1.SetTag TagStripOffsets TagTypeLong (.uint32s [0])).1
  (im2.SetTag TagStripByteCounts TagTypeLong (.uint32s [1])).1

/-! ## Inputs and specification-side definitions for the claims on nested directories, entry placement and iteration -/

/-- A Classic little-endian file whose first directory (offset 8) has the
single tag GPSIFD (34853, type Long) with the value 26, and whose GPS
directory at offset 26 has two entries with strictly increasing identifiers:
GPSVersionID (0, four Bytes 2 3 0 0) and GPSLatitudeRef (1, the ASCII text
"N"). -/
def gpsFile : List Nat :=
  [73, 73, 42, 0, 8, 0, 0, 0,
   1, 0,
   37, 136, 4, 0, 1, 0, 0, 0, 26, 0, 0, 0,
   0, 0, 0, 0,
   2, 0,
   0, 0, 1, 0, 4, 0, 0, 0, 2, 3, 0, 0,
   1, 0, 2, 0, 2, 0, 0, 0, 78, 0, 0, 0,
   0, 0, 0, 0]

/-- The decoder of `gpsFile`. -/
def gpsDecoder : Decoder :=
  { Header := { ByteOrder := .LittleEndian, Version := VersionClassicTIFF, OffsetFirstIFD := 8 },
    r := gpsFile }

/-- A Classic little-endian file whose first directory (offset 8) has the
single tag `pointerTag` (type Long) with the value 26, and whose directory at
offset 26 has the single tag 34855 (type Short) with the value 100. -/
def nestedDirectoryFile (pointerTag : Nat) : List Nat :=
  [73, 73, 42, 0, 8, 0, 0, 0,
   1, 0,
   pointerTag % 256, pointerTag / 256, 4, 0, 1, 0, 0, 0, 26, 0, 0, 0,
   0, 0, 0, 0,
   1, 0,
   39, 136, 3, 0, 1, 0, 0, 0, 100, 0, 0, 0,
   0, 0, 0, 0]

/-- The file of `nestedDirectoryFile` with an Exif directory. -/
def exifFile : List Nat := nestedDirectoryFile TagExifIFD

/-- The decoder of `exifFile`. -/
def exifDecoder : Decoder :=
  { Header := { ByteOrder := .LittleEndian, Version := VersionClassicTIFF, OffsetFirstIFD := 8 },
    r := exifFile }

/-- The image that the first `Next` of the iterator over a source yields,
`none` when the header is rejected, `Next` returns false or the image is nil. -/
def firstImage (r : List Nat) : Option Image :=
  match fileIter r with
  | none => none
  | some it => if (it.Next).2 then ((it.Next).1.Image).2 else none

/-- A Classic little-endian file whose only directory (offset 8) has the
single tag InteroperabilityIFD (40965, type Long) with the value 100, an
offset past the end of the file. -/
def interoperabilityFile : List Nat :=
  [73, 73, 42, 0, 8, 0, 0, 0,
   1, 0,
   5, 160, 4, 0, 1, 0, 0, 0, 100, 0, 0, 0,
   0, 0, 0, 0]

/-- The decoder of `interoperabilityFile`. -/
def interoperabilityDecoder : Decoder :=
  { Header := { ByteOrder := .LittleEndian, Version := VersionClassicTIFF, OffsetFirstIFD := 8 },
    r := interoperabilityFile }

/-- A BigTIFF little-endian file whose only directory (offset 16) has one
entry: identifier 256, type Long8 (16, eight bytes per value), the count
`top * 2^56` (the byte `top` is the most significant byte of the count field)
and the value field 1 2 3 4 5 6 7 8. -/
def overflowFile (top : Nat) : List Nat :=
  [73, 73, 43, 0, 8, 0, 0, 0, 16, 0, 0, 0, 0, 0, 0, 0,
   1, 0, 0, 0, 0, 0, 0, 0,
   0, 1, 16, 0, 0, 0, 0, 0, 0, 0, 0, top, 1, 2, 3, 4, 5, 6, 7, 8,
   0, 0, 0, 0, 0, 0, 0, 0]

/-- The decoder that `NewDecoder` gives for `overflowFile top`. -/
def overflowDecoder (top : Nat) : Decoder :=
  { Header := { ByteOrder := .LittleEndian, Version := VersionBigTIFF, OffsetFirstIFD := 16 },
    r := overflowFile top }

/-- The results of `n` successive calls of `Iter.Next`. -/
def Iter.nextResults : Nat → Iter → List Bool
  | 0, _ => []
  | n + 1, it => (it.Next).2 :: Iter.nextResults n (it.Next).1

/-- Whether the current image of an iterator is the one `Decoder.Iter` starts
with, whose `Offset` is 0 (no call of `Next` has returned true yet). -/
def Iter.beforeFirst (it : Iter) : Bool :=
  match it.im with
  | some cur => cur.Offset == 0
  | none => false

/-- The position of entry `i` of the directory at `offset`. -/
def Decoder.entryOffset (d : Decoder) (offset i : Nat) : Nat :=
  offset + d.Header.bytesOfNumTags + i * d.Header.bytesOfEntry

/-- The bytes of entry `i` of the directory at `offset` in the source. -/
def Decoder.entryBytes (d : Decoder) (offset i : Nat) : List Nat :=
  slice d.r (d.entryOffset offset i) (d.entryOffset offset i + d.Header.bytesOfEntry)

/-- The identifier field of entry `i`. -/
def Decoder.entryID (d : Decoder) (offset i : Nat) : Nat :=
  d.Header.ByteOrder.Uint (slice (d.entryBytes offset i) 0 2)

/-- The type field of entry `i`. -/
def Decoder.entryType (d : Decoder) (offset i : Nat) : Nat :=
  d.Header.ByteOrder.Uint (slice (d.entryBytes offset i) 2 4)

/-- The count field of entry `i` (4 bytes in Classic TIFF, 8 in BigTIFF). -/
def Decoder.entryCount (d : Decoder) (offset i : Nat) : Nat :=
  d.Header.ByteOrder.Uint (slice (d.entryBytes offset i) 4 (4 + d.Header.byteOfOffset))

/-- The value field of entry `i`: its last 4 (Classic TIFF) or 8 (BigTIFF)
bytes. -/
def Decoder.valueField (d : Decoder) (offset i : Nat) : List Nat :=
  slice (d.entryBytes offset i) (4 + d.Header.byteOfOffset)
    (4 + d.Header.byteOfOffset + d.Header.byteOfOffset)

/-- The value field of entry `i` read as a pointer in the header's byte
order. -/
def Decoder.entryPointer (d : Decoder) (offset i : Nat) : Nat :=
  d.Header.ByteOrder.Uint (d.valueField offset i)

/-- The payload size `Type.Size() * Count` of entry `i` as the `int`
multiplication of the source gives it (wrapped to 64 bits). -/
def Decoder.entrySize (d : Decoder) (offset i : Nat) : Int :=
  toInt64 (TagType.Size (d.entryType offset i) * d.entryCount offset i)

/-- The number of entries that `DecodeIFD` reads in the directory at `offset`
(the loop bound `numEntries`, 0 when it is negative or unreadable). -/
def Decoder.numEntries (d : Decoder) (offset : Nat) : Nat :=
  match ReadAt d.r d.Header.bytesOfNumTags offset with
  | none => 0
  | some buf =>
    if d.Header.Version = VersionClassicTIFF then d.Header.ByteOrder.Uint16 buf
    else (toInt64 (d.Header.ByteOrder.Uint64 buf)).toNat

/-- A Classic little-endian file whose only directory (offset 8) has two
entries: ImageWidth (256, type Short, count 1) with the inline value 7, and
BitsPerSample (258, type Short, count 3) whose six payload bytes
8 0 8 0 8 0 are stored at offset 38. -/
def outOfLineFile : List Nat :=
  [73, 73, 42, 0, 8, 0, 0, 0,
   2, 0,
   0, 1, 3, 0, 1, 0, 0, 0, 7, 0, 0, 0,
   2, 1, 3, 0, 3, 0, 0, 0, 38, 0, 0, 0,
   0, 0, 0, 0,
   8, 0, 8, 0, 8, 0]

/-- The decoder of `outOfLineFile`. -/
def outOfLineDecoder : Decoder :=
  { Header := { ByteOrder := .LittleEndian, Version := VersionClassicTIFF, OffsetFirstIFD := 8 },
    r := outOfLineFile }

/-- The kinds of nested directory that `decodeDirectories` decodes. -/
inductive NestedKind where
  | subIFD
  | exifIFD
  | gpsIFD
  | interoperabilityIFD
deriving DecidableEq, Repr

/-- The word that the message of `decodeDirectories` has for each kind of
nested directory (the text between "cannot decode " and ": "). -/
def NestedKind.word : NestedKind → String
  | .subIFD => "SubIFD"
  | .exifIFD => "ExifIFD"
  | .gpsIFD => "GPSIFD"
  | .interoperabilityIFD => "Interoperability"

/-- Whether the text `s` contains the text `sub`. -/
def containsText (s sub : String) : Bool := decide (sub.toList <:+: s.toList)

/-- The sub-images of a directory `im` are decoded without error (the first
loop of `decodeDirectories` ends normally, or is not entered). -/
def SubImagesDecoded (d : Decoder) (im : Image) : Prop :=
  ∃ offs has, Tag.UintSlice (TagMap.find im.Tag TagSubIFDs) = .ok (offs, has) ∧
    ((has = true ∧ offs.length > 0) → ∀ o ∈ offs, isOk (d.DecodeIFD o) = true)

/-- The Exif directory of `im` is decoded without error, or `im` has none. -/
def ExifDecoded (d : Decoder) (im : Image) : Prop :=
  ∃ off has, Tag.Uint (TagMap.find im.Tag TagExifIFD) = .ok (off, has) ∧
    (has = true → isOk (d.DecodeExifIFD off) = true)

/-- The GPS directory of `im` is decoded without error, or `im` has none. -/
def GPSDecoded (d : Decoder) (im : Image) : Prop :=
  ∃ off has, Tag.Uint (TagMap.find im.Tag TagGPSIFD) = .ok (off, has) ∧
    (has = true → isOk (d.DecodeGPSIFD off) = true)

/-- The nested directory of kind `k` of the directory `im` is the first one
whose decoding fails, and it fails with the error `e`: for a sub-image, the
directories at the offsets before it are decoded; for the Exif directory, all
sub-images are; for the GPS directory, also the Exif directory; for the
Interoperability directory, also the GPS directory. -/
def NestedFailure (d : Decoder) (im : Image) (k : NestedKind) (e : Error) : Prop :=
  match k with
  | .subIFD =>
    ∃ before o after, Tag.UintSlice (TagMap.find im.Tag TagSubIFDs) =
        .ok (before ++ o :: after, true) ∧
      (∀ x ∈ before, isOk (d.DecodeIFD x) = true) ∧ d.DecodeIFD o = .error e
  | .exifIFD =>
    SubImagesDecoded d im ∧
    ∃ off, Tag.Uint (TagMap.find im.Tag TagExifIFD) = .ok (off, true) ∧
      d.DecodeExifIFD off = .error e
  | .gpsIFD =>
    SubImagesDecoded d im ∧ ExifDecoded d im ∧
    ∃ off, Tag.Uint (TagMap.find im.Tag TagGPSIFD) = .ok (off, true) ∧
      d.DecodeGPSIFD off = .error e
  | .interoperabilityIFD =>
    SubImagesDecoded d im ∧ ExifDecoded d im ∧ GPSDecoded d im ∧
    ∃ off, Tag.Uint (TagMap.find im.Tag TagInteroperabilityIFD) = .ok (off, true) ∧
      d.DecodeInteroperabilityIFD off = .error e

/-- The total length of the payloads of `ts` that are longer than `p` bytes
(the size of the out-of-line area that `EncodeTags` writes for them). -/
def outOfLineLength (p : Nat) (ts : List Tag) : Nat :=
  (ts.map (fun t => if t.Data.length ≤ p then 0 else t.Data.length)).sum

/-- Entry number `i` of an encoded directory `bytes`: the bytes from
`c + i * e` to `c + i * e + e`. -/
def encodedEntry (h : Header) (bytes : List Nat) (i : Nat) : List Nat :=
  slice bytes (h.bytesOfNumTags + i * h.bytesOfEntry)
    (h.bytesOfNumTags + i * h.bytesOfEntry + h.bytesOfEntry)

/-- The value field of an entry of an encoded directory: its last `p` bytes. -/
def encodedValueField (h : Header) (entry : List Nat) : List Nat :=
  slice entry (4 + h.byteOfOffset) (4 + h.byteOfOffset + h.byteOfOffset)

/-- An image on a Classic little-endian header with the two tags ImageWidth
(256, one Short, inline) and BitsPerSample (258, three Shorts, 6 bytes,
out-of-line). -/
def twoTagImage : Image :=
  let im0 : Image := Image.mk [] [] none none none
    (some (Header.mk .LittleEndian VersionClassicTIFF 8)) 0 0 none
  let im1 := (im0.SetTag TagBitsPerSample TagTypeShort (.uint16s [8, 8, 8])).1
  (im1.SetTag TagImageWidth TagTypeShort (.uint16 7)).1

/-- A Classic little-endian file with one image of width 1 and height 1, one
8-bit sample per pixel, and one tile: the tags ImageWidth, ImageLength,
BitsPerSample and SamplesPerPixel (type Short), TileWidth and TileLength (type
Long8, both with the value 2^32, stored at the offsets 110 and 118),
TileOffsets (126) and TileByteCounts (1); the tile is the byte 7 at offset
126. -/
def hugeTileFile : List Nat :=
  [73, 73, 42, 0, 8, 0, 0, 0,
   8, 0,
   0, 1, 3, 0, 1, 0, 0, 0, 1, 0, 0, 0,
   1, 1, 3, 0, 1, 0, 0, 0, 1, 0, 0, 0,
   2, 1, 3, 0, 1, 0, 0, 0, 8, 0, 0, 0,
   21, 1, 3, 0, 1, 0, 0, 0, 1, 0, 0, 0,
   66, 1, 16, 0, 1, 0, 0, 0, 110, 0, 0, 0,
   67, 1, 16, 0, 1, 0, 0, 0, 118, 0, 0, 0,
   68, 1, 4, 0, 1, 0, 0, 0, 126, 0, 0, 0,
   69, 1, 4, 0, 1, 0, 0, 0, 1, 0, 0, 0,
   0, 0, 0, 0,
   0, 0, 0, 0, 1, 0, 0, 0,
   0, 0, 0, 0, 1, 0, 0, 0,
   7]

/-- A Classic little-endian file with one strip image of width 2^61 (a Long8
value stored at offset 98) and height 8, one 8-bit sample per pixel, 8 rows
per strip and one strip, the byte 7 at offset 106. -/
def hugeRowFile : List Nat :=
  [73, 73, 42, 0, 8, 0, 0, 0,
   7, 0,
   0, 1, 16, 0, 1, 0, 0, 0, 98, 0, 0, 0,
   1, 1, 3, 0, 1, 0, 0, 0, 8, 0, 0, 0,
   2, 1, 3, 0, 1, 0, 0, 0, 8, 0, 0, 0,
   17, 1, 4, 0, 1, 0, 0, 0, 106, 0, 0, 0,
   21, 1, 3, 0, 1, 0, 0, 0, 1, 0, 0, 0,
   22, 1, 3, 0, 1, 0, 0, 0, 8, 0, 0, 0,
   23, 1, 4, 0, 1, 0, 0, 0, 1, 0, 0, 0,
   0, 0, 0, 0,
   0, 0, 0, 0, 0, 0, 0, 32,
   7]

/-- The two directories that `Image.EncodeImage` writes in strip mode: the
steps of `Image.EncodeImage` up to the second call of `EncodeTags`, yielding
the bytes `buf` of the directory written before the strips (the provisional
directory) and the bytes `buf` of the re-encoded directory that is written
over it; `none` when `EncodeImage` returns before the second directory is
encoded. -/
def Image.directoryPasses (c : Codecs) (enc : Encoder) (im0 : Image) (buffer : Buffer) :
    Option (List Nat × List Nat) :=
  let im := { im0 with Header := some enc.Header }
  match im.validate buffer with
  | .error _ => none
  | .ok g =>
    let im1 := if (TagMap.find im.Tag TagCompression).isNone then
        (im.SetTag TagCompression TagTypeShort (.int CompressionNone)).1
      else im
    match im1.encodeLayout g.width g.height with
    | (_, .error _) => none
    | (im2, .ok (numStrips, _, ny, rowsPerStrip)) =>
      let headerStep : Except Error Encoder :=
        if enc.offset = 0 then
          let h := { enc.Header with
            OffsetFirstIFD := if enc.Header.Version = VersionClassicTIFF then 8 else 16 }
          match h.encodeBytes with
          | .error e => .error e
          | .ok buf => .ok { Header := h, w := enc.w.Write buf, offset := enc.offset + buf.length }
        else .ok enc
      match headerStep with
      | .error _ => none
      | .ok enc1 =>
        let im3 := { im2 with Header := some enc1.Header }
        match im3.EncodeTags enc1.offset with
        | (_, .error _) => none
        | (im4, .ok buf) =>
          let enc2 := { enc1 with w := enc1.w.Write buf, offset := enc1.offset + buf.length }
          if numStrips > 0 then
            match encodeStrips c im4 buffer g.width g.height g.samplePerPixel rowsPerStrip ny
                ny 0 (rowsPerStrip * g.width * g.samplePerPixel) enc2 [] [] with
            | (_, .error _) => none
            | (_, .ok (stripOffsets, stripByteCounts)) =>
              let im5 := (im4.SetTag TagStripOffsets TagTypeLong (.uint32s stripOffsets)).1
              let im6 := (im5.SetTag TagStripByteCounts TagTypeLong
                (.uint32s stripByteCounts)).1
              match im6.EncodeTags im6.Offset with
              | (_, .error _) => none
              | (_, .ok buf2) => some (buf, buf2)
          else none

/-- A BigTIFF little-endian file whose only directory (offset 16) has one
entry: identifier 256, type Long8 (16, eight bytes per value), the count
`2^61 + 1` and the value field 1 2 3 4 5 6 7 8.  The file has 52 bytes. -/
def overflowInlineFile : List Nat :=
  [73, 73, 43, 0, 8, 0, 0, 0, 16, 0, 0, 0, 0, 0, 0, 0,
   1, 0, 0, 0, 0, 0, 0, 0,
   0, 1, 16, 0, 1, 0, 0, 0, 0, 0, 0, 32, 1, 2, 3, 4, 5, 6, 7, 8,
   0, 0, 0, 0, 0, 0, 0, 0]

/-- The decoder that `NewDecoder` gives for `overflowInlineFile`. -/
def overflowInlineDecoder : Decoder :=
  { Header := { ByteOrder := .LittleEndian, Version := VersionBigTIFF, OffsetFirstIFD := 16 },
    r := overflowInlineFile }

/-- A BigTIFF little-endian file whose only directory (offset 16) has four
entries, StripOffsets (273), StripByteCounts (279), TileOffsets (324) and
TileByteCounts (325), each of the type Long8 (16) with the count `2^61` and a
value field of zeros. -/
def hugeCountFile : List Nat :=
  [73, 73, 43, 0, 8, 0, 0, 0, 16, 0, 0, 0, 0, 0, 0, 0,
   4, 0, 0, 0, 0, 0, 0, 0,
   17, 1, 16, 0, 0, 0, 0, 0, 0, 0, 0, 32, 0, 0, 0, 0, 0, 0, 0, 0,
   23, 1, 16, 0, 0, 0, 0, 0, 0, 0, 0, 32, 0, 0, 0, 0, 0, 0, 0, 0,
   68, 1, 16, 0, 0, 0, 0, 0, 0, 0, 0, 32, 0, 0, 0, 0, 0, 0, 0, 0,
   69, 1, 16, 0, 0, 0, 0, 0, 0, 0, 0, 32, 0, 0, 0, 0, 0, 0, 0, 0,
   0, 0, 0, 0, 0, 0, 0, 0]

/-! ## The expected number of segments in float64 arithmetic

`DecodeImage` and `EncodeImage` compute the expected number of strips and of
tile rows and columns as `(int)(math.Ceil((float64)(a) / (float64)(b)))`.  The
definitions below give the value of that expression: the conversions to
`float64` and the division round to the nearest float64, ties to even. -/

/-- The integer nearest to the quotient `n / d` of two natural numbers
(`d > 0`), the even one of the two when the quotient lies halfway between two
integers. -/
def roundHalfEven (n d : Nat) : Nat :=
  if 2 * (n % d) < d then n / d
  else if d < 2 * (n % d) then n / d + 1
  else if (n / d) % 2 = 0 then n / d else n / d + 1

/-- The search for the binade of the quotient `n / d`: the largest `i` up to
the given bound with `2^(i - 65) ≤ n / d`, that is `d * 2^i ≤ n * 2^65`
(0 when there is none). -/
def binadeSearch (n d : Nat) : Nat → Nat
  | 0 => 0
  | i + 1 => if d * 2 ^ (i + 1) ≤ n * 2 ^ 65 then i + 1 else binadeSearch n d i

/-- The binary exponent of the quotient `n / d` of two natural numbers from 1
to `2^64`, biased by 65: the number `i` with
`2^(i - 65) ≤ n / d < 2^(i - 64)`. -/
def binade (n d : Nat) : Nat := binadeSearch n d 130

/-- The float64 nearest to the quotient `n / d` of two natural numbers from 1
to `2^64`, ties to even: a pair `(m, i)` that stands for the number
`m * 2^(i - 117)`.  Here `i` is the biased binary exponent of the quotient, so
that `n / (d * 2^(i - 117))` lies between `2^52` and `2^53`, and the
significand `m` is this number rounded to the nearest integer, ties to even.
(The quotients lie between `2^-64` and `2^64`, inside the range of the normal
float64 numbers, whose significands have 53 bits.) -/
def float64Quotient (n d : Nat) : Nat × Nat :=
  (roundHalfEven (n * 2 ^ (117 - binade n d)) (d * 2 ^ (binade n d - 117)), binade n d)

/-- The least integer not below the number `m * 2^(i - 117)`. -/
def float64Ceil (p : Nat × Nat) : Nat :=
  (p.1 * 2 ^ (p.2 - 117) + 2 ^ (117 - p.2) - 1) / 2 ^ (117 - p.2)

/-- The greatest integer not above the number `m * 2^(i - 117)`. -/
def float64Floor (p : Nat × Nat) : Nat :=
  p.1 * 2 ^ (p.2 - 117) / 2 ^ (117 - p.2)

/-- The value of `float64(a)` for a natural number `a` below `2^64` (the
magnitude of an `int`, or a `uint`): the float64 nearest to `a`, which is an
integer. -/
def float64OfNat (a : Nat) : Nat :=
  if a = 0 then 0 else float64Floor (float64Quotient a 1)

/-- The value of the Go expression
`(int)(math.Ceil((float64)(a) / (float64)(b)))` for two integers `a` and `b`
of 64 bits (`b` may also be a `uint`).  The result is `none` where Go leaves
the conversion to `int` to the implementation: when `b` is 0, so that the
quotient is infinite or not a number, and when the ceiling is `2^63`. -/
def ceilOfQuotient (a b : Int) : Option Int :=
  if b = 0 then none
  else if a = 0 then some 0
  else
    let q := float64Quotient (float64OfNat a.natAbs) (float64OfNat b.natAbs)
    let r : Int := if (0 < a ∧ 0 < b) ∨ (a < 0 ∧ b < 0) then (float64Ceil q : Int)
      else -(float64Floor q : Int)
    if r < 2 ^ 63 then some r else none

/-- The test of the segment count that opens the strip mode and the tile mode
of `DecodeImage`, for an image that passed the validation with the geometry
`g`, in the arithmetic of the source: width and height are values of type
`int`, the expected counts are values of
`(int)(math.Ceil((float64)(a) / (float64)(b)))`, and the product `nx * ny` is
an `int` that wraps around.  The result is `some none` when the test passes
and `DecodeImage` goes on to the segments, `some (some e)` when `DecodeImage`
returns the error `e` here, and `none` where the source converts a float64 to
`int` that Go leaves to the implementation. -/
def Image.segmentCountTest (im : Image) (g : Geometry) : Option (Option Error) :=
  let numStrips := im.NumStrips
  if numStrips > 0 then
    match Tag.Uint (TagMap.find im.Tag TagRowsPerStrip) with
    | .error e => some (some e)
    | .ok (rowsPerStrip, ok) =>
      if ¬ ok then some (some (.format "invalid RowsPerStrip"))
      else
        match ceilOfQuotient (toInt64 g.height) rowsPerStrip with
        | none => none
        | some ny =>
          if ny ≠ numStrips then some (some (.format "expecting strips, found strips"))
          else some none
  else
    let numTiles := im.NumTiles
    if numTiles > 0 then
      match Tag.Uint (TagMap.find im.Tag TagTileLength) with
      | .error e => some (some e)
      | .ok (tileHeight, okH) =>
        if ¬ okH then some (some (.format "invalid TagTileLength"))
        else
          match ceilOfQuotient (toInt64 g.height) tileHeight with
          | none => none
          | some ny =>
            match Tag.Uint (TagMap.find im.Tag TagTileWidth) with
            | .error e => some (some e)
            | .ok (tileWidth, okW) =>
              if ¬ okW then some (some (.format "invalid TagTileWidth"))
              else
                match ceilOfQuotient (toInt64 g.width) tileWidth with
                | none => none
                | some nx =>
                  if wrapInt64 (nx * ny) ≠ numTiles then
                    some (some (.format "expecting tiles, found tiles"))
                  else some none
    else some (some (.other "no strip or tile found"))

/-- A BigTIFF little-endian file with one strip image (directory at offset
16): ImageWidth 4 (Short), ImageLength `2^62 + 1` (Long8), BitsPerSample 8,
SamplesPerPixel 1, RowsPerStrip `2^62` (Long8), and one strip of 4 bytes at
offset 172 (StripOffsets 172, StripByteCounts 4).  The product of width and
height is `2^64 + 4`. -/
def roundedHeightFile : List Nat :=
  [73, 73, 43, 0, 8, 0, 0, 0, 16, 0, 0, 0, 0, 0, 0, 0,
   7, 0, 0, 0, 0, 0, 0, 0,
   0, 1, 3, 0, 1, 0, 0, 0, 0, 0, 0, 0, 4, 0, 0, 0, 0, 0, 0, 0,
   1, 1, 16, 0, 1, 0, 0, 0, 0, 0, 0, 0, 1, 0, 0, 0, 0, 0, 0, 64,
   2, 1, 3, 0, 1, 0, 0, 0, 0, 0, 0, 0, 8, 0, 0, 0, 0, 0, 0, 0,
   17, 1, 4, 0, 1, 0, 0, 0, 0, 0, 0, 0, 172, 0, 0, 0, 0, 0, 0, 0,
   21, 1, 3, 0, 1, 0, 0, 0, 0, 0, 0, 0, 1, 0, 0, 0, 0, 0, 0, 0,
   22, 1, 16, 0, 1, 0, 0, 0, 0, 0, 0, 0, 0, 0, 0, 0, 0, 0, 0, 64,
   23, 1, 4, 0, 1, 0, 0, 0, 0, 0, 0, 0, 4, 0, 0, 0, 0, 0, 0, 0,
   0, 0, 0, 0, 0, 0, 0, 0,
   9, 8, 7, 6]

/-- A BigTIFF little-endian file with one tiled image (directory at offset
16): ImageWidth 274177 (Long), ImageLength 67280421310721 (Long8),
BitsPerSample 8, SamplesPerPixel 1, TileWidth 1, TileLength 1, and one tile,
the byte 7 at offset 192 (TileOffsets 192, TileByteCounts 1).  The product of
width and height is `2^64 + 1`. -/
def wrappedTileCountFile : List Nat :=
  [73, 73, 43, 0, 8, 0, 0, 0, 16, 0, 0, 0, 0, 0, 0, 0,
   8, 0, 0, 0, 0, 0, 0, 0,
   0, 1, 4, 0, 1, 0, 0, 0, 0, 0, 0, 0, 1, 47, 4, 0, 0, 0, 0, 0,
   1, 1, 16, 0, 1, 0, 0, 0, 0, 0, 0, 0, 1, 209, 156, 241, 48, 61, 0, 0,
   2, 1, 3, 0, 1, 0, 0, 0, 0, 0, 0, 0, 8, 0, 0, 0, 0, 0, 0, 0,
   21, 1, 3, 0, 1, 0, 0, 0, 0, 0, 0, 0, 1, 0, 0, 0, 0, 0, 0, 0,
   66, 1, 3, 0, 1, 0, 0, 0, 0, 0, 0, 0, 1, 0, 0, 0, 0, 0, 0, 0,
   67, 1, 3, 0, 1, 0, 0, 0, 0, 0, 0, 0, 1, 0, 0, 0, 0, 0, 0, 0,
   68, 1, 4, 0, 1, 0, 0, 0, 0, 0, 0, 0, 192, 0, 0, 0, 0, 0, 0, 0,
   69, 1, 4, 0, 1, 0, 0, 0, 0, 0, 0, 0, 1, 0, 0, 0, 0, 0, 0, 0,
   0, 0, 0, 0, 0, 0, 0, 0,
   7]

/-! ## Byte-order lemmas -/

theorem putLE_length (w v : Nat) : (putLE w v).length = w := by
  induction w generalizing v with
  | zero => rfl
  | succ w ih => simp [putLE, ih]

theorem leNat_putLE (w v : Nat) : leNat (putLE w v) = v % 256 ^ w := by
  induction w generalizing v with
  | zero => simp [putLE, leNat, Nat.mod_one]
  | succ w ih =>
    simp only [putLE, leNat, ih]
    rw [pow_succ, Nat.mul_comm (256 ^ w) 256, Nat.mod_mul]

theorem putLE_mod (w v : Nat) : putLE w (v % 256 ^ w) = putLE w v := by
  induction w generalizing v with
  | zero => rfl
  | succ w ih =>
    simp only [putLE]
    have h1 : v % 256 ^ (w + 1) % 256 = v % 256 := by
      rw [pow_succ, Nat.mul_comm]; exact Nat.mod_mul_right_mod v 256 (256 ^ w)
    have h2 : v % 256 ^ (w + 1) / 256 = (v / 256) % 256 ^ w := by
      rw [pow_succ, Nat.mul_comm, Nat.mod_mul_right_div_self]
    rw [h1, h2, ih]

theorem ByteOrder.PutUint_length (bo : ByteOrder) (w v : Nat) : (bo.PutUint w v).length = w := by
  cases bo <;> simp [ByteOrder.PutUint, putLE_length]

theorem ByteOrder.Uint_PutUint (bo : ByteOrder) (w v : Nat) :
    bo.Uint (bo.PutUint w v) = v % 256 ^ w := by
  cases bo <;> simp [ByteOrder.Uint, ByteOrder.PutUint, leNat_putLE]

theorem ByteOrder.Uint16_PutUint16 (bo : ByteOrder) (v : Nat) (hv : v < 2 ^ 16) :
    bo.Uint16 (bo.PutUint16 v) = v := by
  have hl := bo.PutUint_length 2 v
  rw [ByteOrder.Uint16, ByteOrder.PutUint16, List.take_of_length_le (by omega),
    ByteOrder.Uint_PutUint]
  exact Nat.mod_eq_of_lt (by norm_num at hv ⊢; exact hv)

theorem ByteOrder.Uint32_PutUint32 (bo : ByteOrder) (v : Nat) (hv : v < 2 ^ 32) :
    bo.Uint32 (bo.PutUint32 v) = v := by
  have hl := bo.PutUint_length 4 v
  rw [ByteOrder.Uint32, ByteOrder.PutUint32, List.take_of_length_le (by omega),
    ByteOrder.Uint_PutUint]
  exact Nat.mod_eq_of_lt (by norm_num at hv ⊢; exact hv)

theorem ByteOrder.Uint64_PutUint64 (bo : ByteOrder) (v : Nat) (hv : v < 2 ^ 64) :
    bo.Uint64 (bo.PutUint64 v) = v := by
  have hl := bo.PutUint_length 8 v
  rw [ByteOrder.Uint64, ByteOrder.PutUint64, List.take_of_length_le (by omega),
    ByteOrder.Uint_PutUint]
  exact Nat.mod_eq_of_lt (by norm_num at hv ⊢; exact hv)

theorem toInt64_of_lt (n : Nat) (h : n < 2 ^ 63) : toInt64 n = (n : Int) := by
  have h1 : n % 2 ^ 64 = n := Nat.mod_eq_of_lt (by omega)
  unfold toInt64
  rw [h1, if_pos h]

theorem wrapInt64_of_lt (n : Nat) (h : n < 2 ^ 63) : wrapInt64 (n : Int) = (n : Int) := by
  have h1 : ((n : Int) % 2 ^ 64).toNat = n := by
    have : ((n : Int) % 2 ^ 64) = ((n % 2 ^ 64 : Nat) : Int) := by norm_cast
    rw [this, Int.toNat_ofNat]; exact Nat.mod_eq_of_lt (by omega)
  rw [wrapInt64, h1, toInt64_of_lt n h]

/-! ## List slices -/

theorem slice_append_mid (a b c : List Nat) :
    slice (a ++ b ++ c) a.length (a.length + b.length) = b := by
  simp [slice, List.append_assoc]

theorem slice_initial (b c : List Nat) : slice (b ++ c) 0 b.length = b := by
  simp [slice]

theorem ReadAt_append_mid (a b c : List Nat) (n off : Nat) (hn : n = b.length)
    (hoff : off = a.length) : ReadAt (a ++ b ++ c) n off = some b := by
  subst hn hoff
  have : a.length + b.length ≤ (a ++ b ++ c).length := by simp
  simp only [ReadAt, this, if_true, slice_append_mid]

/-! ## Tag maps -/

theorem TagMap.insert_append (m : List Tag) (t : Tag) (h : ∀ x ∈ m, x.ID < t.ID) :
    TagMap.insert m t = m ++ [t] := by
  induction m with
  | nil => rfl
  | cons x xs ih =>
    have hx : x.ID < t.ID := h x (by simp)
    have h1 : ¬ t.ID < x.ID := by omega
    have h2 : ¬ t.ID = x.ID := by omega
    simp only [TagMap.insert, h1, h2, if_false, List.cons_append]
    rw [ih (fun y hy => h y (by simp [hy]))]

theorem TagMap.foldl_insert_sorted (ts m : List Tag)
    (hs : (m ++ ts).Pairwise (fun a b => a.ID < b.ID)) :
    ts.foldl TagMap.insert m = m ++ ts := by
  induction ts generalizing m with
  | nil => simp
  | cons t ts ih =>
    have hm : ∀ x ∈ m, x.ID < t.ID := by
      intro x hx
      rw [List.pairwise_append] at hs
      exact hs.2.2 x hx t (by simp)
    rw [List.foldl_cons, TagMap.insert_append m t hm, ih]
    · simp
    · simpa using hs

theorem TypeSize_of_gt (t : Nat) (h : 18 < t) : TagType.Size t = 0 := by
  unfold TagType.Size
  repeat rw [if_neg (by omega)]

theorem TypeSize_le (t : Nat) : TagType.Size t ≤ 8 := by
  by_cases h : 18 < t
  · rw [TypeSize_of_gt t h]; omega
  · have h2 : t ≤ 18 := by omega
    interval_cases t <;> decide

theorem TypeSize_pos_lt (t : Nat) (h : 1 ≤ TagType.Size t) : t < 2 ^ 16 := by
  by_cases h1 : 18 < t
  · rw [TypeSize_of_gt t h1] at h; omega
  · omega

/-! ## Directory round trip -/

theorem slice_entry (a b c d : List Nat) (p q r : Nat) (ha : a.length = 2) (hb : b.length = 2)
    (hc : c.length = p) (hd : d.length = p) (hq : q = 4 + p) (hr : r = 4 + p + p) :
    slice (a ++ b ++ c ++ d) 0 2 = a ∧ slice (a ++ b ++ c ++ d) 2 4 = b ∧
      slice (a ++ b ++ c ++ d) 4 q = c ∧ slice (a ++ b ++ c ++ d) q r = d := by
  subst hq hr
  refine ⟨?_, ?_, ?_, ?_⟩
  · have := slice_initial a (b ++ c ++ d)
    rw [ha] at this
    simpa [List.append_assoc] using this
  · have := slice_append_mid a b (c ++ d)
    rw [ha, hb] at this
    simpa [List.append_assoc] using this
  · have := slice_append_mid (a ++ b) c d
    rw [List.length_append, ha, hb, hc] at this
    simpa [List.append_assoc] using this
  · have := slice_append_mid (a ++ b ++ c) d []
    rw [List.length_append, List.length_append, ha, hb, hc, hd] at this
    simpa [List.append_assoc] using this

theorem encodeEntry_length (h : Header) (offset ext : Nat) (t : Tag) :
    (encodeEntry h offset ext t).length = h.bytesOfEntry := by
  unfold encodeEntry Header.bytesOfEntry
  by_cases hc : h.Version = VersionClassicTIFF
  · simp only [hc, if_true]
    by_cases hl : t.Data.length ≤ 4
    · simp [hl, ByteOrder.PutUint16, ByteOrder.PutUint32, ByteOrder.PutUint_length]
    · simp [hl, ByteOrder.PutUint16, ByteOrder.PutUint32, ByteOrder.PutUint_length]
  · simp only [hc, if_false]
    by_cases hl : t.Data.length ≤ 8
    · simp [hl, ByteOrder.PutUint16, ByteOrder.PutUint64, ByteOrder.PutUint_length]
    · simp [hl, ByteOrder.PutUint16, ByteOrder.PutUint64, ByteOrder.PutUint_length]

theorem Tag.Built.count_le {t : Tag} (hb : t.Built) : t.Count ≤ t.Data.length := by
  obtain ⟨_, h1, h2⟩ := hb
  rw [h2]
  exact Nat.le_mul_of_pos_left _ (by omega)

theorem decodeEntry_encodeEntry_classic (h : Header) (offset ext i : Nat) (t : Tag)
    (S0 R src : List Nat)
    (hc : h.Version = VersionClassicTIFF)
    (hsrc : src = S0 ++ encodeEntry h offset ext t ++ R)
    (hS0 : S0.length = offset + 2 + i * 12)
    (hb : t.Built) (hext : 0 < ext)
    (hfit : 4 < t.Data.length → offset + ext + t.Data.length ≤ 2 ^ 32)
    (hdata : 4 < t.Data.length →
      ReadAt src t.Data.length (offset + ext) = some t.Data) :
    decodeEntry ⟨h, src⟩ offset i = .ok
      { ID := t.ID, Typ := t.Typ, Count := t.Count, Data := t.Data, Header := some h,
        OffsetEntry := offset + 2 + i * 12,
        OffsetData := if t.Data.length ≤ 4 then 0 else offset + ext } := by
  have hcnt := hb.count_le
  obtain ⟨hid, hsz, hlen⟩ := hb
  have hty := TypeSize_pos_lt t.Typ hsz
  have hread : ReadAt src 12 (offset + 2 + i * 12) = some (encodeEntry h offset ext t) := by
    rw [hsrc]
    refine ReadAt_append_mid _ _ _ _ _ ?_ hS0.symm
    rw [encodeEntry_length, Header.bytesOfEntry, if_pos hc]
  have hcount : t.Count < 2 ^ 32 := by
    by_cases hl : 4 < t.Data.length
    · have := hfit hl; omega
    · omega
  have hprod : toInt64 (TagType.Size t.Typ * t.Count) = (t.Data.length : Int) := by
    rw [← hlen]
    apply toInt64_of_lt
    by_cases hl : 4 < t.Data.length
    · have := hfit hl; omega
    · omega
  have hE : encodeEntry h offset ext t = h.ByteOrder.PutUint16 t.ID ++
      h.ByteOrder.PutUint16 t.Typ ++ h.ByteOrder.PutUint32 t.Count ++
      (if t.Data.length ≤ 4 then t.Data ++ List.replicate (4 - t.Data.length) 0
       else h.ByteOrder.PutUint32 ((offset + ext) % 2 ^ 32)) := by
    simp only [encodeEntry, hc, if_true, Nat.mod_eq_of_lt hid, Nat.mod_eq_of_lt hty,
      Nat.mod_eq_of_lt hcount]
  obtain ⟨s1, s2, s3, s4⟩ := slice_entry (h.ByteOrder.PutUint16 t.ID)
    (h.ByteOrder.PutUint16 t.Typ) (h.ByteOrder.PutUint32 t.Count)
    (if t.Data.length ≤ 4 then t.Data ++ List.replicate (4 - t.Data.length) 0
       else h.ByteOrder.PutUint32 ((offset + ext) % 2 ^ 32)) 4 8 12
    (ByteOrder.PutUint_length _ _ _) (ByteOrder.PutUint_length _ _ _)
    (ByteOrder.PutUint_length _ _ _)
    (by split
        · simp; omega
        · exact ByteOrder.PutUint_length _ _ _) rfl rfl
  rw [hE] at hread
  simp only [decodeEntry, hc, if_true, hread, s1, s2, s3, s4, hprod,
    ByteOrder.Uint16_PutUint16 _ _ hid, ByteOrder.Uint16_PutUint16 _ _ hty,
    ByteOrder.Uint32_PutUint32 _ _ hcount, not_true_eq_false, false_and, if_false]
  by_cases hl : t.Data.length ≤ 4
  · have h1 : ¬ ((t.Data.length : Int) < 0) := by omega
    simp only [h1, if_false, hl, if_true, Int.toNat_ofNat]
    split
    · rename_i h2; exfalso; simp at h2; omega
    · simp
  · have h1 : ¬ ((t.Data.length : Int) < 0) := by omega
    have h3 : (offset + ext) % 2 ^ 32 = offset + ext := by
      have := hfit (by omega)
      exact Nat.mod_eq_of_lt (by omega)
    have h4 : offset + ext < 2 ^ 32 := by
      have := hfit (by omega); omega
    simp only [h1, if_false, hl, if_true, Int.toNat_ofNat, h3,
      ByteOrder.Uint32_PutUint32 _ _ h4, hdata (by omega)]
    split
    · rfl
    · rename_i h2; exfalso; simp at h2; omega

theorem decodeEntry_encodeEntry_big (h : Header) (offset ext i : Nat) (t : Tag)
    (S0 R src : List Nat)
    (hv : h.Version = VersionBigTIFF)
    (hsrc : src = S0 ++ encodeEntry h offset ext t ++ R)
    (hS0 : S0.length = offset + 8 + i * 20)
    (hb : t.Built) (hext : 0 < ext)
    (hfit : 8 < t.Data.length → offset + ext + t.Data.length ≤ 2 ^ 63)
    (hdata : 8 < t.Data.length →
      ReadAt src t.Data.length (offset + ext) = some t.Data) :
    decodeEntry ⟨h, src⟩ offset i = .ok
      { ID := t.ID, Typ := t.Typ, Count := t.Count, Data := t.Data, Header := some h,
        OffsetEntry := offset + 8 + i * 20,
        OffsetData := if t.Data.length ≤ 8 then 0 else offset + ext } := by
  have hc : ¬ h.Version = VersionClassicTIFF := by rw [hv]; decide
  have hcnt := hb.count_le
  obtain ⟨hid, hsz, hlen⟩ := hb
  have hty := TypeSize_pos_lt t.Typ hsz
  have hread : ReadAt src 20 (offset + 8 + i * 20) = some (encodeEntry h offset ext t) := by
    rw [hsrc]
    refine ReadAt_append_mid _ _ _ _ _ ?_ hS0.symm
    rw [encodeEntry_length, Header.bytesOfEntry, if_neg hc]
  have hcount : t.Count < 2 ^ 63 := by
    by_cases hl : 8 < t.Data.length
    · have := hfit hl; omega
    · omega
  have hcount2 : t.Count < 2 ^ 64 := by omega
  have hprod : toInt64 (TagType.Size t.Typ * t.Count) = (t.Data.length : Int) := by
    rw [← hlen]
    apply toInt64_of_lt
    by_cases hl : 8 < t.Data.length
    · have := hfit hl; omega
    · omega
  have hE : encodeEntry h offset ext t = h.ByteOrder.PutUint16 t.ID ++
      h.ByteOrder.PutUint16 t.Typ ++ h.ByteOrder.PutUint64 t.Count ++
      (if t.Data.length ≤ 8 then t.Data ++ List.replicate (8 - t.Data.length) 0
       else h.ByteOrder.PutUint64 ((offset + ext) % 2 ^ 64)) := by
    simp only [encodeEntry, hc, if_false, Nat.mod_eq_of_lt hid, Nat.mod_eq_of_lt hty,
      Nat.mod_eq_of_lt hcount2]
  obtain ⟨s1, s2, s3, s4⟩ := slice_entry (h.ByteOrder.PutUint16 t.ID)
    (h.ByteOrder.PutUint16 t.Typ) (h.ByteOrder.PutUint64 t.Count)
    (if t.Data.length ≤ 8 then t.Data ++ List.replicate (8 - t.Data.length) 0
       else h.ByteOrder.PutUint64 ((offset + ext) % 2 ^ 64)) 8 12 20
    (ByteOrder.PutUint_length _ _ _) (ByteOrder.PutUint_length _ _ _)
    (ByteOrder.PutUint_length _ _ _)
    (by split
        · simp; omega
        · exact ByteOrder.PutUint_length _ _ _) rfl rfl
  rw [hE] at hread
  have hmax : ¬ (t.Count > maxInt) := by unfold maxInt; omega
  simp only [decodeEntry, hc, if_false, hread, s1, s2, s3, s4, hprod,
    ByteOrder.Uint16_PutUint16 _ _ hid, ByteOrder.Uint16_PutUint16 _ _ hty,
    ByteOrder.Uint64_PutUint64 _ _ hcount2, not_false_eq_true, true_and, hmax]
  by_cases hl : t.Data.length ≤ 8
  · have h1 : ¬ ((t.Data.length : Int) < 0) := by omega
    simp only [h1, if_false, hl, if_true, Int.toNat_ofNat]
    split
    · rename_i h2; exfalso; simp at h2; omega
    · simp
  · have h1 : ¬ ((t.Data.length : Int) < 0) := by omega
    have h3 : (offset + ext) % 2 ^ 64 = offset + ext := by
      have := hfit (by omega)
      exact Nat.mod_eq_of_lt (by omega)
    have h4 : offset + ext < 2 ^ 64 := by
      have := hfit (by omega); omega
    have h5 : ¬ (offset + ext > maxInt64) := by
      have := hfit (by omega); unfold maxInt64; omega
    simp only [h1, if_false, hl, if_true, Int.toNat_ofNat, h3,
      ByteOrder.Uint64_PutUint64 _ _ h4, hdata (by omega), h5]
    split
    · rfl
    · rename_i h2; exfalso; simp at h2; omega

theorem decodeEntry_encodeEntry (h : Header) (offset ext i : Nat) (t : Tag)
    (S0 R src : List Nat)
    (hver : h.Version = VersionClassicTIFF ∨ h.Version = VersionBigTIFF)
    (hsrc : src = S0 ++ encodeEntry h offset ext t ++ R)
    (hS0 : S0.length = offset + h.bytesOfNumTags + i * h.bytesOfEntry)
    (hb : t.Built) (hext : 0 < ext)
    (hfit : h.byteOfOffset < t.Data.length → offset + ext + t.Data.length ≤ h.offsetLimit)
    (hdata : h.byteOfOffset < t.Data.length →
      ReadAt src t.Data.length (offset + ext) = some t.Data) :
    decodeEntry ⟨h, src⟩ offset i = .ok (decodedTag h offset i ext t) := by
  rcases hver with hv | hv
  · simp only [Header.bytesOfNumTags, Header.bytesOfEntry, Header.byteOfOffset,
      Header.offsetLimit, hv, if_true] at hS0 hfit hdata
    rw [decodeEntry_encodeEntry_classic h offset ext i t S0 R src hv hsrc hS0 hb hext hfit hdata]
    simp only [decodedTag, Header.bytesOfNumTags, Header.bytesOfEntry, Header.byteOfOffset,
      hv, if_true]
  · have hc : ¬ h.Version = VersionClassicTIFF := by rw [hv]; decide
    simp only [Header.bytesOfNumTags, Header.bytesOfEntry, Header.byteOfOffset,
      Header.offsetLimit, hc, if_false] at hS0 hfit hdata
    rw [decodeEntry_encodeEntry_big h offset ext i t S0 R src hv hsrc hS0 hb hext hfit hdata]
    simp only [decodedTag, Header.bytesOfNumTags, Header.bytesOfEntry, Header.byteOfOffset,
      hc, if_false]

theorem encodeEntries_fst_length (h : Header) (offset p : Nat) (ts : List Tag) (ext : Nat) :
    (encodeEntries h offset p ts ext).1.length = ts.length * h.bytesOfEntry := by
  induction ts generalizing ext with
  | nil => simp [encodeEntries]
  | cons t ts ih =>
    simp only [encodeEntries]
    split <;> simp [encodeEntry_length, ih] <;> ring

theorem decodeEntries_encodeEntries (h : Header) (offset : Nat) (src : List Nat)
    (hver : h.Version = VersionClassicTIFF ∨ h.Version = VersionBigTIFF)
    (rest : List Tag) : ∀ (S0 M post : List Nat) (i ext : Nat) (m : List Tag),
    src = S0 ++ (encodeEntries h offset h.byteOfOffset rest ext).1 ++ M ++
      (encodeEntries h offset h.byteOfOffset rest ext).2 ++ post →
    S0.length = offset + h.bytesOfNumTags + i * h.bytesOfEntry →
    S0.length + (encodeEntries h offset h.byteOfOffset rest ext).1.length + M.length
      = offset + ext →
    0 < ext →
    offset + ext + (encodeEntries h offset h.byteOfOffset rest ext).2.length ≤ h.offsetLimit →
    (∀ t ∈ rest, t.Built ∧ 0 < t.ID) →
    decodeEntries ⟨h, src⟩ offset 0 rest.length i m =
      .ok ((decodedTags h offset rest i ext).foldl TagMap.insert m) := by
  induction rest with
  | nil => intros; simp [decodeEntries, decodedTags]
  | cons t ts ih =>
    intro S0 M post i ext m hsrc hS0 hpos hext hfit hall
    have ht := hall t (by simp)
    by_cases hl : t.Data.length ≤ h.byteOfOffset
    · -- inline payload
      simp only [encodeEntries, hl, if_true] at hsrc hpos hfit
      have hdec := decodeEntry_encodeEntry h offset ext i t S0
        ((encodeEntries h offset h.byteOfOffset ts ext).1 ++ M ++
          (encodeEntries h offset h.byteOfOffset ts ext).2 ++ post) src hver
        (by rw [hsrc]; simp [List.append_assoc]) hS0 ht.1 hext
        (fun h1 => by omega) (fun h1 => by omega)
      have hid : ¬ ((decodedTag h offset i ext t).ID : Int) ≤ 0 := by
        simp only [decodedTag]; have := ht.2; omega
      simp only [List.length_cons, decodeEntries, hdec, hid, if_false, decodedTags, hl, if_true,
        List.foldl_cons]
      refine ih (S0 ++ encodeEntry h offset ext t) M post (i + 1) ext _ ?_ ?_ ?_ hext hfit
        (fun x hx => hall x (by simp [hx]))
      · rw [hsrc]; simp [List.append_assoc]
      · rw [List.length_append, hS0, encodeEntry_length]; ring
      · rw [← hpos]; simp only [List.length_append]; ring
    · -- out-of-line payload
      simp only [encodeEntries, hl, if_false] at hsrc hpos hfit
      have hlen1 : (S0 ++ (encodeEntry h offset ext t ++
          (encodeEntries h offset h.byteOfOffset ts (ext + t.Data.length)).1) ++ M).length
          = offset + ext := by
        rw [← hpos]; simp only [List.length_append]
      have hdec := decodeEntry_encodeEntry h offset ext i t S0
        ((encodeEntries h offset h.byteOfOffset ts (ext + t.Data.length)).1 ++ M ++
          (t.Data ++ (encodeEntries h offset h.byteOfOffset ts (ext + t.Data.length)).2) ++ post)
        src hver
        (by rw [hsrc]; simp [List.append_assoc]) hS0 ht.1 hext
        (fun h1 => by simp only [List.length_append] at hfit; omega)
        (fun h1 => by
          rw [hsrc]
          have := ReadAt_append_mid (S0 ++ (encodeEntry h offset ext t ++
            (encodeEntries h offset h.byteOfOffset ts (ext + t.Data.length)).1) ++ M) t.Data
            ((encodeEntries h offset h.byteOfOffset ts (ext + t.Data.length)).2 ++ post)
            t.Data.length (offset + ext) rfl hlen1.symm
          rw [← this]
          simp [List.append_assoc])
      have hid : ¬ ((decodedTag h offset i ext t).ID : Int) ≤ 0 := by
        simp only [decodedTag]; have := ht.2; omega
      simp only [List.length_cons, decodeEntries, hdec, hid, if_false, decodedTags, hl,
        List.foldl_cons]
      refine ih (S0 ++ encodeEntry h offset ext t) (M ++ t.Data) post (i + 1)
        (ext + t.Data.length) _ ?_ ?_ ?_ (by omega) ?_ (fun x hx => hall x (by simp [hx]))
      · rw [hsrc]; simp [List.append_assoc]
      · rw [List.length_append, hS0, encodeEntry_length]; ring
      · have := hpos
        simp only [List.length_append] at this ⊢
        omega
      · simp only [List.length_append] at hfit; omega

theorem decodedTags_ids (h : Header) (offset : Nat) (ts : List Tag) (i ext : Nat) :
    (decodedTags h offset ts i ext).map (fun t => t.ID) = ts.map (fun t => t.ID) := by
  induction ts generalizing i ext with
  | nil => rfl
  | cons t ts ih => simp [decodedTags, decodedTag, ih]

theorem decodedTags_content (h : Header) (offset : Nat) (ts : List Tag) (i ext : Nat) :
    (decodedTags h offset ts i ext).map Tag.content = ts.map Tag.content := by
  induction ts generalizing i ext with
  | nil => rfl
  | cons t ts ih => simp [decodedTags, decodedTag, ih, Tag.content]

theorem decodedTags_header (h : Header) (offset : Nat) (ts : List Tag) (i ext : Nat) :
    ∀ t ∈ decodedTags h offset ts i ext, t.Header = some h := by
  induction ts generalizing i ext with
  | nil => simp [decodedTags]
  | cons t ts ih =>
    intro x hx
    simp only [decodedTags, List.mem_cons] at hx
    rcases hx with hx | hx
    · rw [hx]; rfl
    · exact ih _ _ x hx

theorem pairwise_ID_of_map_eq {l1 l2 : List Tag}
    (hm : l1.map (fun t => t.ID) = l2.map (fun t => t.ID))
    (hs : l2.Pairwise (fun a b => a.ID < b.ID)) : l1.Pairwise (fun a b => a.ID < b.ID) := by
  have h2 : (l2.map (fun t => t.ID)).Pairwise (· < ·) := by
    rw [List.pairwise_map]; exact hs
  rw [← hm, List.pairwise_map] at h2
  exact h2

theorem decodedTags_sorted (h : Header) (offset : Nat) (ts : List Tag) (i ext : Nat)
    (hs : TagMap.Sorted ts) : TagMap.Sorted (decodedTags h offset ts i ext) :=
  pairwise_ID_of_map_eq (decodedTags_ids h offset ts i ext) hs

theorem sorted_length_lt (ts : List Tag) (N : Nat) (hs : TagMap.Sorted ts)
    (hb : ∀ t ∈ ts, 0 < t.ID ∧ t.ID < N) : ts.length < N ∨ ts = [] := by
  by_cases hnil : ts = []
  · exact Or.inr hnil
  left
  have hnd : (ts.map (fun t => t.ID)).Nodup := by
    rw [List.Nodup, List.pairwise_map]
    exact hs.imp (fun hab => Nat.ne_of_lt hab)
  have hsub : (ts.map (fun t => t.ID)).toFinset ⊆ Finset.Ico 1 N := by
    intro x hx
    simp only [List.mem_toFinset, List.mem_map] at hx
    obtain ⟨t, ht, rfl⟩ := hx
    have := hb t ht
    simp only [Finset.mem_Ico]; omega
  have hcard := Finset.card_le_card hsub
  rw [List.toFinset_card_of_nodup hnd, List.length_map, Nat.card_Ico] at hcard
  obtain ⟨t, ht⟩ := List.exists_mem_of_ne_nil ts hnil
  have := hb t ht
  omega

theorem encodeEntries_snd_length_le (h : Header) (offset p : Nat) (ts : List Tag) (ext : Nat)
    (t : Tag) (ht : t ∈ ts) (hl : p < t.Data.length) :
    t.Data.length ≤ (encodeEntries h offset p ts ext).2.length := by
  induction ts generalizing ext with
  | nil => simp at ht
  | cons x xs ih =>
    simp only [List.mem_cons] at ht
    simp only [encodeEntries]
    rcases ht with ht | ht
    · subst ht
      have : ¬ t.Data.length ≤ p := by omega
      simp [this]
    · split
      · exact ih _ ht
      · simp only [List.length_append]
        have := ih (ext + x.Data.length) ht
        omega

theorem DecodeIFD_EncodeTags_classic (h : Header) (im : Image) (offset : Nat)
    (bytes pre post : List Nat)
    (hv : h.Version = VersionClassicTIFF)
    (hhdr : im.Header = some h) (hne : im.Tag ≠ [])
    (hsorted : TagMap.Sorted im.Tag)
    (hall : ∀ t ∈ im.Tag, t.Built ∧ 0 < t.ID)
    (henc : (im.EncodeTags offset).2 = .ok bytes)
    (hpre : pre.length = offset)
    (hfit : offset + bytes.length ≤ 2 ^ 32)
    (hnext : im.OffsetNext < 2 ^ 32) :
    (Decoder.mk h (pre ++ bytes ++ post)).DecodeIFD offset = .ok
      { Tag := decodedTags h offset im.Tag 0 (2 + im.Tag.length * 12 + 4),
        SubImage := [], Exif := none, GPS := none, Interoperability := none, Header := none,
        Offset := offset, OffsetNext := im.OffsetNext, rd := none } := by
  have hn : im.Tag.length < 2 ^ 16 := by
    rcases sorted_length_lt im.Tag (2 ^ 16) hsorted (fun t ht => ⟨(hall t ht).2, (hall t ht).1.1⟩)
      with h1 | h1
    · exact h1
    · exact absurd h1 hne
  have hlen0 : im.Tag.length ≠ 0 := by
    intro h0; exact hne (List.length_eq_zero.mp h0)
  set E := (encodeEntries h offset 4 im.Tag (2 + im.Tag.length * 12 + 4)).1 with hE
  set X := (encodeEntries h offset 4 im.Tag (2 + im.Tag.length * 12 + 4)).2 with hX
  have hbytes : bytes = h.ByteOrder.PutUint16 im.Tag.length ++ E ++
      h.ByteOrder.PutUint32 im.OffsetNext ++ X := by
    simp only [Image.EncodeTags, Image.TagID, List.length_map, hlen0, if_false, hhdr, hv,
      if_true, Except.ok.injEq, Nat.mod_eq_of_lt hn, Nat.mod_eq_of_lt hnext] at henc
    rw [← henc]
  have hElen : E.length = im.Tag.length * 12 := by
    rw [hE, encodeEntries_fst_length, Header.bytesOfEntry, if_pos hv]
  have hblen : bytes.length = 2 + im.Tag.length * 12 + 4 + X.length := by
    rw [hbytes]
    simp only [List.length_append, ByteOrder.PutUint16, ByteOrder.PutUint32,
      ByteOrder.PutUint_length, hElen]
  have hp : h.byteOfOffset = 4 := by rw [Header.byteOfOffset, if_pos hv]
  have hloop := decodeEntries_encodeEntries h offset (pre ++ bytes ++ post) (Or.inl hv) im.Tag
    (pre ++ h.ByteOrder.PutUint16 im.Tag.length) (h.ByteOrder.PutUint32 im.OffsetNext) post 0
    (2 + im.Tag.length * 12 + 4) []
    (by rw [hp, ← hE, ← hX, hbytes]; simp [List.append_assoc])
    (by simp [Header.bytesOfNumTags, hv, hpre, ByteOrder.PutUint16, ByteOrder.PutUint_length])
    (by rw [hp, ← hE, hElen]
        simp only [List.length_append, ByteOrder.PutUint16, ByteOrder.PutUint32,
          ByteOrder.PutUint_length, hpre]
        omega)
    (by omega)
    (by rw [hp, ← hX, Header.offsetLimit, if_pos hv]; omega)
    hall
  rw [TagMap.foldl_insert_sorted _ _ (by
    simpa using decodedTags_sorted h offset im.Tag 0 _ hsorted)] at hloop
  have hcnt : ReadAt (pre ++ bytes ++ post) 2 offset = some (h.ByteOrder.PutUint16 im.Tag.length) := by
    rw [hbytes]
    have := ReadAt_append_mid pre (h.ByteOrder.PutUint16 im.Tag.length)
      (E ++ h.ByteOrder.PutUint32 im.OffsetNext ++ X ++ post) 2 offset
      (by simp [ByteOrder.PutUint16, ByteOrder.PutUint_length]) hpre.symm
    rw [← this]; simp [List.append_assoc]
  have hnxt : ReadAt (pre ++ bytes ++ post) 4 (offset + 2 + im.Tag.length * 12) =
      some (h.ByteOrder.PutUint32 im.OffsetNext) := by
    rw [hbytes]
    have := ReadAt_append_mid (pre ++ h.ByteOrder.PutUint16 im.Tag.length ++ E)
      (h.ByteOrder.PutUint32 im.OffsetNext) (X ++ post) 4 (offset + 2 + im.Tag.length * 12)
      (by simp [ByteOrder.PutUint32, ByteOrder.PutUint_length])
      (by simp [ByteOrder.PutUint16, ByteOrder.PutUint_length, hElen, hpre]; omega)
    rw [← this]; simp [List.append_assoc]
  have hpos : wrapInt64 ((offset : Int) + ((2 : Nat) : Int) +
      ((im.Tag.length : Nat) : Int) * 12) =
      ((offset + 2 + im.Tag.length * 12 : Nat) : Int) := by
    rw [← wrapInt64_of_lt (offset + 2 + im.Tag.length * 12) (by omega)]
    push_cast; rfl
  simp only [Decoder.DecodeIFD, hv, if_true, ne_eq, not_true_eq_false, false_and, if_false,
    hcnt, ByteOrder.Uint16_PutUint16 _ _ hn, Int.toNat_ofNat, hloop, hpos, readAtInt, hnxt,
    ByteOrder.Uint32_PutUint32 _ _ hnext]
  have hneg : ¬ (((offset + 2 + im.Tag.length * 12 : Nat) : Int) < 0) := by omega
  simp only [hpos, hneg, if_false, Int.toNat_ofNat, hnxt, ByteOrder.Uint32_PutUint32 _ _ hnext,
    List.nil_append]

theorem DecodeIFD_EncodeTags_big (h : Header) (im : Image) (offset : Nat)
    (bytes pre post : List Nat)
    (hv : h.Version = VersionBigTIFF)
    (hhdr : im.Header = some h) (hne : im.Tag ≠ [])
    (hsorted : TagMap.Sorted im.Tag)
    (hall : ∀ t ∈ im.Tag, t.Built ∧ 0 < t.ID)
    (henc : (im.EncodeTags offset).2 = .ok bytes)
    (hpre : pre.length = offset)
    (hfit : offset + bytes.length ≤ 2 ^ 63)
    (hnext : im.OffsetNext < 2 ^ 63) :
    (Decoder.mk h (pre ++ bytes ++ post)).DecodeIFD offset = .ok
      { Tag := decodedTags h offset im.Tag 0 (8 + im.Tag.length * 20 + 8),
        SubImage := [], Exif := none, GPS := none, Interoperability := none, Header := none,
        Offset := offset, OffsetNext := im.OffsetNext, rd := none } := by
  have hc : ¬ h.Version = VersionClassicTIFF := by rw [hv]; decide
  have hbc : ¬ VersionBigTIFF = VersionClassicTIFF := by decide
  have hlen0 : im.Tag.length ≠ 0 := by
    intro h0; exact hne (List.length_eq_zero.mp h0)
  set E := (encodeEntries h offset 8 im.Tag (8 + im.Tag.length * 20 + 8)).1 with hE
  set X := (encodeEntries h offset 8 im.Tag (8 + im.Tag.length * 20 + 8)).2 with hX
  have hElen : E.length = im.Tag.length * 20 := by
    rw [hE, encodeEntries_fst_length, Header.bytesOfEntry, if_neg hc]
  have hbytes0 : bytes = h.ByteOrder.PutUint64 (im.Tag.length % 2 ^ 64) ++ E ++
      h.ByteOrder.PutUint64 (im.OffsetNext % 2 ^ 64) ++ X := by
    simp only [Image.EncodeTags, Image.TagID, List.length_map, hlen0, if_false, hhdr, hv, hbc,
      if_true, Except.ok.injEq] at henc
    rw [← henc]
  have hblen : bytes.length = 8 + im.Tag.length * 20 + 8 + X.length := by
    rw [hbytes0]
    simp only [List.length_append, ByteOrder.PutUint64, ByteOrder.PutUint_length, hElen]
  have hn : im.Tag.length < 2 ^ 63 := by omega
  have hn2 : im.Tag.length < 2 ^ 64 := by omega
  have hnext2 : im.OffsetNext < 2 ^ 64 := by omega
  have hbytes : bytes = h.ByteOrder.PutUint64 im.Tag.length ++ E ++
      h.ByteOrder.PutUint64 im.OffsetNext ++ X := by
    rw [hbytes0, Nat.mod_eq_of_lt hn2, Nat.mod_eq_of_lt hnext2]
  have hp : h.byteOfOffset = 8 := by rw [Header.byteOfOffset, if_neg hc]
  have hloop := decodeEntries_encodeEntries h offset (pre ++ bytes ++ post) (Or.inr hv) im.Tag
    (pre ++ h.ByteOrder.PutUint64 im.Tag.length) (h.ByteOrder.PutUint64 im.OffsetNext) post 0
    (8 + im.Tag.length * 20 + 8) []
    (by rw [hp, ← hE, ← hX, hbytes]; simp [List.append_assoc])
    (by simp [Header.bytesOfNumTags, hc, hpre, ByteOrder.PutUint64, ByteOrder.PutUint_length])
    (by rw [hp, ← hE, hElen]
        simp only [List.length_append, ByteOrder.PutUint64,
          ByteOrder.PutUint_length, hpre]
        omega)
    (by omega)
    (by rw [hp, ← hX, Header.offsetLimit, if_neg hc]; omega)
    hall
  rw [TagMap.foldl_insert_sorted _ _ (by
    simpa using decodedTags_sorted h offset im.Tag 0 _ hsorted)] at hloop
  have hcnt : ReadAt (pre ++ bytes ++ post) 8 offset = some (h.ByteOrder.PutUint64 im.Tag.length) := by
    rw [hbytes]
    have := ReadAt_append_mid pre (h.ByteOrder.PutUint64 im.Tag.length)
      (E ++ h.ByteOrder.PutUint64 im.OffsetNext ++ X ++ post) 8 offset
      (by simp [ByteOrder.PutUint64, ByteOrder.PutUint_length]) hpre.symm
    rw [← this]; simp [List.append_assoc]
  have hnxt : ReadAt (pre ++ bytes ++ post) 8 (offset + 8 + im.Tag.length * 20) =
      some (h.ByteOrder.PutUint64 im.OffsetNext) := by
    rw [hbytes]
    have := ReadAt_append_mid (pre ++ h.ByteOrder.PutUint64 im.Tag.length ++ E)
      (h.ByteOrder.PutUint64 im.OffsetNext) (X ++ post) 8 (offset + 8 + im.Tag.length * 20)
      (by simp [ByteOrder.PutUint64, ByteOrder.PutUint_length])
      (by simp [ByteOrder.PutUint64, ByteOrder.PutUint_length, hElen, hpre]; omega)
    rw [← this]; simp [List.append_assoc]
  have hpos : wrapInt64 ((offset : Int) + ((8 : Nat) : Int) +
      ((im.Tag.length : Nat) : Int) * 20) =
      ((offset + 8 + im.Tag.length * 20 : Nat) : Int) := by
    rw [← wrapInt64_of_lt (offset + 8 + im.Tag.length * 20) (by omega)]
    push_cast; rfl
  have hmax : ¬ (im.OffsetNext > maxInt64) := by unfold maxInt64; omega
  have hneg : ¬ (((offset + 8 + im.Tag.length * 20 : Nat) : Int) < 0) := by omega
  simp only [Decoder.DecodeIFD, hv, hbc, if_true, ne_eq, not_true_eq_false, and_false, if_false,
    hcnt, ByteOrder.Uint64_PutUint64 _ _ hn2, toInt64_of_lt _ hn, Int.toNat_ofNat, hloop, hpos,
    readAtInt, hneg, hnxt, ByteOrder.Uint64_PutUint64 _ _ hnext2, hmax, List.nil_append,
    not_false_eq_true, true_and]

/-! ## Tags built by `NewTag` and `SetTag` -/

theorem flatten_PutUint_length (bo : ByteOrder) (w : Nat) (vs : List Nat) :
    ((vs.map (fun v => bo.PutUint w v)).flatten).length = w * vs.length := by
  induction vs with
  | nil => simp
  | cons v vs ih =>
    simp only [List.map_cons, List.flatten_cons, List.length_append, ih,
      ByteOrder.PutUint_length, List.length_cons]
    ring

theorem putAt_length {buf : List Nat} {lo hi : Nat} {bytes out : List Nat}
    (h : putAt buf lo hi bytes = .ok out) : out.length = buf.length := by
  unfold putAt at h
  split at h
  · rename_i h1
    split at h
    · rename_i h2
      injection h with h
      rw [← h]
      simp only [List.length_append, List.length_take, List.length_drop]
      omega
    · cases h
  · cases h

theorem putRationals_length (bo : ByteOrder) (vs : List (Nat × Nat)) :
    ∀ (i : Nat) (buf out : List Nat), putRationals bo vs i buf = .ok out →
      out.length = buf.length := by
  induction vs with
  | nil => intro i buf out h; simp only [putRationals] at h; injection h with h; rw [h]
  | cons v vs ih =>
    intro i buf out h
    simp only [putRationals] at h
    split at h
    · cases h
    · rename_i buf1 h1
      split at h
      · cases h
      · rename_i buf2 h2
        rw [ih _ _ _ h, putAt_length h2, putAt_length h1]

theorem newIntTag_ok {id tagType : Nat} {header : Option Header} {width : Nat} {vs : List Nat}
    {deref : Nat} {t : Tag} (h : newIntTag id tagType header width vs deref = .ok t) :
    t.ID = id ∧ t.Typ = tagType ∧ t.Count = vs.length ∧ t.Data.length = width * vs.length ∧
      t.Header = header := by
  unfold newIntTag at h
  split at h
  · cases h
  · injection h with h
    subst h
    exact ⟨rfl, rfl, rfl, flatten_PutUint_length _ _ _, rfl⟩

theorem newTagSlice_ok {id tagType : Nat} {value : Value} {header : Option Header} {t : Tag}
    (h : newTagSlice id tagType value header = .ok t) :
    t.ID = id ∧ 1 ≤ TagType.Size t.Typ ∧ t.Data.length = TagType.Size t.Typ * t.Count ∧
      t.Header = header := by
  unfold newTagSlice at h
  split at h
  · -- strings
    split at h
    · cases h
    · rename_i h1
      injection h with h; subst h
      simp only [ne_eq, Decidable.not_not] at h1
      refine ⟨rfl, ?_, ?_, rfl⟩
      · show 1 ≤ TagType.Size tagType
        rw [h1]; decide
      · show _ = TagType.Size tagType * _
        rw [h1]; simp [TagTypeASCII, TagType.Size]
  · -- bytes
    split at h
    · cases h
    · rename_i h1
      injection h with h; subst h
      simp only [ne_eq, not_and_or, Decidable.not_not] at h1
      refine ⟨rfl, ?_, ?_, rfl⟩
      · show 1 ≤ TagType.Size tagType
        rcases h1 with h1 | h1 <;> rw [h1] <;> decide
      · show _ = TagType.Size tagType * _
        rcases h1 with h1 | h1 <;> rw [h1] <;> simp [TagTypeByte, TagTypeUndefined, TagType.Size]
  · -- uint16s
    split at h
    · cases h
    · rename_i h1
      simp only [ne_eq, Decidable.not_not] at h1
      obtain ⟨a, b, c, d, e⟩ := newIntTag_ok h
      rw [b, h1, d, c]
      exact ⟨a, by decide, by simp [TagTypeShort, TagType.Size], e⟩
  · -- uint32s
    split at h
    · cases h
    · rename_i h1
      simp only [ne_eq, not_and_or, Decidable.not_not] at h1
      obtain ⟨a, b, c, d, e⟩ := newIntTag_ok h
      rw [b, d, c]
      rcases h1 with h1 | h1 <;> rw [h1] <;>
        exact ⟨a, by decide, by simp [TagTypeLong, TagTypeIFD, TagType.Size], e⟩
  · -- uint64s
    split at h
    · cases h
    · rename_i h1
      simp only [ne_eq, not_and_or, Decidable.not_not] at h1
      obtain ⟨a, b, c, d, e⟩ := newIntTag_ok h
      rw [b, d, c]
      rcases h1 with h1 | h1 <;> rw [h1] <;>
        exact ⟨a, by decide, by simp [TagTypeLong8, TagTypeIFD8, TagType.Size], e⟩
  · -- int16s
    split at h
    · cases h
    · rename_i h1
      simp only [ne_eq, Decidable.not_not] at h1
      obtain ⟨a, b, c, d, e⟩ := newIntTag_ok h
      rw [b, h1, d, c]
      exact ⟨a, by decide, by simp [TagTypeSShort, TagType.Size], e⟩
  · -- int32s
    split at h
    · cases h
    · rename_i h1
      simp only [ne_eq, Decidable.not_not] at h1
      obtain ⟨a, b, c, d, e⟩ := newIntTag_ok h
      rw [b, h1, d, c]
      exact ⟨a, by decide, by simp [TagTypeSLong, TagType.Size], e⟩
  · -- int64s
    split at h
    · cases h
    · rename_i h1
      simp only [ne_eq, Decidable.not_not] at h1
      obtain ⟨a, b, c, d, e⟩ := newIntTag_ok h
      rw [b, h1, d, c]
      exact ⟨a, by decide, by simp [TagTypeSLong8, TagType.Size], e⟩
  · -- float32s
    split at h
    · cases h
    · rename_i h1
      simp only [ne_eq, Decidable.not_not] at h1
      obtain ⟨a, b, c, d, e⟩ := newIntTag_ok h
      rw [b, h1, d, c]
      exact ⟨a, by decide, by simp [TagTypeFloat, TagType.Size], e⟩
  · -- float64s
    split at h
    · cases h
    · rename_i h1
      simp only [ne_eq, Decidable.not_not] at h1
      obtain ⟨a, b, c, d, e⟩ := newIntTag_ok h
      rw [b, h1, d, c]
      exact ⟨a, by decide, by simp [TagTypeDouble, TagType.Size], e⟩
  · -- rationals
    split at h
    · cases h
    · rename_i h1
      simp only [ne_eq, Decidable.not_not] at h1
      split at h
      · cases h
      · split at h
        · cases h
        · rename_i data hd
          injection h with h; subst h
          have := putRationals_length _ _ _ _ _ hd
          refine ⟨rfl, ?_, ?_, rfl⟩
          · show 1 ≤ TagType.Size tagType
            rw [h1]; decide
          · show data.length = TagType.Size tagType * _
            rw [h1, this, List.length_replicate]
            simp [TagTypeRational, TagType.Size]; ring
  · -- srationals
    split at h
    · cases h
    · rename_i h1
      simp only [ne_eq, Decidable.not_not] at h1
      split at h
      · cases h
      · split at h
        · cases h
        · rename_i data hd
          injection h with h; subst h
          have := putRationals_length _ _ _ _ _ hd
          refine ⟨rfl, ?_, ?_, rfl⟩
          · show 1 ≤ TagType.Size tagType
            rw [h1]; decide
          · show data.length = TagType.Size tagType * _
            rw [h1, this, List.length_replicate]
            simp [TagTypeSRational, TagType.Size]; ring
  · cases h

theorem NewTag_ok {id tagType : Nat} {value : Value} {header : Option Header} {t : Tag}
    (h : NewTag id tagType value header = .ok t) :
    t.ID = id ∧ 1 ≤ TagType.Size t.Typ ∧ t.Data.length = TagType.Size t.Typ * t.Count ∧
      t.Header = header := by
  unfold NewTag at h
  split at h
  all_goals first
    | exact newTagSlice_ok h
    | (split at h
       · exact newTagSlice_ok h
       · split at h
         · exact newTagSlice_ok h
         · cases h)

theorem TagMap.mem_insert {m : List Tag} {t x : Tag} (h : x ∈ TagMap.insert m t) :
    x = t ∨ x ∈ m := by
  induction m with
  | nil => simp only [TagMap.insert, List.mem_singleton] at h; exact Or.inl h
  | cons y ys ih =>
    simp only [TagMap.insert] at h
    split at h
    · simp only [List.mem_cons] at h ⊢
      rcases h with h | h | h
      · exact Or.inl h
      · exact Or.inr (Or.inl h)
      · exact Or.inr (Or.inr h)
    · split at h
      · simp only [List.mem_cons] at h ⊢
        rcases h with h | h
        · exact Or.inl h
        · exact Or.inr (Or.inr h)
      · simp only [List.mem_cons] at h ⊢
        rcases h with h | h
        · exact Or.inr (Or.inl h)
        · rcases ih h with h | h
          · exact Or.inl h
          · exact Or.inr (Or.inr h)

theorem TagMap.insert_sorted {m : List Tag} (t : Tag) (hs : TagMap.Sorted m) :
    TagMap.Sorted (TagMap.insert m t) := by
  unfold TagMap.Sorted at hs ⊢
  induction m with
  | nil => simp [TagMap.insert]
  | cons y ys ih =>
    rw [List.pairwise_cons] at hs
    simp only [TagMap.insert]
    split
    · rename_i h1
      rw [List.pairwise_cons]
      refine ⟨?_, List.pairwise_cons.mpr hs⟩
      intro a ha
      simp only [List.mem_cons] at ha
      rcases ha with ha | ha
      · rw [ha]; exact h1
      · have := hs.1 a ha; omega
    · split
      · rename_i h1 h2
        rw [List.pairwise_cons]
        refine ⟨?_, hs.2⟩
        intro a ha
        rw [h2]; exact hs.1 a ha
      · rename_i h1 h2
        rw [List.pairwise_cons]
        refine ⟨?_, ih hs.2⟩
        intro a ha
        rcases TagMap.mem_insert ha with ha | ha
        · rw [ha]; omega
        · exact hs.1 a ha

theorem Image.SetTag_tagsBuilt (im : Image) (id tagType : Nat) (value : Value)
    (hid : id < 2 ^ 16) (hb : im.TagsBuilt) : (im.SetTag id tagType value).1.TagsBuilt := by
  unfold Image.SetTag
  split
  · exact hb
  · rename_i tag htag
    obtain ⟨h1, h2, h3, _⟩ := NewTag_ok htag
    refine ⟨TagMap.insert_sorted tag hb.1, ?_⟩
    intro t ht
    rcases TagMap.mem_insert ht with ht | ht
    · rw [ht]; exact ⟨by rw [h1]; exact hid, h2, h3⟩
    · exact hb.2 t ht

theorem Image.SetTag_header (im : Image) (id tagType : Nat) (value : Value) :
    (im.SetTag id tagType value).1.Header = im.Header := by
  unfold Image.SetTag
  split <;> rfl

theorem Image.SetTag_offsetNext (im : Image) (id tagType : Nat) (value : Value) :
    (im.SetTag id tagType value).1.OffsetNext = im.OffsetNext := by
  unfold Image.SetTag
  split <;> rfl

/-- Directory round trip for identifiers from 1 on: the directory that
`EncodeTags(offset)` returns for an image whose tags were built by `SetTag`,
placed at `offset` in a byte source, is decoded by `DecodeIFD(offset)` to the
tags `decodedTags` lists, with the same next-directory pointer. -/
theorem DecodeIFD_EncodeTags (h : Header) (im : Image) (offset : Nat)
    (bytes pre post : List Nat)
    (hver : h.Version = VersionClassicTIFF ∨ h.Version = VersionBigTIFF)
    (hhdr : im.Header = some h) (hne : im.Tag ≠ [])
    (hbuilt : im.TagsBuilt) (hpos : ∀ t ∈ im.Tag, 0 < t.ID)
    (henc : (im.EncodeTags offset).2 = .ok bytes)
    (hpre : pre.length = offset)
    (hfit : offset + bytes.length ≤ h.offsetLimit)
    (hnext : im.OffsetNext < h.offsetLimit) :
    (Decoder.mk h (pre ++ bytes ++ post)).DecodeIFD offset = .ok
      { Tag := decodedTags h offset im.Tag 0
          (h.bytesOfNumTags + im.Tag.length * h.bytesOfEntry + h.byteOfOffset),
        SubImage := [], Exif := none, GPS := none, Interoperability := none, Header := none,
        Offset := offset, OffsetNext := im.OffsetNext, rd := none } := by
  have hall : ∀ t ∈ im.Tag, t.Built ∧ 0 < t.ID := fun t ht => ⟨hbuilt.2 t ht, hpos t ht⟩
  rcases hver with hv | hv
  · simp only [Header.offsetLimit, Header.bytesOfNumTags, Header.bytesOfEntry,
      Header.byteOfOffset, hv, if_true] at hfit hnext ⊢
    exact DecodeIFD_EncodeTags_classic h im offset bytes pre post hv hhdr hne hbuilt.1 hall henc
      hpre hfit hnext
  · have hc : ¬ h.Version = VersionClassicTIFF := by rw [hv]; decide
    simp only [Header.offsetLimit, Header.bytesOfNumTags, Header.bytesOfEntry,
      Header.byteOfOffset, hc, if_false] at hfit hnext ⊢
    exact DecodeIFD_EncodeTags_big h im offset bytes pre post hv hhdr hne hbuilt.1 hall henc
      hpre hfit hnext

/-! ## Chain iteration -/

theorem DecodeIFD_offset {d : Decoder} {o : Nat} {im : Image} (h : d.DecodeIFD o = .ok im) :
    im.Offset = o := by
  unfold Decoder.DecodeIFD at h
  simp only at h
  repeat' (first | (cases h; done) | (injection h with h; rw [← h]; done) | split at h)

theorem decodeDirectories_offset {d : Decoder} {o : Nat} {im : Image}
    (h : d.decodeDirectories o = .ok im) : im.Offset = o := by
  unfold Decoder.decodeDirectories at h
  split at h
  · cases h
  · rename_i im0 h0
    have hoff := DecodeIFD_offset h0
    simp only at h
    repeat' (first | (cases h; done) | (injection h with h; rw [← h]; exact hoff) | split at h)

theorem chainStarts_offsets (d : Decoder) (fuel : Nat) :
    ∀ (o : Nat) (ims : List Image), chainFrom d fuel o = some ims →
      ims.map (fun im => im.Offset) = chainStarts o ims := by
  induction fuel with
  | zero => intro o ims h; simp [chainFrom] at h
  | succ fuel ih =>
    intro o ims h
    simp only [chainFrom] at h
    split at h
    · injection h with h; subst h; rfl
    · split at h
      · cases h
      · rename_i im hdec
        split at h
        · cases h
        · rename_i rest hrest
          injection h with h; subst h
          simp only [List.map_cons, chainStarts, decodeDirectories_offset hdec, ih _ _ hrest]

theorem allLoop_chain (d : Decoder) (fuel : Nat) :
    ∀ (ims : List Image) (it : Iter) (cur : Image) (acc : List (Option Image)) (extra : Nat),
      it.dec = d → it.err = none → it.im = some cur → cur.rd = some d.r →
      cur.Header = some d.Header →
      chainFrom d fuel cur.OffsetNext = some ims →
      ∃ it1, Iter.allLoop (extra + ims.length + 1) it acc =
          some (it1, acc ++ ims.map (fun im => some (d.yielded im))) ∧ it1.err = none := by
  induction fuel with
  | zero => intro ims it cur acc extra _ _ _ _ _ h; simp [chainFrom] at h
  | succ fuel ih =>
    intro ims it cur acc extra hdec herr him hrd hhdr h
    simp only [chainFrom] at h
    split at h
    · rename_i h0
      injection h with h; subst h
      refine ⟨{ it with im := none }, ?_, herr⟩
      simp [Iter.allLoop, Iter.Next, herr, him, h0]
    · rename_i h0
      split at h
      · cases h
      · rename_i im hd
        split at h
        · cases h
        · rename_i rest hrest
          injection h with h; subst h
          have hoff : im.Offset ≠ 0 := by rw [decodeDirectories_offset hd]; exact h0
          obtain ⟨it1, h1, h2⟩ := ih rest
            { it with im := some { im with rd := cur.rd, Header := cur.Header },
                      index := it.index + 1 }
            { im with rd := cur.rd, Header := cur.Header }
            (acc ++ [some (d.yielded im)]) extra hdec herr rfl hrd hhdr hrest
          refine ⟨it1, ?_, h2⟩
          have hlen : extra + (im :: rest).length + 1 = (extra + rest.length + 1) + 1 := by
            simp only [List.length_cons]; omega
          rw [hlen, Iter.allLoop]
          simp only [Iter.Next, herr, him, h0, hdec, hd, Iter.Image, hoff,
            Option.isSome_none, Bool.false_eq_true, if_false]
          simp only [Decoder.yielded, hrd, hhdr, herr, hdec] at h1 ⊢
          rw [h1]
          simp

/-! ## Ceiling division -/

theorem ceilDiv_bounds (a b : Nat) (hb : 1 ≤ b) :
    a ≤ ceilDiv a b * b ∧ ceilDiv a b * b < a + b := by
  unfold ceilDiv
  have h1 := Nat.div_add_mod (a + b - 1) b
  have h2 : (a + b - 1) % b < b := Nat.mod_lt _ (by omega)
  rw [Nat.mul_comm] at h1
  constructor <;> omega

theorem ceilDiv_unique (a b n : Nat) (hb : 1 ≤ b) (h1 : a ≤ n * b) (h2 : n * b < a + b) :
    ceilDiv a b = n := by
  obtain ⟨h3, h4⟩ := ceilDiv_bounds a b hb
  by_contra hne
  rcases Nat.lt_or_gt_of_ne hne with hlt | hgt
  · have : (ceilDiv a b + 1) * b ≤ n * b := Nat.mul_le_mul_right b hlt
    rw [Nat.add_mul, Nat.one_mul] at this
    omega
  · have : (n + 1) * b ≤ ceilDiv a b * b := Nat.mul_le_mul_right b hgt
    rw [Nat.add_mul, Nat.one_mul] at this
    omega

theorem ceilDiv_eq_ceil (a b : Nat) (hb : 1 ≤ b) : ceilDiv a b = ⌈(a : ℚ) / (b : ℚ)⌉₊ := by
  have hb0 : (0 : ℚ) < (b : ℚ) := by exact_mod_cast hb
  apply ceilDiv_unique a b _ hb
  · have h := Nat.le_ceil ((a : ℚ) / (b : ℚ))
    rw [div_le_iff₀ hb0] at h
    exact_mod_cast h
  · have h := Nat.ceil_lt_add_one (a := (a : ℚ) / (b : ℚ)) (by positivity)
    have h2 : ((⌈(a : ℚ) / (b : ℚ)⌉₊ : ℚ)) * b < a + b := by
      have := mul_lt_mul_of_pos_right h hb0
      rw [add_mul, div_mul_cancel₀ _ (ne_of_gt hb0), one_mul] at this
      exact this
    exact_mod_cast h2

/-! ## The float64 computation of the expected counts

Below `2^53` the value that the source computes in float64 arithmetic is the
exact ceiling `ceilDiv`. -/

theorem roundHalfEven_exact (n d : Nat) (hd : 0 < d) (h : n % d = 0) :
    roundHalfEven n d = n / d := by
  unfold roundHalfEven
  rw [h]
  simp [hd]

theorem roundHalfEven_le (n d M : Nat) (hd : 0 < d) (h : n ≤ M * d) :
    roundHalfEven n d ≤ M := by
  have hq : n / d ≤ M := by
    calc n / d ≤ M * d / d := Nat.div_le_div_right h
      _ = M := Nat.mul_div_cancel _ hd
  by_cases hr : n % d = 0
  · rw [roundHalfEven_exact n d hd hr]
    exact hq
  · have hlt : n / d < M := by
      by_contra hc
      have hM : n / d = M := le_antisymm hq (not_lt.mp hc)
      have h3 := Nat.div_add_mod n d
      rw [hM, Nat.mul_comm] at h3
      have h4 : 0 < n % d := Nat.pos_of_ne_zero hr
      omega
    unfold roundHalfEven
    split_ifs <;> omega

theorem roundHalfEven_ge (n d M : Nat) (hd : 0 < d) (h : M * d ≤ n) :
    M ≤ roundHalfEven n d := by
  have hq : M ≤ n / d := (Nat.le_div_iff_mul_le hd).mpr h
  unfold roundHalfEven
  split_ifs <;> omega

theorem roundHalfEven_gt (n d M : Nat) (hd : 0 < d) (h : M * d ≤ n)
    (h2 : d < 2 * (n - M * d)) : M + 1 ≤ roundHalfEven n d := by
  have hq : M ≤ n / d := (Nat.le_div_iff_mul_le hd).mpr h
  by_cases hM : n / d = M
  · have hmod : n % d = n - M * d := by
      have h3 := Nat.div_add_mod n d
      rw [hM, Nat.mul_comm] at h3
      omega
    unfold roundHalfEven
    rw [hmod, hM]
    have h4 : ¬ (2 * (n - M * d) < d) := by omega
    simp [h4, h2]
  · have h3 : M + 1 ≤ n / d := by omega
    unfold roundHalfEven
    split_ifs <;> omega

theorem binadeSearch_spec (n d : Nat) (hlow : d ≤ n * 2 ^ 65) :
    ∀ t, n * 2 ^ 65 < d * 2 ^ (t + 1) →
      d * 2 ^ binadeSearch n d t ≤ n * 2 ^ 65 ∧
      n * 2 ^ 65 < d * 2 ^ (binadeSearch n d t + 1)
  | 0, h => by
    simp only [binadeSearch]
    exact ⟨by simpa using hlow, h⟩
  | t + 1, h => by
    simp only [binadeSearch]
    split_ifs with hc
    · exact ⟨hc, h⟩
    · exact binadeSearch_spec n d hlow t (not_le.mp hc)

/-- The binade of a quotient between `2^-65` and `2^66`. -/
theorem binade_spec (n d : Nat) (hlow : d ≤ n * 2 ^ 65) (hhigh : n * 2 ^ 65 < d * 2 ^ 131) :
    d * 2 ^ binade n d ≤ n * 2 ^ 65 ∧ n * 2 ^ 65 < d * 2 ^ (binade n d + 1) :=
  binadeSearch_spec n d hlow 130 hhigh

/-- The float64 ceiling of the quotient of a number below `2^53` by a number up
to `2^64` is the exact ceiling. -/
theorem float64Ceil_quotient (a d : Nat) (ha : 1 ≤ a) (ha2 : a < 2 ^ 53) (hd : 1 ≤ d)
    (hd2 : d ≤ 2 ^ 64) : float64Ceil (float64Quotient a d) = ceilDiv a d := by
  obtain ⟨h1, h2⟩ := binade_spec a d (by omega) (by omega)
  have hi : binade a d ≤ 117 := by
    by_contra hc
    have h3 : 2 ^ 118 ≤ 2 ^ binade a d := Nat.pow_le_pow_right (by norm_num) (by omega)
    have h4 : d * 2 ^ 118 ≤ d * 2 ^ binade a d := Nat.mul_le_mul_left d h3
    have h5 : 1 * 2 ^ 118 ≤ d * 2 ^ 118 := Nat.mul_le_mul_right _ hd
    omega
  obtain ⟨E, hE⟩ : ∃ E, binade a d + E = 117 := ⟨117 - binade a d, by omega⟩
  have hsub1 : 117 - binade a d = E := by omega
  have hsub2 : binade a d - 117 = 0 := by omega
  have hpow : 2 ^ binade a d * 2 ^ E = 2 ^ 52 * 2 ^ 65 := by
    rw [← pow_add, hE, ← pow_add]
  have hpow2 : 2 ^ (binade a d + 1) * 2 ^ E = 2 ^ 53 * 2 ^ 65 := by
    rw [← pow_add, ← pow_add]
    congr 1
    omega
  have hEpos : 0 < 2 ^ E := Nat.pow_pos (by norm_num)
  have hQ1 : d * 2 ^ 52 ≤ a * 2 ^ E := by
    have h3 : d * 2 ^ binade a d * 2 ^ E ≤ a * 2 ^ 65 * 2 ^ E := Nat.mul_le_mul_right _ h1
    have h4 : d * 2 ^ binade a d * 2 ^ E = d * 2 ^ 52 * 2 ^ 65 := by
      rw [Nat.mul_assoc, hpow, Nat.mul_assoc]
    have h5 : a * 2 ^ 65 * 2 ^ E = a * 2 ^ E * 2 ^ 65 := by ring
    rw [h4, h5] at h3
    exact Nat.le_of_mul_le_mul_right h3 (by norm_num)
  have hQ2 : a * 2 ^ E < d * 2 ^ 53 := by
    have h3 : a * 2 ^ 65 * 2 ^ E < d * 2 ^ (binade a d + 1) * 2 ^ E :=
      Nat.mul_lt_mul_of_pos_right h2 hEpos
    have h4 : d * 2 ^ (binade a d + 1) * 2 ^ E = d * 2 ^ 53 * 2 ^ 65 := by
      rw [Nat.mul_assoc, hpow2, Nat.mul_assoc]
    have h5 : a * 2 ^ 65 * 2 ^ E = a * 2 ^ E * 2 ^ 65 := by ring
    rw [h4, h5] at h3
    exact Nat.lt_of_mul_lt_mul_right h3
  have hdE : d < 2 * 2 ^ E := by
    have h3 : a * 2 ^ E < 2 ^ 53 * 2 ^ E := Nat.mul_lt_mul_of_pos_right ha2 hEpos
    have h4 : d * 2 ^ 52 < 2 * 2 ^ E * 2 ^ 52 := by
      calc d * 2 ^ 52 ≤ a * 2 ^ E := hQ1
        _ < 2 ^ 53 * 2 ^ E := h3
        _ = 2 * 2 ^ E * 2 ^ 52 := by ring
    exact Nat.lt_of_mul_lt_mul_right h4
  obtain ⟨hc1, hc2⟩ := ceilDiv_bounds a d hd
  have hval : float64Ceil (float64Quotient a d) =
      ceilDiv (roundHalfEven (a * 2 ^ E) d) (2 ^ E) := by
    unfold float64Ceil float64Quotient ceilDiv
    simp only [hsub1, hsub2, pow_zero, Nat.mul_one]
  rw [hval]
  apply ceilDiv_unique _ _ _ hEpos
  · apply roundHalfEven_le _ _ _ hd
    calc a * 2 ^ E ≤ ceilDiv a d * d * 2 ^ E := Nat.mul_le_mul_right _ hc1
      _ = ceilDiv a d * 2 ^ E * d := by ring
  · by_cases hdiv : a % d = 0
    · have hq : a = d * (a / d) := by
        have := Nat.div_add_mod a d
        omega
      have hcd : ceilDiv a d = a / d := by
        apply ceilDiv_unique a d _ hd
        · rw [Nat.mul_comm]; omega
        · rw [Nat.mul_comm]; omega
      have hm : roundHalfEven (a * 2 ^ E) d = a / d * 2 ^ E := by
        have h3 : a * 2 ^ E = d * (a / d * 2 ^ E) := by
          rw [← Nat.mul_assoc, ← hq]
        rw [roundHalfEven_exact _ _ hd (by rw [h3]; exact Nat.mul_mod_right _ _), h3,
          Nat.mul_div_cancel_left _ hd]
      rw [hm, hcd]
      omega
    · have hmod := Nat.div_add_mod a d
      have hpos : 0 < a % d := Nat.pos_of_ne_zero hdiv
      have hlt : a % d < d := Nat.mod_lt _ hd
      have hcd : ceilDiv a d = a / d + 1 := by
        apply ceilDiv_unique a d _ hd
        · rw [Nat.add_mul, Nat.mul_comm]; omega
        · rw [Nat.add_mul, Nat.mul_comm]; omega
      have hsplit : a * 2 ^ E = a / d * 2 ^ E * d + a % d * 2 ^ E := by
        conv_lhs => rw [← hmod]
        ring
      have hgt : a / d * 2 ^ E + 1 ≤ roundHalfEven (a * 2 ^ E) d := by
        apply roundHalfEven_gt _ _ _ hd
        · omega
        · have h3 : a * 2 ^ E - a / d * 2 ^ E * d = a % d * 2 ^ E := by omega
          rw [h3]
          have h4 : 1 * 2 ^ E ≤ a % d * 2 ^ E := Nat.mul_le_mul_right _ hpos
          omega
      rw [hcd, Nat.add_mul]
      omega

/-- The conversion to float64 changes no natural number below `2^53`, and takes
the numbers from `2^53` to `2^64` to numbers from `2^53` to `2^64`. -/
theorem float64OfNat_bounds (b : Nat) (hb : 1 ≤ b) (hb2 : b < 2 ^ 64) :
    (b < 2 ^ 53 → float64OfNat b = b) ∧
    (2 ^ 53 ≤ b → 2 ^ 53 ≤ float64OfNat b ∧ float64OfNat b ≤ 2 ^ 64) := by
  obtain ⟨h1, h2⟩ := binade_spec b 1 (by omega) (by omega)
  rw [Nat.one_mul] at h1 h2
  have hne : b ≠ 0 := by omega
  constructor
  · intro hlt
    have hi : binade b 1 ≤ 117 := by
      by_contra hc
      have h3 : 2 ^ 118 ≤ 2 ^ binade b 1 := Nat.pow_le_pow_right (by norm_num) (by omega)
      omega
    have hsub2 : binade b 1 - 117 = 0 := by omega
    unfold float64OfNat float64Floor float64Quotient
    rw [if_neg hne]
    simp only [hsub2, pow_zero, Nat.mul_one]
    rw [roundHalfEven_exact _ _ (by norm_num) (Nat.mod_one _), Nat.div_one]
    exact Nat.mul_div_cancel _ (Nat.pow_pos (by norm_num))
  · intro hge
    have hi : 118 ≤ binade b 1 := by
      by_contra hc
      have h3 : 2 ^ (binade b 1 + 1) ≤ 2 ^ 118 := Nat.pow_le_pow_right (by norm_num) (by omega)
      omega
    have hi2 : binade b 1 ≤ 128 := by
      by_contra hc
      have h3 : 2 ^ 129 ≤ 2 ^ binade b 1 := Nat.pow_le_pow_right (by norm_num) (by omega)
      omega
    obtain ⟨s, hs⟩ : ∃ s, binade b 1 = 117 + s := ⟨binade b 1 - 117, by omega⟩
    have hsub1 : 117 - binade b 1 = 0 := by omega
    have hsub2 : binade b 1 - 117 = s := by omega
    have hs1 : 1 ≤ s := by omega
    have hs2 : s ≤ 11 := by omega
    have hspos : 0 < 2 ^ s := Nat.pow_pos (by norm_num)
    have hp1 : 2 ^ binade b 1 = 2 ^ 52 * 2 ^ s * 2 ^ 65 := by
      rw [hs, ← pow_add, ← pow_add]
      congr 1
      omega
    have hp2 : 2 ^ (binade b 1 + 1) = 2 ^ 53 * 2 ^ s * 2 ^ 65 := by
      rw [hs, ← pow_add, ← pow_add]
      congr 1
      omega
    rw [hp1] at h1
    rw [hp2] at h2
    have h3 : 2 ^ 52 * 2 ^ s ≤ b := Nat.le_of_mul_le_mul_right h1 (by norm_num)
    have h4 : b < 2 ^ 53 * 2 ^ s := Nat.lt_of_mul_lt_mul_right h2
    have hm1 : 2 ^ 52 ≤ roundHalfEven b (2 ^ s) := roundHalfEven_ge _ _ _ hspos h3
    have hm2 : roundHalfEven b (2 ^ s) ≤ 2 ^ 53 := roundHalfEven_le _ _ _ hspos (le_of_lt h4)
    have hval : float64OfNat b = roundHalfEven b (2 ^ s) * 2 ^ s := by
      unfold float64OfNat float64Floor float64Quotient
      rw [if_neg hne]
      simp only [hsub1, hsub2, pow_zero, Nat.mul_one, Nat.one_mul, Nat.div_one]
    rw [hval]
    have h5 : 2 ^ 1 ≤ 2 ^ s := Nat.pow_le_pow_right (by norm_num) hs1
    have h6 : 2 ^ s ≤ 2 ^ 11 := Nat.pow_le_pow_right (by norm_num) hs2
    constructor
    · calc 2 ^ 53 = 2 ^ 52 * 2 ^ 1 := by norm_num
        _ ≤ roundHalfEven b (2 ^ s) * 2 ^ s := Nat.mul_le_mul hm1 h5
    · calc roundHalfEven b (2 ^ s) * 2 ^ s ≤ 2 ^ 53 * 2 ^ 11 := Nat.mul_le_mul hm2 h6
        _ = 2 ^ 64 := by norm_num

/-- The value that the source computes for the expected number of segments,
`(int)(math.Ceil((float64)(a) / (float64)(b)))`, is the exact ceiling `ceilDiv`
when `a` is below `2^53` and `b` is from 1 to below `2^64`. -/
theorem ceilOfQuotient_eq_ceilDiv (a b : Nat) (ha : a < 2 ^ 53) (hb : 1 ≤ b)
    (hb2 : b < 2 ^ 64) : ceilOfQuotient (a : Int) (b : Int) = some (ceilDiv a b : Int) := by
  have hbne : (b : Int) ≠ 0 := by omega
  unfold ceilOfQuotient
  rw [if_neg hbne]
  by_cases ha0 : a = 0
  · subst ha0
    have hz : ceilDiv 0 b = 0 := ceilDiv_unique 0 b 0 hb (by omega) (by omega)
    simp [hz]
  · have hane : (a : Int) ≠ 0 := by omega
    rw [if_neg hane]
    have hpos : (0 < (a : Int) ∧ 0 < (b : Int)) ∨ ((a : Int) < 0 ∧ (b : Int) < 0) :=
      Or.inl ⟨by omega, by omega⟩
    simp only [Int.natAbs_ofNat, if_pos hpos]
    obtain ⟨hfa, _⟩ := float64OfNat_bounds a (by omega) (by omega)
    obtain ⟨hfb1, hfb2⟩ := float64OfNat_bounds b hb hb2
    rw [hfa ha]
    have hcd : float64Ceil (float64Quotient a (float64OfNat b)) = ceilDiv a b := by
      by_cases hbs : b < 2 ^ 53
      · rw [hfb1 hbs]
        exact float64Ceil_quotient a b (by omega) ha hb (by omega)
      · obtain ⟨h1, h2⟩ := hfb2 (by omega)
        rw [float64Ceil_quotient a _ (by omega) ha (by omega) h2]
        rw [ceilDiv_unique a _ 1 (by omega) (by omega) (by omega)]
        rw [ceilDiv_unique a b 1 hb (by omega) (by omega)]
    rw [hcd]
    obtain ⟨hc1, hc2⟩ := ceilDiv_bounds a b hb
    have hle : ceilDiv a b ≤ a := by
      by_contra hc
      have h3 : (a + 1) * b ≤ ceilDiv a b * b := Nat.mul_le_mul_right _ (by omega)
      have h4 : a * 1 ≤ a * b := Nat.mul_le_mul_left _ hb
      rw [Nat.add_mul, Nat.one_mul] at h3
      omega
    have hlt : ((ceilDiv a b : Nat) : Int) < 2 ^ 63 := by omega
    rw [if_pos hlt]

theorem ceilDiv_le (a b : Nat) (hb : 1 ≤ b) : ceilDiv a b ≤ a := by
  obtain ⟨hc1, hc2⟩ := ceilDiv_bounds a b hb
  by_contra hc
  have h3 : (a + 1) * b ≤ ceilDiv a b * b := Nat.mul_le_mul_right _ (by omega)
  have h4 : a * 1 ≤ a * b := Nat.mul_le_mul_left _ hb
  rw [Nat.add_mul, Nat.one_mul] at h3
  omega

/-- In strip layout with a height below `2^53`, the test of the strip count in
the arithmetic of the source is the comparison of `NumStrips()` with the exact
ceiling. -/
theorem segmentCountTest_strips (im : Image) (g : Geometry) (rowsPerStrip : Nat)
    (hns : 0 < im.NumStrips)
    (hrps : Tag.Uint (TagMap.find im.Tag TagRowsPerStrip) = .ok (rowsPerStrip, true))
    (h1 : 1 ≤ rowsPerStrip) (h2 : rowsPerStrip < 2 ^ 64) (hh : g.height < 2 ^ 53) :
    im.segmentCountTest g =
      some (if ceilDiv g.height rowsPerStrip ≠ im.NumStrips then
        some (.format "expecting strips, found strips") else none) := by
  unfold Image.segmentCountTest
  simp only [gt_iff_lt, hns, if_true, hrps, not_true_eq_false, if_false]
  rw [toInt64_of_lt _ (by omega), ceilOfQuotient_eq_ceilDiv _ _ hh h1 h2]
  dsimp only
  by_cases hc : ceilDiv g.height rowsPerStrip = im.NumStrips
  · rw [if_neg (by rw [hc]; exact fun h => h rfl), if_neg (fun h => h hc)]
  · rw [if_pos (fun h => hc (by exact_mod_cast h)), if_pos hc]

/-- In tile layout with a width and a height below `2^53` and fewer than `2^63`
pixels, the test of the tile count in the arithmetic of the source is the
comparison of `NumTiles()` with the product of the exact ceilings. -/
theorem segmentCountTest_tiles (im : Image) (g : Geometry) (tileWidth tileHeight : Nat)
    (hns : im.NumStrips = 0) (hnt : 0 < im.NumTiles)
    (htw : Tag.Uint (TagMap.find im.Tag TagTileWidth) = .ok (tileWidth, true))
    (hth : Tag.Uint (TagMap.find im.Tag TagTileLength) = .ok (tileHeight, true))
    (h1 : 1 ≤ tileWidth) (h2 : 1 ≤ tileHeight) (h3 : tileWidth < 2 ^ 64)
    (h4 : tileHeight < 2 ^ 64) (hw : g.width < 2 ^ 53) (hh : g.height < 2 ^ 53)
    (hsize : g.width * g.height < 2 ^ 63) :
    im.segmentCountTest g =
      some (if ceilDiv g.width tileWidth * ceilDiv g.height tileHeight ≠ im.NumTiles then
        some (.format "expecting tiles, found tiles") else none) := by
  unfold Image.segmentCountTest
  simp only [gt_iff_lt, hns, lt_self_iff_false, if_false, hnt, if_true, htw, hth,
    not_true_eq_false]
  rw [toInt64_of_lt _ (by omega), toInt64_of_lt _ (by omega),
    ceilOfQuotient_eq_ceilDiv _ _ hh h2 h4, ceilOfQuotient_eq_ceilDiv _ _ hw h1 h3]
  dsimp only
  have hprod : ceilDiv g.width tileWidth * ceilDiv g.height tileHeight < 2 ^ 63 :=
    lt_of_le_of_lt (Nat.mul_le_mul (ceilDiv_le _ _ h1) (ceilDiv_le _ _ h2)) hsize
  have hwrap : wrapInt64 ((ceilDiv g.width tileWidth : Int) * (ceilDiv g.height tileHeight : Int))
      = ((ceilDiv g.width tileWidth * ceilDiv g.height tileHeight : Nat) : Int) := by
    rw [← wrapInt64_of_lt _ hprod]
    push_cast
    rfl
  rw [hwrap]
  by_cases hc : ceilDiv g.width tileWidth * ceilDiv g.height tileHeight = im.NumTiles
  · rw [if_neg (by rw [hc]; exact fun h => h rfl), if_neg (fun h => h hc)]
  · rw [if_pos (fun h => hc (by exact_mod_cast h)), if_pos hc]

/-! ## Errors of the segment loops -/

theorem wrapErr_isFormat (msg : String) (e : Error) : (wrapErr msg e).isFormat = false := by
  cases e <;> rfl

theorem storeRow_error {header : Option Header} {buffer : Buffer} {destOffset n : Nat}
    {rowBuf : List Nat} {e : Error}
    (h : storeRow header buffer destOffset n rowBuf = .error e) : e.isFormat = false := by
  unfold storeRow at h
  repeat' (first | (cases h; done) | (injection h with h; rw [← h]; rfl) | split at h)

theorem decodeRows_error (header : Option Header) (samplesPerRow rowBytes : Nat) (n : Nat) :
    ∀ (reader : List Nat) (buffer : Buffer) (destOffset : Nat) (b : Buffer) (d : Nat) (e : Error),
      decodeRows header samplesPerRow rowBytes n reader buffer destOffset = (b, d, some e) →
      e.isFormat = false := by
  induction n with
  | zero => intro reader buffer destOffset b d e h; simp [decodeRows] at h
  | succ n ih =>
    intro reader buffer destOffset b d e h
    simp only [decodeRows] at h
    split at h
    · injection h with _ h; injection h with _ h; injection h with h; rw [← h]; rfl
    · split at h
      · rename_i e1 h1
        injection h with _ h; injection h with _ h; injection h with h; rw [← h]
        exact storeRow_error h1
      · exact ih _ _ _ _ _ _ h

theorem decodeStrips_error (c : Codecs) (im : Image) (g : Geometry) (rowsPerStrip ny : Nat)
    (n : Nat) : ∀ (iy : Nat) (buffer : Buffer) (destOffset : Nat) (b : Buffer) (e : Error),
      decodeStrips c im g rowsPerStrip ny n iy buffer destOffset = (b, some e) →
      e.isFormat = false := by
  induction n with
  | zero => intro iy buffer destOffset b e h; simp [decodeStrips] at h
  | succ n ih =>
    intro iy buffer destOffset b e h
    simp only [decodeStrips] at h
    split at h
    · injection h with _ h; injection h with h; rw [← h]; rfl
    · split at h
      · injection h with _ h; injection h with h; rw [← h]; exact wrapErr_isFormat _ _
      · split at h
        · rename_i b1 d1 e1 h1
          injection h with _ h; injection h with h; rw [← h]
          exact decodeRows_error _ _ _ _ _ _ _ _ _ _ h1
        · exact ih _ _ _ _ _ h

theorem storeTileLine_error {header : Option Header} {buffer : Buffer} {tileBuf : List Nat}
    {destOffset srcOffset tileDX : Nat} {e : Error}
    (h : storeTileLine header buffer tileBuf destOffset srcOffset tileDX = .error e) :
    e.isFormat = false := by
  unfold storeTileLine at h
  repeat' (first | (cases h; done) | (injection h with h; rw [← h]; rfl) | split at h)

theorem storeTileLines_error (header : Option Header) (tileBuf : List Nat)
    (tileDX destStride srcStride : Nat) (n : Nat) :
    ∀ (buffer : Buffer) (destOffset srcOffset : Nat) (b : Buffer) (e : Error),
      storeTileLines header tileBuf tileDX destStride srcStride n buffer destOffset srcOffset
        = (b, some e) → e.isFormat = false := by
  induction n with
  | zero => intro buffer destOffset srcOffset b e h; simp [storeTileLines] at h
  | succ n ih =>
    intro buffer destOffset srcOffset b e h
    simp only [storeTileLines] at h
    split at h
    · rename_i e1 h1
      injection h with _ h; injection h with h; rw [← h]
      exact storeTileLine_error h1
    · exact ih _ _ _ _ _ h

theorem decodeTile_error {c : Codecs} {im : Image} {g : Geometry}
    {tileWidth tileHeight nx ny iy ix : Nat} {buffer b : Buffer} {e : Error}
    (h : decodeTile c im g tileWidth tileHeight nx ny iy ix buffer = (b, some e)) :
    e.isFormat = false := by
  unfold decodeTile at h
  dsimp only at h
  split at h
  · injection h with _ h; injection h with h; rw [← h]; rfl
  · split at h
    · injection h with _ h; injection h with h; rw [← h]; exact wrapErr_isFormat _ _
    · split at h
      · injection h with _ h; injection h with h; rw [← h]; rfl
      · exact storeTileLines_error _ _ _ _ _ _ _ _ _ _ _ h

theorem decodeTileRow_error (c : Codecs) (im : Image) (g : Geometry)
    (tileWidth tileHeight nx ny iy : Nat) (n : Nat) :
    ∀ (ix : Nat) (buffer b : Buffer) (e : Error),
      decodeTileRow c im g tileWidth tileHeight nx ny iy n ix buffer = (b, some e) →
      e.isFormat = false := by
  induction n with
  | zero => intro ix buffer b e h; simp [decodeTileRow] at h
  | succ n ih =>
    intro ix buffer b e h
    simp only [decodeTileRow] at h
    split at h
    · rename_i b1 e1 h1
      injection h with _ h; injection h with h; rw [← h]
      exact decodeTile_error h1
    · exact ih _ _ _ _ h

theorem decodeTileRows_error (c : Codecs) (im : Image) (g : Geometry)
    (tileWidth tileHeight nx ny : Nat) (n : Nat) :
    ∀ (iy : Nat) (buffer b : Buffer) (e : Error),
      decodeTileRows c im g tileWidth tileHeight nx ny n iy buffer = (b, some e) →
      e.isFormat = false := by
  induction n with
  | zero => intro iy buffer b e h; simp [decodeTileRows] at h
  | succ n ih =>
    intro iy buffer b e h
    simp only [decodeTileRows] at h
    split at h
    · rename_i b1 e1 h1
      injection h with _ h; injection h with h; rw [← h]
      exact decodeTileRow_error _ _ _ _ _ _ _ _ _ _ _ _ _ h1
    · exact ih _ _ _ _ h

/-! ## Facts established by the validation -/

theorem validate_ok {im : Image} {buffer : Buffer} {g : Geometry}
    (h : im.validate buffer = .ok g) :
    g.width ≠ 0 ∧ g.height ≠ 0 ∧
      ((g.bitDepth = 8 ∧ ∃ buf, buffer = .u8 buf ∧
          (buf.length : Int) = toInt64 (g.width * g.height * g.samplePerPixel)) ∨
       (g.bitDepth = 16 ∧ ∃ buf, buffer = .u16 buf ∧
          (buf.length : Int) = toInt64 (g.width * g.height * g.samplePerPixel))) := by
  unfold Image.validate at h
  split at h
  · cases h
  · rename_i width height hwh
    split at h
    · cases h
    · rename_i hw
      split at h
      · cases h
      · rename_i hh
        split at h
        · cases h
        · rename_i spp hspp
          split at h
          · cases h
          · rename_i bitDepth hbd
            simp only at h
            split at h
            · cases h
            · rename_i hsz
              split at h
              · cases h
              · split at h
                · cases h
                · injection h with h
                  subst h
                  refine ⟨hw, hh, ?_⟩
                  simp only
                  split at hsz
                  · cases hsz
                  · split at hsz
                    · rename_i h8
                      left
                      refine ⟨h8, ?_⟩
                      split at hsz
                      · rename_i buf
                        split at hsz
                        · cases hsz
                        · rename_i hlen
                          exact ⟨buf, rfl, by simpa using hlen⟩
                      · cases hsz
                    · split at hsz
                      · rename_i h16
                        right
                        refine ⟨h16, ?_⟩
                        split at hsz
                        · rename_i buf
                          split at hsz
                          · cases hsz
                          · rename_i hlen
                            exact ⟨buf, rfl, by simpa using hlen⟩
                        · cases hsz
                      · cases hsz

/-! ## Splicing and chunk decoding -/

theorem splice_length (buf : List Nat) (off : Nat) (src : List Nat)
    (h : off + src.length ≤ buf.length) : (splice buf off src).length = buf.length := by
  simp only [splice, List.length_append, List.length_take, List.length_drop]
  omega

theorem splice_splice (buf : List Nat) (off : Nat) (a b : List Nat)
    (h : off + a.length + b.length ≤ buf.length) :
    splice (splice buf off a) (off + a.length) b = splice buf off (a ++ b) := by
  have h1 : (List.take off buf).length = off := by
    rw [List.length_take]; omega
  have e1 : List.take (off + a.length) (splice buf off a) = List.take off buf ++ a := by
    unfold splice
    rw [List.append_assoc, List.take_append_eq_append_take, h1,
      List.take_of_length_le (by rw [h1]; omega)]
    congr 1
    rw [List.take_append_eq_append_take]
    simp
  have e2 : List.drop (off + a.length + b.length) (splice buf off a) =
      List.drop (off + (a.length + b.length)) buf := by
    unfold splice
    rw [List.append_assoc, List.drop_append_eq_append_drop, h1,
      List.drop_of_length_le (by rw [h1]; omega), List.nil_append,
      List.drop_append_eq_append_drop, List.drop_of_length_le (by omega), List.nil_append,
      List.drop_drop]
    congr 1
    omega
  show List.take (off + a.length) (splice buf off a) ++ b ++
      List.drop (off + a.length + b.length) (splice buf off a) = _
  rw [e1, e2]
  simp [splice, List.append_assoc]

theorem splice_zero_full (buf src : List Nat) (h : src.length = buf.length) :
    splice buf 0 src = src := by
  simp [splice, h]

theorem decodeChunks_length (bo : ByteOrder) (w k : Nat) (data : List Nat) :
    (decodeChunks bo w k data).length = k := by
  induction k generalizing data with
  | zero => rfl
  | succ k ih => simp [decodeChunks, ih]

theorem decodeChunks_add (bo : ByteOrder) (w a b : Nat) (data : List Nat) :
    decodeChunks bo w (a + b) data =
      decodeChunks bo w a data ++ decodeChunks bo w b (data.drop (a * w)) := by
  induction a generalizing data with
  | zero => simp [decodeChunks]
  | succ a ih =>
    have : a + 1 + b = (a + b) + 1 := by omega
    rw [this]
    simp only [decodeChunks, List.cons_append, ih, List.drop_drop]
    congr 3
    ring_nf

theorem decodeChunks_take (bo : ByteOrder) (w k : Nat) (data : List Nat) :
    decodeChunks bo w k (data.take (k * w)) = decodeChunks bo w k data := by
  induction k generalizing data with
  | zero => rfl
  | succ k ih =>
    simp only [decodeChunks]
    have h1 : (data.take ((k + 1) * w)).take w = data.take w := by
      rw [List.take_take]; congr 1; rw [Nat.add_mul]; omega
    have h2 : (data.take ((k + 1) * w)).drop w = (data.drop w).take (k * w) := by
      rw [List.drop_take]; congr 1; rw [Nat.add_mul]; omega
    rw [h1, h2, ih]

theorem samplesOf_length (bo : ByteOrder) (bitDepth k : Nat) (bytes : List Nat)
    (hbd : bitDepth = 8 ∨ bitDepth = 16) (hlen : k * (bitDepth / 8) ≤ bytes.length) :
    (samplesOf bo bitDepth k bytes).length = k := by
  unfold samplesOf
  rcases hbd with h | h
  · subst h; simp at hlen ⊢; exact hlen
  · subst h; simp [decodeChunks_length]

theorem samplesOf_add (bo : ByteOrder) (bitDepth a b : Nat) (bytes : List Nat)
    (hbd : bitDepth = 8 ∨ bitDepth = 16) :
    samplesOf bo bitDepth (a + b) bytes =
      samplesOf bo bitDepth a bytes ++ samplesOf bo bitDepth b (bytes.drop (a * (bitDepth / 8)))
    := by
  unfold samplesOf
  rcases hbd with h | h
  · subst h; simp [List.take_add]
  · subst h; simp [decodeChunks_add]

/-! ## The strip loops -/

theorem rowBytes_eq (spr bitDepth : Nat) (hbd : bitDepth = 8 ∨ bitDepth = 16) :
    spr * bitDepth / 8 = spr * (bitDepth / 8) := by
  rcases hbd with h | h <;> subst h <;> omega

/-- The length of a scratch buffer whose size computation does not overflow. -/
theorem scratchLen_of_lt (n bits : Nat) (hbd : bits = 8 ∨ bits = 16) (h : n * bits < 2 ^ 63) :
    scratchLen n bits = ((n * (bits / 8) : Nat) : Int) := by
  unfold scratchLen
  rw [toInt64_of_lt _ h]
  rcases hbd with hb | hb
  · subst hb
    rw [Int.tdiv_eq_ediv (by positivity) (by norm_num)]
    norm_cast
    omega
  · subst hb
    rw [Int.tdiv_eq_ediv (by positivity) (by norm_num)]
    norm_cast
    omega

theorem scratchLen_toNat (n bits : Nat) (hbd : bits = 8 ∨ bits = 16) (h : n * bits < 2 ^ 63) :
    ¬ scratchLen n bits < 0 ∧ (scratchLen n bits).toNat = n * bits / 8 := by
  rw [scratchLen_of_lt n bits hbd h]
  refine ⟨by omega, ?_⟩
  rw [Int.toNat_ofNat]
  rcases hbd with hb | hb <;> subst hb <;> omega

theorem storeRow_ok (h : Header) (bitDepth : Nat) (buf : List Nat) (dest spr : Nat)
    (rowBuf : List Nat) (hbd : bitDepth = 8 ∨ bitDepth = 16)
    (hrow : rowBuf.length = spr * (bitDepth / 8)) (hspr : 1 ≤ spr)
    (hdest : dest + spr ≤ buf.length) :
    storeRow (some h) (wrapBuf bitDepth buf) dest spr rowBuf =
      .ok (wrapBuf bitDepth (splice buf dest (samplesOf h.ByteOrder bitDepth spr rowBuf))) := by
  rcases hbd with hb | hb
  · subst hb
    simp [storeRow, wrapBuf, samplesOf, hdest]
  · subst hb
    have h1 : rowBuf.length ≠ 0 := by simp at hrow; omega
    have h2 : 2 * spr ≤ rowBuf.length := by simp at hrow; omega
    simp [storeRow, wrapBuf, samplesOf, hdest, h1, h2]

theorem decodeRows_ok (h : Header) (bitDepth spr : Nat) (hbd : bitDepth = 8 ∨ bitDepth = 16)
    (hspr : 1 ≤ spr) (n : Nat) :
    ∀ (reader buf : List Nat) (dest : Nat),
      n * (spr * (bitDepth / 8)) ≤ reader.length → dest + n * spr ≤ buf.length →
      decodeRows (some h) spr (spr * bitDepth / 8) n reader (wrapBuf bitDepth buf) dest =
        (wrapBuf bitDepth (splice buf dest (samplesOf h.ByteOrder bitDepth (n * spr) reader)),
          dest + n * spr, none) := by
  rw [rowBytes_eq spr bitDepth hbd]
  induction n with
  | zero =>
    intro reader buf dest _ hd
    have : samplesOf h.ByteOrder bitDepth (0 * spr) reader = [] := by
      rcases hbd with hb | hb <;> subst hb <;> simp [samplesOf, decodeChunks]
    rw [this]
    simp [decodeRows, splice]
  | succ n ih =>
    intro reader buf dest hr hd
    rw [Nat.add_mul, Nat.one_mul] at hr hd
    have hread : ReadFull reader (spr * (bitDepth / 8)) =
        some (reader.take (spr * (bitDepth / 8)), reader.drop (spr * (bitDepth / 8))) := by
      simp only [ReadFull]; rw [if_pos (by omega)]
    have hrowlen : (reader.take (spr * (bitDepth / 8))).length = spr * (bitDepth / 8) := by
      rw [List.length_take]; omega
    have hs1 : samplesOf h.ByteOrder bitDepth spr (reader.take (spr * (bitDepth / 8))) =
        samplesOf h.ByteOrder bitDepth spr reader := by
      rcases hbd with hb | hb
      · subst hb; simp [samplesOf, List.take_take]
      · subst hb
        simp only [samplesOf, if_true]
        have : spr * (16 / 8) = spr * 2 := by norm_num
        rw [this, decodeChunks_take]
    have hslen : (samplesOf h.ByteOrder bitDepth spr reader).length = spr :=
      samplesOf_length _ _ _ _ hbd (by omega)
    simp only [decodeRows, hread,
      storeRow_ok h bitDepth buf dest spr _ hbd hrowlen hspr (by omega), hs1]
    rw [ih (reader.drop (spr * (bitDepth / 8))) _ (dest + spr)
      (by rw [List.length_drop]; omega)
      (by rw [splice_length _ _ _ (by rw [hslen]; omega)]; omega)]
    have hsp := splice_splice buf dest (samplesOf h.ByteOrder bitDepth spr reader)
      (samplesOf h.ByteOrder bitDepth (n * spr) (reader.drop (spr * (bitDepth / 8))))
      (by rw [hslen, samplesOf_length _ _ _ _ hbd (by
            rw [List.length_drop, Nat.mul_assoc]; omega)]; omega)
    rw [hslen] at hsp
    rw [hsp]
    have hadd : (n + 1) * spr = spr + n * spr := by ring
    rw [hadd, samplesOf_add _ _ _ _ _ hbd]
    congr 2
    ring

theorem stripSamples_length (bo : ByteOrder) (g : Geometry) (rowsPerStrip ny : Nat)
    (strips : Nat → List Nat) (hbd : g.bitDepth = 8 ∨ g.bitDepth = 16) (n : Nat) :
    ∀ (iy : Nat),
      (∀ i, iy ≤ i → i < iy + n →
        stripRows g.height rowsPerStrip ny i *
          (g.width * g.samplePerPixel * (g.bitDepth / 8)) ≤ (strips i).length) →
      ((List.range' iy n).flatMap (fun i =>
          samplesOf bo g.bitDepth
            (stripRows g.height rowsPerStrip ny i * (g.width * g.samplePerPixel))
            (strips i))).length =
        ((List.range' iy n).map (stripRows g.height rowsPerStrip ny)).sum *
          (g.width * g.samplePerPixel) := by
  induction n with
  | zero => intro iy _; simp
  | succ n ih =>
    intro iy hs
    have hl := hs iy (le_refl _) (by omega)
    simp only [List.range'_succ, List.flatMap_cons, List.length_append, List.map_cons,
      List.sum_cons, Nat.add_mul]
    rw [ih (iy + 1) (fun i h1 h2 => hs i (by omega) (by omega)),
      samplesOf_length _ _ _ _ hbd (by rw [Nat.mul_assoc]; exact hl)]

theorem decodeStrips_ok (c : Codecs) (im : Image) (h : Header) (g : Geometry)
    (rowsPerStrip ny : Nat) (strips : Nat → List Nat)
    (hhdr : im.Header = some h) (hbd : g.bitDepth = 8 ∨ g.bitDepth = 16)
    (hspr : 1 ≤ g.width * g.samplePerPixel)
    (hrs : g.width * g.samplePerPixel * g.bitDepth < 2 ^ 63) (n : Nat) :
    ∀ (iy : Nat) (buf : List Nat) (dest : Nat),
      (∀ i, iy ≤ i → i < iy + n → im.StripReader c i = .ok (strips i) ∧
        stripRows g.height rowsPerStrip ny i *
          (g.width * g.samplePerPixel * (g.bitDepth / 8)) ≤ (strips i).length) →
      dest + ((List.range' iy n).map (stripRows g.height rowsPerStrip ny)).sum *
          (g.width * g.samplePerPixel) ≤ buf.length →
      decodeStrips c im g rowsPerStrip ny n iy (wrapBuf g.bitDepth buf) dest =
        (wrapBuf g.bitDepth (splice buf dest ((List.range' iy n).flatMap (fun i =>
          samplesOf h.ByteOrder g.bitDepth
            (stripRows g.height rowsPerStrip ny i * (g.width * g.samplePerPixel)) (strips i)))),
          none) := by
  induction n with
  | zero => intro iy buf dest _ _; simp [decodeStrips, splice]
  | succ n ih =>
    intro iy buf dest hs hd
    obtain ⟨hr, hl⟩ := hs iy (le_refl _) (by omega)
    simp only [List.range'_succ, List.map_cons, List.sum_cons, Nat.add_mul] at hd
    have hrows := decodeRows_ok h g.bitDepth (g.width * g.samplePerPixel) hbd hspr
      (stripRows g.height rowsPerStrip ny iy) (strips iy) buf dest hl (by omega)
    have hlen : (samplesOf h.ByteOrder g.bitDepth
        (stripRows g.height rowsPerStrip ny iy * (g.width * g.samplePerPixel))
        (strips iy)).length =
        stripRows g.height rowsPerStrip ny iy * (g.width * g.samplePerPixel) :=
      samplesOf_length _ _ _ _ hbd (by rw [Nat.mul_assoc]; exact hl)
    obtain ⟨hSLn, hSLt⟩ := scratchLen_toNat (g.width * g.samplePerPixel) g.bitDepth hbd hrs
    simp only [decodeStrips, hr, hhdr]
    rw [if_neg hSLn, hSLt]
    have hrows2 : decodeRows (some h) (g.width * g.samplePerPixel)
        (g.width * g.samplePerPixel * g.bitDepth / 8)
        (if iy = ny - 1 then g.height - iy * rowsPerStrip else rowsPerStrip) (strips iy)
        (wrapBuf g.bitDepth buf) dest = _ := hrows
    rw [hrows2]
    simp only
    rw [ih (iy + 1) _ _ (fun i h1 h2 => hs i (by omega) (by omega))
      (by rw [splice_length _ _ _ (by rw [hlen]; omega)]; omega)]
    have hsp := splice_splice buf dest
      (samplesOf h.ByteOrder g.bitDepth
        (stripRows g.height rowsPerStrip ny iy * (g.width * g.samplePerPixel)) (strips iy))
      ((List.range' (iy + 1) n).flatMap (fun i =>
          samplesOf h.ByteOrder g.bitDepth
            (stripRows g.height rowsPerStrip ny i * (g.width * g.samplePerPixel)) (strips i)))
      (by
        rw [hlen, stripSamples_length h.ByteOrder g rowsPerStrip ny strips hbd n (iy + 1)
          (fun i h1 h2 => (hs i (by omega) (by omega)).2)]
        omega)
    rw [hlen] at hsp
    rw [hsp]
    simp [List.range'_succ, List.flatMap_cons]

theorem stripRows_sum_initial (height rowsPerStrip ny : Nat) (m : Nat) (hm : m ≤ ny - 1) :
    ((List.range m).map (stripRows height rowsPerStrip ny)).sum = m * rowsPerStrip := by
  induction m with
  | zero => simp
  | succ m ih =>
    rw [List.range_succ, List.map_append, List.sum_append, ih (by omega)]
    have : stripRows height rowsPerStrip ny m = rowsPerStrip := by
      unfold stripRows; rw [if_neg (by omega)]
    simp [this]; ring

theorem stripRows_sum (height rowsPerStrip : Nat) (h1 : 1 ≤ rowsPerStrip) (hh : 1 ≤ height) :
    ((List.range (ceilDiv height rowsPerStrip)).map
      (stripRows height rowsPerStrip (ceilDiv height rowsPerStrip))).sum = height := by
  obtain ⟨hb1, hb2⟩ := ceilDiv_bounds height rowsPerStrip h1
  have hny : 1 ≤ ceilDiv height rowsPerStrip := by
    by_contra hc
    have : ceilDiv height rowsPerStrip = 0 := by omega
    rw [this] at hb1; omega
  obtain ⟨k, hk⟩ : ∃ k, ceilDiv height rowsPerStrip = k + 1 := ⟨_, (Nat.sub_add_cancel hny).symm⟩
  rw [hk] at hb1 hb2 ⊢
  rw [List.range_succ, List.map_append, List.sum_append,
    stripRows_sum_initial _ _ _ k (by omega)]
  have : stripRows height rowsPerStrip (k + 1) k = height - k * rowsPerStrip := by
    unfold stripRows; rw [if_pos (by omega)]
  simp only [List.map_cons, List.map_nil, List.sum_cons, List.sum_nil, this]
  rw [Nat.add_mul] at hb2
  omega

/-- The facts about an image and a buffer under which `DecodeImage` in strip
layout is described: the validation passes with geometry `g`, at least one
sample per pixel, a total sample count and a row size in bits within the range
of `int`, a header,
a RowsPerStrip value of at least 1, and the expected number of strips. -/
theorem DecodeImage_strips (c : Codecs) (im : Image) (h : Header) (buffer : Buffer)
    (g : Geometry) (rowsPerStrip : Nat) (strips : Nat → List Nat)
    (hval : im.validate buffer = .ok g) (hhdr : im.Header = some h)
    (hspp : 1 ≤ g.samplePerPixel)
    (hsize : g.width * g.height * g.samplePerPixel < 2 ^ 63)
    (hrs : g.width * g.samplePerPixel * g.bitDepth < 2 ^ 63)
    (hrps : Tag.Uint (TagMap.find im.Tag TagRowsPerStrip) = .ok (rowsPerStrip, true))
    (h1 : 1 ≤ rowsPerStrip)
    (hny : im.NumStrips = ceilDiv g.height rowsPerStrip)
    (hstrips : ∀ i, i < ceilDiv g.height rowsPerStrip → im.StripReader c i = .ok (strips i) ∧
      stripRows g.height rowsPerStrip (ceilDiv g.height rowsPerStrip) i *
        (g.width * g.samplePerPixel * (g.bitDepth / 8)) ≤ (strips i).length) :
    im.DecodeImage c buffer =
      (wrapBuf g.bitDepth ((List.range (ceilDiv g.height rowsPerStrip)).flatMap (fun i =>
        samplesOf h.ByteOrder g.bitDepth
          (stripRows g.height rowsPerStrip (ceilDiv g.height rowsPerStrip) i *
            (g.width * g.samplePerPixel)) (strips i))), none) := by
  obtain ⟨hw, hh, hbuf⟩ := validate_ok hval
  have hbd : g.bitDepth = 8 ∨ g.bitDepth = 16 := by
    rcases hbuf with ⟨h8, _⟩ | ⟨h16, _⟩
    · exact Or.inl h8
    · exact Or.inr h16
  obtain ⟨buf, hbufeq, hlen⟩ : ∃ buf, buffer = wrapBuf g.bitDepth buf ∧
      buf.length = g.width * g.height * g.samplePerPixel := by
    rcases hbuf with ⟨h8, buf, hb, hl⟩ | ⟨h16, buf, hb, hl⟩
    · refine ⟨buf, by rw [hb, h8]; rfl, ?_⟩
      rw [toInt64_of_lt _ hsize] at hl; exact_mod_cast hl
    · refine ⟨buf, by rw [hb, h16]; rfl, ?_⟩
      rw [toInt64_of_lt _ hsize] at hl; exact_mod_cast hl
  have hspr : 1 ≤ g.width * g.samplePerPixel := Nat.mul_pos (by omega) (by omega)
  obtain ⟨hb1, hb2⟩ := ceilDiv_bounds g.height rowsPerStrip h1
  have hnypos : 0 < ceilDiv g.height rowsPerStrip := by
    by_contra hc
    have : ceilDiv g.height rowsPerStrip = 0 := by omega
    rw [this] at hb1; omega
  have hsum := stripRows_sum g.height rowsPerStrip h1 (by omega)
  rw [List.range_eq_range'] at hsum ⊢
  have hloop := decodeStrips_ok c im h g rowsPerStrip (ceilDiv g.height rowsPerStrip) strips
    hhdr hbd hspr hrs (ceilDiv g.height rowsPerStrip) 0 buf 0
    (fun i _ hi => hstrips i (by omega))
    (by rw [hsum, hlen]; apply Nat.le_of_eq; ring)
  have hlen2 := stripSamples_length h.ByteOrder g rowsPerStrip (ceilDiv g.height rowsPerStrip)
    strips hbd (ceilDiv g.height rowsPerStrip) 0 (fun i _ hi => (hstrips i (by omega)).2)
  rw [splice_zero_full _ _ (by rw [hlen2, hsum, hlen]; ring)] at hloop
  have hns : ceilDiv g.height rowsPerStrip > 0 := hnypos
  simp only [Image.DecodeImage, hval, hns, if_true, hrps, hny, ne_eq, not_true_eq_false,
    if_false, Bool.not_eq_true, Bool.true_eq_false]
  rw [hbufeq, hloop]

/-! ## Pointwise facts about splicing and samples -/

theorem splice_getElem?_inside (buf : List Nat) (off : Nat) (src : List Nat) (j : Nat)
    (h : off + src.length ≤ buf.length) (hj : j < src.length) :
    (splice buf off src)[off + j]? = src[j]? := by
  have h1 : (List.take off buf).length = off := by rw [List.length_take]; omega
  unfold splice
  rw [List.append_assoc, List.getElem?_append_right (by rw [h1]; omega), h1,
    Nat.add_sub_cancel_left, List.getElem?_append_left hj]

theorem splice_getElem?_outside (buf : List Nat) (off : Nat) (src : List Nat) (k : Nat)
    (h : off + src.length ≤ buf.length) (hk : k < off ∨ off + src.length ≤ k) :
    (splice buf off src)[k]? = buf[k]? := by
  have h1 : (List.take off buf).length = off := by rw [List.length_take]; omega
  unfold splice
  rcases hk with hk | hk
  · rw [List.append_assoc, List.getElem?_append_left (by rw [h1]; exact hk),
      List.getElem?_take_of_lt hk]
  · rw [List.getElem?_append_right (by simp [h1]; omega), List.getElem?_drop]
    congr 1
    simp only [List.length_append, h1]
    omega

theorem decodeChunks_initial (bo : ByteOrder) (w : Nat) (a b : Nat) (data : List Nat) :
    decodeChunks bo w a data = (decodeChunks bo w (a + b) data).take a := by
  rw [decodeChunks_add, List.take_append_of_le_length (by rw [decodeChunks_length]),
    List.take_of_length_le (by rw [decodeChunks_length])]

theorem samplesOf_getElem?_le (bo : ByteOrder) (bitDepth a b i : Nat) (bytes : List Nat)
    (hab : a ≤ b) (hi : i < a) :
    (samplesOf bo bitDepth a bytes)[i]? = (samplesOf bo bitDepth b bytes)[i]? := by
  obtain ⟨d, rfl⟩ : ∃ d, b = a + d := ⟨b - a, by omega⟩
  unfold samplesOf
  split
  · rw [decodeChunks_initial bo 2 a d, List.getElem?_take_of_lt hi]
  · rw [List.getElem?_take_of_lt hi, List.getElem?_take_of_lt (by omega)]

theorem samplesOf_take (bo : ByteOrder) (bitDepth k : Nat) (bytes : List Nat)
    (hbd : bitDepth = 8 ∨ bitDepth = 16) :
    samplesOf bo bitDepth k (bytes.take (k * (bitDepth / 8))) = samplesOf bo bitDepth k bytes := by
  unfold samplesOf
  rcases hbd with h | h
  · subst h; simp [List.take_take]
  · subst h
    simp only [if_true]
    have : k * (16 / 8) = k * 2 := by norm_num
    rw [this, decodeChunks_take]

theorem samplesOf_drop_getElem? (bo : ByteOrder) (bitDepth a n j N : Nat) (bytes : List Nat)
    (hbd : bitDepth = 8 ∨ bitDepth = 16) (hj : j < n) (hN : a + n ≤ N)
    (hlen : a * (bitDepth / 8) ≤ bytes.length) :
    (samplesOf bo bitDepth n (bytes.drop (a * (bitDepth / 8))))[j]? =
      (samplesOf bo bitDepth N bytes)[a + j]? := by
  rw [← samplesOf_getElem?_le bo bitDepth (a + n) N (a + j) bytes hN (by omega),
    samplesOf_add _ _ _ _ _ hbd,
    List.getElem?_append_right (by rw [samplesOf_length _ _ _ _ hbd hlen]; omega),
    samplesOf_length _ _ _ _ hbd hlen, Nat.add_sub_cancel_left]

/-! ## The tile loops -/

theorem storeTileLine_ok (h : Header) (bitDepth : Nat) (buf tileBuf : List Nat)
    (dest src tileDX : Nat) (hbd : bitDepth = 8 ∨ bitDepth = 16) (hdx : 1 ≤ tileDX)
    (hdest : dest + tileDX ≤ buf.length)
    (hsrc : (src + tileDX) * (bitDepth / 8) ≤ tileBuf.length) :
    storeTileLine (some h) (wrapBuf bitDepth buf) tileBuf dest src tileDX =
      .ok (wrapBuf bitDepth (splice buf dest
        (samplesOf h.ByteOrder bitDepth tileDX (tileBuf.drop (src * (bitDepth / 8)))))) := by
  rcases hbd with hb | hb
  · subst hb
    simp only [Nat.reduceDiv, Nat.mul_one] at hsrc
    simp [storeTileLine, wrapBuf, samplesOf, hdest, hsrc, slice]
  · subst hb
    simp only [Nat.reduceDiv] at hsrc
    have h1 : ¬ tileBuf.length ≤ 2 * src := by omega
    have h2 : 2 * (src + tileDX) ≤ tileBuf.length := by omega
    have h3 : src * 2 = 2 * src := by omega
    simp [storeTileLine, wrapBuf, samplesOf, hdest, h1, h2, h3]

theorem storeTileLines_inv (h : Header) (bitDepth : Nat) (tileBuf : List Nat)
    (tileDX destStride srcStride : Nat) (E : Nat → Option Nat)
    (hbd : bitDepth = 8 ∨ bitDepth = 16) (hdx : 1 ≤ tileDX) (n : Nat) :
    ∀ (buf : List Nat) (dest src : Nat),
      (∀ r, r < n → dest + r * destStride + tileDX ≤ buf.length ∧
        (src + r * srcStride + tileDX) * (bitDepth / 8) ≤ tileBuf.length ∧
        ∀ j, j < tileDX →
          (samplesOf h.ByteOrder bitDepth tileDX
            (tileBuf.drop ((src + r * srcStride) * (bitDepth / 8))))[j]? =
            E (dest + r * destStride + j)) →
      ∃ buf1, storeTileLines (some h) tileBuf tileDX destStride srcStride n
          (wrapBuf bitDepth buf) dest src = (wrapBuf bitDepth buf1, none) ∧
        buf1.length = buf.length ∧
        (∀ k, buf[k]? = E k → buf1[k]? = E k) ∧
        (∀ r j, r < n → j < tileDX → buf1[dest + r * destStride + j]? =
          E (dest + r * destStride + j)) := by
  induction n with
  | zero =>
    intro buf dest src _
    exact ⟨buf, by simp [storeTileLines], rfl, fun k hk => hk, fun r j hr => by omega⟩
  | succ n ih =>
    intro buf dest src hall
    obtain ⟨hd0, hs0, ha0⟩ := hall 0 (by omega)
    simp only [Nat.zero_mul, Nat.add_zero] at hd0 hs0 ha0
    have hslen : (samplesOf h.ByteOrder bitDepth tileDX
        (tileBuf.drop (src * (bitDepth / 8)))).length = tileDX :=
      samplesOf_length _ _ _ _ hbd (by
        rw [List.length_drop, Nat.add_mul] at *; omega)
    have hlen1 := splice_length buf dest _ (by rw [hslen]; exact hd0)
    obtain ⟨buf2, h2, hl2, hp2, hc2⟩ := ih
      (splice buf dest (samplesOf h.ByteOrder bitDepth tileDX
        (tileBuf.drop (src * (bitDepth / 8))))) (dest + destStride) (src + srcStride)
      (by
        intro r hr
        obtain ⟨hd, hs, ha⟩ := hall (r + 1) (by omega)
        have e1 : dest + destStride + r * destStride = dest + (r + 1) * destStride := by ring
        have e2 : src + srcStride + r * srcStride = src + (r + 1) * srcStride := by ring
        rw [hlen1, e1, e2]
        exact ⟨hd, hs, ha⟩)
    refine ⟨buf2, ?_, by rw [hl2, hlen1], ?_, ?_⟩
    · simp only [storeTileLines,
        storeTileLine_ok h bitDepth buf tileBuf dest src tileDX hbd hdx hd0 hs0]
      exact h2
    · intro k hk
      apply hp2
      by_cases hin : dest ≤ k ∧ k < dest + tileDX
      · obtain ⟨j, rfl⟩ : ∃ j, k = dest + j := ⟨k - dest, by omega⟩
        rw [splice_getElem?_inside _ _ _ _ (by rw [hslen]; exact hd0) (by rw [hslen]; omega)]
        exact ha0 j (by omega)
      · rw [splice_getElem?_outside _ _ _ _ (by rw [hslen]; exact hd0)
          (by rw [hslen]; omega)]
        exact hk
    · intro r j hr hj
      rcases Nat.eq_zero_or_pos r with h0 | hpos
      · subst h0
        simp only [Nat.zero_mul, Nat.add_zero]
        apply hp2
        rw [splice_getElem?_inside _ _ _ _ (by rw [hslen]; exact hd0) (by rw [hslen]; exact hj)]
        exact ha0 j hj
      · obtain ⟨r1, rfl⟩ : ∃ r1, r = r1 + 1 := ⟨r - 1, by omega⟩
        have := hc2 r1 j (by omega) hj
        have e1 : dest + destStride + r1 * destStride = dest + (r1 + 1) * destStride := by ring
        rw [e1] at this
        exact this

/-! ## Tile geometry -/

theorem clip_bounds (size tile i : Nat) (ht : 1 ≤ tile) (hi : i < ceilDiv size tile) :
    1 ≤ (if i = ceilDiv size tile - 1 then size - i * tile else tile) ∧
    (if i = ceilDiv size tile - 1 then size - i * tile else tile) ≤ tile ∧
    i * tile + (if i = ceilDiv size tile - 1 then size - i * tile else tile) ≤ size := by
  obtain ⟨hb1, hb2⟩ := ceilDiv_bounds size tile ht
  obtain ⟨n, hn⟩ : ∃ n, ceilDiv size tile = n + 1 := ⟨ceilDiv size tile - 1, by omega⟩
  rw [hn] at hb1 hb2 hi ⊢
  rw [Nat.add_mul, Nat.one_mul] at hb1 hb2
  simp only [Nat.add_sub_cancel]
  by_cases hlast : i = n
  · subst hlast
    simp only [if_true]
    omega
  · simp only [hlast, if_false]
    have h1 : (i + 1) * tile ≤ n * tile := Nat.mul_le_mul_right tile (by omega)
    rw [Nat.add_mul, Nat.one_mul] at h1
    omega

theorem div_mod_of_lt (c b a : Nat) (h : a < b) : (c * b + a) / b = c ∧ (c * b + a) % b = a := by
  have hb : 0 < b := by omega
  constructor
  · rw [Nat.add_comm, Nat.add_mul_div_right _ _ hb, Nat.div_eq_of_lt h, Nat.zero_add]
  · rw [Nat.add_comm, Nat.add_mul_mod_self_right, Nat.mod_eq_of_lt h]

theorem tileSampleAt_eq (bo : ByteOrder) (g : Geometry) (tileWidth tileHeight nx : Nat)
    (tiles : Nat → List Nat) (iy ix r q s : Nat)
    (hr : r < tileHeight) (hq : q < tileWidth) (hs : s < g.samplePerPixel)
    (hx : ix * tileWidth + q < g.width) :
    tileSampleAt bo g tileWidth tileHeight nx tiles
        (((iy * tileHeight + r) * g.width + (ix * tileWidth + q)) * g.samplePerPixel + s) =
      (samplesOf bo g.bitDepth (tileWidth * tileHeight * g.samplePerPixel)
        (tiles (iy * nx + ix)))[(r * tileWidth + q) * g.samplePerPixel + s]? := by
  unfold tileSampleAt
  obtain ⟨e1, e2⟩ := div_mod_of_lt ((iy * tileHeight + r) * g.width + (ix * tileWidth + q))
    g.samplePerPixel s hs
  obtain ⟨e3, e4⟩ := div_mod_of_lt (iy * tileHeight + r) g.width (ix * tileWidth + q) hx
  obtain ⟨e5, e6⟩ := div_mod_of_lt iy tileHeight r hr
  obtain ⟨e7, e8⟩ := div_mod_of_lt ix tileWidth q hq
  simp only [e1, e2, e3, e4, e5, e6, e7, e8]

theorem decodeTile_inv (c : Codecs) (im : Image) (h : Header) (g : Geometry)
    (tileWidth tileHeight : Nat) (tiles : Nat → List Nat)
    (hhdr : im.Header = some h) (hbd : g.bitDepth = 8 ∨ g.bitDepth = 16)
    (hspp : 1 ≤ g.samplePerPixel) (htw : 1 ≤ tileWidth) (hth : 1 ≤ tileHeight)
    (iy ix : Nat) (hiy : iy < ceilDiv g.height tileHeight) (hix : ix < ceilDiv g.width tileWidth)
    (hread : im.TileReader c (iy * ceilDiv g.width tileWidth + ix) =
      .ok (tiles (iy * ceilDiv g.width tileWidth + ix)))
    (hbytes : tileWidth * tileHeight * g.samplePerPixel * (g.bitDepth / 8) ≤
      (tiles (iy * ceilDiv g.width tileWidth + ix)).length)
    (hts : tileWidth * tileHeight * g.samplePerPixel * g.bitDepth < 2 ^ 63)
    (buf : List Nat) (hlen : buf.length = g.width * g.height * g.samplePerPixel) :
    ∃ buf1, decodeTile c im g tileWidth tileHeight (ceilDiv g.width tileWidth)
        (ceilDiv g.height tileHeight) iy ix (wrapBuf g.bitDepth buf) =
          (wrapBuf g.bitDepth buf1, none) ∧
      buf1.length = buf.length ∧
      (∀ k, buf[k]? = tileSampleAt h.ByteOrder g tileWidth tileHeight
          (ceilDiv g.width tileWidth) tiles k →
        buf1[k]? = tileSampleAt h.ByteOrder g tileWidth tileHeight
          (ceilDiv g.width tileWidth) tiles k) ∧
      (∀ r q s, r < clipY g.height tileHeight (ceilDiv g.height tileHeight) iy →
        q < clipX g.width tileWidth (ceilDiv g.width tileWidth) ix → s < g.samplePerPixel →
        buf1[((iy * tileHeight + r) * g.width + (ix * tileWidth + q)) * g.samplePerPixel + s]? =
          tileSampleAt h.ByteOrder g tileWidth tileHeight (ceilDiv g.width tileWidth) tiles
            (((iy * tileHeight + r) * g.width + (ix * tileWidth + q)) * g.samplePerPixel + s))
    := by
  obtain ⟨cx1, cx2, cx3⟩ := clip_bounds g.width tileWidth ix htw hix
  obtain ⟨cy1, cy2, cy3⟩ := clip_bounds g.height tileHeight iy hth hiy
  set nx := ceilDiv g.width tileWidth with hnx
  set ny := ceilDiv g.height tileHeight with hny
  set spp := g.samplePerPixel with hsppdef
  set w := g.width with hwdef
  set px := (if ix = nx - 1 then w - ix * tileWidth else tileWidth) with hpx
  set py := (if iy = ny - 1 then g.height - iy * tileHeight else tileHeight) with hpy
  set N := tileWidth * tileHeight * spp with hN
  set t := tiles (iy * nx + ix) with ht
  have hSL : scratchLen N g.bitDepth = ((N * (g.bitDepth / 8) : Nat) : Int) :=
    scratchLen_of_lt N g.bitDepth hbd hts
  have hSLn : ¬ scratchLen N g.bitDepth < 0 := by
    rw [hSL]
    omega
  have hRF : ReadFull t (scratchLen N g.bitDepth).toNat =
      some (t.take (N * (g.bitDepth / 8)), t.drop (N * (g.bitDepth / 8))) := by
    rw [hSL, Int.toNat_ofNat]; simp only [ReadFull]; rw [if_pos hbytes]
  have htlen : (t.take (N * (g.bitDepth / 8))).length = N * (g.bitDepth / 8) := by
    rw [List.length_take]; omega
  have hdx : (if ix = nx - 1 then (w - ix * tileWidth) * spp else tileWidth * spp) = px * spp := by
    rw [hpx]; split <;> rfl
  -- the lines of the tile
  have hlines := storeTileLines_inv h g.bitDepth (t.take (N * (g.bitDepth / 8))) (px * spp)
    (w * spp) (tileWidth * spp)
    (tileSampleAt h.ByteOrder g tileWidth tileHeight nx tiles) hbd
    (Nat.mul_pos (by omega) (by omega)) py buf
    ((iy * tileHeight * w + ix * tileWidth) * spp) 0
    (by
      intro r hr
      have hr2 : r < tileHeight := by omega
      have hrow : iy * tileHeight + r + 1 ≤ g.height := by omega
      have e1 : (iy * tileHeight * w + ix * tileWidth) * spp + r * (w * spp) + px * spp =
          ((iy * tileHeight + r) * w + (ix * tileWidth + px)) * spp := by ring
      have hsrcle : r * (tileWidth * spp) + px * spp ≤ N := by
        have h1 : (r + 1) * (tileWidth * spp) ≤ tileHeight * (tileWidth * spp) :=
          Nat.mul_le_mul_right _ (by omega)
        have h2 : px * spp ≤ tileWidth * spp := Nat.mul_le_mul_right _ cx2
        have h3 : tileHeight * (tileWidth * spp) = N := by rw [hN]; ring
        rw [Nat.add_mul, Nat.one_mul] at h1
        omega
      refine ⟨?_, ?_, ?_⟩
      · rw [e1, hlen]
        have h1 : (iy * tileHeight + r) * w + (ix * tileWidth + px) ≤
            (iy * tileHeight + r + 1) * w := by
          rw [Nat.add_mul (iy * tileHeight + r) 1 w, Nat.one_mul]; omega
        have h2 : (iy * tileHeight + r + 1) * w ≤ g.height * w := Nat.mul_le_mul_right _ hrow
        have h3 : ((iy * tileHeight + r) * w + (ix * tileWidth + px)) * spp ≤
            g.height * w * spp := Nat.mul_le_mul_right _ (le_trans h1 h2)
        calc _ ≤ g.height * w * spp := h3
          _ = w * g.height * spp := by ring
      · rw [htlen, Nat.zero_add]
        exact Nat.mul_le_mul_right _ hsrcle
      · intro j hj
        have hsp : 0 < spp := by omega
        have hjq : j / spp < px := Nat.div_lt_of_lt_mul (by rw [Nat.mul_comm]; exact hj)
        have hjs : j % spp < spp := Nat.mod_lt _ hsp
        have hjd : j = j / spp * spp + j % spp := by
          rw [Nat.mul_comm]; exact (Nat.div_add_mod j spp).symm
        have ek : (iy * tileHeight * w + ix * tileWidth) * spp + r * (w * spp) + j =
            ((iy * tileHeight + r) * w + (ix * tileWidth + j / spp)) * spp + j % spp := by
          conv_lhs => rw [hjd]
          ring
        rw [ek, tileSampleAt_eq h.ByteOrder g tileWidth tileHeight nx tiles iy ix r (j / spp)
          (j % spp) hr2 (by omega) hjs (by omega), Nat.zero_add]
        rw [samplesOf_drop_getElem? h.ByteOrder g.bitDepth (r * (tileWidth * spp)) (px * spp) j
          N _ hbd hj hsrcle (by
            rw [htlen]
            exact Nat.mul_le_mul_right _ (by omega)),
          samplesOf_take _ _ _ _ hbd]
        congr 1
        conv_lhs => rw [hjd]
        ring)
  obtain ⟨buf1, hb1, hb2, hb3, hb4⟩ := hlines
  refine ⟨buf1, ?_, hb2, hb3, ?_⟩
  · simp only [decodeTile, hread, hhdr]
    rw [if_neg hSLn, hRF]
    simp only [Nat.zero_mul, hdx]
    have e : (iy * tileHeight * w + ix * tileWidth) * spp =
        (iy * tileHeight * w + ix * tileWidth) * spp := rfl
    exact hb1
  · intro r q s hr hq hs
    have := hb4 r (q * spp + s) hr (by
      have : (q + 1) * spp ≤ px * spp := Nat.mul_le_mul_right _ (by
        simp only [clipX] at hq; omega)
      rw [Nat.add_mul, Nat.one_mul] at this
      omega)
    have ek : (iy * tileHeight * w + ix * tileWidth) * spp + r * (w * spp) + (q * spp + s) =
        ((iy * tileHeight + r) * w + (ix * tileWidth + q)) * spp + s := by ring
    rw [ek] at this
    exact this

theorem decodeTileRow_inv (c : Codecs) (im : Image) (h : Header) (g : Geometry)
    (tileWidth tileHeight : Nat) (tiles : Nat → List Nat)
    (hhdr : im.Header = some h) (hbd : g.bitDepth = 8 ∨ g.bitDepth = 16)
    (hspp : 1 ≤ g.samplePerPixel) (htw : 1 ≤ tileWidth) (hth : 1 ≤ tileHeight)
    (hts : tileWidth * tileHeight * g.samplePerPixel * g.bitDepth < 2 ^ 63)
    (iy : Nat) (hiy : iy < ceilDiv g.height tileHeight) (n : Nat) :
    ∀ (ix0 : Nat) (buf : List Nat), ix0 + n ≤ ceilDiv g.width tileWidth →
      (∀ ix, ix0 ≤ ix → ix < ix0 + n →
        im.TileReader c (iy * ceilDiv g.width tileWidth + ix) =
          .ok (tiles (iy * ceilDiv g.width tileWidth + ix)) ∧
        tileWidth * tileHeight * g.samplePerPixel * (g.bitDepth / 8) ≤
          (tiles (iy * ceilDiv g.width tileWidth + ix)).length) →
      buf.length = g.width * g.height * g.samplePerPixel →
      ∃ buf1, decodeTileRow c im g tileWidth tileHeight (ceilDiv g.width tileWidth)
          (ceilDiv g.height tileHeight) iy n ix0 (wrapBuf g.bitDepth buf) =
            (wrapBuf g.bitDepth buf1, none) ∧
        buf1.length = buf.length ∧
        (∀ k, buf[k]? = tileSampleAt h.ByteOrder g tileWidth tileHeight
            (ceilDiv g.width tileWidth) tiles k →
          buf1[k]? = tileSampleAt h.ByteOrder g tileWidth tileHeight
            (ceilDiv g.width tileWidth) tiles k) ∧
        (∀ ix r q s, ix0 ≤ ix → ix < ix0 + n →
          r < clipY g.height tileHeight (ceilDiv g.height tileHeight) iy →
          q < clipX g.width tileWidth (ceilDiv g.width tileWidth) ix → s < g.samplePerPixel →
          buf1[((iy * tileHeight + r) * g.width + (ix * tileWidth + q)) * g.samplePerPixel + s]? =
            tileSampleAt h.ByteOrder g tileWidth tileHeight (ceilDiv g.width tileWidth) tiles
              (((iy * tileHeight + r) * g.width + (ix * tileWidth + q)) * g.samplePerPixel + s))
    := by
  induction n with
  | zero =>
    intro ix0 buf _ _ _
    exact ⟨buf, by simp [decodeTileRow], rfl, fun k hk => hk,
      fun ix r q s h1 h2 => by omega⟩
  | succ n ih =>
    intro ix0 buf hle hall hlen
    obtain ⟨hr0, hb0⟩ := hall ix0 (le_refl _) (by omega)
    obtain ⟨buf1, h1, hl1, hp1, hc1⟩ := decodeTile_inv c im h g tileWidth tileHeight tiles hhdr
      hbd hspp htw hth iy ix0 hiy (by omega) hr0 hb0 hts buf hlen
    obtain ⟨buf2, h2, hl2, hp2, hc2⟩ := ih (ix0 + 1) buf1 (by omega)
      (fun ix ha hb => hall ix (by omega) (by omega)) (by rw [hl1, hlen])
    refine ⟨buf2, ?_, by rw [hl2, hl1], fun k hk => hp2 k (hp1 k hk), ?_⟩
    · simp only [decodeTileRow, h1]
      exact h2
    · intro ix r q s ha hb hr hq hs
      rcases Nat.eq_or_lt_of_le ha with heq | hlt
      · subst heq
        exact hp2 _ (hc1 r q s hr hq hs)
      · exact hc2 ix r q s (by omega) (by omega) hr hq hs

theorem decodeTileRows_inv (c : Codecs) (im : Image) (h : Header) (g : Geometry)
    (tileWidth tileHeight : Nat) (tiles : Nat → List Nat)
    (hhdr : im.Header = some h) (hbd : g.bitDepth = 8 ∨ g.bitDepth = 16)
    (hspp : 1 ≤ g.samplePerPixel) (htw : 1 ≤ tileWidth) (hth : 1 ≤ tileHeight)
    (hts : tileWidth * tileHeight * g.samplePerPixel * g.bitDepth < 2 ^ 63) (n : Nat) :
    ∀ (iy0 : Nat) (buf : List Nat), iy0 + n ≤ ceilDiv g.height tileHeight →
      (∀ iy ix, iy0 ≤ iy → iy < iy0 + n → ix < ceilDiv g.width tileWidth →
        im.TileReader c (iy * ceilDiv g.width tileWidth + ix) =
          .ok (tiles (iy * ceilDiv g.width tileWidth + ix)) ∧
        tileWidth * tileHeight * g.samplePerPixel * (g.bitDepth / 8) ≤
          (tiles (iy * ceilDiv g.width tileWidth + ix)).length) →
      buf.length = g.width * g.height * g.samplePerPixel →
      ∃ buf1, decodeTileRows c im g tileWidth tileHeight (ceilDiv g.width tileWidth)
          (ceilDiv g.height tileHeight) n iy0 (wrapBuf g.bitDepth buf) =
            (wrapBuf g.bitDepth buf1, none) ∧
        buf1.length = buf.length ∧
        (∀ k, buf[k]? = tileSampleAt h.ByteOrder g tileWidth tileHeight
            (ceilDiv g.width tileWidth) tiles k →
          buf1[k]? = tileSampleAt h.ByteOrder g tileWidth tileHeight
            (ceilDiv g.width tileWidth) tiles k) ∧
        (∀ iy ix r q s, iy0 ≤ iy → iy < iy0 + n → ix < ceilDiv g.width tileWidth →
          r < clipY g.height tileHeight (ceilDiv g.height tileHeight) iy →
          q < clipX g.width tileWidth (ceilDiv g.width tileWidth) ix → s < g.samplePerPixel →
          buf1[((iy * tileHeight + r) * g.width + (ix * tileWidth + q)) * g.samplePerPixel + s]? =
            tileSampleAt h.ByteOrder g tileWidth tileHeight (ceilDiv g.width tileWidth) tiles
              (((iy * tileHeight + r) * g.width + (ix * tileWidth + q)) * g.samplePerPixel + s))
    := by
  induction n with
  | zero =>
    intro iy0 buf _ _ _
    exact ⟨buf, by simp [decodeTileRows], rfl, fun k hk => hk,
      fun iy ix r q s h1 h2 => by omega⟩
  | succ n ih =>
    intro iy0 buf hle hall hlen
    obtain ⟨buf1, h1, hl1, hp1, hc1⟩ := decodeTileRow_inv c im h g tileWidth tileHeight tiles
      hhdr hbd hspp htw hth hts iy0 (by omega) (ceilDiv g.width tileWidth) 0 buf (by omega)
      (fun ix _ hb => hall iy0 ix (le_refl _) (by omega) (by omega)) hlen
    obtain ⟨buf2, h2, hl2, hp2, hc2⟩ := ih (iy0 + 1) buf1 (by omega)
      (fun iy ix ha hb hc => hall iy ix (by omega) (by omega) hc) (by rw [hl1, hlen])
    refine ⟨buf2, ?_, by rw [hl2, hl1], fun k hk => hp2 k (hp1 k hk), ?_⟩
    · simp only [decodeTileRows, h1]
      exact h2
    · intro iy ix r q s ha hb hix hr hq hs
      rcases Nat.eq_or_lt_of_le ha with heq | hlt
      · subst heq
        exact hp2 _ (hc1 ix r q s (Nat.zero_le _) (by omega) hr hq hs)
      · exact hc2 iy ix r q s (by omega) (by omega) hix hr hq hs

/-- `DecodeImage` in tile layout: under the validation, with tile sizes of at
least 1 whose buffer size fits the `int` type, the expected number of tiles
and every tile readable with a full tile of bytes, the call succeeds and every sample of the buffer is the sample
of its tile that `tileSampleAt` names. -/
theorem DecodeImage_tiles (c : Codecs) (im : Image) (h : Header) (buffer : Buffer)
    (g : Geometry) (tileWidth tileHeight : Nat) (tiles : Nat → List Nat)
    (hval : im.validate buffer = .ok g) (hhdr : im.Header = some h)
    (hspp : 1 ≤ g.samplePerPixel)
    (hsize : g.width * g.height * g.samplePerPixel < 2 ^ 63)
    (hns : im.NumStrips = 0)
    (htwu : Tag.Uint (TagMap.find im.Tag TagTileWidth) = .ok (tileWidth, true))
    (hthu : Tag.Uint (TagMap.find im.Tag TagTileLength) = .ok (tileHeight, true))
    (htw : 1 ≤ tileWidth) (hth : 1 ≤ tileHeight)
    (hts : tileWidth * tileHeight * g.samplePerPixel * g.bitDepth < 2 ^ 63)
    (hnt : im.NumTiles = ceilDiv g.width tileWidth * ceilDiv g.height tileHeight)
    (hread : ∀ k, k < ceilDiv g.width tileWidth * ceilDiv g.height tileHeight →
      im.TileReader c k = .ok (tiles k) ∧
      tileWidth * tileHeight * g.samplePerPixel * (g.bitDepth / 8) ≤ (tiles k).length) :
    ∃ out, im.DecodeImage c buffer = (wrapBuf g.bitDepth out, none) ∧
      out.length = g.width * g.height * g.samplePerPixel ∧
      ∀ x y s, x < g.width → y < g.height → s < g.samplePerPixel →
        out[(y * g.width + x) * g.samplePerPixel + s]? =
          (samplesOf h.ByteOrder g.bitDepth (tileWidth * tileHeight * g.samplePerPixel)
            (tiles ((y / tileHeight) * ceilDiv g.width tileWidth + x / tileWidth)))[
              ((y % tileHeight) * tileWidth + x % tileWidth) * g.samplePerPixel + s]? := by
  obtain ⟨hw, hh, hbuf⟩ := validate_ok hval
  have hbd : g.bitDepth = 8 ∨ g.bitDepth = 16 := by
    rcases hbuf with ⟨h8, _⟩ | ⟨h16, _⟩
    · exact Or.inl h8
    · exact Or.inr h16
  obtain ⟨buf, hbufeq, hlen⟩ : ∃ buf, buffer = wrapBuf g.bitDepth buf ∧
      buf.length = g.width * g.height * g.samplePerPixel := by
    rcases hbuf with ⟨h8, buf, hb, hl⟩ | ⟨h16, buf, hb, hl⟩
    · refine ⟨buf, by rw [hb, h8]; rfl, ?_⟩
      rw [toInt64_of_lt _ hsize] at hl; exact_mod_cast hl
    · refine ⟨buf, by rw [hb, h16]; rfl, ?_⟩
      rw [toInt64_of_lt _ hsize] at hl; exact_mod_cast hl
  obtain ⟨hx1, hx2⟩ := ceilDiv_bounds g.width tileWidth htw
  obtain ⟨hy1, hy2⟩ := ceilDiv_bounds g.height tileHeight hth
  have hnxpos : 0 < ceilDiv g.width tileWidth := by
    by_contra hc
    have : ceilDiv g.width tileWidth = 0 := by omega
    rw [this] at hx1; omega
  have hnypos : 0 < ceilDiv g.height tileHeight := by
    by_contra hc
    have : ceilDiv g.height tileHeight = 0 := by omega
    rw [this] at hy1; omega
  obtain ⟨out, h1, hl1, _, hc1⟩ := decodeTileRows_inv c im h g tileWidth tileHeight tiles hhdr
    hbd hspp htw hth hts (ceilDiv g.height tileHeight) 0 buf (by omega)
    (fun iy ix _ hiy hix => hread _ (by
      have e1 : iy * ceilDiv g.width tileWidth + ix < (iy + 1) * ceilDiv g.width tileWidth := by
        rw [Nat.add_mul, Nat.one_mul]; omega
      have e2 : (iy + 1) * ceilDiv g.width tileWidth ≤
          ceilDiv g.height tileHeight * ceilDiv g.width tileWidth :=
        Nat.mul_le_mul_right _ (by omega)
      rw [Nat.mul_comm (ceilDiv g.width tileWidth)]
      omega)) hlen
  refine ⟨out, ?_, by rw [hl1, hlen], ?_⟩
  · have hntpos : ceilDiv g.width tileWidth * ceilDiv g.height tileHeight > 0 :=
      Nat.mul_pos hnxpos hnypos
    simp only [Image.DecodeImage, hval, hns, gt_iff_lt, Nat.lt_irrefl, if_false, hnt, hntpos,
      if_true, htwu, hthu, ne_eq, not_true_eq_false, Bool.not_eq_true, Bool.true_eq_false]
    rw [hbufeq, h1]
  · intro x y s hx hy hs
    have hyd : y = y / tileHeight * tileHeight + y % tileHeight := by
      rw [Nat.mul_comm]; exact (Nat.div_add_mod y tileHeight).symm
    have hxd : x = x / tileWidth * tileWidth + x % tileWidth := by
      rw [Nat.mul_comm]; exact (Nat.div_add_mod x tileWidth).symm
    have hr : y % tileHeight < tileHeight := Nat.mod_lt _ (by omega)
    have hq : x % tileWidth < tileWidth := Nat.mod_lt _ (by omega)
    have hiy : y / tileHeight < ceilDiv g.height tileHeight :=
      Nat.div_lt_of_lt_mul (by rw [Nat.mul_comm]; omega)
    have hix : x / tileWidth < ceilDiv g.width tileWidth :=
      Nat.div_lt_of_lt_mul (by rw [Nat.mul_comm]; omega)
    have := hc1 (y / tileHeight) (x / tileWidth) (y % tileHeight) (x % tileWidth) s
      (Nat.zero_le _) (by omega) hix
      (by unfold clipY; split <;> omega)
      (by unfold clipX; split <;> omega) hs
    rw [← hyd, ← hxd] at this
    rw [this]
    conv_lhs => rw [hyd, hxd]
    rw [tileSampleAt_eq h.ByteOrder g tileWidth tileHeight _ tiles (y / tileHeight)
      (x / tileWidth) (y % tileHeight) (x % tileWidth) s hr hq hs (by omega)]

/-! ## Uncompressed segments and 16-bit samples -/

theorem decodeRawSegment_none (c : Codecs) (im : Image) (raw : List Nat)
    (hcomp : im.Compression = .ok CompressionNone) : im.decodeRawSegment c raw = .ok raw := by
  simp [Image.decodeRawSegment, hcomp]

theorem StripReader_none (c : Codecs) (im : Image) (i : Nat) (raw : List Nat)
    (hcomp : im.Compression = .ok CompressionNone)
    (hraw : rawSegmentReader im TagStripOffsets TagStripByteCounts i = .ok raw) :
    im.StripReader c i = .ok raw := by
  simp [Image.StripReader, hraw, decodeRawSegment_none c im raw hcomp]

theorem TileReader_none (c : Codecs) (im : Image) (i : Nat) (raw : List Nat)
    (hcomp : im.Compression = .ok CompressionNone)
    (hraw : rawSegmentReader im TagTileOffsets TagTileByteCounts i = .ok raw) :
    im.TileReader c i = .ok raw := by
  simp [Image.TileReader, hraw, decodeRawSegment_none c im raw hcomp]

theorem Uint_pair (bo : ByteOrder) (b0 b1 : Nat) : bo.Uint [b0, b1] = sample16 bo b0 b1 := by
  cases bo
  · simp [ByteOrder.Uint, leNat, sample16]
  · simp [ByteOrder.Uint, leNat, sample16]; omega

theorem decodeChunks_getElem? (bo : ByteOrder) (k : Nat) :
    ∀ (bytes : List Nat) (j : Nat), j < k → 2 * k ≤ bytes.length →
      (decodeChunks bo 2 k bytes)[j]? =
        some (sample16 bo (bytes.getD (2 * j) 0) (bytes.getD (2 * j + 1) 0)) := by
  induction k with
  | zero => intro bytes j hj; omega
  | succ k ih =>
    intro bytes j hj hlen
    match bytes, hlen with
    | b0 :: b1 :: rest, hlen =>
      simp only [decodeChunks, List.take_succ_cons, List.take_zero, List.drop_succ_cons,
        List.drop_zero]
      cases j with
      | zero => simp [Uint_pair]
      | succ j =>
        simp only [List.getElem?_cons_succ]
        rw [ih rest j (by omega) (by simp at hlen; omega)]
        have e1 : 2 * (j + 1) = (2 * j) + 1 + 1 := by ring
        rw [e1]
        simp [List.getD_cons_succ]

theorem decodeChunks_eq_map (bo : ByteOrder) (k : Nat) (bytes : List Nat)
    (hlen : 2 * k ≤ bytes.length) :
    decodeChunks bo 2 k bytes = (List.range k).map (fun j =>
      sample16 bo (bytes.getD (2 * j) 0) (bytes.getD (2 * j + 1) 0)) := by
  apply List.ext_getElem?
  intro j
  by_cases hj : j < k
  · rw [decodeChunks_getElem? bo k bytes j hj hlen, List.getElem?_map,
      List.getElem?_range hj]
    rfl
  · rw [List.getElem?_eq_none (by rw [decodeChunks_length]; omega),
      List.getElem?_eq_none (by simp; omega)]

/-! ## Unsigned tags: what the setters store and what the accessors read -/

theorem decodeChunks_flatten_PutUint (bo : ByteOrder) (w : Nat) (vs : List Nat)
    (hv : ∀ v ∈ vs, v < 256 ^ w) :
    decodeChunks bo w vs.length ((vs.map (fun v => bo.PutUint w v)).flatten) = vs := by
  induction vs with
  | nil => rfl
  | cons v vs ih =>
    simp only [List.map_cons, List.flatten_cons, List.length_cons, decodeChunks]
    have hl := bo.PutUint_length w v
    rw [List.take_left' hl, List.drop_left' hl, ByteOrder.Uint_PutUint,
      Nat.mod_eq_of_lt (hv v (List.mem_cons_self _ _)),
      ih (fun x hx => hv x (List.mem_cons_of_mem _ hx))]

theorem intTag_holds (id typ : Nat) (hdr : Header) (width : Nat) (vs : List Nat) :
    HoldsUint (some (intTag id typ hdr width vs)) hdr.ByteOrder typ width vs :=
  ⟨_, hdr, rfl, rfl, rfl, rfl, rfl, rfl⟩

theorem decodedTag_holds (h : Header) (offset i ext : Nat) (id typ : Nat) (hdr : Header)
    (width : Nat) (vs : List Nat) (hbo : hdr.ByteOrder = h.ByteOrder) :
    HoldsUint (some (decodedTag h offset i ext (intTag id typ hdr width vs))) h.ByteOrder typ
      width vs :=
  ⟨_, h, rfl, rfl, rfl, by rw [← hbo]; rfl, rfl, rfl⟩

theorem Tag.decodeUnsigned_holds {t : Tag} {bo : ByteOrder} {typ width : Nat} {vs : List Nat}
    (ht : HoldsUint (some t) bo typ width vs)
    (htyp : (typ = TagTypeShort ∧ width = 2) ∨ (typ = TagTypeLong ∧ width = 4))
    (hv : ∀ v ∈ vs, v < 256 ^ width) : t.decodeUnsigned = .ok (some vs) := by
  obtain ⟨x, hd, hx, hT, hC, hD, hH, hB⟩ := ht
  cases hx
  have hlen := flatten_PutUint_length bo width vs
  rcases htyp with ⟨h1, h2⟩ | ⟨h1, h2⟩
  · subst h1 h2
    have hdec := decodeChunks_flatten_PutUint bo 2 vs hv
    have hsz : TagType.Size TagTypeShort = 2 := by decide
    simp only [Tag.decodeUnsigned, hT, true_or, if_true, hH, DecodeShort, hC, hD, hlen, hsz, hB]
    rw [if_neg (by omega)]
    simp only [hdec]
  · subst h1 h2
    have hdec := decodeChunks_flatten_PutUint bo 4 vs hv
    have hsz : TagType.Size TagTypeLong = 4 := by decide
    have hne : ¬ TagTypeLong = TagTypeShort := by decide
    simp only [Tag.decodeUnsigned, hT, true_or, or_true, if_true, hH, DecodeLong, hC, hD, hlen,
      hsz, hB, hne, if_false]
    rw [if_neg (by omega)]
    simp only [hdec]

theorem Tag.Uint_holds {t : Option Tag} {bo : ByteOrder} {typ width : Nat} {v : Nat}
    (ht : HoldsUint t bo typ width [v])
    (htyp : (typ = TagTypeShort ∧ width = 2) ∨ (typ = TagTypeLong ∧ width = 4))
    (hv : v < 256 ^ width) : Tag.Uint t = .ok (v, true) := by
  obtain ⟨x, hd, hx, hT, hC, hD, hH, hB⟩ := ht
  subst hx
  have hdu := Tag.decodeUnsigned_holds ⟨x, hd, rfl, hT, hC, hD, hH, hB⟩ htyp
    (by intro u hu; rw [List.mem_singleton] at hu; rw [hu]; exact hv)
  have hC1 : x.Count = 1 := hC
  simp only [Tag.Uint, hC1, ne_eq, not_true_eq_false, if_false, hdu]

theorem Tag.UintSlice_holds {t : Option Tag} {bo : ByteOrder} {typ width : Nat} {vs : List Nat}
    (ht : HoldsUint t bo typ width vs)
    (htyp : (typ = TagTypeShort ∧ width = 2) ∨ (typ = TagTypeLong ∧ width = 4))
    (hne : vs ≠ []) (hv : ∀ v ∈ vs, v < 256 ^ width) : Tag.UintSlice t = .ok (vs, true) := by
  obtain ⟨x, hd, hx, hT, hC, hD, hH, hB⟩ := ht
  subst hx
  have hdu := Tag.decodeUnsigned_holds ⟨x, hd, rfl, hT, hC, hD, hH, hB⟩ htyp hv
  have hC0 : ¬ x.Count = 0 := by
    rw [hC]; intro h0; exact hne (List.length_eq_zero.mp h0)
  simp only [Tag.UintSlice, hC0, if_false, hdu]

theorem numSegments_holds {o b : Option Tag} {bo : ByteOrder} {vo vb : List Nat}
    (ho : HoldsUint o bo TagTypeLong 4 vo) (hb : HoldsUint b bo TagTypeLong 4 vb)
    (hl : vo.length = vb.length) : numSegments o b = vo.length := by
  obtain ⟨x, hd, hx, hT, hC, hD, hH, hB⟩ := ho
  obtain ⟨y, hd2, hy, hT2, hC2, hD2, hH2, hB2⟩ := hb
  subst hx hy
  have hsz : TagType.Size TagTypeLong = 4 := by decide
  simp only [numSegments, hT, hT2, hC, hC2, hD, hD2, flatten_PutUint_length, hsz, ne_eq,
    not_true_eq_false, if_false, hl]

/-! ### The setters -/

theorem SetTag_uint32s (im : Image) (hdr : Header) (id : Nat) (vs : List Nat)
    (hh : im.Header = some hdr) :
    im.SetTag id TagTypeLong (.uint32s vs) =
      ({ im with Tag := TagMap.insert im.Tag (intTag id TagTypeLong hdr 4 vs) }, none) := by
  have h1 : ¬ (TagTypeLong ≠ TagTypeLong ∧ TagTypeLong ≠ TagTypeIFD) := by decide
  simp only [Image.SetTag, NewTag, newTagSlice, h1, if_false, newIntTag, hh, headerOrder, intTag]

theorem SetTag_uint32 (im : Image) (hdr : Header) (id : Nat) (v : Nat)
    (hh : im.Header = some hdr) :
    im.SetTag id TagTypeLong (.uint32 v) =
      ({ im with Tag := TagMap.insert im.Tag (intTag id TagTypeLong hdr 4 [v]) }, none) := by
  have h1 : ¬ (TagTypeLong ≠ TagTypeLong ∧ TagTypeLong ≠ TagTypeIFD) := by decide
  simp only [Image.SetTag, NewTag, newTagSlice, h1, if_false, newIntTag, hh, headerOrder, intTag]

theorem toUnsigned_natCast (w : Nat) (v : Nat) (hv : v < 256 ^ w) :
    toUnsigned w (v : Int) = v := by
  unfold toUnsigned
  have : ((v : Int) % ((256 ^ w : Nat) : Int)) = ((v % 256 ^ w : Nat) : Int) := by norm_cast
  rw [this, Int.toNat_ofNat, Nat.mod_eq_of_lt hv]

theorem SetTag_ints_long (im : Image) (hdr : Header) (id : Nat) (n v : Nat)
    (hh : im.Header = some hdr) (hv : v < 2 ^ 32) :
    im.SetTag id TagTypeLong (.ints (List.replicate n (v : Int))) =
      ({ im with Tag := TagMap.insert im.Tag (intTag id TagTypeLong hdr 4 (List.replicate n v)) },
        none) := by
  have h1 : ¬ (TagTypeLong ≠ TagTypeLong ∧ TagTypeLong ≠ TagTypeIFD) := by decide
  have h2 : ¬ TagTypeLong = TagTypeShort := by decide
  have h3 : toUnsigned 4 (v : Int) = v := toUnsigned_natCast 4 v (by norm_num at hv ⊢; exact hv)
  simp only [Image.SetTag, NewTag, h2, if_false, if_true, newTagSlice, h1, newIntTag, hh,
    headerOrder, intTag, List.map_replicate, h3, List.length_replicate]

theorem SetTag_int_short (im : Image) (hdr : Header) (id : Nat) (v : Nat)
    (hh : im.Header = some hdr) (hv : v < 2 ^ 16) :
    im.SetTag id TagTypeShort (.int (v : Int)) =
      ({ im with Tag := TagMap.insert im.Tag (intTag id TagTypeShort hdr 2 [v]) }, none) := by
  have h1 : ¬ (TagTypeShort ≠ TagTypeShort) := by decide
  have h3 : toUnsigned 2 (v : Int) = v := toUnsigned_natCast 2 v (by norm_num at hv ⊢; exact hv)
  simp only [Image.SetTag, NewTag, if_true, newTagSlice, h1, if_false, newIntTag, hh,
    headerOrder, intTag, h3]

/-! ## The configured image -/

theorem intTag_ID (id typ : Nat) (hdr : Header) (width : Nat) (vs : List Nat) :
    (intTag id typ hdr width vs).ID = id := rfl

theorem configuredImage_eq (bo : ByteOrder) (w h ph spp bits rps : Nat) (hbits : bits < 2 ^ 32) :
    configuredImage bo w h ph spp bits rps =
      { Tag := configuredTags bo w h ph spp bits rps, SubImage := [], Exif := none, GPS := none,
        Interoperability := none, Header := some (stripHeader bo), Offset := 0, OffsetNext := 0,
        rd := none } := by
  unfold configuredImage Image.SetRowsPerStrip Image.SetPixelFormat Image.SetWidthHeight
  rw [SetTag_uint32 _ (stripHeader bo) _ _ rfl]
  rw [SetTag_uint32 _ (stripHeader bo) _ _ rfl]
  rw [SetTag_uint32 _ (stripHeader bo) _ _ rfl]
  rw [SetTag_uint32 _ (stripHeader bo) _ _ rfl]
  rw [SetTag_ints_long _ (stripHeader bo) _ _ _ rfl hbits]
  rw [SetTag_uint32 _ (stripHeader bo) _ _ rfl]
  simp only [Encoder.NewImage, TagMap.insert, intTag_ID, configuredTags]
  simp +decide only [if_true, if_false]
  rfl

/-! ## Lookups in decoded tag lists, and the accessors of an image -/

theorem find_decodedTags_none (h : Header) (offset : Nat) (ts : List Tag) (id : Nat) :
    ∀ (i ext : Nat), TagMap.find ts id = none →
      TagMap.find (decodedTags h offset ts i ext) id = none := by
  induction ts with
  | nil => intro i ext _; rfl
  | cons t ts ih =>
    intro i ext hf
    simp only [TagMap.find, List.find?_cons] at hf ⊢
    simp only [decodedTags, List.find?_cons]
    have e : (decodedTag h offset i ext t).ID = t.ID := rfl
    rw [e]
    cases hb : (t.ID == id)
    · rw [hb] at hf
      exact ih _ _ hf
    · rw [hb] at hf
      cases hf

theorem find_decodedTags_holds (h : Header) (offset : Nat) (ts : List Tag) (id : Nat)
    (typ width : Nat) (vs : List Nat) :
    ∀ (i ext : Nat), HoldsUint (TagMap.find ts id) h.ByteOrder typ width vs →
      HoldsUint (TagMap.find (decodedTags h offset ts i ext) id) h.ByteOrder typ width vs := by
  induction ts with
  | nil =>
    intro i ext hf
    obtain ⟨x, hd, hx, _⟩ := hf
    cases hx
  | cons t ts ih =>
    intro i ext hf
    simp only [TagMap.find, List.find?_cons] at hf ⊢
    simp only [decodedTags, List.find?_cons]
    have e : (decodedTag h offset i ext t).ID = t.ID := rfl
    rw [e]
    cases hb : (t.ID == id)
    · rw [hb] at hf
      exact ih _ _ hf
    · rw [hb] at hf
      obtain ⟨x, hd, hx, hT, hC, hD, hH, hB⟩ := hf
      simp only [Option.some.injEq] at hx
      subst hx
      exact ⟨_, h, rfl, hT, hC, hD, rfl, rfl⟩

theorem validate_holds (im : Image) (bo : ByteOrder) (w h spp bits : Nat) (buf : List Nat)
    (hW : HoldsUint (TagMap.find im.Tag TagImageWidth) bo TagTypeLong 4 [w])
    (hH : HoldsUint (TagMap.find im.Tag TagImageLength) bo TagTypeLong 4 [h])
    (hS : HoldsUint (TagMap.find im.Tag TagSamplesPerPixel) bo TagTypeLong 4 [spp])
    (hB : HoldsUint (TagMap.find im.Tag TagBitsPerSample) bo TagTypeLong 4
      (List.replicate spp bits))
    (hP : TagMap.find im.Tag TagPlanarConfig = none)
    (hw : 1 ≤ w) (hh : 1 ≤ h) (hspp : 1 ≤ spp)
    (hw32 : w < 2 ^ 32) (hh32 : h < 2 ^ 32) (hspp32 : spp < 2 ^ 32)
    (hbits : bits = 8 ∨ bits = 16)
    (hlen : buf.length = w * h * spp) (hsize : w * h * spp < 2 ^ 63) :
    im.validate (wrapBuf bits buf) = .ok ⟨w, h, spp, bits⟩ := by
  have hlong : (TagTypeLong = TagTypeShort ∧ 4 = 2) ∨ (TagTypeLong = TagTypeLong ∧ 4 = 4) :=
    Or.inr ⟨rfl, rfl⟩
  have e32 : (256 : Nat) ^ 4 = 2 ^ 32 := by norm_num
  have hWu := Tag.Uint_holds hW hlong (by rw [e32]; exact hw32)
  have hHu := Tag.Uint_holds hH hlong (by rw [e32]; exact hh32)
  have hSu := Tag.Uint_holds hS hlong (by rw [e32]; exact hspp32)
  have hBu := Tag.UintSlice_holds hB hlong
    (by intro h0; have := congrArg List.length h0; simp at this; omega)
    (by
      intro v hv
      rw [List.mem_replicate] at hv
      rw [hv.2, e32]
      rcases hbits with hb | hb <;> rw [hb] <;> norm_num)
  have hwh : im.WidthHeight = .ok (w, h) := by
    simp only [Image.WidthHeight, hWu, hHu, Bool.not_eq_true, if_false]
    simp
  have hsp : im.SamplesPerPixel = .ok spp := by
    simp only [Image.SamplesPerPixel, hSu]
    simp
  have hbd : im.BitDepth = .ok bits := by
    simp only [Image.BitDepth, hBu, hsp, List.length_replicate]
    have h1 : ¬ (¬ True ∨ spp = 0) := by simp; omega
    rw [if_neg h1]
    simp only [ne_eq, not_true_eq_false, if_false]
    have hhead : (List.replicate spp bits).headD 0 = bits := by
      cases spp with
      | zero => omega
      | succ n => rfl
    rw [hhead]
    have hall : (List.replicate spp bits).all (fun b => b == bits) = true := by
      rw [List.all_eq_true]
      intro x hx
      rw [List.mem_replicate] at hx
      simp [hx.2]
    rw [hall]
    rfl
  have hpc : im.PlanarConfig = .ok 1 := by
    simp only [Image.PlanarConfig, hP]
  have hw0 : ¬ w = 0 := by omega
  have hh0 : ¬ h = 0 := by omega
  have hl : ¬ ((buf.length : Int) ≠ toInt64 (w * h * spp)) := by
    rw [toInt64_of_lt _ hsize, hlen]; simp
  simp only [Image.validate, hwh, hw0, hh0, if_false, hsp, hbd, hpc]
  rcases hbits with hb | hb
  · subst hb
    have h81 : ¬ (8 = 1) := by decide
    simp only [h81, if_false, if_true, wrapBuf]
    have h816 : ¬ (8 = 16) := by decide
    simp only [h816, if_false, hl]
    rfl
  · subst hb
    have h161 : ¬ (16 = 1) := by decide
    have h168 : ¬ (16 = 8) := by decide
    simp only [h161, h168, if_false, if_true, wrapBuf, hl]
    rfl

theorem Compression_holds (im : Image) (bo : ByteOrder)
    (hC : HoldsUint (TagMap.find im.Tag TagCompression) bo TagTypeShort 2 [CompressionNone]) :
    im.Compression = .ok CompressionNone := by
  have := Tag.Uint_holds hC (Or.inl ⟨rfl, rfl⟩) (by decide)
  simp only [Image.Compression, this]
  rfl

/-! ## Writing the strips -/

theorem Sink.Write_end (s : Sink) (b : List Nat) (hp : s.pos = s.data.length) :
    s.Write b = { data := s.data ++ b, pos := s.data.length + b.length } := by
  simp [Sink.Write, hp]

theorem encodeSegment_none (c : Codecs) (im : Image) (enc : Encoder) (b : List Nat)
    (hc : im.Compression = .ok CompressionNone) :
    im.encodeSegment c enc b =
      ({ enc with w := enc.w.Write b, offset := enc.offset + b.length },
        .ok (enc.offset, b.length)) := by
  simp [Image.encodeSegment, hc]

theorem stripChunks_succ (bits : Nat) (buf : List Nat) (w h spp rps ny iy n : Nat) :
    stripChunks bits buf w h spp rps ny iy (n + 1) =
      sampleBytes bits (stripSamplesOf buf w h spp rps ny iy) ::
        stripChunks bits buf w h spp rps ny (iy + 1) n := by
  simp [stripChunks, List.range'_succ]

theorem encodeStrips_ok (c : Codecs) (im : Image) (bits : Nat) (buf : List Nat)
    (w h spp rps ny : Nat)
    (hc : im.Compression = .ok CompressionNone)
    (hbits : bits = 8 ∨ bits = 16)
    (hne : bits = 16 → buf.length ≠ 0)
    (hin : ∀ i, i < ny →
      i * (rps * w * spp) + stripRows h rps ny i * w * spp ≤ buf.length) :
    ∀ (n iy sps : Nat) (enc : Encoder) (offs cnts : List Nat), iy + n = ny →
      (1 ≤ n → sps = rps * w * spp) →
      (bits = 16 → enc.Header.ByteOrder = .LittleEndian) →
      enc.w.pos = enc.w.data.length →
      encodeStrips c im (wrapBuf bits buf) w h spp rps ny n iy sps enc offs cnts =
        ({ enc with
            w := { data := enc.w.data ++ (stripChunks bits buf w h spp rps ny iy n).flatten,
                   pos := enc.w.data.length +
                     (stripChunks bits buf w h spp rps ny iy n).flatten.length },
            offset := enc.offset + (stripChunks bits buf w h spp rps ny iy n).flatten.length },
          .ok (offs ++ (layoutOffsets enc.offset
                (stripChunks bits buf w h spp rps ny iy n)).map (fun o => o % 2 ^ 32),
              cnts ++ (stripChunks bits buf w h spp rps ny iy n).map
                (fun ch => ch.length % 2 ^ 32))) := by
  intro n
  induction n with
  | zero =>
    intro iy sps enc offs cnts _ _ _ hpos
    obtain ⟨hd, ⟨data, pos⟩, off⟩ := enc
    simp only at hpos
    subst hpos
    simp [encodeStrips, stripChunks, layoutOffsets]
  | succ n ih =>
    intro iy sps enc offs cnts hiy hsps hle hpos
    have hS : sps = rps * w * spp := hsps (by omega)
    subst hS
    have hlt : iy < ny := by omega
    have hrow : (if iy = ny - 1 then (h - iy * rps) * w * spp else rps * w * spp) =
        stripRows h rps ny iy * w * spp := by
      unfold stripRows
      split <;> rfl
    have hnext : 1 ≤ n → stripRows h rps ny iy * w * spp = rps * w * spp := by
      intro hn
      unfold stripRows
      rw [if_neg (by omega)]
    have hbound := hin iy hlt
    rw [stripChunks_succ]
    set chunk := sampleBytes bits (stripSamplesOf buf w h spp rps ny iy) with hchunk
    rcases hbits with hb | hb
    · subst hb
      have hwb : wrapBuf 8 buf = Buffer.u8 buf := rfl
      have hck : chunk = slice buf (iy * (rps * w * spp))
          (iy * (rps * w * spp) + stripRows h rps ny iy * w * spp) := by
        rw [hchunk]; rfl
      rw [hwb, encodeStrips]
      simp only [hrow, hbound, if_true, encodeSegment_none c im enc _ hc]
      rw [← hwb, ← hck, Sink.Write_end _ _ hpos]
      rw [ih (iy + 1) _ _ _ _ (by omega) hnext (by intro h816; cases h816) (by simp)]
      simp [layoutOffsets, Nat.add_assoc]
    · subst hb
      have hwb : wrapBuf 16 buf = Buffer.u16 buf := rfl
      have hck : chunk = ((slice buf (iy * (rps * w * spp))
          (iy * (rps * w * spp) + stripRows h rps ny iy * w * spp)).map
            (fun v => putLE 2 v)).flatten := by
        rw [hchunk]; rfl
      have hle2 := hle rfl
      have hnb : ¬ (buf.length = 0 ∨
          ¬ (iy * (rps * w * spp) + stripRows h rps ny iy * w * spp ≤ buf.length)) := by
        intro hcon
        rcases hcon with h0 | h1
        · exact hne rfl h0
        · exact h1 hbound
      rw [hwb, encodeStrips]
      simp only [hrow, hle2, if_true, hnb, if_false, encodeSegment_none c im enc _ hc]
      rw [← hwb, ← hck, Sink.Write_end _ _ hpos]
      rw [ih (iy + 1) _ _ _ _ (by omega) hnext (by intro _; exact hle2) (by simp)]
      simp [layoutOffsets, Nat.add_assoc]

/-! ## The layout, the directory and the header of the written file -/

theorem encodeLayout_strips (im : Image) (hdr : Header) (bo : ByteOrder) (rps w h : Nat)
    (hTW : TagMap.find im.Tag TagTileWidth = none)
    (hTL : TagMap.find im.Tag TagTileLength = none)
    (hR : HoldsUint (TagMap.find im.Tag TagRowsPerStrip) bo TagTypeLong 4 [rps])
    (h1 : 1 ≤ rps) (h32 : rps < 2 ^ 32) (hh : im.Header = some hdr) :
    im.encodeLayout w h =
      ({ im with
          Tag := TagMap.insert
            (TagMap.insert im.Tag
              (intTag TagStripOffsets TagTypeLong hdr 4 (List.replicate (ceilDiv h rps) 0)))
            (intTag TagStripByteCounts TagTypeLong hdr 4 (List.replicate (ceilDiv h rps) 0)) },
        .ok (ceilDiv h rps, 0, ceilDiv h rps, rps)) := by
  have hu := Tag.Uint_holds hR (Or.inr ⟨rfl, rfl⟩) (by norm_num at h32 ⊢; exact h32)
  obtain ⟨x, _, hx, _⟩ := hR
  rw [hx] at hu
  have hr0 : ¬ (¬ (true = true) ∨ rps = 0) := by simp; omega
  unfold Image.encodeLayout
  simp only [hTW, hTL, Option.isSome_none, Bool.false_eq_true, or_self, if_false, hx, hu]
  simp only [Bool.not_eq_true, Bool.true_eq_false, not_false_eq_true, false_or,
    show ¬ rps = 0 by omega, if_false, not_true_eq_false, or_self]
  have hh2 : ∀ T, ({ im with Tag := T } : Image).Header = some hdr := fun _ => hh
  rw [SetTag_uint32s im hdr _ _ hh]
  dsimp only
  rw [SetTag_uint32s _ hdr _ _ (hh2 _)]

theorem encodeEntries_snd_length (h : Header) (off p : Nat) (ts : List Tag) :
    ∀ ext, (encodeEntries h off p ts ext).2.length =
      (ts.map (fun t => if t.Data.length ≤ p then 0 else t.Data.length)).sum := by
  induction ts with
  | nil => intro ext; rfl
  | cons t ts ih =>
    intro ext
    simp only [encodeEntries]
    split
    · rename_i hle
      simp only [List.map_cons, List.sum_cons, if_pos hle, ih, Nat.zero_add]
    · rename_i hle
      simp only [List.map_cons, List.sum_cons, if_neg hle, ih, List.length_append]

theorem intTag_data_length (id typ : Nat) (hdr : Header) (width : Nat) (vs : List Nat) :
    (intTag id typ hdr width vs).Data.length = width * vs.length :=
  flatten_PutUint_length _ _ _

theorem EncodeTags_written (im : Image) (hd hdr : Header) (o : Nat) (bo : ByteOrder)
    (w h ph spp bits rps ny : Nat) (offs cnts : List Nat)
    (hv : hd.Version = VersionClassicTIFF) (hh : im.Header = some hd)
    (htags : im.Tag = writtenTags bo w h ph spp bits rps hdr offs cnts)
    (hlo : offs.length = ny) (hlc : cnts.length = ny) :
    ∃ bytes, im.EncodeTags o = ({ im with Offset := o }, .ok bytes) ∧
      bytes.length = dirLength spp ny := by
  have hn : im.Tag.length = 9 := by rw [htags]; rfl
  have hfst := encodeEntries_fst_length hd o 4 im.Tag (2 + im.Tag.length * 12 + 4)
  have hsnd := encodeEntries_snd_length hd o 4 im.Tag (2 + im.Tag.length * 12 + 4)
  refine ⟨hd.ByteOrder.PutUint16 (im.Tag.length % 2 ^ 16) ++
      (encodeEntries hd o 4 im.Tag (2 + im.Tag.length * 12 + 4)).1 ++
      hd.ByteOrder.PutUint32 (im.OffsetNext % 2 ^ 32) ++
      (encodeEntries hd o 4 im.Tag (2 + im.Tag.length * 12 + 4)).2, ?_, ?_⟩
  · unfold Image.EncodeTags
    simp only [Image.TagID, List.length_map, hn, hh, hv, if_true]
    rfl
  · have hsum : (im.Tag.map (fun t => if t.Data.length ≤ 4 then 0 else t.Data.length)).sum =
        (if 4 * spp ≤ 4 then 0 else 4 * spp) +
          ((if 4 * ny ≤ 4 then 0 else 4 * ny) + (if 4 * ny ≤ 4 then 0 else 4 * ny)) := by
      rw [htags]
      simp only [writtenTags, List.map_cons, List.map_nil, List.sum_cons, List.sum_nil,
        intTag_data_length, List.length_cons, List.length_nil, List.length_replicate, hlo, hlc]
      simp only [Nat.reduceAdd, Nat.reduceMul, Nat.reduceLeDiff, if_true]
      omega
    have hbe : hd.bytesOfEntry = 12 := by simp [Header.bytesOfEntry, hv]
    rw [hn] at hfst hsnd
    simp only [List.length_append, ByteOrder.PutUint16, ByteOrder.PutUint32,
      ByteOrder.PutUint_length, hfst, hsnd, hsum, hn, hbe, dirLength]
    omega

theorem Sink.patch (a b1 b2 c : List Nat) (p q : Nat) (hl : b1.length = b2.length) :
    (((Sink.mk (a ++ b1 ++ c) p).Seek a.length).Write b2).Seek q =
      { data := a ++ b2 ++ c, pos := q } := by
  simp only [Sink.Seek, Sink.Write, Sink.mk.injEq, and_true]
  have e1 : List.take a.length (a ++ b1 ++ c) = a := by
    rw [List.append_assoc, List.take_left']
    rfl
  have e2 : a.length - (a ++ b1 ++ c).length = 0 := by
    simp only [List.length_append]; omega
  have e3 : List.drop (a.length + b2.length) (a ++ b1 ++ c) = c := by
    rw [← hl, ← List.length_append, List.drop_left']
    rfl
  rw [e1, e2, e3]
  simp

theorem writtenHeader_encodeBytes (bo : ByteOrder) :
    ∃ hb, (writtenHeader bo).encodeBytes = .ok hb ∧ hb.length = 8 ∧
      ∀ rest, decodeHeader (hb ++ rest) = .ok (writtenHeader bo) := by
  cases bo
  · refine ⟨[73, 73, 42, 0, 8, 0, 0, 0], by rfl, rfl, ?_⟩
    intro rest
    have hr : ReadAt ([73, 73, 42, 0, 8, 0, 0, 0] ++ rest) 8 0 = some [73, 73, 42, 0, 8, 0, 0, 0] :=
      ReadAt_append_mid [] [73, 73, 42, 0, 8, 0, 0, 0] rest 8 0 rfl rfl
    simp only [decodeHeader, hr]
    rfl
  · refine ⟨[77, 77, 0, 42, 0, 0, 0, 8], by rfl, rfl, ?_⟩
    intro rest
    have hr : ReadAt ([77, 77, 0, 42, 0, 0, 0, 8] ++ rest) 8 0 = some [77, 77, 0, 42, 0, 0, 0, 8] :=
      ReadAt_append_mid [] [77, 77, 0, 42, 0, 0, 0, 8] rest 8 0 rfl rfl
    simp only [decodeHeader, hr]
    rfl

/-! ## The tags of the strip image -/

theorem find_intTag (id1 typ : Nat) (hdr : Header) (width : Nat) (vs : List Nat)
    (ts : List Tag) (id : Nat) :
    TagMap.find (intTag id1 typ hdr width vs :: ts) id =
      if id1 = id then some (intTag id1 typ hdr width vs) else TagMap.find ts id := by
  by_cases h : id1 = id
  · simp [TagMap.find, List.find?_cons, intTag_ID, h]
  · have : (id1 == id) = false := by simpa using h
    simp [TagMap.find, List.find?_cons, intTag_ID, this, h]

theorem find_nil (id : Nat) : TagMap.find [] id = none := rfl

theorem configuredTags_find (bo : ByteOrder) (w h ph spp bits rps : Nat) :
    HoldsUint (TagMap.find (configuredTags bo w h ph spp bits rps) TagImageWidth) bo
      TagTypeLong 4 [w % 2 ^ 32] ∧
    HoldsUint (TagMap.find (configuredTags bo w h ph spp bits rps) TagImageLength) bo
      TagTypeLong 4 [h % 2 ^ 32] ∧
    HoldsUint (TagMap.find (configuredTags bo w h ph spp bits rps) TagSamplesPerPixel) bo
      TagTypeLong 4 [spp % 2 ^ 32] ∧
    HoldsUint (TagMap.find (configuredTags bo w h ph spp bits rps) TagBitsPerSample) bo
      TagTypeLong 4 (List.replicate spp bits) ∧
    TagMap.find (configuredTags bo w h ph spp bits rps) TagPlanarConfig = none ∧
    TagMap.find (configuredTags bo w h ph spp bits rps) TagCompression = none := by
  refine ⟨?_, ?_, ?_, ?_, ?_, ?_⟩ <;>
    simp +decide only [configuredTags, find_intTag, find_nil, if_true, if_false] <;>
    exact intTag_holds _ _ (stripHeader bo) _ _

theorem writtenTags_find (bo : ByteOrder) (w h ph spp bits rps : Nat) (hdr : Header)
    (offs cnts : List Nat) (hbo : hdr.ByteOrder = bo) :
    (HoldsUint (TagMap.find (writtenTags bo w h ph spp bits rps hdr offs cnts) TagImageWidth) bo
      TagTypeLong 4 [w % 2 ^ 32] ∧
    HoldsUint (TagMap.find (writtenTags bo w h ph spp bits rps hdr offs cnts) TagImageLength) bo
      TagTypeLong 4 [h % 2 ^ 32] ∧
    HoldsUint (TagMap.find (writtenTags bo w h ph spp bits rps hdr offs cnts) TagSamplesPerPixel)
      bo TagTypeLong 4 [spp % 2 ^ 32] ∧
    HoldsUint (TagMap.find (writtenTags bo w h ph spp bits rps hdr offs cnts) TagBitsPerSample) bo
      TagTypeLong 4 (List.replicate spp bits) ∧
    HoldsUint (TagMap.find (writtenTags bo w h ph spp bits rps hdr offs cnts) TagRowsPerStrip) bo
      TagTypeLong 4 [rps % 2 ^ 32] ∧
    HoldsUint (TagMap.find (writtenTags bo w h ph spp bits rps hdr offs cnts) TagCompression) bo
      TagTypeShort 2 [CompressionNone]) ∧
    (HoldsUint (TagMap.find (writtenTags bo w h ph spp bits rps hdr offs cnts) TagStripOffsets) bo
      TagTypeLong 4 offs ∧
    HoldsUint (TagMap.find (writtenTags bo w h ph spp bits rps hdr offs cnts) TagStripByteCounts)
      bo TagTypeLong 4 cnts) ∧
    (TagMap.find (writtenTags bo w h ph spp bits rps hdr offs cnts) TagPlanarConfig = none ∧
    TagMap.find (writtenTags bo w h ph spp bits rps hdr offs cnts) TagSubIFDs = none ∧
    TagMap.find (writtenTags bo w h ph spp bits rps hdr offs cnts) TagExifIFD = none ∧
    TagMap.find (writtenTags bo w h ph spp bits rps hdr offs cnts) TagGPSIFD = none ∧
    TagMap.find (writtenTags bo w h ph spp bits rps hdr offs cnts) TagInteroperabilityIFD =
      none) := by
  subst hbo
  refine ⟨⟨?_, ?_, ?_, ?_, ?_, ?_⟩, ⟨?_, ?_⟩, ⟨?_, ?_, ?_, ?_, ?_⟩⟩ <;>
    simp +decide only [writtenTags, find_intTag, find_nil, if_true, if_false]
  · exact intTag_holds _ _ (stripHeader hdr.ByteOrder) _ _
  · exact intTag_holds _ _ (stripHeader hdr.ByteOrder) _ _
  · exact intTag_holds _ _ (stripHeader hdr.ByteOrder) _ _
  · exact intTag_holds _ _ (stripHeader hdr.ByteOrder) _ _
  · exact intTag_holds _ _ (stripHeader hdr.ByteOrder) _ _
  · exact intTag_holds _ _ (stripHeader hdr.ByteOrder) _ _
  · exact intTag_holds _ _ hdr _ _
  · exact intTag_holds _ _ hdr _ _

theorem compressedTags_eq (bo : ByteOrder) (w h ph spp bits rps : Nat) :
    TagMap.insert (configuredTags bo w h ph spp bits rps)
        (intTag TagCompression TagTypeShort (stripHeader bo) 2 [CompressionNone]) =
      [intTag TagImageWidth TagTypeLong (stripHeader bo) 4 [w % 2 ^ 32],
       intTag TagImageLength TagTypeLong (stripHeader bo) 4 [h % 2 ^ 32],
       intTag TagBitsPerSample TagTypeLong (stripHeader bo) 4 (List.replicate spp bits),
       intTag TagCompression TagTypeShort (stripHeader bo) 2 [CompressionNone],
       intTag TagPhotometric TagTypeLong (stripHeader bo) 4 [ph % 2 ^ 32],
       intTag TagSamplesPerPixel TagTypeLong (stripHeader bo) 4 [spp % 2 ^ 32],
       intTag TagRowsPerStrip TagTypeLong (stripHeader bo) 4 [rps % 2 ^ 32]] := by
  simp +decide only [configuredTags, TagMap.insert, intTag_ID, if_true, if_false]

theorem writtenTags_insert (bo : ByteOrder) (w h ph spp bits rps : Nat) (hdr : Header)
    (offs cnts : List Nat) :
    TagMap.insert (TagMap.insert (TagMap.insert (configuredTags bo w h ph spp bits rps)
        (intTag TagCompression TagTypeShort (stripHeader bo) 2 [CompressionNone]))
        (intTag TagStripOffsets TagTypeLong hdr 4 offs))
        (intTag TagStripByteCounts TagTypeLong hdr 4 cnts) =
      writtenTags bo w h ph spp bits rps hdr offs cnts := by
  simp +decide only [configuredTags, writtenTags, TagMap.insert, intTag_ID, if_true, if_false]

theorem writtenTags_update (bo : ByteOrder) (w h ph spp bits rps : Nat) (hdr0 hdr : Header)
    (offs0 cnts0 offs cnts : List Nat) :
    TagMap.insert (TagMap.insert (writtenTags bo w h ph spp bits rps hdr0 offs0 cnts0)
        (intTag TagStripOffsets TagTypeLong hdr 4 offs))
        (intTag TagStripByteCounts TagTypeLong hdr 4 cnts) =
      writtenTags bo w h ph spp bits rps hdr offs cnts := by
  simp +decide only [writtenTags, TagMap.insert, intTag_ID, if_true, if_false]

/-! ## The file that `EncodeImage` writes for the strip image -/

theorem layoutOffsets_length (start : Nat) (cs : List (List Nat)) :
    (layoutOffsets start cs).length = cs.length := by
  induction cs generalizing start with
  | nil => rfl
  | cons c cs ih => simp [layoutOffsets, ih]

theorem stripRows_bound (h rps i : Nat) (hrps : 1 ≤ rps) (hh : 1 ≤ h)
    (hi : i < ceilDiv h rps) :
    i * rps + stripRows h rps (ceilDiv h rps) i ≤ h ∧ 1 ≤ stripRows h rps (ceilDiv h rps) i ∧
      (i = ceilDiv h rps - 1 → i * rps + stripRows h rps (ceilDiv h rps) i = h) := by
  obtain ⟨hb1, hb2⟩ := ceilDiv_bounds h rps hrps
  obtain ⟨k, hk⟩ : ∃ k, ceilDiv h rps = k + 1 := ⟨ceilDiv h rps - 1, by omega⟩
  rw [hk] at hb1 hb2 hi ⊢
  have hkr : k * rps < h := by
    have : (k + 1) * rps = k * rps + rps := by ring
    omega
  unfold stripRows
  by_cases hik : i = k + 1 - 1
  · rw [if_pos hik]
    have hik2 : i = k := by omega
    subst hik2
    refine ⟨by omega, by omega, fun _ => by omega⟩
  · rw [if_neg hik]
    have hle : (i + 1) * rps ≤ k * rps := Nat.mul_le_mul_right rps (by omega)
    have : (i + 1) * rps = i * rps + rps := by ring
    refine ⟨by omega, hrps, fun hc => absurd hc hik⟩

theorem strip_in_bounds (w h spp rps i : Nat) (hrps : 1 ≤ rps) (hh : 1 ≤ h)
    (hi : i < ceilDiv h rps) :
    i * (rps * w * spp) + stripRows h rps (ceilDiv h rps) i * w * spp ≤ w * h * spp := by
  obtain ⟨hb, _, _⟩ := stripRows_bound h rps i hrps hh hi
  calc i * (rps * w * spp) + stripRows h rps (ceilDiv h rps) i * w * spp
      = (i * rps + stripRows h rps (ceilDiv h rps) i) * (w * spp) := by ring
    _ ≤ h * (w * spp) := Nat.mul_le_mul_right _ hb
    _ = w * h * spp := by ring

theorem EncodeImage_configured (c : Codecs) (bo : ByteOrder) (w h ph spp bits rps : Nat)
    (buf : List Nat)
    (hw : 1 ≤ w) (hh : 1 ≤ h) (hspp : 1 ≤ spp) (hrps : 1 ≤ rps)
    (hw32 : w < 2 ^ 32) (hh32 : h < 2 ^ 32) (hspp32 : spp < 2 ^ 32) (hrps32 : rps < 2 ^ 32)
    (hbits : bits = 8 ∨ bits = 16) (hle : bits = 16 → bo = .LittleEndian)
    (hlen : buf.length = w * h * spp) (hsize : w * h * spp < 2 ^ 63) :
    ∃ hb dir enc,
      (configuredImage bo w h ph spp bits rps).EncodeImage c (stripEncoder bo)
        (wrapBuf bits buf) = (enc, writtenImage bo w h ph spp bits rps buf, none) ∧
      hb.length = 8 ∧ (∀ rest, decodeHeader (hb ++ rest) = .ok (writtenHeader bo)) ∧
      dir.length = dirLength spp (ceilDiv h rps) ∧
      ((writtenImage bo w h ph spp bits rps buf).EncodeTags 8).2 = .ok dir ∧
      enc.w.data = hb ++ dir ++
        (stripChunks bits buf w h spp rps (ceilDiv h rps) 0 (ceilDiv h rps)).flatten := by
  have hbits32 : bits < 2 ^ 32 := by rcases hbits with hb | hb <;> rw [hb] <;> norm_num
  obtain ⟨hb, hbenc, hblen, hbdec⟩ := writtenHeader_encodeBytes bo
  obtain ⟨cW, cH, cS, cB, cP, cC⟩ := configuredTags_find bo w h ph spp bits rps
  rw [Nat.mod_eq_of_lt hw32] at cW
  rw [Nat.mod_eq_of_lt hh32] at cH
  rw [Nat.mod_eq_of_lt hspp32] at cS
  -- validation
  have hval : (configuredImage bo w h ph spp bits rps).validate (wrapBuf bits buf) =
      .ok ⟨w, h, spp, bits⟩ := by
    apply validate_holds _ bo w h spp bits buf _ _ _ _ _ hw hh hspp hw32 hh32 hspp32 hbits hlen
      hsize
    all_goals rw [configuredImage_eq bo w h ph spp bits rps hbits32]
    · exact cW
    · exact cH
    · exact cS
    · exact cB
    · exact cP
  have hval2 := hval
  rw [configuredImage_eq bo w h ph spp bits rps hbits32] at hval2
  rw [configuredImage_eq bo w h ph spp bits rps hbits32]
  unfold Image.EncodeImage
  dsimp only
  have hhd : (stripEncoder bo).Header = stripHeader bo := rfl
  have hoff : (stripEncoder bo).offset = 0 := rfl
  rw [hhd, hval2]
  dsimp only
  rw [cC]
  simp only [Option.isNone_none, if_true]
  rw [SetTag_int_short _ (stripHeader bo) TagCompression CompressionNone rfl (by decide)]
  dsimp only
  -- the layout
  have hR7 : HoldsUint (TagMap.find (TagMap.insert (configuredTags bo w h ph spp bits rps)
      (intTag TagCompression TagTypeShort (stripHeader bo) 2 [CompressionNone]))
      TagRowsPerStrip) bo TagTypeLong 4 [rps] := by
    rw [compressedTags_eq]
    simp +decide only [find_intTag, find_nil, if_true, if_false]
    have := intTag_holds TagRowsPerStrip TagTypeLong (stripHeader bo) 4 [rps % 2 ^ 32]
    rw [Nat.mod_eq_of_lt hrps32] at this ⊢
    exact this
  have hTW7 : TagMap.find (TagMap.insert (configuredTags bo w h ph spp bits rps)
      (intTag TagCompression TagTypeShort (stripHeader bo) 2 [CompressionNone]))
      TagTileWidth = none := by
    rw [compressedTags_eq]
    simp +decide only [find_intTag, find_nil, if_true, if_false]
  have hTL7 : TagMap.find (TagMap.insert (configuredTags bo w h ph spp bits rps)
      (intTag TagCompression TagTypeShort (stripHeader bo) 2 [CompressionNone]))
      TagTileLength = none := by
    rw [compressedTags_eq]
    simp +decide only [find_intTag, find_nil, if_true, if_false]
  rw [encodeLayout_strips _ (stripHeader bo) bo rps w h hTW7 hTL7 hR7 hrps hrps32 rfl]
  dsimp only
  rw [writtenTags_insert]
  -- the header
  have hv0 : (stripHeader bo).Version = VersionClassicTIFF := rfl
  rw [hoff]
  simp only [hv0, if_true]
  have hH8 : Header.mk (stripHeader bo).ByteOrder VersionClassicTIFF 8 = writtenHeader bo := rfl
  rw [hH8, hbenc]
  dsimp only
  -- the directory
  have hsink : (stripEncoder bo).w = Sink.mk [] 0 := rfl
  rw [hsink, Sink.Write_end _ _ rfl]
  simp only [List.nil_append, List.length_nil, Nat.zero_add, hblen]
  obtain ⟨dir1, hdir1, hdir1len⟩ := EncodeTags_written
    ({ Tag := writtenTags bo w h ph spp bits rps (stripHeader bo)
          (List.replicate (ceilDiv h rps) 0) (List.replicate (ceilDiv h rps) 0),
        SubImage := [], Exif := none, GPS := none, Interoperability := none,
        Header := some (writtenHeader bo), Offset := 0, OffsetNext := 0, rd := none } : Image)
    (writtenHeader bo) (stripHeader bo) 8 bo w h ph spp bits rps (ceilDiv h rps) _ _ rfl rfl rfl
    (List.length_replicate _ _) (List.length_replicate _ _)
  rw [hdir1]
  dsimp only
  -- the strips
  rw [Sink.Write_end _ _ hblen.symm]
  have hny : ceilDiv h rps > 0 := by
    obtain ⟨hb1, _⟩ := ceilDiv_bounds h rps hrps
    by_contra hc
    have h0 : ceilDiv h rps = 0 := by omega
    rw [h0] at hb1
    omega
  have hcomp :
    ({ Tag := writtenTags bo w h ph spp bits rps (stripHeader bo)
          (List.replicate (ceilDiv h rps) 0) (List.replicate (ceilDiv h rps) 0),
        SubImage := [], Exif := none, GPS := none, Interoperability := none,
        Header := some (writtenHeader bo), Offset := 8, OffsetNext := 0, rd := none } :
        Image).Compression = .ok CompressionNone :=
    Compression_holds _ bo (writtenTags_find bo w h ph spp bits rps (stripHeader bo) _ _ rfl).1.2.2.2.2.2
  have hbuf0 : buf.length ≠ 0 := by
    rw [hlen]
    have : 1 ≤ w * h * spp := Nat.mul_pos (Nat.mul_pos hw hh) hspp
    omega
  rw [if_pos hny, encodeStrips_ok c _ bits buf w h spp rps (ceilDiv h rps) hcomp hbits
    (fun _ => hbuf0)
    (fun i hi => by rw [hlen]; exact strip_in_bounds w h spp rps i hrps hh hi)
    (ceilDiv h rps) 0 _ _ [] [] (Nat.zero_add _) (fun _ => rfl) hle (by simp)]
  dsimp only
  simp only [List.nil_append, hdir1len]
  have hso : List.map (fun o => o % 2 ^ 32) (layoutOffsets (8 + dirLength spp (ceilDiv h rps))
      (stripChunks bits buf w h spp rps (ceilDiv h rps) 0 (ceilDiv h rps))) =
      stripOffsetsOf bits buf w h spp rps := rfl
  have hsc : List.map (fun ch => ch.length % 2 ^ 32)
      (stripChunks bits buf w h spp rps (ceilDiv h rps) 0 (ceilDiv h rps)) =
      stripCountsOf bits buf w h spp rps := rfl
  rw [hso, hsc, SetTag_uint32s _ (writtenHeader bo) _ _ rfl]
  dsimp only
  rw [SetTag_uint32s _ (writtenHeader bo) _ _ rfl]
  dsimp only
  rw [writtenTags_update]
  have hwi :
    ({ Tag := writtenTags bo w h ph spp bits rps (writtenHeader bo)
          (stripOffsetsOf bits buf w h spp rps) (stripCountsOf bits buf w h spp rps),
        SubImage := [], Exif := none, GPS := none, Interoperability := none,
        Header := some (writtenHeader bo), Offset := 8, OffsetNext := 0, rd := none } : Image) =
      writtenImage bo w h ph spp bits rps buf := rfl
  rw [hwi]
  have hchunks : (stripChunks bits buf w h spp rps (ceilDiv h rps) 0 (ceilDiv h rps)).length =
      ceilDiv h rps := by simp [stripChunks]
  obtain ⟨dir, hdir, hdirlen⟩ := EncodeTags_written (writtenImage bo w h ph spp bits rps buf)
    (writtenHeader bo) (writtenHeader bo) 8 bo w h ph spp bits rps (ceilDiv h rps) _ _ rfl rfl rfl
    (by simp [stripOffsetsOf, hchunks, layoutOffsets_length])
    (by simp [stripCountsOf, hchunks])
  have hwi2 : ({ writtenImage bo w h ph spp bits rps buf with Offset := 8 } : Image) =
      writtenImage bo w h ph spp bits rps buf := rfl
  rw [hwi2] at hdir
  rw [hdir]
  dsimp only
  -- the patched directory
  have hwo : (writtenImage bo w h ph spp bits rps buf).Offset = hb.length := by rw [hblen]; rfl
  rw [hwo, Sink.patch hb dir1 dir _ _ _ (by rw [hdir1len, hdirlen])]
  rw [if_neg (by omega)]
  exact ⟨hb, dir, _, rfl, hblen, hbdec, hdirlen, rfl, rfl⟩

/-! ## Reading the strips back -/

theorem layoutOffsets_section (cs : List (List Nat)) :
    ∀ (pre post : List Nat) (i : Nat), i < cs.length →
      ((pre ++ cs.flatten ++ post).drop ((layoutOffsets pre.length cs).getD i 0)).take
          (cs.getD i []).length = cs.getD i [] ∧
        (layoutOffsets pre.length cs).getD i 0 + (cs.getD i []).length ≤
          pre.length + cs.flatten.length ∧
        pre.length ≤ (layoutOffsets pre.length cs).getD i 0 := by
  induction cs with
  | nil => intro pre post i hi; simp at hi
  | cons c cs ih =>
    intro pre post i hi
    cases i with
    | zero =>
      simp only [layoutOffsets, List.getD_cons_zero, List.flatten_cons, List.length_append]
      refine ⟨?_, by omega, Nat.le_refl _⟩
      rw [List.append_assoc, List.append_assoc, List.drop_left', List.take_left']
      · rfl
      · rfl
    | succ i =>
      simp only [layoutOffsets, List.getD_cons_succ, List.flatten_cons, List.length_append]
      have hi2 : i < cs.length := by simpa using hi
      have := ih (pre ++ c) post i hi2
      simp only [List.length_append, List.append_assoc] at this ⊢
      refine ⟨this.1, by omega, by omega⟩

theorem flatMap_slices (buf : List Nat) (S m : Nat) :
    (List.range m).flatMap (fun i => slice buf (i * S) (i * S + S)) = buf.take (m * S) := by
  induction m with
  | zero => simp
  | succ m ih =>
    rw [List.range_succ, List.flatMap_append, ih]
    simp only [List.flatMap_cons, List.flatMap_nil, List.append_nil, slice]
    have e : (m + 1) * S = m * S + S := by ring
    rw [e, List.take_add, Nat.add_sub_cancel_left]

theorem stripSamples_concat (buf : List Nat) (w h spp rps : Nat) (hrps : 1 ≤ rps) (hh : 1 ≤ h)
    (hlen : buf.length = w * h * spp) :
    (List.range (ceilDiv h rps)).flatMap
      (fun i => stripSamplesOf buf w h spp rps (ceilDiv h rps) i) = buf := by
  obtain ⟨hb1, hb2⟩ := ceilDiv_bounds h rps hrps
  have hpos : 1 ≤ ceilDiv h rps := by
    by_contra hc
    have h0 : ceilDiv h rps = 0 := by omega
    rw [h0] at hb1
    omega
  obtain ⟨k, hk⟩ : ∃ k, ceilDiv h rps = k + 1 := ⟨ceilDiv h rps - 1, by omega⟩
  have hlast := (stripRows_bound h rps k hrps hh (by omega)).2.2 (by omega)
  rw [hk] at hlast ⊢
  rw [List.range_succ, List.flatMap_append]
  have hfirst : (List.range k).flatMap (fun i => stripSamplesOf buf w h spp rps (k + 1) i) =
      (List.range k).flatMap (fun i => slice buf (i * (rps * w * spp))
        (i * (rps * w * spp) + rps * w * spp)) := by
    apply List.flatMap_congr
    intro i hi
    have hi2 := List.mem_range.mp hi
    unfold stripSamplesOf stripRows
    rw [if_neg (by omega)]
  rw [hfirst, flatMap_slices]
  simp only [List.flatMap_cons, List.flatMap_nil, List.append_nil, stripSamplesOf, slice,
    Nat.add_sub_cancel_left]
  have hend : k * (rps * w * spp) + stripRows h rps (k + 1) k * w * spp = buf.length := by
    rw [hlen]
    calc k * (rps * w * spp) + stripRows h rps (k + 1) k * w * spp
        = (k * rps + stripRows h rps (k + 1) k) * (w * spp) := by ring
      _ = h * (w * spp) := by rw [hlast]
      _ = w * h * spp := by ring
  have e : List.take (stripRows h rps (k + 1) k * w * spp) (List.drop (k * (rps * w * spp)) buf) =
      List.drop (k * (rps * w * spp)) buf :=
    List.take_of_length_le (by rw [List.length_drop]; omega)
  rw [e, List.take_append_drop]

theorem stripSamplesOf_length (buf : List Nat) (w h spp rps i : Nat) (hrps : 1 ≤ rps)
    (hh : 1 ≤ h) (hlen : buf.length = w * h * spp) (hi : i < ceilDiv h rps) :
    (stripSamplesOf buf w h spp rps (ceilDiv h rps) i).length =
      stripRows h rps (ceilDiv h rps) i * (w * spp) := by
  have hb := strip_in_bounds w h spp rps i hrps hh hi
  rw [← hlen] at hb
  simp only [stripSamplesOf, slice, Nat.add_sub_cancel_left, List.length_take, List.length_drop]
  have e : stripRows h rps (ceilDiv h rps) i * (w * spp) =
      stripRows h rps (ceilDiv h rps) i * w * spp := (Nat.mul_assoc _ _ _).symm
  rw [e]
  omega

theorem samplesOf_sampleBytes (bo : ByteOrder) (bits k : Nat) (s : List Nat)
    (hbits : bits = 8 ∨ (bits = 16 ∧ bo = .LittleEndian ∧ ∀ v ∈ s, v < 2 ^ 16))
    (hk : s.length = k) : samplesOf bo bits k (sampleBytes bits s) = s := by
  rcases hbits with hb | ⟨hb, hbo, hv⟩
  · subst hb
    simp [samplesOf, sampleBytes, ← hk]
  · subst hb hbo hk
    simp only [samplesOf, sampleBytes, if_true]
    exact decodeChunks_flatten_PutUint .LittleEndian 2 s
      (by intro v hv2; have := hv v hv2; norm_num at this ⊢; exact this)

theorem sampleBytes_length (bits : Nat) (s : List Nat) (hbits : bits = 8 ∨ bits = 16) :
    (sampleBytes bits s).length = s.length * (bits / 8) := by
  rcases hbits with hb | hb
  · subst hb; simp [sampleBytes]
  · subst hb
    simp only [sampleBytes, if_true]
    have := flatten_PutUint_length .LittleEndian 2 s
    simp only [ByteOrder.PutUint] at this
    rw [this]
    omega

/-! ## Decoding the written file -/

theorem intTag_built (id typ : Nat) (hdr : Header) (width : Nat) (vs : List Nat)
    (hid : id < 2 ^ 16)
    (htyp : (typ = TagTypeShort ∧ width = 2) ∨ (typ = TagTypeLong ∧ width = 4)) :
    (intTag id typ hdr width vs).Built := by
  refine ⟨hid, ?_, ?_⟩
  · rcases htyp with ⟨h1, _⟩ | ⟨h1, _⟩ <;> rw [show (intTag id typ hdr width vs).Typ = typ from rfl, h1] <;> decide
  · rw [intTag_data_length]
    rcases htyp with ⟨h1, h2⟩ | ⟨h1, h2⟩
    · rw [show (intTag id typ hdr width vs).Typ = typ from rfl, h1, h2]; rfl
    · rw [show (intTag id typ hdr width vs).Typ = typ from rfl, h1, h2]; rfl

theorem writtenImage_tagsBuilt (bo : ByteOrder) (w h ph spp bits rps : Nat) (buf : List Nat) :
    (writtenImage bo w h ph spp bits rps buf).TagsBuilt ∧
      (∀ t ∈ (writtenImage bo w h ph spp bits rps buf).Tag, 0 < t.ID) ∧
      (writtenImage bo w h ph spp bits rps buf).Tag ≠ [] := by
  refine ⟨⟨?_, ?_⟩, ?_, ?_⟩
  · simp +decide only [TagMap.Sorted, writtenImage, writtenTags, List.pairwise_cons,
      List.mem_cons, forall_eq_or_imp, intTag_ID, List.not_mem_nil, false_imp_iff,
      implies_true, and_true, List.Pairwise.nil, List.mem_singleton, forall_eq]
  · intro t ht
    simp only [writtenImage, writtenTags, List.mem_cons, List.mem_singleton,
      List.not_mem_nil, or_false] at ht
    rcases ht with ht | ht | ht | ht | ht | ht | ht | ht | ht <;> rw [ht] <;>
      first
      | exact intTag_built _ _ _ _ _ (by decide) (Or.inr ⟨rfl, rfl⟩)
      | exact intTag_built _ _ _ _ _ (by decide) (Or.inl ⟨rfl, rfl⟩)
  · intro t ht
    simp only [writtenImage, writtenTags, List.mem_cons, List.mem_singleton,
      List.not_mem_nil, or_false] at ht
    rcases ht with ht | ht | ht | ht | ht | ht | ht | ht | ht <;> rw [ht, intTag_ID] <;> decide
  · simp [writtenImage, writtenTags]

theorem decodeFirstImage_readImage (c : Codecs) (bo : ByteOrder) (w h ph spp bits rps : Nat)
    (buf : List Nat) (hb dir rest : List Nat) (init : Buffer)
    (hblen : hb.length = 8)
    (hbdec : ∀ tail, decodeHeader (hb ++ tail) = .ok (writtenHeader bo))
    (hdir : ((writtenImage bo w h ph spp bits rps buf).EncodeTags 8).2 = .ok dir)
    (hfit : 8 + dir.length ≤ 2 ^ 32) :
    decodeFirstImage c (hb ++ dir ++ rest) init =
      some ((readImage bo w h ph spp bits rps buf (hb ++ dir ++ rest)).DecodeImage c init) := by
  obtain ⟨hbuilt, hpos, hne⟩ := writtenImage_tagsBuilt bo w h ph spp bits rps buf
  have hND : NewDecoder (hb ++ dir ++ rest) =
      .ok (Decoder.mk (writtenHeader bo) (hb ++ dir ++ rest)) := by
    unfold NewDecoder
    rw [List.append_assoc, hbdec]
  have hIFD := DecodeIFD_EncodeTags (writtenHeader bo) (writtenImage bo w h ph spp bits rps buf) 8
    dir hb rest (Or.inl rfl) rfl hne hbuilt hpos hdir hblen
    (by simp only [Header.offsetLimit, writtenHeader, if_true]; exact hfit)
    (by show 0 < (writtenHeader bo).offsetLimit; simp [Header.offsetLimit, writtenHeader])
  obtain ⟨_, _, hnone⟩ := writtenTags_find bo w h ph spp bits rps (writtenHeader bo)
    (stripOffsetsOf bits buf w h spp rps) (stripCountsOf bits buf w h spp rps) rfl
  obtain ⟨_, n1, n2, n3, n4⟩ := hnone
  have hDD : (Decoder.mk (writtenHeader bo) (hb ++ dir ++ rest)).decodeDirectories 8 = .ok
      { readImage bo w h ph spp bits rps buf (hb ++ dir ++ rest) with
        Header := none, rd := none } := by
    unfold Decoder.decodeDirectories
    rw [hIFD]
    simp only [find_decodedTags_none _ _ _ _ _ _ n1, find_decodedTags_none _ _ _ _ _ _ n2,
      find_decodedTags_none _ _ _ _ _ _ n3, find_decodedTags_none _ _ _ _ _ _ n4,
      writtenImage, Tag.UintSlice, Tag.Uint, Bool.false_eq_true, false_and, if_false]
    rfl
  unfold decodeFirstImage
  rw [hND]
  simp only [Iter.Next, Decoder.Iter, Option.isSome_none, Bool.false_eq_true, if_false]
  have h8 : (writtenHeader bo).OffsetFirstIFD = 8 := rfl
  have h80 : ¬ (8 = 0) := by decide
  simp only [h8, h80, if_false, hDD, Iter.Image, readImage]

/-! ## The pixels of the written file -/

theorem sampleBytes_flatMap (bits : Nat) (f : Nat → List Nat) (l : List Nat) :
    (l.map (fun i => sampleBytes bits (f i))).flatten = sampleBytes bits (l.flatMap f) := by
  induction l with
  | nil => simp [sampleBytes]
  | cons a l ih =>
    simp only [List.map_cons, List.flatten_cons, List.flatMap_cons, ih]
    unfold sampleBytes
    split
    · simp
    · rfl

theorem stripChunks_flatten (bits : Nat) (buf : List Nat) (w h spp rps : Nat) (hrps : 1 ≤ rps)
    (hh : 1 ≤ h) (hlen : buf.length = w * h * spp) :
    (stripChunks bits buf w h spp rps (ceilDiv h rps) 0 (ceilDiv h rps)).flatten =
      sampleBytes bits buf := by
  unfold stripChunks
  rw [sampleBytes_flatMap, ← List.range_eq_range', stripSamples_concat buf w h spp rps hrps hh hlen]

theorem stripChunks_getD (bits : Nat) (buf : List Nat) (w h spp rps ny i : Nat) (hi : i < ny) :
    (stripChunks bits buf w h spp rps ny 0 ny).getD i [] =
      sampleBytes bits (stripSamplesOf buf w h spp rps ny i) := by
  unfold stripChunks
  rw [List.getD_eq_getElem?_getD, List.getElem?_map, List.getElem?_range' _ _ hi]
  simp

theorem map_getD_mod (l : List Nat) (i : Nat) :
    (l.map (fun o => o % 2 ^ 32)).getD i 0 = l.getD i 0 % 2 ^ 32 := by
  rw [List.getD_eq_getElem?_getD, List.getD_eq_getElem?_getD, List.getElem?_map]
  cases l[i]? <;> rfl

theorem map_length_getD_mod (l : List (List Nat)) (i : Nat) :
    (l.map (fun ch => ch.length % 2 ^ 32)).getD i 0 = (l.getD i []).length % 2 ^ 32 := by
  rw [List.getD_eq_getElem?_getD, List.getD_eq_getElem?_getD, List.getElem?_map]
  cases l[i]? <;> rfl

theorem DecodeImage_readImage (c : Codecs) (bo : ByteOrder) (w h ph spp bits rps : Nat)
    (buf init hb dir : List Nat)
    (hw : 1 ≤ w) (hh : 1 ≤ h) (hspp : 1 ≤ spp) (hrps : 1 ≤ rps)
    (hw32 : w < 2 ^ 32) (hh32 : h < 2 ^ 32) (hspp32 : spp < 2 ^ 32) (hrps32 : rps < 2 ^ 32)
    (hbits : bits = 8 ∨ (bits = 16 ∧ bo = .LittleEndian ∧ ∀ v ∈ buf, v < 2 ^ 16))
    (hlen : buf.length = w * h * spp) (hinit : init.length = w * h * spp)
    (hblen : hb.length = 8) (hdirlen : dir.length = dirLength spp (ceilDiv h rps))
    (hfile : 8 + dirLength spp (ceilDiv h rps) + w * h * spp * (bits / 8) ≤ 2 ^ 32) :
    (readImage bo w h ph spp bits rps buf (hb ++ dir ++
        (stripChunks bits buf w h spp rps (ceilDiv h rps) 0 (ceilDiv h rps)).flatten)).DecodeImage
      c (wrapBuf bits init) = (wrapBuf bits buf, none) := by
  have hb2 : bits = 8 ∨ bits = 16 := by
    rcases hbits with hb | ⟨hb, _⟩
    · exact Or.inl hb
    · exact Or.inr hb
  have hbytes : 1 ≤ bits / 8 := by rcases hb2 with hb | hb <;> simp [hb]
  have hsize : w * h * spp < 2 ^ 63 := by
    have : w * h * spp ≤ w * h * spp * (bits / 8) := Nat.le_mul_of_pos_right _ hbytes
    omega
  set ny := ceilDiv h rps with hnydef
  set chunks := stripChunks bits buf w h spp rps ny 0 ny with hchunks
  set file := hb ++ dir ++ chunks.flatten with hfiledef
  set im := readImage bo w h ph spp bits rps buf file with himdef
  have hnlen : chunks.length = ny := by simp [hchunks, stripChunks]
  have hnypos : 0 < ny := by
    obtain ⟨hb1, _⟩ := ceilDiv_bounds h rps hrps
    by_contra hc
    have h0 : ceilDiv h rps = 0 := by omega
    rw [h0] at hb1
    omega
  have hflat : chunks.flatten.length = w * h * spp * (bits / 8) := by
    rw [hchunks, hnydef, stripChunks_flatten bits buf w h spp rps hrps hh hlen,
      sampleBytes_length bits buf hb2, hlen]
  -- the tags
  obtain ⟨⟨tW, tH, tS, tB, tR, tC⟩, ⟨tO, tN⟩, tP, _⟩ :=
    writtenTags_find bo w h ph spp bits rps (writtenHeader bo)
      (stripOffsetsOf bits buf w h spp rps) (stripCountsOf bits buf w h spp rps) rfl
  rw [Nat.mod_eq_of_lt hw32] at tW
  rw [Nat.mod_eq_of_lt hh32] at tH
  rw [Nat.mod_eq_of_lt hspp32] at tS
  rw [Nat.mod_eq_of_lt hrps32] at tR
  have lift : ∀ id typ width vs,
      HoldsUint (TagMap.find (writtenTags bo w h ph spp bits rps (writtenHeader bo)
        (stripOffsetsOf bits buf w h spp rps) (stripCountsOf bits buf w h spp rps)) id) bo typ
        width vs → HoldsUint (TagMap.find im.Tag id) bo typ width vs :=
    fun id typ width vs hx => find_decodedTags_holds (writtenHeader bo) 8 _ id typ width vs _ _ hx
  have hlong : (TagTypeLong = TagTypeShort ∧ 4 = 2) ∨ (TagTypeLong = TagTypeLong ∧ 4 = 4) :=
    Or.inr ⟨rfl, rfl⟩
  have e32 : (256 : Nat) ^ 4 = 2 ^ 32 := by norm_num
  have hval : im.validate (wrapBuf bits init) = .ok ⟨w, h, spp, bits⟩ :=
    validate_holds im bo w h spp bits init (lift _ _ _ _ tW) (lift _ _ _ _ tH) (lift _ _ _ _ tS)
      (lift _ _ _ _ tB) (find_decodedTags_none _ _ _ _ _ _ tP) hw hh hspp hw32 hh32 hspp32 hb2
      hinit hsize
  have hrpsu : Tag.Uint (TagMap.find im.Tag TagRowsPerStrip) = .ok (rps, true) :=
    Tag.Uint_holds (lift _ _ _ _ tR) hlong (by rw [e32]; exact hrps32)
  have hcomp : im.Compression = .ok CompressionNone := Compression_holds im bo (lift _ _ _ _ tC)
  have holen : (stripOffsetsOf bits buf w h spp rps).length = ny := by
    simp [stripOffsetsOf, layoutOffsets_length, ← hnydef, ← hchunks, hnlen]
  have hclen : (stripCountsOf bits buf w h spp rps).length = ny := by
    simp [stripCountsOf, ← hnydef, ← hchunks, hnlen]
  have hns : im.NumStrips = ny := by
    have := numSegments_holds (lift _ _ _ _ tO) (lift _ _ _ _ tN) (by rw [holen, hclen])
    rw [holen] at this
    exact this
  have hou : Tag.UintSlice (TagMap.find im.Tag TagStripOffsets) =
      .ok (stripOffsetsOf bits buf w h spp rps, true) :=
    Tag.UintSlice_holds (lift _ _ _ _ tO) hlong
      (by intro h0; rw [h0] at holen; simp at holen; omega)
      (by
        intro v hv
        simp only [stripOffsetsOf, List.mem_map] at hv
        obtain ⟨o, _, ho⟩ := hv
        rw [← ho, e32]
        exact Nat.mod_lt _ (by norm_num))
  have hcu : Tag.UintSlice (TagMap.find im.Tag TagStripByteCounts) =
      .ok (stripCountsOf bits buf w h spp rps, true) :=
    Tag.UintSlice_holds (lift _ _ _ _ tN) hlong
      (by intro h0; rw [h0] at hclen; simp at hclen; omega)
      (by
        intro v hv
        simp only [stripCountsOf, List.mem_map] at hv
        obtain ⟨o, _, ho⟩ := hv
        rw [← ho, e32]
        exact Nat.mod_lt _ (by norm_num))
  -- the strips
  have hstrips : ∀ i, i < ceilDiv h rps →
      im.StripReader c i = .ok (chunks.getD i []) ∧
      stripRows h rps (ceilDiv h rps) i * (w * spp * (bits / 8)) ≤ (chunks.getD i []).length := by
    intro i hi
    have hci : chunks.getD i [] = sampleBytes bits (stripSamplesOf buf w h spp rps ny i) :=
      stripChunks_getD bits buf w h spp rps ny i hi
    have hcl : (chunks.getD i []).length = stripRows h rps ny i * (w * spp) * (bits / 8) := by
      rw [hci, sampleBytes_length bits _ hb2, stripSamplesOf_length buf w h spp rps i hrps hh hlen hi]
    have hrow : 1 ≤ stripRows h rps ny i := (stripRows_bound h rps i hrps hh hi).2.1
    have hcpos : 1 ≤ (chunks.getD i []).length := by
      rw [hcl]
      exact Nat.mul_pos (Nat.mul_pos hrow (Nat.mul_pos hw hspp)) hbytes
    obtain ⟨hsec, hend, hstart⟩ :=
      layoutOffsets_section chunks (hb ++ dir) [] i (by rw [hnlen]; exact hi)
    rw [List.append_nil] at hsec
    have hpre : (hb ++ dir).length = 8 + dirLength spp ny := by
      rw [List.length_append, hblen, hdirlen]
    rw [hpre] at hsec hend hstart
    rw [hflat] at hend
    have hoff : (stripOffsetsOf bits buf w h spp rps).getD i 0 =
        (layoutOffsets (8 + dirLength spp ny) chunks).getD i 0 := by
      have hso : stripOffsetsOf bits buf w h spp rps =
          (layoutOffsets (8 + dirLength spp ny) chunks).map (fun o => o % 2 ^ 32) := rfl
      rw [hso, map_getD_mod]
      exact Nat.mod_eq_of_lt (by omega)
    have hcnt : (stripCountsOf bits buf w h spp rps).getD i 0 = (chunks.getD i []).length := by
      have hsc : stripCountsOf bits buf w h spp rps =
          chunks.map (fun ch => ch.length % 2 ^ 32) := rfl
      rw [hsc, map_length_getD_mod]
      exact Nat.mod_eq_of_lt (by omega)
    refine ⟨?_, ?_⟩
    · apply StripReader_none c im i _ hcomp
      unfold rawSegmentReader
      rw [hou, hcu]
      simp only [holen, hclen]
      rw [if_neg (by omega)]
      have hrd : im.rd = some file := rfl
      rw [hrd]
      simp only [sectionBytes, hoff, hcnt]
      rw [toInt64_of_lt _ (by omega), toInt64_of_lt _ (by omega), if_neg (by omega)]
      exact congrArg Except.ok hsec
    · rw [hcl]
      apply le_of_eq
      ring
  have hrs : w * spp * bits < 2 ^ 63 := by
    have h1 : w * spp ≤ w * h * spp := by
      have : w * spp * 1 ≤ w * spp * h := Nat.mul_le_mul (Nat.le_refl _) hh
      calc w * spp = w * spp * 1 := (Nat.mul_one _).symm
        _ ≤ w * spp * h := this
        _ = w * h * spp := by ring
    have h2 : w * h * spp ≤ w * h * spp * (bits / 8) := Nat.le_mul_of_pos_right _ hbytes
    have h3 : w * spp ≤ 2 ^ 32 := by omega
    have h4 : bits ≤ 16 := by rcases hb2 with hb | hb <;> omega
    calc w * spp * bits ≤ 2 ^ 32 * 16 := Nat.mul_le_mul h3 h4
      _ < 2 ^ 63 := by norm_num
  have hdec := DecodeImage_strips c im (writtenHeader bo) (wrapBuf bits init) ⟨w, h, spp, bits⟩ rps
    (fun i => chunks.getD i []) hval rfl hspp hsize hrs hrpsu hrps hns hstrips
  rw [hdec]
  congr 2
  rw [← stripSamples_concat buf w h spp rps hrps hh hlen]
  apply List.flatMap_congr
  intro i hi
  have hi2 : i < ny := List.mem_range.mp hi
  show samplesOf bo bits (stripRows h rps ny i * (w * spp)) (chunks.getD i []) =
    stripSamplesOf buf w h spp rps ny i
  rw [stripChunks_getD bits buf w h spp rps ny i hi2]
  apply samplesOf_sampleBytes
  · rcases hbits with hb | ⟨hb, hbo, hv⟩
    · exact Or.inl hb
    · refine Or.inr ⟨hb, hbo, ?_⟩
      intro v hv2
      apply hv v
      unfold stripSamplesOf slice at hv2
      exact List.mem_of_mem_drop (List.mem_of_mem_take hv2)
  · exact stripSamplesOf_length buf w h spp rps i hrps hh hlen hi2

/-! ## An explicit `SetCompression(CompressionNone)` -/

theorem SetTag_uint16 (im : Image) (hdr : Header) (id : Nat) (v : Nat)
    (hh : im.Header = some hdr) :
    im.SetTag id TagTypeShort (.uint16 v) =
      ({ im with Tag := TagMap.insert im.Tag (intTag id TagTypeShort hdr 2 [v]) }, none) := by
  have h1 : ¬ (TagTypeShort ≠ TagTypeShort) := by decide
  simp only [Image.SetTag, NewTag, newTagSlice, h1, if_false, newIntTag, hh, headerOrder, intTag]

theorem EncodeImage_setCompression (c : Codecs) (bo : ByteOrder) (w h ph spp bits rps : Nat)
    (buf : List Nat)
    (hw : 1 ≤ w) (hh : 1 ≤ h) (hspp : 1 ≤ spp)
    (hw32 : w < 2 ^ 32) (hh32 : h < 2 ^ 32) (hspp32 : spp < 2 ^ 32)
    (hbits : bits = 8 ∨ bits = 16)
    (hlen : buf.length = w * h * spp) (hsize : w * h * spp < 2 ^ 63) :
    ((configuredImage bo w h ph spp bits rps).SetCompression CompressionNone).EncodeImage c
        (stripEncoder bo) (wrapBuf bits buf) =
      (configuredImage bo w h ph spp bits rps).EncodeImage c (stripEncoder bo)
        (wrapBuf bits buf) := by
  have hbits32 : bits < 2 ^ 32 := by rcases hbits with hb | hb <;> rw [hb] <;> norm_num
  obtain ⟨cW, cH, cS, cB, cP, cC⟩ := configuredTags_find bo w h ph spp bits rps
  rw [Nat.mod_eq_of_lt hw32] at cW
  rw [Nat.mod_eq_of_lt hh32] at cH
  rw [Nat.mod_eq_of_lt hspp32] at cS
  have hmod : CompressionNone % 2 ^ 16 = CompressionNone := by decide
  rw [configuredImage_eq bo w h ph spp bits rps hbits32]
  unfold Image.SetCompression
  rw [hmod, SetTag_uint16 _ (stripHeader bo) _ _ rfl]
  dsimp only
  have hval1 := validate_holds
    ({ Tag := configuredTags bo w h ph spp bits rps, SubImage := [], Exif := none, GPS := none,
        Interoperability := none, Header := some (stripHeader bo), Offset := 0, OffsetNext := 0,
        rd := none } : Image)
    bo w h spp bits buf cW cH cS cB cP hw hh hspp hw32 hh32 hspp32 hbits hlen hsize
  have hval2 := validate_holds
    ({ Tag := TagMap.insert (configuredTags bo w h ph spp bits rps)
          (intTag TagCompression TagTypeShort (stripHeader bo) 2 [CompressionNone]),
        SubImage := [], Exif := none, GPS := none,
        Interoperability := none, Header := some (stripHeader bo), Offset := 0, OffsetNext := 0,
        rd := none } : Image)
    bo w h spp bits buf
    (by
      rw [compressedTags_eq]
      simp +decide only [find_intTag, find_nil, if_true, if_false]
      have := intTag_holds TagImageWidth TagTypeLong (stripHeader bo) 4 [w % 2 ^ 32]
      rw [Nat.mod_eq_of_lt hw32] at this ⊢
      exact this)
    (by
      rw [compressedTags_eq]
      simp +decide only [find_intTag, find_nil, if_true, if_false]
      have := intTag_holds TagImageLength TagTypeLong (stripHeader bo) 4 [h % 2 ^ 32]
      rw [Nat.mod_eq_of_lt hh32] at this ⊢
      exact this)
    (by
      rw [compressedTags_eq]
      simp +decide only [find_intTag, find_nil, if_true, if_false]
      have := intTag_holds TagSamplesPerPixel TagTypeLong (stripHeader bo) 4 [spp % 2 ^ 32]
      rw [Nat.mod_eq_of_lt hspp32] at this ⊢
      exact this)
    (by
      rw [compressedTags_eq]
      simp +decide only [find_intTag, find_nil, if_true, if_false]
      exact intTag_holds TagBitsPerSample TagTypeLong (stripHeader bo) 4 _)
    (by
      rw [compressedTags_eq]
      simp +decide only [find_intTag, find_nil, if_true, if_false])
    hw hh hspp hw32 hh32 hspp32 hbits hlen hsize
  have hC2 : (TagMap.find (TagMap.insert (configuredTags bo w h ph spp bits rps)
      (intTag TagCompression TagTypeShort (stripHeader bo) 2 [CompressionNone]))
      TagCompression).isNone = false := by
    rw [compressedTags_eq]
    simp +decide only [find_intTag, find_nil, if_true, if_false]
    rfl
  have hhd : (stripEncoder bo).Header = stripHeader bo := rfl
  unfold Image.EncodeImage
  dsimp only
  rw [hhd, hval1, hval2]
  dsimp only
  rw [cC, hC2]
  simp only [Option.isNone_none, if_true, Bool.false_eq_true, if_false]
  rw [SetTag_int_short _ (stripHeader bo) TagCompression CompressionNone rfl (by decide)]

/-! ## Claims settled by evaluation -/

/-- C1 (the code at the failing input): a directory whose two on-disk entries
have the identifiers 10 and 5, in that order, is accepted by `DecodeIFD`, in a
Classic little-endian file and in a BigTIFF big-endian file; the directory
returned holds the tags 5 and 10.  The variable `lastTagID` of the entry loop
is never assigned, so the order test only rejects the identifier 0. -/
theorem C01_DecodeIFD_accepts_unsorted_entries :
    decodedIDs ((Decoder.mk ⟨.LittleEndian, VersionClassicTIFF, 8⟩ unsortedClassicFile).DecodeIFD 8)
        = some [5, 10] ∧
      decodedIDs ((Decoder.mk ⟨.BigEndian, VersionBigTIFF, 16⟩ unsortedBigFile).DecodeIFD 16)
        = some [5, 10] := by
  constructor <;> decide

/-- C2 (the code at the failing input): the image whose only tag has the
identifier 0 is encoded by `EncodeTags(8)` without error, and `DecodeIFD(8)` on
a source holding these bytes at offset 8 fails with the error "entries are not
sorted by tag". -/
theorem C02_roundtrip_fails_for_tag_zero :
    zeroTagImage.TagID = [0] ∧ isOk (zeroTagImage.EncodeTags 8).2 = true ∧
    errorOf ((Decoder.mk ⟨.LittleEndian, VersionClassicTIFF, 0⟩ zeroTagSource).DecodeIFD 8) =
      some (.other "invalid IFD: entries are not sorted by tag") := by
  refine ⟨by decide, by decide, by decide⟩

/-- C4 (the code at the failing input): for the 2 x 2 image of three 8-bit
samples without a RowsPerStrip tag, `EncodeImage` succeeds and writes one
strip, and `DecodeImage` on the first image of the written file fails with the
FormatError "invalid RowsPerStrip", leaving the buffer unchanged. -/
theorem C04_decode_rejects_file_without_RowsPerStrip :
    (noRowsPerStripImage.EncodeImage idCodecs freshEncoder (.u8 rgbPixels)).2.2 = none ∧
    (noRowsPerStripImage.EncodeImage idCodecs freshEncoder (.u8 rgbPixels)).2.1.NumStrips = 1 ∧
    decodeFirstImage idCodecs
        (noRowsPerStripImage.EncodeImage idCodecs freshEncoder (.u8 rgbPixels)).1.w.data
        (.u8 (List.replicate 12 0)) =
      some (.u8 (List.replicate 12 0), some (.format "invalid RowsPerStrip")) := by
  refine ⟨by decide, by decide, by decide⟩

/-- C10 (the code at the failing input): two images of one pixel are written
one after the other with `EncodeImage` on a fresh encoder, both without error;
`Iter.All` on the written file returns one image only, the directory at offset
8, whose next-pointer is 0. -/
theorem C10_second_page_is_not_linked :
    twoPages.2 = (none, none) ∧
    chainOffsets 5 twoPages.1.w.data = some ([some (8, 0)], none) := by
  refine ⟨by decide, by decide⟩

/-- C9: chain iteration.  When the chain of directories that starts at
`Header.OffsetFirstIFD` consists of `n` directories that `decodeDirectories`
decodes and ends with a next-pointer 0 (`chainFrom` returns them), `Iter.All`
returns, as soon as its loop is given `n + 1` iterations, exactly these `n`
images in chain order (each with the reader and header of the decoder) and a
nil error; image `k` has the offset at which the chain reaches it; and when
`OffsetFirstIFD` is 0 the first `Next` returns false and leaves the error
nil. -/
theorem C09_Iter_All_returns_chain (d : Decoder) (fuel : Nat) (ims : List Image)
    (hchain : chainFrom d fuel d.Header.OffsetFirstIFD = some ims) (extra : Nat) :
    (∃ it1, d.Iter.All (extra + ims.length + 1) =
        some (it1, ims.map (fun im => some (d.yielded im)), none)) ∧
      (ims.map (fun im => (d.yielded im).Offset) = chainStarts d.Header.OffsetFirstIFD ims) ∧
      (d.Header.OffsetFirstIFD = 0 → (d.Iter.Next).2 = false ∧ (d.Iter.Next).1.Err = none) := by
  refine ⟨?_, ?_, ?_⟩
  · obtain ⟨it1, h1, h2⟩ := allLoop_chain d fuel ims d.Iter
      { Tag := [], SubImage := [], Exif := none, GPS := none, Interoperability := none,
        Header := some d.Header, Offset := 0, OffsetNext := d.Header.OffsetFirstIFD,
        rd := some d.r } [] extra rfl rfl rfl rfl rfl hchain
    refine ⟨it1, ?_⟩
    simp only [Iter.All, h1, Iter.Err, h2, List.nil_append]
  · have := chainStarts_offsets d fuel _ ims hchain
    simpa [Decoder.yielded] using this
  · intro h0
    simp [Decoder.Iter, Iter.Next, h0, Iter.Err]

/-- C9 at a concrete file: the chain of `chainDecoder` has one directory. -/
theorem C09_Iter_All_returns_chain_witness :
    chainImages.length = 1 ∧
    ((∃ it1, chainDecoder.Iter.All (0 + chainImages.length + 1) =
        some (it1, chainImages.map (fun im => some (chainDecoder.yielded im)), none)) ∧
      (chainImages.map (fun im => (chainDecoder.yielded im).Offset) =
        chainStarts chainDecoder.Header.OffsetFirstIFD chainImages) ∧
      (chainDecoder.Header.OffsetFirstIFD = 0 →
        (chainDecoder.Iter.Next).2 = false ∧ (chainDecoder.Iter.Next).1.Err = none)) :=
  ⟨by decide, C09_Iter_All_returns_chain chainDecoder 2 chainImages (by rfl) 0⟩

/-- C5 (amended): segment-count consistency for sizes that the float64 and
`int` arithmetic of the source represents exactly.  For an image that passes
the validation of `DecodeImage`: in strip layout (`NumStrips() > 0`) with a
RowsPerStrip value `rowsPerStrip ≥ 1` and a height below `2^53`, `DecodeImage`
returns a FormatError if and only if `NumStrips()` differs from the ceiling of
`height / rowsPerStrip`; in tile layout (`NumStrips() = 0`, `NumTiles() > 0`)
with tile sizes `≥ 1`, a width and a height below `2^53` and fewer than `2^63`
pixels, it returns a FormatError if and only if `NumTiles()` differs from the
product of the ceilings of `width / tileWidth` and `height / tileHeight`.
For these sizes the expected counts of the source, computed as
`(int)(math.Ceil((float64)(a) / (float64)(b)))`, are the exact ceilings
(`ceilOfQuotient_eq_ceilDiv`) and their product does not wrap around, so that
the test of the source is the comparison with the ceiling
(`segmentCountTest_strips`, `segmentCountTest_tiles`). -/
theorem C05_segment_count_consistency (c : Codecs) (im : Image) (buffer : Buffer) (g : Geometry)
    (rowsPerStrip tileWidth tileHeight : Nat)
    (hval : im.validate buffer = .ok g) :
    ((0 < im.NumStrips ∧
        Tag.Uint (TagMap.find im.Tag TagRowsPerStrip) = .ok (rowsPerStrip, true) ∧
        1 ≤ rowsPerStrip ∧ g.height < 2 ^ 53) →
      ((∃ msg, (im.DecodeImage c buffer).2 = some (.format msg)) ↔
        im.NumStrips ≠ ⌈(g.height : ℚ) / (rowsPerStrip : ℚ)⌉₊)) ∧
    ((im.NumStrips = 0 ∧ 0 < im.NumTiles ∧
        Tag.Uint (TagMap.find im.Tag TagTileWidth) = .ok (tileWidth, true) ∧
        Tag.Uint (TagMap.find im.Tag TagTileLength) = .ok (tileHeight, true) ∧
        1 ≤ tileWidth ∧ 1 ≤ tileHeight ∧
        g.width < 2 ^ 53 ∧ g.height < 2 ^ 53 ∧ g.width * g.height < 2 ^ 63) →
      ((∃ msg, (im.DecodeImage c buffer).2 = some (.format msg)) ↔
        im.NumTiles ≠ ⌈(g.width : ℚ) / (tileWidth : ℚ)⌉₊ * ⌈(g.height : ℚ) / (tileHeight : ℚ)⌉₊))
    := by
  constructor
  · rintro ⟨hns, hrps, h1, _⟩
    rw [← ceilDiv_eq_ceil _ _ h1]
    by_cases hny : ceilDiv g.height rowsPerStrip = im.NumStrips
    · have hdec : im.DecodeImage c buffer =
          decodeStrips c im g rowsPerStrip (ceilDiv g.height rowsPerStrip)
            (ceilDiv g.height rowsPerStrip) 0 buffer 0 := by
        simp [Image.DecodeImage, hval, hns, hrps, hny]
      constructor
      · rintro ⟨msg, hmsg⟩
        exfalso
        rw [hdec] at hmsg
        have := decodeStrips_error c im g rowsPerStrip _ _ _ _ _ _ (.format msg)
          (Prod.ext rfl hmsg)
        simp [Error.isFormat] at this
      · intro hne; exact absurd hny.symm hne
    · have hdec : im.DecodeImage c buffer =
          (buffer, some (.format "expecting strips, found strips")) := by
        simp [Image.DecodeImage, hval, hns, hrps, hny]
      constructor
      · intro _ h; exact hny h.symm
      · intro _; exact ⟨_, by rw [hdec]⟩
  · rintro ⟨hns, hnt, htw, hth, h1, h2, _, _, _⟩
    rw [← ceilDiv_eq_ceil _ _ h1, ← ceilDiv_eq_ceil _ _ h2]
    by_cases hn : ceilDiv g.width tileWidth * ceilDiv g.height tileHeight = im.NumTiles
    · have hdec : im.DecodeImage c buffer =
          decodeTileRows c im g tileWidth tileHeight (ceilDiv g.width tileWidth)
            (ceilDiv g.height tileHeight) (ceilDiv g.height tileHeight) 0 buffer := by
        simp [Image.DecodeImage, hval, hns, hnt, htw, hth, hn]
      constructor
      · rintro ⟨msg, hmsg⟩
        exfalso
        rw [hdec] at hmsg
        have := decodeTileRows_error c im g tileWidth tileHeight _ _ _ _ _ _ (.format msg)
          (Prod.ext rfl hmsg)
        simp [Error.isFormat] at this
      · intro hne; exact absurd hn.symm hne
    · have hdec : im.DecodeImage c buffer =
          (buffer, some (.format "expecting tiles, found tiles")) := by
        simp [Image.DecodeImage, hval, hns, hnt, htw, hth, hn]
      constructor
      · intro _ h; exact hn h.symm
      · intro _; exact ⟨_, by rw [hdec]⟩

/-- C5 (amended) at two concrete images: the strip image `stripImage16` (2 strips for
height 3 and 2 rows per strip) and the tiled image `tiledImage` (4 tiles for
5 x 3 pixels and tiles of 4 x 2). -/
theorem C05_segment_count_consistency_witness :
    (stripImage16.validate (.u16 (List.replicate 6 0)) = .ok (Geometry.mk 2 3 1 16) ∧
      (0 < stripImage16.NumStrips ∧
        Tag.Uint (TagMap.find stripImage16.Tag TagRowsPerStrip) = .ok (2, true) ∧ 1 ≤ 2 ∧
        (Geometry.mk 2 3 1 16).height < 2 ^ 53) ∧
      ((∃ msg, (stripImage16.DecodeImage idCodecs (.u16 (List.replicate 6 0))).2 =
          some (.format msg)) ↔
        stripImage16.NumStrips ≠ ⌈(((Geometry.mk 2 3 1 16).height : Nat) : ℚ) / ((2 : Nat) : ℚ)⌉₊)) ∧
    (tiledImage.validate (.u8 (List.replicate 15 0)) = .ok (Geometry.mk 5 3 1 8) ∧
      (tiledImage.NumStrips = 0 ∧ 0 < tiledImage.NumTiles ∧
        Tag.Uint (TagMap.find tiledImage.Tag TagTileWidth) = .ok (4, true) ∧
        Tag.Uint (TagMap.find tiledImage.Tag TagTileLength) = .ok (2, true) ∧ 1 ≤ 4 ∧ 1 ≤ 2 ∧
        (Geometry.mk 5 3 1 8).width < 2 ^ 53 ∧ (Geometry.mk 5 3 1 8).height < 2 ^ 53 ∧
        (Geometry.mk 5 3 1 8).width * (Geometry.mk 5 3 1 8).height < 2 ^ 63) ∧
      ((∃ msg, (tiledImage.DecodeImage idCodecs (.u8 (List.replicate 15 0))).2 =
          some (.format msg)) ↔
        tiledImage.NumTiles ≠ ⌈(((Geometry.mk 5 3 1 8).width : Nat) : ℚ) / ((4 : Nat) : ℚ)⌉₊ *
          ⌈(((Geometry.mk 5 3 1 8).height : Nat) : ℚ) / ((2 : Nat) : ℚ)⌉₊)) :=
  ⟨⟨by rfl, ⟨by decide, by rfl, by decide, by decide⟩,
      (C05_segment_count_consistency idCodecs stripImage16 (.u16 (List.replicate 6 0))
        (Geometry.mk 2 3 1 16) 2 0 0 (by rfl)).1 ⟨by decide, by rfl, by decide, by decide⟩⟩,
    ⟨by rfl, ⟨by decide, by decide, by rfl, by rfl, by decide, by decide, by decide, by decide, by decide⟩,
      (C05_segment_count_consistency idCodecs tiledImage (.u8 (List.replicate 15 0))
        (Geometry.mk 5 3 1 8) 0 4 2 (by rfl)).2
        ⟨by decide, by decide, by rfl, by rfl, by decide, by decide, by decide, by decide, by decide⟩⟩⟩

/-- C5 (counterexample): two images that pass the validation of `DecodeImage`
and whose segment count differs from the ceiling of the claim, while the
count that `DecodeImage` computes is the segment count, so that the test of
the count passes (`segmentCountTest`, in the arithmetic of the source) and no
FormatError is returned: the errors that follow the test are not
FormatErrors.  The strip image of `roundedHeightFile` has height
`2^62 + 1`, `2^62` rows per strip and one strip: the ceiling of the quotient
is 2, but `float64(2^62 + 1)` is `2^62` and the source computes 1.  The tiled
image of `wrappedTileCountFile` has 274177 x 67280421310721 pixels, tiles of
1 x 1 and one tile: the product of the ceilings is `2^64 + 1`, which wraps
around to 1 in the `int` product `nx * ny`. -/
theorem C05_counterexample_inexact_count :
    ((firstImage roundedHeightFile).map (fun im =>
        ((im.validate (.u8 [0, 0, 0, 0])).toOption, im.NumStrips,
          (Tag.Uint (TagMap.find im.Tag TagRowsPerStrip)).toOption,
          (im.StripReader idCodecs 0).toOption,
          im.segmentCountTest (Geometry.mk 4 (2 ^ 62 + 1) 1 8))) =
      some (some (Geometry.mk 4 (2 ^ 62 + 1) 1 8), 1, some (2 ^ 62, true), some [9, 8, 7, 6],
        some none)) ∧
    float64OfNat (2 ^ 62 + 1) = 2 ^ 62 ∧
    ceilOfQuotient (2 ^ 62 + 1) (2 ^ 62) = some 1 ∧
    ⌈((2 ^ 62 + 1 : Nat) : ℚ) / ((2 ^ 62 : Nat) : ℚ)⌉₊ = 2 ∧
    ((firstImage wrappedTileCountFile).map (fun im =>
        ((im.validate (.u8 [0])).toOption, im.NumStrips, im.NumTiles,
          (Tag.Uint (TagMap.find im.Tag TagTileWidth)).toOption,
          (Tag.Uint (TagMap.find im.Tag TagTileLength)).toOption,
          (im.TileReader idCodecs 0).toOption,
          im.segmentCountTest (Geometry.mk 274177 67280421310721 1 8))) =
      some (some (Geometry.mk 274177 67280421310721 1 8), 0, 1, some (1, true), some (1, true),
        some [7], some none)) ∧
    ceilOfQuotient 274177 1 = some 274177 ∧
    ceilOfQuotient 67280421310721 1 = some 67280421310721 ∧
    wrapInt64 (274177 * 67280421310721) = 1 ∧
    ⌈((274177 : Nat) : ℚ) / ((1 : Nat) : ℚ)⌉₊ * ⌈((67280421310721 : Nat) : ℚ) / ((1 : Nat) : ℚ)⌉₊ =
      2 ^ 64 + 1 := by
  refine ⟨by rfl, by rfl, by rfl, ?_, by rfl, by rfl, by rfl, by decide, ?_⟩
  · rw [← ceilDiv_eq_ceil _ _ (by norm_num)]
    decide
  · rw [← ceilDiv_eq_ceil _ _ (by norm_num), ← ceilDiv_eq_ceil _ _ (by norm_num)]
    decide

/-- C7: strip reassembly.  For an uncompressed strip image that passes the
validation of `DecodeImage` (a row of fewer than 2^63 bits), with a
RowsPerStrip value `rowsPerStrip ≥ 1` and
`NumStrips()` equal to `ny`, the ceiling of `height / rowsPerStrip`, whose
strips are readable and hold at least the rows read from them: the row counts
`rows_i` (`rowsPerStrip` for `i < ny - 1`, `height - (ny - 1) * rowsPerStrip`
for the last strip) sum to `height`, and `DecodeImage` succeeds with the buffer
that is the concatenation, in strip order, of the first
`rows_i * width * samplesPerPixel` samples of strip `i`. -/
theorem C07_strip_reassembly (c : Codecs) (im : Image) (h : Header) (buffer : Buffer)
    (g : Geometry) (rowsPerStrip : Nat) (strips : Nat → List Nat)
    (hval : im.validate buffer = .ok g) (hhdr : im.Header = some h)
    (hspp : 1 ≤ g.samplePerPixel)
    (hsize : g.width * g.height * g.samplePerPixel < 2 ^ 63)
    (hrs : g.width * g.samplePerPixel * g.bitDepth < 2 ^ 63)
    (hcomp : im.Compression = .ok CompressionNone)
    (hrps : Tag.Uint (TagMap.find im.Tag TagRowsPerStrip) = .ok (rowsPerStrip, true))
    (h1 : 1 ≤ rowsPerStrip)
    (hny : im.NumStrips = ⌈(g.height : ℚ) / (rowsPerStrip : ℚ)⌉₊)
    (hstrips : ∀ i, i < im.NumStrips →
      rawSegmentReader im TagStripOffsets TagStripByteCounts i = .ok (strips i) ∧
      stripRows g.height rowsPerStrip im.NumStrips i *
        (g.width * g.samplePerPixel * (g.bitDepth / 8)) ≤ (strips i).length) :
    (∀ i, i + 1 < im.NumStrips → stripRows g.height rowsPerStrip im.NumStrips i = rowsPerStrip) ∧
    stripRows g.height rowsPerStrip im.NumStrips (im.NumStrips - 1) =
      g.height - (im.NumStrips - 1) * rowsPerStrip ∧
    ((List.range im.NumStrips).map (stripRows g.height rowsPerStrip im.NumStrips)).sum =
      g.height ∧
    im.DecodeImage c buffer =
      (wrapBuf g.bitDepth ((List.range im.NumStrips).flatMap (fun i =>
        samplesOf h.ByteOrder g.bitDepth
          (stripRows g.height rowsPerStrip im.NumStrips i * (g.width * g.samplePerPixel))
          (strips i))), none) := by
  rw [← ceilDiv_eq_ceil _ _ h1] at hny
  obtain ⟨hw, hh, _⟩ := validate_ok hval
  refine ⟨?_, ?_, ?_, ?_⟩
  · intro i hi
    unfold stripRows
    rw [if_neg (by omega)]
  · unfold stripRows
    rw [if_pos rfl]
  · rw [hny]
    exact stripRows_sum g.height rowsPerStrip h1 (by omega)
  · rw [hny] at hstrips ⊢
    exact DecodeImage_strips c im h buffer g rowsPerStrip strips hval hhdr hspp hsize hrs hrps h1
      hny (fun i hi => ⟨StripReader_none c im i _ hcomp (hstrips i hi).1, (hstrips i hi).2⟩)

/-- C7 at the strip image `stripImage16` (height 3, 2 rows per strip): the
two strips contribute 2 rows and 1 row, and the buffer holds the 4 samples of
the first strip followed by the 2 samples of the second. -/
theorem C07_strip_reassembly_witness :
    stripImage16.NumStrips = 2 ∧
    (∀ i, i + 1 < stripImage16.NumStrips →
      stripRows (Geometry.mk 2 3 1 16).height 2 stripImage16.NumStrips i = 2) ∧
    stripRows (Geometry.mk 2 3 1 16).height 2 stripImage16.NumStrips
      (stripImage16.NumStrips - 1) =
      (Geometry.mk 2 3 1 16).height - (stripImage16.NumStrips - 1) * 2 ∧
    ((List.range stripImage16.NumStrips).map
      (stripRows (Geometry.mk 2 3 1 16).height 2 stripImage16.NumStrips)).sum =
      (Geometry.mk 2 3 1 16).height ∧
    stripImage16.DecodeImage idCodecs (.u16 (List.replicate 6 0)) =
      (wrapBuf (Geometry.mk 2 3 1 16).bitDepth
        ((List.range stripImage16.NumStrips).flatMap (fun i =>
          samplesOf (Header.mk .BigEndian VersionClassicTIFF 0).ByteOrder
            (Geometry.mk 2 3 1 16).bitDepth
            (stripRows (Geometry.mk 2 3 1 16).height 2 stripImage16.NumStrips i *
              ((Geometry.mk 2 3 1 16).width * (Geometry.mk 2 3 1 16).samplePerPixel))
            (stripImage16Strips i))), none) :=
  ⟨by decide,
    C07_strip_reassembly idCodecs stripImage16 (Header.mk .BigEndian VersionClassicTIFF 0)
      (.u16 (List.replicate 6 0)) (Geometry.mk 2 3 1 16) 2 stripImage16Strips
      (by rfl) (by rfl) (by decide) (by decide) (by decide) (by rfl) (by rfl)
      (by decide)
      (by
        show stripImage16.NumStrips = ⌈((3 : Nat) : ℚ) / ((2 : Nat) : ℚ)⌉₊
        rw [← ceilDiv_eq_ceil 3 2 (by decide)]
        decide)
      (by
        have e : stripImage16.NumStrips = 2 := by decide
        rw [e]
        intro i hi
        interval_cases i
        · exact ⟨by rfl, by decide⟩
        · exact ⟨by rfl, by decide⟩)⟩

/-- C6: tile reassembly with edge clipping.  For an uncompressed tiled image
that passes the validation of `DecodeImage` (so width, height ≥ 1, samples of
8 or 16 bits), with samplesPerPixel, tileWidth, tileHeight ≥ 1 (the size
`tileWidth * tileHeight * samplesPerPixel * bitDepth` of a tile in bits being
below 2^63, as for every tile that a byte slice can hold), no strips, and
`NumTiles()` equal to `nx * ny` for `nx` the ceiling of `width / tileWidth` and
`ny` the ceiling of `height / tileHeight`, whose tiles are readable and hold a
full tile each: `DecodeImage` succeeds, and for every pixel `(x, y)` and sample
`s` the buffer at `(y * width + x) * samplesPerPixel + s` is sample number
`((y mod tileHeight) * tileWidth + x mod tileWidth) * samplesPerPixel + s` of
tile number `(y div tileHeight) * nx + x div tileWidth`, also when width or
height is not a multiple of the tile size; for width 5 and tile width 4 there
are 2 tile columns, the second contributing 1 pixel column. -/
theorem C06_tile_reassembly (c : Codecs) (im : Image) (h : Header) (buffer : Buffer)
    (g : Geometry) (tileWidth tileHeight nx ny : Nat) (tiles : Nat → List Nat)
    (hval : im.validate buffer = .ok g) (hhdr : im.Header = some h)
    (hspp : 1 ≤ g.samplePerPixel)
    (hsize : g.width * g.height * g.samplePerPixel < 2 ^ 63)
    (hcomp : im.Compression = .ok CompressionNone)
    (hns : im.NumStrips = 0)
    (htwu : Tag.Uint (TagMap.find im.Tag TagTileWidth) = .ok (tileWidth, true))
    (hthu : Tag.Uint (TagMap.find im.Tag TagTileLength) = .ok (tileHeight, true))
    (htw : 1 ≤ tileWidth) (hth : 1 ≤ tileHeight)
    (hts : tileWidth * tileHeight * g.samplePerPixel * g.bitDepth < 2 ^ 63)
    (hnx : nx = ⌈(g.width : ℚ) / (tileWidth : ℚ)⌉₊)
    (hnyc : ny = ⌈(g.height : ℚ) / (tileHeight : ℚ)⌉₊)
    (hnt : im.NumTiles = nx * ny)
    (hread : ∀ k, k < nx * ny →
      rawSegmentReader im TagTileOffsets TagTileByteCounts k = .ok (tiles k) ∧
      tileWidth * tileHeight * g.samplePerPixel * (g.bitDepth / 8) ≤ (tiles k).length) :
    (⌈((5 : Nat) : ℚ) / ((4 : Nat) : ℚ)⌉₊ = 2 ∧ clipX 5 4 2 0 = 4 ∧ clipX 5 4 2 1 = 1) ∧
    ∃ out, im.DecodeImage c buffer = (wrapBuf g.bitDepth out, none) ∧
      out.length = g.width * g.height * g.samplePerPixel ∧
      ∀ x y s, x < g.width → y < g.height → s < g.samplePerPixel →
        out[(y * g.width + x) * g.samplePerPixel + s]? =
          (samplesOf h.ByteOrder g.bitDepth (tileWidth * tileHeight * g.samplePerPixel)
            (tiles ((y / tileHeight) * nx + x / tileWidth)))[
              ((y % tileHeight) * tileWidth + x % tileWidth) * g.samplePerPixel + s]? := by
  rw [← ceilDiv_eq_ceil _ _ htw] at hnx
  rw [← ceilDiv_eq_ceil _ _ hth] at hnyc
  subst hnx hnyc
  refine ⟨⟨?_, by decide, by decide⟩, ?_⟩
  · rw [← ceilDiv_eq_ceil 5 4 (by decide)]
    decide
  · exact DecodeImage_tiles c im h buffer g tileWidth tileHeight tiles hval hhdr hspp hsize hns
      htwu hthu htw hth hts hnt
      (fun k hk => ⟨TileReader_none c im k _ hcomp (hread k hk).1, (hread k hk).2⟩)

/-- C6 at the tiled image `tiledImage`: 5 x 3 pixels in 2 x 2 tiles of 4 x 2,
the tiles of the right column and of the bottom row being clipped; the decoded
buffer is listed in full. -/
theorem C06_tile_reassembly_witness :
    tiledImage.DecodeImage idCodecs (.u8 (List.replicate 15 0)) =
      (.u8 [0, 1, 2, 3, 8, 4, 5, 6, 7, 12, 16, 17, 18, 19, 24], none) ∧
    (⌈((5 : Nat) : ℚ) / ((4 : Nat) : ℚ)⌉₊ = 2 ∧ clipX 5 4 2 0 = 4 ∧ clipX 5 4 2 1 = 1) ∧
    ∃ out, tiledImage.DecodeImage idCodecs (.u8 (List.replicate 15 0)) =
        (wrapBuf (Geometry.mk 5 3 1 8).bitDepth out, none) ∧
      out.length = (Geometry.mk 5 3 1 8).width * (Geometry.mk 5 3 1 8).height *
        (Geometry.mk 5 3 1 8).samplePerPixel ∧
      ∀ x y s, x < (Geometry.mk 5 3 1 8).width → y < (Geometry.mk 5 3 1 8).height →
        s < (Geometry.mk 5 3 1 8).samplePerPixel →
        out[(y * (Geometry.mk 5 3 1 8).width + x) * (Geometry.mk 5 3 1 8).samplePerPixel + s]? =
          (samplesOf (Header.mk .LittleEndian VersionClassicTIFF 0).ByteOrder
            (Geometry.mk 5 3 1 8).bitDepth (4 * 2 * (Geometry.mk 5 3 1 8).samplePerPixel)
            (tiledImageTiles ((y / 2) * 2 + x / 4)))[
              ((y % 2) * 4 + x % 4) * (Geometry.mk 5 3 1 8).samplePerPixel + s]? :=
  ⟨by rfl,
    C06_tile_reassembly idCodecs tiledImage (Header.mk .LittleEndian VersionClassicTIFF 0)
      (.u8 (List.replicate 15 0)) (Geometry.mk 5 3 1 8) 4 2 2 2 tiledImageTiles
      (by rfl) (by rfl) (by decide) (by decide) (by rfl) (by decide) (by rfl) (by rfl)
      (by decide) (by decide) (by decide)
      (by
        show 2 = ⌈((5 : Nat) : ℚ) / ((4 : Nat) : ℚ)⌉₊
        rw [← ceilDiv_eq_ceil 5 4 (by decide)]
        decide)
      (by
        show 2 = ⌈((3 : Nat) : ℚ) / ((2 : Nat) : ℚ)⌉₊
        rw [← ceilDiv_eq_ceil 3 2 (by decide)]
        decide)
      (by decide)
      (by
        intro k hk
        interval_cases k
        · exact ⟨by rfl, by decide⟩
        · exact ⟨by rfl, by decide⟩
        · exact ⟨by rfl, by decide⟩
        · exact ⟨by rfl, by decide⟩)⟩

/-- C8: 16-bit samples honour the declared byte order.  For a 16-bit image
that passes the validation of `DecodeImage`, in strip layout and in tile
layout (a row, respectively a tile, of fewer than 2^63 bits), with readable
segments that hold the
samples read from them, each
sample `DecodeImage` stores in the buffer is the value of its two consecutive
segment bytes `b0`, `b1` read in the byte order of the header: `256 * b0 + b1`
for a big-endian file, `b0 + 256 * b1` for a little-endian file.  So a pair
stored as `b0, b1` in a big-endian file and as `b1, b0` in a little-endian
file decodes to the same sample, and the bytes 0x01, 0x02 of a big-endian file
decode to 0x0102. -/
theorem C08_sixteen_bit_byte_order (c : Codecs) (im : Image) (h : Header) (buffer : Buffer)
    (g : Geometry) (rowsPerStrip tileWidth tileHeight : Nat) (segs : Nat → List Nat)
    (hval : im.validate buffer = .ok g) (hhdr : im.Header = some h)
    (hspp : 1 ≤ g.samplePerPixel)
    (hsize : g.width * g.height * g.samplePerPixel < 2 ^ 63)
    (h16 : g.bitDepth = 16) :
    ((Tag.Uint (TagMap.find im.Tag TagRowsPerStrip) = .ok (rowsPerStrip, true) ∧
        1 ≤ rowsPerStrip ∧ g.width * g.samplePerPixel * g.bitDepth < 2 ^ 63 ∧
        im.NumStrips = ceilDiv g.height rowsPerStrip ∧
        (∀ i, i < ceilDiv g.height rowsPerStrip → im.StripReader c i = .ok (segs i) ∧
          stripRows g.height rowsPerStrip (ceilDiv g.height rowsPerStrip) i *
            (g.width * g.samplePerPixel * 2) ≤ (segs i).length)) →
      im.DecodeImage c buffer =
        (.u16 ((List.range (ceilDiv g.height rowsPerStrip)).flatMap (fun i =>
          (List.range (stripRows g.height rowsPerStrip (ceilDiv g.height rowsPerStrip) i *
            (g.width * g.samplePerPixel))).map (fun j =>
              sample16 h.ByteOrder ((segs i).getD (2 * j) 0) ((segs i).getD (2 * j + 1) 0)))),
          none)) ∧
    ((im.NumStrips = 0 ∧
        Tag.Uint (TagMap.find im.Tag TagTileWidth) = .ok (tileWidth, true) ∧
        Tag.Uint (TagMap.find im.Tag TagTileLength) = .ok (tileHeight, true) ∧
        1 ≤ tileWidth ∧ 1 ≤ tileHeight ∧
        tileWidth * tileHeight * g.samplePerPixel * g.bitDepth < 2 ^ 63 ∧
        im.NumTiles = ceilDiv g.width tileWidth * ceilDiv g.height tileHeight ∧
        (∀ k, k < ceilDiv g.width tileWidth * ceilDiv g.height tileHeight →
          im.TileReader c k = .ok (segs k) ∧
          tileWidth * tileHeight * g.samplePerPixel * 2 ≤ (segs k).length)) →
      ∃ out, im.DecodeImage c buffer = (.u16 out, none) ∧
        out.length = g.width * g.height * g.samplePerPixel ∧
        ∀ x y s, x < g.width → y < g.height → s < g.samplePerPixel →
          out[(y * g.width + x) * g.samplePerPixel + s]? =
            some (sample16 h.ByteOrder
              ((segs ((y / tileHeight) * ceilDiv g.width tileWidth + x / tileWidth)).getD
                (2 * (((y % tileHeight) * tileWidth + x % tileWidth) * g.samplePerPixel + s)) 0)
              ((segs ((y / tileHeight) * ceilDiv g.width tileWidth + x / tileWidth)).getD
                (2 * (((y % tileHeight) * tileWidth + x % tileWidth) * g.samplePerPixel + s) + 1)
                0))) ∧
    (∀ b0 b1, sample16 .BigEndian b0 b1 = 256 * b0 + b1 ∧
      sample16 .LittleEndian b0 b1 = b0 + 256 * b1 ∧
      sample16 .BigEndian b0 b1 = sample16 .LittleEndian b1 b0) ∧
    bigEndianPixel16.DecodeImage idCodecs (.u16 [0]) = (.u16 [0x0102], none) := by
  have hbits : g.bitDepth / 8 = 2 := by rw [h16]
  refine ⟨?_, ?_, ?_, by rfl⟩
  · rintro ⟨hrps, h1, hrs, hny, hstrips⟩
    have hdec := DecodeImage_strips c im h buffer g rowsPerStrip segs hval hhdr hspp hsize hrs
      hrps h1 hny (by rw [hbits]; exact hstrips)
    rw [hdec]
    have hw : wrapBuf g.bitDepth = Buffer.u16 := by
      funext l; simp [wrapBuf, h16]
    rw [hw]
    congr 2
    apply List.flatMap_congr
    intro i hi
    have hi2 := List.mem_range.mp hi
    simp only [samplesOf, h16, if_true]
    apply decodeChunks_eq_map
    have := (hstrips i hi2).2
    calc 2 * (stripRows g.height rowsPerStrip (ceilDiv g.height rowsPerStrip) i *
          (g.width * g.samplePerPixel))
        = stripRows g.height rowsPerStrip (ceilDiv g.height rowsPerStrip) i *
          (g.width * g.samplePerPixel * 2) := by ring
      _ ≤ _ := this
  · rintro ⟨hns, htwu, hthu, htw, hth, hts, hnt, hread⟩
    obtain ⟨out, hdec, hlen, hpix⟩ := DecodeImage_tiles c im h buffer g tileWidth tileHeight segs
      hval hhdr hspp hsize hns htwu hthu htw hth hts hnt (by rw [hbits]; exact hread)
    have hw : wrapBuf g.bitDepth out = Buffer.u16 out := by simp [wrapBuf, h16]
    refine ⟨out, by rw [hdec, hw], hlen, ?_⟩
    intro x y s hx hy hs
    rw [hpix x y s hx hy hs]
    simp only [samplesOf, h16, if_true]
    have hym : y % tileHeight < tileHeight := Nat.mod_lt _ (by omega)
    have hxm : x % tileWidth < tileWidth := Nat.mod_lt _ (by omega)
    have hk : ceilDiv g.width tileWidth * ceilDiv g.height tileHeight >
        (y / tileHeight) * ceilDiv g.width tileWidth + x / tileWidth := by
      obtain ⟨hx1, hx2⟩ := ceilDiv_bounds g.width tileWidth htw
      obtain ⟨hy1, hy2⟩ := ceilDiv_bounds g.height tileHeight hth
      have hxd : x / tileWidth < ceilDiv g.width tileWidth := by
        rw [Nat.div_lt_iff_lt_mul (by omega)]; omega
      have hyd : y / tileHeight < ceilDiv g.height tileHeight := by
        rw [Nat.div_lt_iff_lt_mul (by omega)]; omega
      calc (y / tileHeight) * ceilDiv g.width tileWidth + x / tileWidth
          < (y / tileHeight) * ceilDiv g.width tileWidth + ceilDiv g.width tileWidth := by omega
        _ = (y / tileHeight + 1) * ceilDiv g.width tileWidth := by ring
        _ ≤ ceilDiv g.height tileHeight * ceilDiv g.width tileWidth :=
            Nat.mul_le_mul_right _ hyd
        _ = _ := by ring
    have hm1 : (y % tileHeight) * tileWidth + x % tileWidth < tileHeight * tileWidth := by
      calc (y % tileHeight) * tileWidth + x % tileWidth
          < (y % tileHeight) * tileWidth + tileWidth := by omega
        _ = (y % tileHeight + 1) * tileWidth := by ring
        _ ≤ tileHeight * tileWidth := Nat.mul_le_mul_right _ hym
    have hm : ((y % tileHeight) * tileWidth + x % tileWidth) * g.samplePerPixel + s <
        tileWidth * tileHeight * g.samplePerPixel := by
      calc ((y % tileHeight) * tileWidth + x % tileWidth) * g.samplePerPixel + s
          < ((y % tileHeight) * tileWidth + x % tileWidth) * g.samplePerPixel +
              g.samplePerPixel := by omega
        _ = ((y % tileHeight) * tileWidth + x % tileWidth + 1) * g.samplePerPixel := by ring
        _ ≤ (tileHeight * tileWidth) * g.samplePerPixel := Nat.mul_le_mul_right _ hm1
        _ = _ := by ring
    apply decodeChunks_getElem? _ _ _ _ hm
    have := (hread _ hk).2
    calc 2 * (tileWidth * tileHeight * g.samplePerPixel)
        = tileWidth * tileHeight * g.samplePerPixel * 2 := by ring
      _ ≤ _ := this
  · intro b0 b1
    refine ⟨rfl, rfl, ?_⟩
    simp only [sample16]
    ring

/-- C8 at two big-endian 16-bit images: the strip image `stripImage16`
(strips of the bytes 1..8 and 9..12) and the tiled image `tiledImage16` (one
tile of the bytes 1, 2, 3, 4, decoding to 0x0102, 0x0304). -/
theorem C08_sixteen_bit_byte_order_witness :
    (stripImage16.DecodeImage idCodecs (.u16 (List.replicate 6 0)) =
        (.u16 [0x0102, 0x0304, 0x0506, 0x0708, 0x090A, 0x0B0C], none) ∧
      stripImage16.DecodeImage idCodecs (.u16 (List.replicate 6 0)) =
        (.u16 ((List.range (ceilDiv (Geometry.mk 2 3 1 16).height 2)).flatMap (fun i =>
          (List.range (stripRows (Geometry.mk 2 3 1 16).height 2
              (ceilDiv (Geometry.mk 2 3 1 16).height 2) i *
            ((Geometry.mk 2 3 1 16).width * (Geometry.mk 2 3 1 16).samplePerPixel))).map (fun j =>
              sample16 (Header.mk .BigEndian VersionClassicTIFF 0).ByteOrder
                ((stripImage16Strips i).getD (2 * j) 0)
                ((stripImage16Strips i).getD (2 * j + 1) 0)))),
          none)) ∧
    (tiledImage16.DecodeImage idCodecs (.u16 [0, 0]) = (.u16 [0x0102, 0x0304], none) ∧
      ∃ out, tiledImage16.DecodeImage idCodecs (.u16 [0, 0]) = (.u16 out, none) ∧
        out.length = (Geometry.mk 2 1 1 16).width * (Geometry.mk 2 1 1 16).height *
          (Geometry.mk 2 1 1 16).samplePerPixel ∧
        ∀ x y s, x < (Geometry.mk 2 1 1 16).width → y < (Geometry.mk 2 1 1 16).height →
          s < (Geometry.mk 2 1 1 16).samplePerPixel →
          out[(y * (Geometry.mk 2 1 1 16).width + x) * (Geometry.mk 2 1 1 16).samplePerPixel + s]? =
            some (sample16 (Header.mk .BigEndian VersionClassicTIFF 0).ByteOrder
              ((tiledImageTiles16 ((y / 1) * ceilDiv (Geometry.mk 2 1 1 16).width 2 + x / 2)).getD
                (2 * (((y % 1) * 2 + x % 2) * (Geometry.mk 2 1 1 16).samplePerPixel + s)) 0)
              ((tiledImageTiles16 ((y / 1) * ceilDiv (Geometry.mk 2 1 1 16).width 2 + x / 2)).getD
                (2 * (((y % 1) * 2 + x % 2) * (Geometry.mk 2 1 1 16).samplePerPixel + s) + 1)
                0))) :=
  ⟨⟨by rfl,
      (C08_sixteen_bit_byte_order idCodecs stripImage16
        (Header.mk .BigEndian VersionClassicTIFF 0) (.u16 (List.replicate 6 0))
        (Geometry.mk 2 3 1 16) 2 0 0 stripImage16Strips
        (by rfl) (by rfl) (by decide) (by decide) (by rfl)).1
        ⟨by rfl, by decide, by decide, by decide, by
          intro i hi
          have hi2 : i < 2 := hi
          interval_cases i
          · exact ⟨by rfl, by decide⟩
          · exact ⟨by rfl, by decide⟩⟩⟩,
    ⟨by rfl,
      (C08_sixteen_bit_byte_order idCodecs tiledImage16
        (Header.mk .BigEndian VersionClassicTIFF 0) (.u16 [0, 0])
        (Geometry.mk 2 1 1 16) 0 2 1 tiledImageTiles16
        (by rfl) (by rfl) (by decide) (by decide) (by rfl)).2.1
        ⟨by decide, by rfl, by rfl, by decide, by decide, by decide, by decide, by
          intro k hk
          have hk2 : k < 1 := hk
          interval_cases k
          exact ⟨by rfl, by decide⟩⟩⟩⟩

/-- C3 (counterexample): the image of width `2 ^ 32` and height 1 with one
8-bit sample per pixel and one row per strip, configured with the setters on a
fresh Classic-TIFF encoder, and a buffer of `2 ^ 32 * 1 * 1` samples.
`SetWidthHeight` stores `uint32(width)`, which is 0, so `EncodeImage` returns
the error "invalid image width" and writes nothing. -/
theorem C03_counterexample_width_truncated :
    (1 ≤ 2 ^ 32 ∧ (List.replicate (2 ^ 32) 0).length = 2 ^ 32 * 1 * 1) ∧
    wideImage.WidthHeight = .ok (0, 1) ∧
    (wideImage.EncodeImage idCodecs (stripEncoder .LittleEndian)
      (.u8 (List.replicate (2 ^ 32) 0))).2.2 = some (.other "invalid image width") ∧
    (wideImage.EncodeImage idCodecs (stripEncoder .LittleEndian)
      (.u8 (List.replicate (2 ^ 32) 0))).1.w.data = [] := by
  have hwh : wideImage.WidthHeight = .ok (0, 1) := by rfl
  have hhdr : ({ wideImage with Header := some (stripEncoder .LittleEndian).Header } : Image) =
      wideImage := by rfl
  refine ⟨⟨by norm_num, by rw [List.length_replicate]; norm_num⟩, hwh, ?_, ?_⟩
  · generalize List.replicate (2 ^ 32) 0 = b
    simp only [Image.EncodeImage, hhdr, Image.validate, hwh]
    rfl
  · generalize List.replicate (2 ^ 32) 0 = b
    simp only [Image.EncodeImage, hhdr, Image.validate, hwh]
    rfl

/-- C3 (amended): pixel round trip with RowsPerStrip set, for sizes that a
Classic TIFF file can hold.  For width, height, samplesPerPixel,
rowsPerStrip ≥ 1 with rowsPerStrip < 2 ^ 32 and
`122 + 4 * samplesPerPixel + 8 * height + width * height * samplesPerPixel *
bytesPerSample ≤ 2 ^ 32` (a bound on the length of the written file), and
every buffer of `width * height * samplesPerPixel` samples (8-bit samples, or
16-bit samples below `2 ^ 16` with a little-endian header): the image
configured on a fresh Classic-TIFF encoder with `SetWidthHeight`,
`SetPixelFormat`, `SetRowsPerStrip` and no compression (the Compression tag
left unset, or set to `CompressionNone`) is written by `EncodeImage` without
error, and on the written file `NewDecoder`, `Iter().Next()`, `Image()` and
`DecodeImage` succeed and fill a buffer of that size with exactly the samples
that were encoded. -/
theorem C03_pixel_round_trip (c : Codecs) (setCompression : Bool) (bo : ByteOrder)
    (width height photometric samplePerPixel bits rowsPerStrip : Nat) (buf init : List Nat)
    (hw : 1 ≤ width) (hh : 1 ≤ height) (hspp : 1 ≤ samplePerPixel) (hrps : 1 ≤ rowsPerStrip)
    (hrps32 : rowsPerStrip < 2 ^ 32)
    (hbits : bits = 8 ∨ (bits = 16 ∧ bo = .LittleEndian ∧ ∀ v ∈ buf, v < 2 ^ 16))
    (hlen : buf.length = width * height * samplePerPixel)
    (hinit : init.length = width * height * samplePerPixel)
    (hfile : 122 + 4 * samplePerPixel + 8 * height +
      width * height * samplePerPixel * (bits / 8) ≤ 2 ^ 32) :
    ((roundTripImage setCompression bo width height photometric samplePerPixel bits
        rowsPerStrip).EncodeImage c (stripEncoder bo) (wrapBuf bits buf)).2.2 = none ∧
    decodeFirstImage c
        ((roundTripImage setCompression bo width height photometric samplePerPixel bits
          rowsPerStrip).EncodeImage c (stripEncoder bo) (wrapBuf bits buf)).1.w.data
        (wrapBuf bits init) =
      some (wrapBuf bits buf, none) := by
  have hb2 : bits = 8 ∨ bits = 16 := by
    rcases hbits with hb | ⟨hb, _⟩
    · exact Or.inl hb
    · exact Or.inr hb
  have hle : bits = 16 → bo = .LittleEndian := by
    intro h16
    rcases hbits with hb | ⟨_, hbo, _⟩
    · rw [hb] at h16; cases h16
    · exact hbo
  have hbytes : 1 ≤ bits / 8 := by rcases hb2 with hb | hb <;> simp [hb]
  have hwh : 1 ≤ width * height := Nat.mul_pos hw hh
  have hprod : width * height * samplePerPixel ≤
      width * height * samplePerPixel * (bits / 8) := Nat.le_mul_of_pos_right _ hbytes
  have hw32 : width < 2 ^ 32 := by
    have h1 : width ≤ width * height := Nat.le_mul_of_pos_right _ hh
    have h2 : width * height ≤ width * height * samplePerPixel := Nat.le_mul_of_pos_right _ hspp
    omega
  have hh32 : height < 2 ^ 32 := by
    have h1 : height ≤ width * height := Nat.le_mul_of_pos_left _ hw
    have h2 : width * height ≤ width * height * samplePerPixel := Nat.le_mul_of_pos_right _ hspp
    omega
  have hspp32 : samplePerPixel < 2 ^ 32 := by
    have h1 : samplePerPixel ≤ width * height * samplePerPixel := Nat.le_mul_of_pos_left _ hwh
    omega
  have hsize : width * height * samplePerPixel < 2 ^ 63 := by omega
  have hny : ceilDiv height rowsPerStrip ≤ height := by
    obtain ⟨_, hb⟩ := ceilDiv_bounds height rowsPerStrip hrps
    by_contra hc
    have h1 : (height + 1) * rowsPerStrip ≤ ceilDiv height rowsPerStrip * rowsPerStrip :=
      Nat.mul_le_mul_right _ (by omega)
    have h2 : (height + 1) * rowsPerStrip = height * rowsPerStrip + rowsPerStrip := by ring
    have h3 : height ≤ height * rowsPerStrip := Nat.le_mul_of_pos_right _ hrps
    omega
  have hdl : 8 + dirLength samplePerPixel (ceilDiv height rowsPerStrip) +
      width * height * samplePerPixel * (bits / 8) ≤ 2 ^ 32 := by
    unfold dirLength
    split <;> split <;> omega
  have henc : (roundTripImage setCompression bo width height photometric samplePerPixel bits
      rowsPerStrip).EncodeImage c (stripEncoder bo) (wrapBuf bits buf) =
      (configuredImage bo width height photometric samplePerPixel bits
        rowsPerStrip).EncodeImage c (stripEncoder bo) (wrapBuf bits buf) := by
    cases setCompression
    · rfl
    · exact EncodeImage_setCompression c bo width height photometric samplePerPixel bits
        rowsPerStrip buf hw hh hspp hw32 hh32 hspp32 hb2 hlen hsize
  obtain ⟨hb, dir, enc, hres, hblen, hbdec, hdirlen, hdir, hdata⟩ :=
    EncodeImage_configured c bo width height photometric samplePerPixel bits rowsPerStrip buf
      hw hh hspp hrps hw32 hh32 hspp32 hrps32 hb2 hle hlen hsize
  rw [henc, hres]
  refine ⟨rfl, ?_⟩
  show decodeFirstImage c enc.w.data (wrapBuf bits init) = some (wrapBuf bits buf, none)
  rw [hdata, decodeFirstImage_readImage c bo width height photometric samplePerPixel bits
    rowsPerStrip buf hb dir _ _ hblen hbdec hdir (by omega),
    DecodeImage_readImage c bo width height photometric samplePerPixel bits rowsPerStrip buf init
      hb dir hw hh hspp hrps hw32 hh32 hspp32 hrps32 hbits hlen hinit hblen hdirlen hdl]

/-- C3 (amended) at the 2 x 2 image of three 8-bit samples per pixel in one
strip on a little-endian encoder, with the Compression tag left unset: the
file written for the pixel bytes `rgbPixels` decodes to the same bytes. -/
theorem C03_pixel_round_trip_witness :
    ((roundTripImage false .LittleEndian 2 2 2 3 8 2).EncodeImage idCodecs
        (stripEncoder .LittleEndian) (wrapBuf 8 rgbPixels)).2.2 = none ∧
    decodeFirstImage idCodecs
        ((roundTripImage false .LittleEndian 2 2 2 3 8 2).EncodeImage idCodecs
          (stripEncoder .LittleEndian) (wrapBuf 8 rgbPixels)).1.w.data
        (wrapBuf 8 (List.replicate 12 0)) =
      some (wrapBuf 8 rgbPixels, none) :=
  C03_pixel_round_trip idCodecs false .LittleEndian 2 2 2 3 8 2 rgbPixels (List.replicate 12 0)
    (by decide) (by decide) (by decide) (by decide) (by decide) (Or.inl rfl) (by decide)
    (by decide) (by decide)

/-! ## Splitting at NUL bytes -/

theorem splitNul_ne_nil (s : List Nat) : splitNul s ≠ [] := by
  induction s with
  | nil => simp [splitNul]
  | cons b bs ih =>
    unfold splitNul
    split
    · simp
    · split <;> simp

theorem splitNul_of_no_nul (s : List Nat) (hs : ∀ b ∈ s, b ≠ 0) : splitNul s = [s] := by
  induction s with
  | nil => rfl
  | cons b bs ih =>
    unfold splitNul
    rw [if_neg (hs b (List.mem_cons_self _ _)), ih (fun x hx => hs x (List.mem_cons_of_mem _ hx))]

theorem splitNul_append_nul (s rest : List Nat) (hs : ∀ b ∈ s, b ≠ 0) :
    splitNul (s ++ 0 :: rest) = s :: splitNul rest := by
  induction s with
  | nil => simp [splitNul]
  | cons b bs ih =>
    rw [List.cons_append, splitNul, if_neg (hs b (List.mem_cons_self _ _)),
      ih (fun x hx => hs x (List.mem_cons_of_mem _ hx))]

theorem splitNul_no_nul (s : List Nat) : ∀ p ∈ splitNul s, ∀ b ∈ p, b ≠ 0 := by
  induction s with
  | nil => simp [splitNul]
  | cons b bs ih =>
    intro p hp
    unfold splitNul at hp
    split at hp
    · simp only [List.mem_cons] at hp
      rcases hp with hp | hp
      · rw [hp]; simp
      · exact ih p hp
    · rename_i hb
      split at hp
      · rename_i heq
        exact absurd heq (splitNul_ne_nil bs)
      · rename_i s0 rest heq
        simp only [List.mem_cons] at hp
        rcases hp with hp | hp
        · rw [hp]
          intro x hx
          simp only [List.mem_cons] at hx
          rcases hx with hx | hx
          · rw [hx]; exact hb
          · exact ih s0 (by rw [heq]; exact List.mem_cons_self _ _) x hx
        · exact ih p (by rw [heq]; exact List.mem_cons_of_mem _ hp)

theorem splitNul_intercalate (s : List Nat) : List.intercalate [0] (splitNul s) = s := by
  induction s with
  | nil => rfl
  | cons b bs ih =>
    unfold splitNul
    split
    · rename_i hb
      have hne := splitNul_ne_nil bs
      cases hsp : splitNul bs with
      | nil => exact absurd hsp hne
      | cons p ps =>
        rw [hsp] at ih
        rw [hb, ← ih]
        simp [List.intercalate, List.intersperse]
    · split
      · rename_i heq
        exact absurd heq (splitNul_ne_nil bs)
      · rename_i s0 rest heq
        rw [heq] at ih
        rw [← ih]
        cases rest <;> simp [List.intercalate, List.intersperse]

theorem splitNul_length (s : List Nat) : (splitNul s).length = s.count 0 + 1 := by
  induction s with
  | nil => rfl
  | cons b bs ih =>
    unfold splitNul
    split
    · rename_i hb
      rw [hb, List.length_cons, ih, List.count_cons_self]
    · rename_i hb
      split
      · rename_i heq
        exact absurd heq (splitNul_ne_nil bs)
      · rename_i s0 rest heq
        rw [heq] at ih
        rw [List.count_cons_of_ne (fun h => hb h.symm)]
        simpa using ih

/-! ## `DecodeASCII` -/

theorem DecodeASCII_of_nul (init : List Nat) (bo : ByteOrder) :
    DecodeASCII (init ++ [0]).length (init ++ [0]) bo = .ok (splitNul init) := by
  unfold DecodeASCII
  rw [if_neg (by simp)]
  simp

theorem DecodeASCII_of_not_nul (init : List Nat) (b : Nat) (bo : ByteOrder) (hb : b ≠ 0) :
    DecodeASCII (init ++ [b]).length (init ++ [b]) bo =
      .error (.other "decode ASCII: last byte is not 0") := by
  unfold DecodeASCII
  rw [if_neg (by simp)]
  simp [hb]

theorem joined_dropLast (ss : List (List Nat)) (hne : ss ≠ []) :
    (ss.map (fun v => v ++ [0])).flatten =
      ((ss.map (fun v => v ++ [0])).flatten).dropLast ++ [0] := by
  induction ss with
  | nil => exact absurd rfl hne
  | cons s rest ih =>
    cases rest with
    | nil => simp
    | cons s2 rest2 =>
      have ih2 := ih (by simp)
      have hF : ((s2 :: rest2).map (fun v => v ++ [0])).flatten ≠ [] := by
        intro h0
        rw [h0] at ih2
        simp at ih2
      rw [List.map_cons, List.flatten_cons, List.dropLast_append_of_ne_nil _ hF,
        List.append_assoc (s ++ [0]), ← ih2]

theorem splitNul_joined (ss : List (List Nat)) (hne : ss ≠ [])
    (hnul : ∀ x ∈ ss, ∀ b ∈ x, b ≠ 0) :
    splitNul (((ss.map (fun v => v ++ [0])).flatten).dropLast) = ss := by
  induction ss with
  | nil => exact absurd rfl hne
  | cons s rest ih =>
    have hs : ∀ b ∈ s, b ≠ 0 := hnul s (List.mem_cons_self _ _)
    cases rest with
    | nil =>
      simp only [List.map_cons, List.map_nil, List.flatten_cons, List.flatten_nil,
        List.append_nil, List.dropLast_concat]
      exact splitNul_of_no_nul s hs
    | cons s2 rest2 =>
      have ih2 := ih (by simp) (fun x hx => hnul x (List.mem_cons_of_mem _ hx))
      have hF : ((s2 :: rest2).map (fun v => v ++ [0])).flatten ≠ [] := by
        have := joined_dropLast (s2 :: rest2) (by simp)
        intro h0
        rw [h0] at this
        simp at this
      rw [List.map_cons, List.flatten_cons, List.dropLast_append_of_ne_nil _ hF,
        List.append_assoc, List.singleton_append, splitNul_append_nul s _ hs, ih2]

/-! ## Integer tags -/

theorem toSignedInt_toUnsigned_2 (v : Int) (h1 : -(2 ^ 15) ≤ v) (h2 : v < 2 ^ 15) :
    toSignedInt 2 (toUnsigned 2 v) = v := by
  unfold toSignedInt toUnsigned
  norm_num
  split <;> omega

theorem toSignedInt_toUnsigned_4 (v : Int) (h1 : -(2 ^ 31) ≤ v) (h2 : v < 2 ^ 31) :
    toSignedInt 4 (toUnsigned 4 v) = v := by
  unfold toSignedInt toUnsigned
  norm_num
  split <;> omega

theorem toSignedInt_toUnsigned_8 (v : Int) (h1 : -(2 ^ 63) ≤ v) (h2 : v < 2 ^ 63) :
    toSignedInt 8 (toUnsigned 8 v) = v := by
  unfold toSignedInt toUnsigned
  norm_num
  split <;> omega

theorem toUnsigned_lt (w : Nat) (v : Int) : toUnsigned w v < 256 ^ w := by
  unfold toUnsigned
  have hpos : (0 : Int) < ((256 ^ w : Nat) : Int) := by positivity
  have h1 := Int.emod_lt_of_pos v hpos
  have h0 := Int.emod_nonneg v (ne_of_gt hpos)
  omega

theorem map_toSigned_toUnsigned (w : Nat) (vs : List Int)
    (h : ∀ v ∈ vs, toSignedInt w (toUnsigned w v) = v) :
    (vs.map (toUnsigned w)).map (toSignedInt w) = vs := by
  induction vs with
  | nil => rfl
  | cons v vs ih =>
    simp only [List.map_cons, h v (List.mem_cons_self _ _),
      ih (fun x hx => h x (List.mem_cons_of_mem _ hx))]

theorem DecodeShort_flatten (bo : ByteOrder) (vs : List Nat) (hv : ∀ v ∈ vs, v < 2 ^ 16) :
    DecodeShort vs.length ((vs.map (fun v => bo.PutUint 2 v)).flatten) bo = .ok vs := by
  have hsz : TagType.Size TagTypeShort = 2 := by decide
  unfold DecodeShort
  rw [hsz, flatten_PutUint_length, if_neg (by omega),
    decodeChunks_flatten_PutUint bo 2 vs (by intro v h; have := hv v h; norm_num at this ⊢; exact this)]

theorem DecodeLong_flatten (bo : ByteOrder) (vs : List Nat) (hv : ∀ v ∈ vs, v < 2 ^ 32) :
    DecodeLong vs.length ((vs.map (fun v => bo.PutUint 4 v)).flatten) bo = .ok vs := by
  have hsz : TagType.Size TagTypeLong = 4 := by decide
  unfold DecodeLong
  rw [hsz, flatten_PutUint_length, if_neg (by omega),
    decodeChunks_flatten_PutUint bo 4 vs (by intro v h; have := hv v h; norm_num at this ⊢; exact this)]

theorem DecodeLong8_flatten (bo : ByteOrder) (vs : List Nat) (hv : ∀ v ∈ vs, v < 2 ^ 64) :
    DecodeLong8 vs.length ((vs.map (fun v => bo.PutUint 8 v)).flatten) bo = .ok vs := by
  have hsz : TagType.Size TagTypeLong8 = 8 := by decide
  unfold DecodeLong8
  rw [hsz, flatten_PutUint_length, if_neg (by omega),
    decodeChunks_flatten_PutUint bo 8 vs (by intro v h; have := hv v h; norm_num at this ⊢; exact this)]

theorem DecodeSShort_flatten (bo : ByteOrder) (vs : List Int)
    (hv : ∀ v ∈ vs, -(2 ^ 15) ≤ v ∧ v < 2 ^ 15) :
    DecodeSShort vs.length
      (((vs.map (toUnsigned 2)).map (fun v => bo.PutUint 2 v)).flatten) bo = .ok vs := by
  have hsz : TagType.Size TagTypeSShort = 2 := by decide
  unfold DecodeSShort
  have hd := decodeChunks_flatten_PutUint bo 2 (vs.map (toUnsigned 2))
    (by intro v h; obtain ⟨x, _, hx⟩ := List.mem_map.mp h; rw [← hx]; exact toUnsigned_lt 2 x)
  rw [List.length_map] at hd
  rw [hsz, flatten_PutUint_length, List.length_map, if_neg (by omega), hd,
    map_toSigned_toUnsigned 2 vs (fun v h => toSignedInt_toUnsigned_2 v (hv v h).1 (hv v h).2)]

theorem DecodeSLong_flatten (bo : ByteOrder) (vs : List Int)
    (hv : ∀ v ∈ vs, -(2 ^ 31) ≤ v ∧ v < 2 ^ 31) :
    DecodeSLong vs.length
      (((vs.map (toUnsigned 4)).map (fun v => bo.PutUint 4 v)).flatten) bo = .ok vs := by
  have hsz : TagType.Size TagTypeSLong = 4 := by decide
  unfold DecodeSLong
  have hd := decodeChunks_flatten_PutUint bo 4 (vs.map (toUnsigned 4))
    (by intro v h; obtain ⟨x, _, hx⟩ := List.mem_map.mp h; rw [← hx]; exact toUnsigned_lt 4 x)
  rw [List.length_map] at hd
  rw [hsz, flatten_PutUint_length, List.length_map, if_neg (by omega), hd,
    map_toSigned_toUnsigned 4 vs (fun v h => toSignedInt_toUnsigned_4 v (hv v h).1 (hv v h).2)]

theorem DecodeSLong8_flatten (bo : ByteOrder) (vs : List Int)
    (hv : ∀ v ∈ vs, -(2 ^ 63) ≤ v ∧ v < 2 ^ 63) :
    DecodeSLong8 vs.length
      (((vs.map (toUnsigned 8)).map (fun v => bo.PutUint 8 v)).flatten) bo = .ok vs := by
  have hsz : TagType.Size TagTypeSLong8 = 8 := by decide
  unfold DecodeSLong8
  have hd := decodeChunks_flatten_PutUint bo 8 (vs.map (toUnsigned 8))
    (by intro v h; obtain ⟨x, _, hx⟩ := List.mem_map.mp h; rw [← hx]; exact toUnsigned_lt 8 x)
  rw [List.length_map] at hd
  rw [hsz, flatten_PutUint_length, List.length_map, if_neg (by omega), hd,
    map_toSigned_toUnsigned 8 vs (fun v h => toSignedInt_toUnsigned_8 v (hv v h).1 (hv v h).2)]

theorem UintSlice_intTag (id typ : Nat) (h : Header) (width : Nat) (vs : List Nat)
    (htyp : (typ = TagTypeShort ∧ width = 2) ∨ (typ = TagTypeLong ∧ width = 4) ∨
      (typ = TagTypeIFD ∧ width = 4) ∨ (typ = TagTypeLong8 ∧ width = 8) ∨
      (typ = TagTypeIFD8 ∧ width = 8))
    (hne : vs ≠ []) (hv : ∀ v ∈ vs, v < 256 ^ width) :
    Tag.UintSlice (some (intTag id typ h width vs)) = .ok (vs, true) := by
  have hc : ¬ vs.length = 0 := fun h0 => hne (List.length_eq_zero.mp h0)
  have hdu : (intTag id typ h width vs).decodeUnsigned = .ok (some vs) := by
    rcases htyp with ⟨h1, h2⟩ | ⟨h1, h2⟩ | ⟨h1, h2⟩ | ⟨h1, h2⟩ | ⟨h1, h2⟩
    · subst h1 h2
      have := DecodeShort_flatten h.ByteOrder vs (by intro v hx; have := hv v hx; norm_num at this ⊢; exact this)
      simp only [Tag.decodeUnsigned, intTag, true_or, if_true, this]
    · subst h1 h2
      have := DecodeLong_flatten h.ByteOrder vs (by intro v hx; have := hv v hx; norm_num at this ⊢; exact this)
      have hn : ¬ TagTypeLong = TagTypeShort := by decide
      simp only [Tag.decodeUnsigned, intTag, true_or, or_true, if_true, hn, if_false, this]
    · subst h1 h2
      have := DecodeLong_flatten h.ByteOrder vs (by intro v hx; have := hv v hx; norm_num at this ⊢; exact this)
      have hn : ¬ TagTypeIFD = TagTypeShort := by decide
      simp only [Tag.decodeUnsigned, intTag, true_or, or_true, if_true, hn, if_false, this]
    · subst h1 h2
      have := DecodeLong8_flatten h.ByteOrder vs (by intro v hx; have := hv v hx; norm_num at this ⊢; exact this)
      have hn : ¬ TagTypeLong8 = TagTypeShort := by decide
      have hn2 : ¬ (TagTypeLong8 = TagTypeLong ∨ TagTypeLong8 = TagTypeIFD) := by decide
      simp only [Tag.decodeUnsigned, intTag, true_or, or_true, if_true, hn, hn2, if_false, this]
    · subst h1 h2
      have := DecodeLong8_flatten h.ByteOrder vs (by intro v hx; have := hv v hx; norm_num at this ⊢; exact this)
      have hn : ¬ TagTypeIFD8 = TagTypeShort := by decide
      have hn2 : ¬ (TagTypeIFD8 = TagTypeLong ∨ TagTypeIFD8 = TagTypeIFD) := by decide
      simp only [Tag.decodeUnsigned, intTag, true_or, or_true, if_true, hn, hn2, if_false, this]
  have hcount : (intTag id typ h width vs).Count = vs.length := rfl
  simp only [Tag.UintSlice, hcount, hc, if_false, hdu]

/-! ## The header -/

theorem slice_slice_zero (r : List Nat) (n a b : Nat) (hb : b ≤ n) :
    slice (slice r 0 n) a b = slice r a b := by
  simp only [slice, Nat.sub_zero, List.drop_zero, List.drop_take, List.take_take]
  congr 1
  omega

theorem slice_length_le (r : List Nat) (a b : Nat) : (slice r a b).length ≤ b - a := by
  simp only [slice, List.length_take]
  omega

theorem Uint16_slice (bo : ByteOrder) (r : List Nat) (a : Nat) :
    bo.Uint16 (slice r a (a + 2)) = bo.Uint (slice r a (a + 2)) := by
  unfold ByteOrder.Uint16
  rw [List.take_of_length_le (by have := slice_length_le r a (a + 2); omega)]

theorem Uint32_slice (bo : ByteOrder) (r : List Nat) (a : Nat) :
    bo.Uint32 (slice r a (a + 4)) = bo.Uint (slice r a (a + 4)) := by
  unfold ByteOrder.Uint32
  rw [List.take_of_length_le (by have := slice_length_le r a (a + 4); omega)]

theorem Uint64_slice (bo : ByteOrder) (r : List Nat) (a : Nat) :
    bo.Uint64 (slice r a (a + 8)) = bo.Uint (slice r a (a + 8)) := by
  unfold ByteOrder.Uint64
  rw [List.take_of_length_le (by have := slice_length_le r a (a + 8); omega)]

theorem decodeHeader_eq (r : List Nat) (hlen : 16 ≤ r.length) :
    decodeHeader r =
      if slice r 0 2 = [73, 73] ∨ slice r 0 2 = [77, 77] then
        if headerVersion r = VersionClassicTIFF then
          .ok ⟨selectedOrder r, headerVersion r, (selectedOrder r).Uint (slice r 4 8)⟩
        else if headerVersion r = VersionBigTIFF then
          if (selectedOrder r).Uint (slice r 4 6) ≠ 8 ∨ (selectedOrder r).Uint (slice r 6 8) ≠ 0
          then .error (.format "invalid header")
          else if (selectedOrder r).Uint (slice r 8 16) > maxInt64 then
            .error (.format "invalid header")
          else .ok ⟨selectedOrder r, headerVersion r, (selectedOrder r).Uint (slice r 8 16)⟩
        else .error (.format "invalid header")
      else .error (.format "invalid header") := by
  have hr0 : ReadAt r 8 0 = some (slice r 0 8) := by
    unfold ReadAt
    rw [if_pos (by omega)]
  have hr8 : ReadAt r 8 8 = some (slice r 8 16) := by
    unfold ReadAt
    rw [if_pos (by omega)]
  have s02 := slice_slice_zero r 8 0 2 (by omega)
  have s24 := slice_slice_zero r 8 2 4 (by omega)
  have s48 := slice_slice_zero r 8 4 8 (by omega)
  have s46 := slice_slice_zero r 8 4 6 (by omega)
  have s68 := slice_slice_zero r 8 6 8 (by omega)
  have s816 : slice (slice r 8 16) 0 8 = slice r 8 16 := by
    simp only [slice, Nat.sub_zero, List.drop_zero, List.take_take]
    congr 1
  have u24 : ∀ bo : ByteOrder, bo.Uint16 (slice r 2 4) = bo.Uint (slice r 2 4) :=
    fun bo => Uint16_slice bo r 2
  have u46 : ∀ bo : ByteOrder, bo.Uint16 (slice r 4 6) = bo.Uint (slice r 4 6) :=
    fun bo => Uint16_slice bo r 4
  have u68 : ∀ bo : ByteOrder, bo.Uint16 (slice r 6 8) = bo.Uint (slice r 6 8) :=
    fun bo => Uint16_slice bo r 6
  have u48 : ∀ bo : ByteOrder, bo.Uint32 (slice r 4 8) = bo.Uint (slice r 4 8) :=
    fun bo => Uint32_slice bo r 4
  have u816 : ∀ bo : ByteOrder, bo.Uint64 (slice r 8 16) = bo.Uint (slice r 8 16) :=
    fun bo => Uint64_slice bo r 8
  unfold decodeHeader
  rw [hr0]
  simp only [s02, s24, s48, s46, s68, hr8, s816, u24, u46, u68, u48, u816, headerVersion,
    selectedOrder]
  by_cases hII : slice r 0 2 = [73, 73]
  · simp only [hII, if_true, true_or]
  · by_cases hMM : slice r 0 2 = [77, 77]
    · simp only [hII, hMM, if_false, if_true, or_true]
      simp +decide only [if_false]
    · simp only [hII, hMM, if_false, or_self]


/-! ## The header bytes -/

theorem length_four_cases (p : List Nat) (h : p.length = 4) :
    ∃ a b c d, p = [a, b, c, d] := by
  rcases p with _ | ⟨a, _ | ⟨b, _ | ⟨c, _ | ⟨d, _ | ⟨e, t⟩⟩⟩⟩⟩ <;>
    simp at h
  exact ⟨a, b, c, d, rfl⟩

theorem length_eight_cases (p : List Nat) (h : p.length = 8) :
    ∃ a b c d e f g i, p = [a, b, c, d, e, f, g, i] := by
  rcases p with _ | ⟨a, _ | ⟨b, _ | ⟨c, _ | ⟨d, _ | ⟨e, _ | ⟨f, _ | ⟨g, _ | ⟨i, _ | ⟨j, t⟩⟩⟩⟩⟩⟩⟩⟩⟩ <;>
    simp at h
  exact ⟨a, b, c, d, e, f, g, i, rfl⟩

/-- The 8 bytes of a Classic header decode to the byte order, the version 42
and the value of the last four bytes. -/
theorem decodeHeader_classic_bytes (bo : ByteOrder) (p : List Nat) (hp : p.length = 4) :
    decodeHeader ((if bo = .LittleEndian then [73, 73] else [77, 77]) ++
        bo.PutUint16 (VersionClassicTIFF % 2 ^ 16) ++ p) =
      .ok (Header.mk bo VersionClassicTIFF (bo.Uint32 p)) := by
  obtain ⟨a, b, c, d, rfl⟩ := length_four_cases p hp
  cases bo <;> rfl

/-- The 16 bytes of a BigTIFF header decode to the byte order, the version 43
and the value of the last eight bytes, when that value fits an `int64`. -/
theorem decodeHeader_big_bytes (bo : ByteOrder) (p : List Nat) (hp : p.length = 8)
    (hv : bo.Uint64 p ≤ maxInt64) :
    decodeHeader ((if bo = .LittleEndian then [73, 73] else [77, 77]) ++
        bo.PutUint16 (VersionBigTIFF % 2 ^ 16) ++ bo.PutUint16 8 ++ bo.PutUint16 0 ++ p) =
      .ok (Header.mk bo VersionBigTIFF (bo.Uint64 p)) := by
  obtain ⟨a, b, c, d, e, f, g, i, rfl⟩ := length_eight_cases p hp
  have hu : ∀ l : List Nat, l.length = 8 → bo.Uint64 l = bo.Uint l := by
    intro l hl
    unfold ByteOrder.Uint64
    rw [List.take_of_length_le (by omega)]
  rw [hu [a, b, c, d, e, f, g, i] rfl] at hv ⊢
  have hn : ¬ bo.Uint [a, b, c, d, e, f, g, i] > maxInt64 := by omega
  cases bo
  · rw [decodeHeader_eq]
    swap
    · exact Nat.le_refl 16
    have e1 : slice ((if ByteOrder.LittleEndian = .LittleEndian then [73, 73] else [77, 77]) ++
        ByteOrder.LittleEndian.PutUint16 (VersionBigTIFF % 2 ^ 16) ++
        ByteOrder.LittleEndian.PutUint16 8 ++ ByteOrder.LittleEndian.PutUint16 0 ++
        [a, b, c, d, e, f, g, i]) 0 2 = [73, 73] := rfl
    have e2 : headerVersion ((if ByteOrder.LittleEndian = .LittleEndian then [73, 73]
        else [77, 77]) ++
        ByteOrder.LittleEndian.PutUint16 (VersionBigTIFF % 2 ^ 16) ++
        ByteOrder.LittleEndian.PutUint16 8 ++ ByteOrder.LittleEndian.PutUint16 0 ++
        [a, b, c, d, e, f, g, i]) = 43 := rfl
    have e3 : selectedOrder ((if ByteOrder.LittleEndian = .LittleEndian then [73, 73]
        else [77, 77]) ++
        ByteOrder.LittleEndian.PutUint16 (VersionBigTIFF % 2 ^ 16) ++
        ByteOrder.LittleEndian.PutUint16 8 ++ ByteOrder.LittleEndian.PutUint16 0 ++
        [a, b, c, d, e, f, g, i]) = .LittleEndian := rfl
    have e4 : slice ((if ByteOrder.LittleEndian = .LittleEndian then [73, 73] else [77, 77]) ++
        ByteOrder.LittleEndian.PutUint16 (VersionBigTIFF % 2 ^ 16) ++
        ByteOrder.LittleEndian.PutUint16 8 ++ ByteOrder.LittleEndian.PutUint16 0 ++
        [a, b, c, d, e, f, g, i]) 4 6 = [8, 0] := rfl
    have e5 : slice ((if ByteOrder.LittleEndian = .LittleEndian then [73, 73] else [77, 77]) ++
        ByteOrder.LittleEndian.PutUint16 (VersionBigTIFF % 2 ^ 16) ++
        ByteOrder.LittleEndian.PutUint16 8 ++ ByteOrder.LittleEndian.PutUint16 0 ++
        [a, b, c, d, e, f, g, i]) 6 8 = [0, 0] := rfl
    have e6 : slice ((if ByteOrder.LittleEndian = .LittleEndian then [73, 73] else [77, 77]) ++
        ByteOrder.LittleEndian.PutUint16 (VersionBigTIFF % 2 ^ 16) ++
        ByteOrder.LittleEndian.PutUint16 8 ++ ByteOrder.LittleEndian.PutUint16 0 ++
        [a, b, c, d, e, f, g, i]) 8 16 = [a, b, c, d, e, f, g, i] := rfl
    rw [e1, e2, e3, e4, e5, e6, if_pos (Or.inl rfl), if_neg (by decide),
      if_pos (show (43 : Nat) = VersionBigTIFF from rfl),
      if_neg (by decide), if_neg hn]
    rfl
  · rw [decodeHeader_eq]
    swap
    · exact Nat.le_refl 16
    have e1 : slice ((if ByteOrder.BigEndian = .LittleEndian then [73, 73] else [77, 77]) ++
        ByteOrder.BigEndian.PutUint16 (VersionBigTIFF % 2 ^ 16) ++
        ByteOrder.BigEndian.PutUint16 8 ++ ByteOrder.BigEndian.PutUint16 0 ++
        [a, b, c, d, e, f, g, i]) 0 2 = [77, 77] := rfl
    have e2 : headerVersion ((if ByteOrder.BigEndian = .LittleEndian then [73, 73]
        else [77, 77]) ++
        ByteOrder.BigEndian.PutUint16 (VersionBigTIFF % 2 ^ 16) ++
        ByteOrder.BigEndian.PutUint16 8 ++ ByteOrder.BigEndian.PutUint16 0 ++
        [a, b, c, d, e, f, g, i]) = 43 := rfl
    have e3 : selectedOrder ((if ByteOrder.BigEndian = .LittleEndian then [73, 73]
        else [77, 77]) ++
        ByteOrder.BigEndian.PutUint16 (VersionBigTIFF % 2 ^ 16) ++
        ByteOrder.BigEndian.PutUint16 8 ++ ByteOrder.BigEndian.PutUint16 0 ++
        [a, b, c, d, e, f, g, i]) = .BigEndian := rfl
    have e4 : slice ((if ByteOrder.BigEndian = .LittleEndian then [73, 73] else [77, 77]) ++
        ByteOrder.BigEndian.PutUint16 (VersionBigTIFF % 2 ^ 16) ++
        ByteOrder.BigEndian.PutUint16 8 ++ ByteOrder.BigEndian.PutUint16 0 ++
        [a, b, c, d, e, f, g, i]) 4 6 = [0, 8] := rfl
    have e5 : slice ((if ByteOrder.BigEndian = .LittleEndian then [73, 73] else [77, 77]) ++
        ByteOrder.BigEndian.PutUint16 (VersionBigTIFF % 2 ^ 16) ++
        ByteOrder.BigEndian.PutUint16 8 ++ ByteOrder.BigEndian.PutUint16 0 ++
        [a, b, c, d, e, f, g, i]) 6 8 = [0, 0] := rfl
    have e6 : slice ((if ByteOrder.BigEndian = .LittleEndian then [73, 73] else [77, 77]) ++
        ByteOrder.BigEndian.PutUint16 (VersionBigTIFF % 2 ^ 16) ++
        ByteOrder.BigEndian.PutUint16 8 ++ ByteOrder.BigEndian.PutUint16 0 ++
        [a, b, c, d, e, f, g, i]) 8 16 = [a, b, c, d, e, f, g, i] := rfl
    rw [e1, e2, e3, e4, e5, e6, if_pos (Or.inr rfl), if_neg (by decide),
      if_pos (show (43 : Nat) = VersionBigTIFF from rfl),
      if_neg (by decide), if_neg hn]
    rfl

/-- The model of `Header.encodeBytes` over the decoded header, whose pointer is
a natural number, is the signed version at that number. -/
theorem Header.encodeBytes_eq (h : Header) :
    h.encodeBytes = encodeHeaderBytes h.ByteOrder h.Version (h.OffsetFirstIFD : Int) := by
  have h0 : ((h.OffsetFirstIFD : Int) ≤ 0) ↔ h.OffsetFirstIFD = 0 := by omega
  have h1 : ((h.OffsetFirstIFD : Int) > 2 ^ 32 - 1) ↔ h.OffsetFirstIFD > 2 ^ 32 - 1 := by
    omega
  have h2 : ((h.OffsetFirstIFD : Int) % 2 ^ 32).toNat = h.OffsetFirstIFD % 2 ^ 32 := by
    omega
  have h3 : ((h.OffsetFirstIFD : Int) % 2 ^ 64).toNat = h.OffsetFirstIFD % 2 ^ 64 := by
    omega
  unfold Header.encodeBytes encodeHeaderBytes
  simp only [h0, h1, h2, h3]


/-! ## The errors of a directory decode are never the end-of-data error -/

theorem decodeEntry_ne_eof (d : Decoder) (offset i : Nat) (e : Error)
    (h : decodeEntry d offset i = .error e) : e ≠ .eof := by
  unfold decodeEntry at h
  dsimp only at h
  repeat' split at h
  all_goals first
    | (cases h; intro hc; cases hc)
    | cases h

theorem decodeEntries_ne_eof (d : Decoder) (offset : Nat) (last : Int) (n : Nat) :
    ∀ (i : Nat) (m : List Tag) (e : Error),
      decodeEntries d offset last n i m = .error e → e ≠ .eof := by
  induction n with
  | zero =>
    intro i m e h
    cases h
  | succ n ih =>
    intro i m e h
    unfold decodeEntries at h
    split at h
    · rename_i e1 he1
      cases h
      exact decodeEntry_ne_eof d offset i _ he1
    · split at h
      · cases h
        intro hc
        cases hc
      · exact ih _ _ _ h

theorem DecodeIFD_ne_eof (d : Decoder) (offset : Nat) (e : Error)
    (h : d.DecodeIFD offset = .error e) : e ≠ .eof := by
  unfold Decoder.DecodeIFD at h
  dsimp only at h
  split at h
  · cases h
    intro hc
    cases hc
  · split at h
    · cases h
      intro hc
      cases hc
    · split at h
      · rename_i e1 he1
        cases h
        exact decodeEntries_ne_eof _ _ _ _ _ _ _ he1
      · repeat' split at h
        all_goals first
          | (cases h; intro hc; cases hc)
          | cases h

theorem DecodeShort_ne_eof (count : Nat) (data : List Nat) (bo : ByteOrder) (e : Error)
    (h : DecodeShort count data bo = .error e) : e ≠ .eof := by
  unfold DecodeShort at h
  split at h
  · cases h
    intro hc
    cases hc
  · cases h

theorem DecodeLong_ne_eof (count : Nat) (data : List Nat) (bo : ByteOrder) (e : Error)
    (h : DecodeLong count data bo = .error e) : e ≠ .eof := by
  unfold DecodeLong at h
  split at h
  · cases h
    intro hc
    cases hc
  · cases h

theorem DecodeLong8_ne_eof (count : Nat) (data : List Nat) (bo : ByteOrder) (e : Error)
    (h : DecodeLong8 count data bo = .error e) : e ≠ .eof := by
  unfold DecodeLong8 at h
  split at h
  · cases h
    intro hc
    cases hc
  · cases h

theorem Tag.decodeUnsigned_ne_eof (t : Tag) (e : Error)
    (h : t.decodeUnsigned = .error e) : e ≠ .eof := by
  unfold Tag.decodeUnsigned at h
  split at h
  · split at h
    · cases h
      intro hc
      cases hc
    · dsimp only at h
      split at h
      · rename_i e1 he1
        cases h
        split at he1
        · exact DecodeShort_ne_eof _ _ _ _ he1
        · split at he1
          · exact DecodeLong_ne_eof _ _ _ _ he1
          · exact DecodeLong8_ne_eof _ _ _ _ he1
      · cases h
  · cases h

theorem Tag.Uint_ne_eof (t : Option Tag) (e : Error) (h : Tag.Uint t = .error e) :
    e ≠ .eof := by
  unfold Tag.Uint at h
  split at h
  · cases h
  · split at h
    · cases h
    · split at h
      · rename_i e1 he1
        cases h
        exact Tag.decodeUnsigned_ne_eof _ _ he1
      · cases h
      · cases h
        intro hc
        cases hc
      · cases h

theorem Tag.UintSlice_ne_eof (t : Option Tag) (e : Error)
    (h : Tag.UintSlice t = .error e) : e ≠ .eof := by
  unfold Tag.UintSlice at h
  split at h
  · cases h
  · split at h
    · cases h
    · split at h
      · rename_i e1 he1
        cases h
        exact Tag.decodeUnsigned_ne_eof _ _ he1
      all_goals cases h

theorem wrapErrText_ne_eof (msg : String) (e : Error) : wrapErrText msg e ≠ .eof := by
  cases e <;> (intro hc; cases hc)

theorem decodeSubIFDs_ne_eof (d : Decoder) (os : List Nat) :
    ∀ e, decodeSubIFDs d os = .error e → e ≠ .eof := by
  induction os with
  | nil =>
    intro e h
    cases h
  | cons o os ih =>
    intro e h
    unfold decodeSubIFDs at h
    split at h
    · cases h
      exact wrapErrText_ne_eof _ _
    · split at h
      · rename_i e1 he1
        cases h
        exact ih _ he1
      · cases h


theorem decodeDirectories_ne_eof (d : Decoder) (offset : Nat) (e : Error)
    (h : d.decodeDirectories offset = .error e) : e ≠ .eof := by
  unfold Decoder.decodeDirectories at h
  dsimp only at h
  split at h
  · rename_i e1 he1
    cases h
    exact DecodeIFD_ne_eof _ _ _ he1
  · split at h
    · rename_i e1 he1
      cases h
      exact Tag.UintSlice_ne_eof _ _ he1
    · split at h
      · rename_i e1 he1
        cases h
        split at he1
        · exact decodeSubIFDs_ne_eof _ _ _ he1
        · cases he1
      · split at h
        · rename_i e1 he1
          cases h
          exact Tag.Uint_ne_eof _ _ he1
        · split at h
          · rename_i e1 he1
            cases h
            split at he1
            · split at he1
              · cases he1
                exact wrapErrText_ne_eof _ _
              · cases he1
            · cases he1
          · split at h
            · rename_i e1 he1
              cases h
              exact Tag.Uint_ne_eof _ _ he1
            · split at h
              · rename_i e1 he1
                cases h
                split at he1
                · split at he1
                  · cases he1
                    exact wrapErrText_ne_eof _ _
                  · cases he1
                · cases he1
              · split at h
                · rename_i e1 he1
                  cases h
                  exact Tag.Uint_ne_eof _ _ he1
                · split at h
                  · rename_i e1 he1
                    cases h
                    split at he1
                    · split at he1
                      · cases he1
                        exact wrapErrText_ne_eof _ _
                      · cases he1
                    · cases he1
                  · cases h

/-- C11: integer value round trip.  For a header of either byte order and
every sequence `vs` of uint16 (field type Short), uint32 (Long or IFD), uint64
(Long8 or IFD8), int16 (SShort), int32 (SLong) or int64 (SLong8) values,
`NewTag` succeeds with `Count = len(vs)`, and the decode function of the field
type, applied to the tag's count, payload and the byte order, returns `vs`;
for the unsigned types and a non-empty `vs`, `UintSlice` returns
`(vs, true)`. -/
theorem C11_integer_round_trip (id : Nat) (h : Header) :
    (∀ vs : List Nat, (∀ v ∈ vs, v < 2 ^ 16) →
      ∃ t, NewTag id TagTypeShort (.uint16s vs) (some h) = .ok t ∧ t.Count = vs.length ∧
        DecodeShort t.Count t.Data h.ByteOrder = .ok vs ∧
        (vs ≠ [] → Tag.UintSlice (some t) = .ok (vs, true))) ∧
    (∀ typ, typ = TagTypeLong ∨ typ = TagTypeIFD → ∀ vs : List Nat, (∀ v ∈ vs, v < 2 ^ 32) →
      ∃ t, NewTag id typ (.uint32s vs) (some h) = .ok t ∧ t.Count = vs.length ∧
        DecodeLong t.Count t.Data h.ByteOrder = .ok vs ∧
        (vs ≠ [] → Tag.UintSlice (some t) = .ok (vs, true))) ∧
    (∀ typ, typ = TagTypeLong8 ∨ typ = TagTypeIFD8 → ∀ vs : List Nat, (∀ v ∈ vs, v < 2 ^ 64) →
      ∃ t, NewTag id typ (.uint64s vs) (some h) = .ok t ∧ t.Count = vs.length ∧
        DecodeLong8 t.Count t.Data h.ByteOrder = .ok vs ∧
        (vs ≠ [] → Tag.UintSlice (some t) = .ok (vs, true))) ∧
    (∀ vs : List Int, (∀ v ∈ vs, -(2 ^ 15) ≤ v ∧ v < 2 ^ 15) →
      ∃ t, NewTag id TagTypeSShort (.int16s vs) (some h) = .ok t ∧ t.Count = vs.length ∧
        DecodeSShort t.Count t.Data h.ByteOrder = .ok vs) ∧
    (∀ vs : List Int, (∀ v ∈ vs, -(2 ^ 31) ≤ v ∧ v < 2 ^ 31) →
      ∃ t, NewTag id TagTypeSLong (.int32s vs) (some h) = .ok t ∧ t.Count = vs.length ∧
        DecodeSLong t.Count t.Data h.ByteOrder = .ok vs) ∧
    (∀ vs : List Int, (∀ v ∈ vs, -(2 ^ 63) ≤ v ∧ v < 2 ^ 63) →
      ∃ t, NewTag id TagTypeSLong8 (.int64s vs) (some h) = .ok t ∧ t.Count = vs.length ∧
        DecodeSLong8 t.Count t.Data h.ByteOrder = .ok vs) := by
  refine ⟨?_, ?_, ?_, ?_, ?_, ?_⟩
  · intro vs hv
    have hn : ¬ (TagTypeShort ≠ TagTypeShort) := by decide
    refine ⟨intTag id TagTypeShort h 2 vs, ?_, rfl, DecodeShort_flatten h.ByteOrder vs hv, ?_⟩
    · simp only [NewTag, newTagSlice, hn, if_false, newIntTag, headerOrder, intTag]
    · intro hne
      exact UintSlice_intTag id _ h 2 vs (Or.inl ⟨rfl, rfl⟩) hne
        (by intro v hx; have := hv v hx; norm_num at this ⊢; exact this)
  · intro typ htyp vs hv
    have hn : ¬ (typ ≠ TagTypeLong ∧ typ ≠ TagTypeIFD) := by
      rcases htyp with h1 | h1 <;> simp [h1]
    refine ⟨intTag id typ h 4 vs, ?_, rfl, DecodeLong_flatten h.ByteOrder vs hv, ?_⟩
    · simp only [NewTag, newTagSlice, hn, if_false, newIntTag, headerOrder, intTag]
    · intro hne
      refine UintSlice_intTag id typ h 4 vs ?_ hne
        (by intro v hx; have := hv v hx; norm_num at this ⊢; exact this)
      rcases htyp with h1 | h1
      · exact Or.inr (Or.inl ⟨h1, rfl⟩)
      · exact Or.inr (Or.inr (Or.inl ⟨h1, rfl⟩))
  · intro typ htyp vs hv
    have hn : ¬ (typ ≠ TagTypeLong8 ∧ typ ≠ TagTypeIFD8) := by
      rcases htyp with h1 | h1 <;> simp [h1]
    refine ⟨intTag id typ h 8 vs, ?_, rfl, DecodeLong8_flatten h.ByteOrder vs hv, ?_⟩
    · simp only [NewTag, newTagSlice, hn, if_false, newIntTag, headerOrder, intTag]
    · intro hne
      refine UintSlice_intTag id typ h 8 vs ?_ hne
        (by intro v hx; have := hv v hx; norm_num at this ⊢; exact this)
      rcases htyp with h1 | h1
      · exact Or.inr (Or.inr (Or.inr (Or.inl ⟨h1, rfl⟩)))
      · exact Or.inr (Or.inr (Or.inr (Or.inr ⟨h1, rfl⟩)))
  · intro vs hv
    have hn : ¬ (TagTypeSShort ≠ TagTypeSShort) := by decide
    refine ⟨intTag id TagTypeSShort h 2 (vs.map (toUnsigned 2)), ?_, List.length_map _ _, ?_⟩
    · simp only [NewTag, newTagSlice, hn, if_false, newIntTag, headerOrder, intTag]
    · have := DecodeSShort_flatten h.ByteOrder vs hv
      simpa only [intTag, List.length_map] using this
  · intro vs hv
    have hn : ¬ (TagTypeSLong ≠ TagTypeSLong) := by decide
    refine ⟨intTag id TagTypeSLong h 4 (vs.map (toUnsigned 4)), ?_, List.length_map _ _, ?_⟩
    · simp only [NewTag, newTagSlice, hn, if_false, newIntTag, headerOrder, intTag]
    · have := DecodeSLong_flatten h.ByteOrder vs hv
      simpa only [intTag, List.length_map] using this
  · intro vs hv
    have hn : ¬ (TagTypeSLong8 ≠ TagTypeSLong8) := by decide
    refine ⟨intTag id TagTypeSLong8 h 8 (vs.map (toUnsigned 8)), ?_, List.length_map _ _, ?_⟩
    · simp only [NewTag, newTagSlice, hn, if_false, newIntTag, headerOrder, intTag]
    · have := DecodeSLong8_flatten h.ByteOrder vs hv
      simpa only [intTag, List.length_map] using this

/-- C11 at concrete values with a big-endian header: the Short values 1 and
65535, and the SLong values -1 and 70000. -/
theorem C11_integer_round_trip_witness :
    (∃ t, NewTag 258 TagTypeShort (.uint16s [1, 65535])
        (some (Header.mk .BigEndian VersionClassicTIFF 8)) = .ok t ∧ t.Count = [1, 65535].length ∧
      DecodeShort t.Count t.Data (Header.mk .BigEndian VersionClassicTIFF 8).ByteOrder =
        .ok [1, 65535] ∧
      (([1, 65535] : List Nat) ≠ [] → Tag.UintSlice (some t) = .ok ([1, 65535], true))) ∧
    (∃ t, NewTag 700 TagTypeSLong (.int32s [-1, 70000])
        (some (Header.mk .BigEndian VersionClassicTIFF 8)) = .ok t ∧
      t.Count = [(-1 : Int), 70000].length ∧
      DecodeSLong t.Count t.Data (Header.mk .BigEndian VersionClassicTIFF 8).ByteOrder =
        .ok [-1, 70000]) :=
  ⟨(C11_integer_round_trip 258 (Header.mk .BigEndian VersionClassicTIFF 8)).1 [1, 65535]
      (by decide),
    (C11_integer_round_trip 700 (Header.mk .BigEndian VersionClassicTIFF 8)).2.2.2.2.1
      [-1, 70000] (by decide)⟩

/-- C12: ASCII round trip.  For every non-empty list `ss` of strings none of
which contains a NUL byte, `NewTag` with the field type ASCII (and a header,
through which the accessors read the byte order) succeeds; the payload of the
tag is the concatenation of each string followed by one NUL, its count is the
length of the payload, `StringSlice` returns `(ss, true)` and `String` returns
`(ss[0], true)`. -/
theorem C12_ASCII_round_trip (id : Nat) (h : Header) (ss : List (List Nat)) (hne : ss ≠ [])
    (hnul : ∀ s ∈ ss, ∀ b ∈ s, b ≠ 0) :
    ∃ t, NewTag id TagTypeASCII (.strings ss) (some h) = .ok t ∧
      t.Data = (ss.map (fun s => s ++ [0])).flatten ∧
      t.Count = t.Data.length ∧
      Tag.StringSlice (some t) = .ok (ss, true) ∧
      Tag.String (some t) = .ok (ss.head hne, true) := by
  have hnt : ¬ (TagTypeASCII ≠ TagTypeASCII) := by decide
  refine ⟨Tag.mk id TagTypeASCII ((ss.map (fun s => s ++ [0])).flatten).length
    ((ss.map (fun s => s ++ [0])).flatten) (some h) 0 0, ?_, rfl, rfl, ?_, ?_⟩
  · simp only [NewTag, newTagSlice, hnt, if_false]
  · have hd := joined_dropLast ss hne
    have hdec := DecodeASCII_of_nul ((ss.map (fun s => s ++ [0])).flatten).dropLast h.ByteOrder
    rw [← hd, splitNul_joined ss hne hnul] at hdec
    simp only [Tag.StringSlice, hnt, if_false, hdec]
  · have hd := joined_dropLast ss hne
    have hdec := DecodeASCII_of_nul ((ss.map (fun s => s ++ [0])).flatten).dropLast h.ByteOrder
    rw [← hd, splitNul_joined ss hne hnul] at hdec
    simp only [Tag.String, hnt, if_false, hdec]
    cases ss with
    | nil => exact absurd rfl hne
    | cons s rest => rfl

/-- C12 at the strings "AB" and "C" with a Classic little-endian header. -/
theorem C12_ASCII_round_trip_witness :
    ∃ t, NewTag 270 TagTypeASCII (.strings [[65, 66], [67]])
        (some (Header.mk .LittleEndian VersionClassicTIFF 8)) = .ok t ∧
      t.Data = ([[65, 66], [67]].map (fun s => s ++ [0])).flatten ∧
      t.Count = t.Data.length ∧
      Tag.StringSlice (some t) = .ok ([[65, 66], [67]], true) ∧
      Tag.String (some t) = .ok ([[65, 66], [67]].head (by decide), true) :=
  C12_ASCII_round_trip 270 (Header.mk .LittleEndian VersionClassicTIFF 8) [[65, 66], [67]]
    (by decide) (by decide)

/-! ## Rational values -/

theorem putRationals_cons_fatal (bo : ByteOrder) (r : Nat × Nat) (rs : List (Nat × Nat)) :
    putRationals bo (r :: rs) 0 (List.replicate ((r :: rs).length * 8) 0) =
      .error (.fatal "index out of range") := by
  have h1 : putAt (List.replicate ((r :: rs).length * 8) 0) (8 * 0) (8 * (0 + 1))
      (bo.PutUint32 r.1) = .ok
        (List.take (8 * 0) (List.replicate ((r :: rs).length * 8) 0) ++ bo.PutUint32 r.1 ++
          List.drop (8 * 0 + (bo.PutUint32 r.1).length)
            (List.replicate ((r :: rs).length * 8) 0)) := by
    unfold putAt
    have hl : (bo.PutUint32 r.1).length = 4 := ByteOrder.PutUint_length bo 4 r.1
    rw [if_pos (by simp only [List.length_replicate, List.length_cons]; omega),
      if_pos (by rw [hl]; omega)]
  simp only [putRationals, h1]
  have h2 : ∀ buf1 : List Nat, buf1.length = (r :: rs).length * 8 →
      putAt buf1 (8 * (0 + 1)) (4 * (0 + 2)) (bo.PutUint32 r.2) =
        .error (.fatal "index out of range") := by
    intro buf1 hb
    unfold putAt
    have hl : (bo.PutUint32 r.2).length = 4 := ByteOrder.PutUint_length bo 4 r.2
    rw [if_pos (by rw [hb]; simp only [List.length_cons]; omega), if_neg (by rw [hl]; omega)]
  rw [h2]
  have hl : (bo.PutUint32 r.1).length = 4 := ByteOrder.PutUint_length bo 4 r.1
  simp only [List.length_append, List.length_take, List.length_drop, List.length_replicate,
    List.length_cons, hl]
  omega

/-- C13 (the code at the failing inputs): for either byte order and every
non-empty sequence of Rational or SRational pairs, `NewTag` panics with an
index out of range.  The second component of element `i` is stored through
the slice `Data[8*(i+1):4*(i+2)]`, which for `i = 0` is the empty slice
`Data[8:8]`; so no Rational or SRational tag can be built, neither from a
slice nor from a single value. -/
theorem C13_NewTag_panics_for_rationals (id : Nat) (h : Header) :
    (∀ (r : Nat × Nat) (rs : List (Nat × Nat)),
      NewTag id TagTypeRational (.rationals (r :: rs)) (some h) =
        .error (.fatal "index out of range")) ∧
    (∀ (r : Int × Int) (rs : List (Int × Int)),
      NewTag id TagTypeSRational (.srationals (r :: rs)) (some h) =
        .error (.fatal "index out of range")) ∧
    (∀ r : Nat × Nat, NewTag id TagTypeRational (.rational r) (some h) =
        .error (.fatal "index out of range")) ∧
    (∀ r : Int × Int, NewTag id TagTypeSRational (.srational r) (some h) =
        .error (.fatal "index out of range")) ∧
    NewTag 282 TagTypeRational (.rational (72, 1))
        (some (Header.mk .LittleEndian VersionClassicTIFF 8)) =
      .error (.fatal "index out of range") := by
  have hR : ∀ (r : Nat × Nat) (rs : List (Nat × Nat)),
      NewTag id TagTypeRational (.rationals (r :: rs)) (some h) =
        .error (.fatal "index out of range") := by
    intro r rs
    have hne : ¬ (TagTypeRational ≠ TagTypeRational) := by decide
    simp only [NewTag, newTagSlice, hne, if_false, headerOrder,
      putRationals_cons_fatal h.ByteOrder r rs]
  have hS : ∀ (r : Int × Int) (rs : List (Int × Int)),
      NewTag id TagTypeSRational (.srationals (r :: rs)) (some h) =
        .error (.fatal "index out of range") := by
    intro r rs
    have hne : ¬ (TagTypeSRational ≠ TagTypeSRational) := by decide
    have hp := putRationals_cons_fatal h.ByteOrder (toUnsigned 4 r.1, toUnsigned 4 r.2)
      (rs.map (fun v => (toUnsigned 4 v.1, toUnsigned 4 v.2)))
    simp only [List.length_cons, List.length_map] at hp
    simp only [NewTag, newTagSlice, hne, if_false, headerOrder, List.map_cons,
      List.length_cons, hp]
  refine ⟨hR, hS, ?_, ?_, by rfl⟩
  · intro r
    have := hR r []
    simpa only [NewTag] using this
  · intro r
    have := hS r []
    simpa only [NewTag] using this


/-- C14: header round trip.  For either byte order and a signed pointer `off`
(the `int64` field `OffsetFirstIFD`): with `0 < off ≤ 2 ^ 32 - 1` the Classic
encoding is 8 bytes, and with `0 < off ≤ 2 ^ 63 - 1` the BigTIFF encoding is 16
bytes, and `decodeHeader` on those bytes returns the same byte order, version
and pointer; `encodeBytes` panics when `off ≤ 0` (both versions) and, for
Classic, when `off > 2 ^ 32 - 1`; and on a header whose pointer is a natural
number the method `Header.encodeBytes` is this function. -/
theorem C14_header_round_trip (bo : ByteOrder) (off : Int) :
    (0 < off → off ≤ 2 ^ 32 - 1 →
      ∃ bs, encodeHeaderBytes bo VersionClassicTIFF off = .ok bs ∧ bs.length = 8 ∧
        decodeHeader bs = .ok (Header.mk bo VersionClassicTIFF off.toNat)) ∧
    (0 < off → off ≤ 2 ^ 63 - 1 →
      ∃ bs, encodeHeaderBytes bo VersionBigTIFF off = .ok bs ∧ bs.length = 16 ∧
        decodeHeader bs = .ok (Header.mk bo VersionBigTIFF off.toNat)) ∧
    (off ≤ 0 →
      encodeHeaderBytes bo VersionClassicTIFF off =
        .error (.fatal "tiff: invalid OffsetFirstIFD") ∧
      encodeHeaderBytes bo VersionBigTIFF off =
        .error (.fatal "tiff: invalid OffsetFirstIFD")) ∧
    (2 ^ 32 - 1 < off →
      encodeHeaderBytes bo VersionClassicTIFF off =
        .error (.fatal "tiff: OffsetFirstIFD overflows uint32")) ∧
    (0 ≤ off →
      (Header.mk bo VersionClassicTIFF off.toNat).encodeBytes =
        encodeHeaderBytes bo VersionClassicTIFF off ∧
      (Header.mk bo VersionBigTIFF off.toNat).encodeBytes =
        encodeHeaderBytes bo VersionBigTIFF off) := by
  have hvb : ¬ VersionBigTIFF = VersionClassicTIFF := by decide
  refine ⟨?_, ?_, ?_, ?_, ?_⟩
  · intro h0 h1
    have hn : (off % 2 ^ 32).toNat = off.toNat := by omega
    have hlt : off.toNat < 2 ^ 32 := by omega
    refine ⟨(if bo = .LittleEndian then [73, 73] else [77, 77]) ++
      bo.PutUint16 (VersionClassicTIFF % 2 ^ 16) ++ bo.PutUint32 off.toNat, ?_, ?_, ?_⟩
    · unfold encodeHeaderBytes
      rw [if_pos rfl, if_neg (by omega), if_neg (by omega), hn]
    · cases bo <;> simp [ByteOrder.PutUint16, ByteOrder.PutUint32, ByteOrder.PutUint_length]
    · rw [decodeHeader_classic_bytes bo (bo.PutUint32 off.toNat)
          (ByteOrder.PutUint_length bo 4 _),
        ByteOrder.Uint32_PutUint32 bo _ hlt]
  · intro h0 h1
    have hn : (off % 2 ^ 64).toNat = off.toNat := by omega
    have hlt : off.toNat < 2 ^ 64 := by omega
    have hmax : maxInt64 = 2 ^ 63 - 1 := rfl
    refine ⟨(if bo = .LittleEndian then [73, 73] else [77, 77]) ++
      bo.PutUint16 (VersionBigTIFF % 2 ^ 16) ++ bo.PutUint16 8 ++ bo.PutUint16 0 ++
      bo.PutUint64 off.toNat, ?_, ?_, ?_⟩
    · unfold encodeHeaderBytes
      rw [if_neg hvb, if_pos rfl, if_neg (by omega), hn]
    · cases bo <;> simp [ByteOrder.PutUint16, ByteOrder.PutUint64, ByteOrder.PutUint_length]
    · rw [decodeHeader_big_bytes bo (bo.PutUint64 off.toNat)
          (ByteOrder.PutUint_length bo 8 _)
          (by rw [ByteOrder.Uint64_PutUint64 bo _ hlt, hmax]; omega),
        ByteOrder.Uint64_PutUint64 bo _ hlt]
  · intro h0
    constructor
    · unfold encodeHeaderBytes
      rw [if_pos rfl, if_pos h0]
    · unfold encodeHeaderBytes
      rw [if_neg hvb, if_pos rfl, if_pos h0]
  · intro h1
    unfold encodeHeaderBytes
    rw [if_pos rfl, if_neg (by omega), if_pos (by omega)]
  · intro h0
    have hc : ((off.toNat : Nat) : Int) = off := Int.toNat_of_nonneg h0
    constructor
    · rw [Header.encodeBytes_eq]
      show encodeHeaderBytes bo VersionClassicTIFF ((off.toNat : Nat) : Int) = _
      rw [hc]
    · rw [Header.encodeBytes_eq]
      show encodeHeaderBytes bo VersionBigTIFF ((off.toNat : Nat) : Int) = _
      rw [hc]

/-- C14 at the pointer 8 in a little-endian Classic file and the pointer 16 in
a big-endian BigTIFF file. -/
theorem C14_header_round_trip_witness :
    (0 : Int) < 8 ∧ (8 : Int) ≤ 2 ^ 32 - 1 ∧
    encodeHeaderBytes .LittleEndian VersionClassicTIFF 8 = .ok [73, 73, 42, 0, 8, 0, 0, 0] ∧
    (∃ bs, encodeHeaderBytes .LittleEndian VersionClassicTIFF 8 = .ok bs ∧ bs.length = 8 ∧
      decodeHeader bs = .ok (Header.mk .LittleEndian VersionClassicTIFF (8 : Int).toNat)) ∧
    (0 : Int) < 16 ∧ (16 : Int) ≤ 2 ^ 63 - 1 ∧
    encodeHeaderBytes .BigEndian VersionBigTIFF 16 =
      .ok [77, 77, 0, 43, 0, 8, 0, 0, 0, 0, 0, 0, 0, 0, 0, 16] ∧
    (∃ bs, encodeHeaderBytes .BigEndian VersionBigTIFF 16 = .ok bs ∧ bs.length = 16 ∧
      decodeHeader bs = .ok (Header.mk .BigEndian VersionBigTIFF (16 : Int).toNat)) ∧
    encodeHeaderBytes .LittleEndian VersionClassicTIFF 0 =
      .error (.fatal "tiff: invalid OffsetFirstIFD") :=
  ⟨by decide, by decide, by rfl,
    (C14_header_round_trip .LittleEndian 8).1 (by decide) (by decide),
    by decide, by decide, by rfl,
    (C14_header_round_trip .BigEndian 16).2.1 (by decide) (by decide),
    ((C14_header_round_trip .LittleEndian 0).2.2.1 (by decide)).1⟩

/-- C15: header validation.  For every source of at least 16 bytes,
`decodeHeader` fails with the FormatError `ErrInvalidHeader` if and only if
bytes 0-1 are neither "II" nor "MM", or the 16-bit version at bytes 2-3 (in
the selected byte order) is neither 42 nor 43, or the version is 43 and bytes
4-5 differ from 8 or bytes 6-7 differ from 0 or the 8-byte pointer at offset 8
exceeds `2 ^ 63 - 1`; it fails with no other error; otherwise it returns the
selected byte order ("II" little endian, "MM" big endian), the version, and
the first-directory pointer read from bytes 4-7 (Classic) or 8-15
(BigTIFF). -/
theorem C15_header_validation (r : List Nat) (hlen : 16 ≤ r.length) :
    (decodeHeader r = .error ErrInvalidHeader ↔ InvalidHeaderBytes r) ∧
    (∀ e, decodeHeader r = .error e → e = ErrInvalidHeader) ∧
    (¬ InvalidHeaderBytes r →
      decodeHeader r = .ok (Header.mk (selectedOrder r) (headerVersion r) (headerPointer r))) ∧
    (slice r 0 2 = [73, 73] → selectedOrder r = .LittleEndian) ∧
    (slice r 0 2 = [77, 77] → selectedOrder r = .BigEndian) := by
  have heq := decodeHeader_eq r hlen
  have hmax : maxInt64 = 2 ^ 63 - 1 := rfl
  have h42c : VersionClassicTIFF = 42 := rfl
  have h43c : VersionBigTIFF = 43 := rfl
  rw [h42c, h43c, hmax] at heq
  have hA : InvalidHeaderBytes r → decodeHeader r = .error ErrInvalidHeader := by
    intro hinv
    rw [heq]
    unfold ErrInvalidHeader
    by_cases hm : slice r 0 2 = [73, 73] ∨ slice r 0 2 = [77, 77]
    · rw [if_pos hm]
      rcases hinv with h | h | h
      · exfalso
        rcases hm with h1 | h1
        · exact h.1 h1
        · exact h.2 h1
      · rw [if_neg h.1, if_neg h.2]
      · have hn42 : ¬ headerVersion r = 42 := by rw [h.1]; decide
        rw [if_neg hn42, if_pos h.1]
        by_cases hw : (selectedOrder r).Uint (slice r 4 6) ≠ 8 ∨
            (selectedOrder r).Uint (slice r 6 8) ≠ 0
        · rw [if_pos hw]
        · rw [if_neg hw]
          rcases h.2 with h2 | h2 | h2
          · exact absurd (Or.inl h2) hw
          · exact absurd (Or.inr h2) hw
          · rw [if_pos h2]
    · rw [if_neg hm]
  have hB : ¬ InvalidHeaderBytes r →
      decodeHeader r = .ok (Header.mk (selectedOrder r) (headerVersion r) (headerPointer r))
      := by
    intro hn
    have hm : slice r 0 2 = [73, 73] ∨ slice r 0 2 = [77, 77] := by
      by_contra hc
      apply hn
      left
      exact ⟨fun h => hc (Or.inl h), fun h => hc (Or.inr h)⟩
    rw [heq, if_pos hm]
    unfold headerPointer
    rw [h42c]
    by_cases h42 : headerVersion r = 42
    · rw [if_pos h42, if_pos h42]
    · have h43 : headerVersion r = 43 := by
        by_contra hc
        exact hn (Or.inr (Or.inl ⟨h42, hc⟩))
      have hw : ¬ ((selectedOrder r).Uint (slice r 4 6) ≠ 8 ∨
          (selectedOrder r).Uint (slice r 6 8) ≠ 0) := by
        intro hc
        apply hn
        right; right
        refine ⟨h43, ?_⟩
        rcases hc with h | h
        · exact Or.inl h
        · exact Or.inr (Or.inl h)
      have hp : ¬ (selectedOrder r).Uint (slice r 8 16) > 2 ^ 63 - 1 := by
        intro hc
        exact hn (Or.inr (Or.inr ⟨h43, Or.inr (Or.inr hc)⟩))
      rw [if_neg h42, if_pos h43, if_neg hw, if_neg hp, if_neg h42]
  have hkey := And.intro hA hB
  refine ⟨⟨?_, hkey.1⟩, ?_, hkey.2, ?_, ?_⟩
  · intro herr
    by_contra hn
    rw [hkey.2 hn] at herr
    cases herr
  · intro e he
    by_cases hinv : InvalidHeaderBytes r
    · rw [hkey.1 hinv] at he
      cases he
      rfl
    · rw [hkey.2 hinv] at he
      cases he
  · intro h
    simp [selectedOrder, h]
  · intro h
    simp [selectedOrder, h]

/-- Witness for C15: the BigTIFF big-endian file `unsortedBigFile` has 72 bytes,
its header is valid, and `decodeHeader` returns big endian, version 43 and the
pointer 16. -/
theorem C15_header_validation_witness :
    16 ≤ unsortedBigFile.length ∧
    ¬ InvalidHeaderBytes unsortedBigFile ∧
    decodeHeader unsortedBigFile = .ok (Header.mk .BigEndian 43 16) :=
  ⟨by decide, by unfold InvalidHeaderBytes; decide,
    (C15_header_validation unsortedBigFile (by decide)).2.2.1
      (by unfold InvalidHeaderBytes; decide)⟩

theorem decodeUnsigned_single (x : Tag) (hd : Header) (hh : x.Header = some hd)
    (hc : x.Count = 1) (hlen : x.Data.length = TagType.Size x.Typ * x.Count)
    (htyp : x.Typ = TagTypeShort ∨ x.Typ = TagTypeLong ∨ x.Typ = TagTypeIFD ∨
      x.Typ = TagTypeLong8 ∨ x.Typ = TagTypeIFD8) :
    x.decodeUnsigned = .ok (some [hd.ByteOrder.Uint x.Data]) := by
  have hs2 : TagType.Size TagTypeShort = 2 := by decide
  have hs4 : TagType.Size TagTypeLong = 4 := by decide
  have hs4i : TagType.Size TagTypeIFD = 4 := by decide
  have hs8 : TagType.Size TagTypeLong8 = 8 := by decide
  have hs8i : TagType.Size TagTypeIFD8 = 8 := by decide
  rw [hc] at hlen
  rcases htyp with h1 | h1 | h1 | h1 | h1
  · rw [h1, hs2] at hlen
    have ht : List.take 2 x.Data = x.Data := List.take_of_length_le (by omega)
    simp only [Tag.decodeUnsigned, h1, true_or, if_true, hh, DecodeShort, hc, hs2]
    rw [if_neg (by omega)]
    simp only [decodeChunks, ht]
  · rw [h1, hs4] at hlen
    have ht : List.take 4 x.Data = x.Data := List.take_of_length_le (by omega)
    have hn : ¬ TagTypeLong = TagTypeShort := by decide
    simp only [Tag.decodeUnsigned, h1, true_or, or_true, if_true, hn, if_false, hh, DecodeLong,
      hc, hs4]
    rw [if_neg (by omega)]
    simp only [decodeChunks, ht]
  · rw [h1, hs4i] at hlen
    have ht : List.take 4 x.Data = x.Data := List.take_of_length_le (by omega)
    have hn : ¬ TagTypeIFD = TagTypeShort := by decide
    simp only [Tag.decodeUnsigned, h1, true_or, or_true, if_true, hn, if_false, hh, DecodeLong,
      hc, hs4]
    rw [if_neg (by omega)]
    simp only [decodeChunks, ht]
  · rw [h1, hs8] at hlen
    have ht : List.take 8 x.Data = x.Data := List.take_of_length_le (by omega)
    have hn : ¬ TagTypeLong8 = TagTypeShort := by decide
    have hn2 : ¬ (TagTypeLong8 = TagTypeLong ∨ TagTypeLong8 = TagTypeIFD) := by decide
    simp only [Tag.decodeUnsigned, h1, true_or, or_true, if_true, hn, hn2, if_false, hh,
      DecodeLong8, hc, hs8]
    rw [if_neg (by omega)]
    simp only [decodeChunks, ht]
  · rw [h1, hs8i] at hlen
    have ht : List.take 8 x.Data = x.Data := List.take_of_length_le (by omega)
    have hn : ¬ TagTypeIFD8 = TagTypeShort := by decide
    have hn2 : ¬ (TagTypeIFD8 = TagTypeLong ∨ TagTypeIFD8 = TagTypeIFD) := by decide
    simp only [Tag.decodeUnsigned, h1, true_or, or_true, if_true, hn, hn2, if_false, hh,
      DecodeLong8, hc, hs8]
    rw [if_neg (by omega)]
    simp only [decodeChunks, ht]

theorem Uint_of_single (x : Tag) (hd : Header) (hh : x.Header = some hd)
    (hc : x.Count = 1) (hlen : x.Data.length = TagType.Size x.Typ * x.Count)
    (htyp : x.Typ = TagTypeShort ∨ x.Typ = TagTypeLong ∨ x.Typ = TagTypeIFD ∨
      x.Typ = TagTypeLong8 ∨ x.Typ = TagTypeIFD8) :
    Tag.Uint (some x) = .ok (hd.ByteOrder.Uint x.Data, true) := by
  simp only [Tag.Uint, hc, ne_eq, not_true_eq_false, if_false,
    decodeUnsigned_single x hd hh hc hlen htyp]

theorem Uint_of_other (t : Option Tag)
    (hn : ¬ ∃ x, t = some x ∧ x.Count = 1 ∧ (x.Typ = TagTypeShort ∨ x.Typ = TagTypeLong ∨
      x.Typ = TagTypeIFD ∨ x.Typ = TagTypeLong8 ∨ x.Typ = TagTypeIFD8)) :
    Tag.Uint t = .ok (0, false) := by
  cases t with
  | none => rfl
  | some x =>
    by_cases hc : x.Count = 1
    · have hty : ¬ (x.Typ = TagTypeShort ∨ x.Typ = TagTypeLong ∨ x.Typ = TagTypeIFD ∨
          x.Typ = TagTypeLong8 ∨ x.Typ = TagTypeIFD8) := fun h => hn ⟨x, rfl, hc, h⟩
      simp only [Tag.Uint, hc, ne_eq, not_true_eq_false, if_false, Tag.decodeUnsigned, hty]
    · simp only [Tag.Uint, ne_eq, hc, not_false_eq_true, if_true]

/-- C16: the single-unsigned-integer accessor.  For every possibly nil tag
whose payload has the length `Type.Size() * Count` (and which holds a header,
through which the byte order is read), `Tag.Uint` returns `(v, true)` if and
only if the tag is non-nil, `Count = 1` and the type is one of Short, Long,
IFD, Long8, IFD8; `v` is then the value of the payload in the header's byte
order; in every other case it returns `(0, false)`. -/
theorem C16_Uint_accessor (t : Option Tag)
    (hlen : ∀ x, t = some x → x.Data.length = TagType.Size x.Typ * x.Count)
    (hhdr : ∀ x, t = some x → ∃ hd, x.Header = some hd) :
    ((∃ v, Tag.Uint t = .ok (v, true)) ↔
      ∃ x, t = some x ∧ x.Count = 1 ∧ (x.Typ = TagTypeShort ∨ x.Typ = TagTypeLong ∨
        x.Typ = TagTypeIFD ∨ x.Typ = TagTypeLong8 ∨ x.Typ = TagTypeIFD8)) ∧
    (∀ x hd, t = some x → x.Header = some hd → x.Count = 1 →
      (x.Typ = TagTypeShort ∨ x.Typ = TagTypeLong ∨ x.Typ = TagTypeIFD ∨
        x.Typ = TagTypeLong8 ∨ x.Typ = TagTypeIFD8) →
      Tag.Uint t = .ok (hd.ByteOrder.Uint x.Data, true)) ∧
    ((¬ ∃ x, t = some x ∧ x.Count = 1 ∧ (x.Typ = TagTypeShort ∨ x.Typ = TagTypeLong ∨
        x.Typ = TagTypeIFD ∨ x.Typ = TagTypeLong8 ∨ x.Typ = TagTypeIFD8)) →
      Tag.Uint t = .ok (0, false)) := by
  have hpos : ∀ x hd, t = some x → x.Header = some hd → x.Count = 1 →
      (x.Typ = TagTypeShort ∨ x.Typ = TagTypeLong ∨ x.Typ = TagTypeIFD ∨
        x.Typ = TagTypeLong8 ∨ x.Typ = TagTypeIFD8) →
      Tag.Uint t = .ok (hd.ByteOrder.Uint x.Data, true) := by
    intro x hd hx hh hc hty
    rw [hx]
    exact Uint_of_single x hd hh hc (hlen x hx) hty
  refine ⟨⟨?_, ?_⟩, hpos, Uint_of_other t⟩
  · rintro ⟨v, hv⟩
    by_contra hn
    rw [Uint_of_other t hn] at hv
    cases hv
  · rintro ⟨x, hx, hc, hty⟩
    obtain ⟨hd, hh⟩ := hhdr x hx
    exact ⟨_, hpos x hd hx hh hc hty⟩

/-- C16 at the Long tag of the single value 70000 in a big-endian file, and
at the nil tag. -/
theorem C16_Uint_accessor_witness :
    Tag.Uint (some (intTag 256 TagTypeLong (Header.mk .BigEndian VersionClassicTIFF 8) 4 [70000]))
      = .ok (70000, true) ∧
    Tag.Uint none = .ok (0, false) ∧
    ((∃ v, Tag.Uint (some (intTag 256 TagTypeLong (Header.mk .BigEndian VersionClassicTIFF 8) 4
        [70000])) = .ok (v, true)) ↔
      ∃ x, some (intTag 256 TagTypeLong (Header.mk .BigEndian VersionClassicTIFF 8) 4 [70000]) =
        some x ∧ x.Count = 1 ∧ (x.Typ = TagTypeShort ∨ x.Typ = TagTypeLong ∨
        x.Typ = TagTypeIFD ∨ x.Typ = TagTypeLong8 ∨ x.Typ = TagTypeIFD8)) :=
  ⟨by rfl, by rfl,
    (C16_Uint_accessor
      (some (intTag 256 TagTypeLong (Header.mk .BigEndian VersionClassicTIFF 8) 4 [70000]))
      (by intro x hx; cases hx; rfl) (by intro x hx; cases hx; exact ⟨_, rfl⟩)).1⟩

/-- C17 (the code at the failing input): in the Classic little-endian file
`emptyAsciiFile` the directory at offset 8 has one entry, of type ASCII and
count 0.  `NewDecoder` and `DecodeIFD` accept it and build the tag 270 with an
empty payload; on that tag `String` and `StringSlice` panic, because
`DecodeASCII` reads `data[len(data)-1]` of the empty payload.  `Uint` and
`UintSlice` return their not-ok result on the same tag. -/
theorem C17_String_panics_on_empty_ASCII_tag :
    NewDecoder emptyAsciiFile =
      .ok (Decoder.mk (Header.mk .LittleEndian VersionClassicTIFF 8) emptyAsciiFile) ∧
    decodedTagAt (Decoder.mk (Header.mk .LittleEndian VersionClassicTIFF 8) emptyAsciiFile) 8 270 =
      some (Tag.mk 270 TagTypeASCII 0 [] (some (Header.mk .LittleEndian VersionClassicTIFF 8))
        10 0) ∧
    Tag.String (decodedTagAt
        (Decoder.mk (Header.mk .LittleEndian VersionClassicTIFF 8) emptyAsciiFile) 8 270) =
      .error (.fatal "index out of range") ∧
    Tag.StringSlice (decodedTagAt
        (Decoder.mk (Header.mk .LittleEndian VersionClassicTIFF 8) emptyAsciiFile) 8 270) =
      .error (.fatal "index out of range") ∧
    Tag.Uint (decodedTagAt
        (Decoder.mk (Header.mk .LittleEndian VersionClassicTIFF 8) emptyAsciiFile) 8 270) =
      .ok (0, false) ∧
    Tag.UintSlice (decodedTagAt
        (Decoder.mk (Header.mk .LittleEndian VersionClassicTIFF 8) emptyAsciiFile) 8 270) =
      .ok ([], false) := by
  refine ⟨by rfl, by rfl, by rfl, by rfl, by rfl, by rfl⟩

/-- C18 (counterexample): for the one-byte payload "A" and the two-byte
payload "A", "B" (last byte not NUL) `DecodeASCII` fails with the error
"decode ASCII: last byte is not 0", which is made with `fmt.Errorf` and is
not a `FormatError`. -/
theorem C18_counterexample_error_is_not_FormatError :
    DecodeASCII 1 [65] .LittleEndian = .error (.other "decode ASCII: last byte is not 0") ∧
    DecodeASCII 2 [65, 66] .BigEndian = .error (.other "decode ASCII: last byte is not 0") ∧
    (Error.other "decode ASCII: last byte is not 0").isFormat = false := by
  refine ⟨by rfl, by rfl, by rfl⟩

/-- C18 (amended): for every non-empty payload `data` with `len(data) = count`,
`DecodeASCII` fails if and only if the last byte of `data` is not NUL, and the
failure is the plain error "decode ASCII: last byte is not 0" (no
`FormatError`, no panic); otherwise it returns the pieces obtained by dropping
the final NUL and splitting the rest at every NUL byte: the pieces contain no
NUL, joined with single NUL bytes they give back the payload without its
final NUL, and there is one piece more than there are NUL bytes in it. -/
theorem C18_DecodeASCII_trailing_nul (count : Nat) (data : List Nat) (bo : ByteOrder)
    (hne : data ≠ []) (hlen : data.length = count) :
    ((∃ e, DecodeASCII count data bo = .error e) ↔ data.getLast hne ≠ 0) ∧
    (data.getLast hne ≠ 0 →
      DecodeASCII count data bo = .error (.other "decode ASCII: last byte is not 0")) ∧
    (data.getLast hne = 0 →
      ∃ ps, DecodeASCII count data bo = .ok ps ∧
        List.intercalate [0] ps = data.dropLast ∧
        (∀ p ∈ ps, ∀ b ∈ p, b ≠ 0) ∧
        ps.length = data.dropLast.count 0 + 1) := by
  have hd : data = data.dropLast ++ [data.getLast hne] := (List.dropLast_append_getLast hne).symm
  have hbad : data.getLast hne ≠ 0 →
      DecodeASCII count data bo = .error (.other "decode ASCII: last byte is not 0") := by
    intro hb
    have := DecodeASCII_of_not_nul data.dropLast (data.getLast hne) bo hb
    rw [← hd, hlen] at this
    exact this
  have hgood : data.getLast hne = 0 →
      DecodeASCII count data bo = .ok (splitNul data.dropLast) := by
    intro hb
    have := DecodeASCII_of_nul data.dropLast bo
    rw [← hb, ← hd, hlen] at this
    exact this
  refine ⟨⟨?_, ?_⟩, hbad, ?_⟩
  · rintro ⟨e, he⟩ h0
    rw [hgood h0] at he
    cases he
  · intro hb
    exact ⟨_, hbad hb⟩
  · intro h0
    exact ⟨_, hgood h0, splitNul_intercalate _, splitNul_no_nul _, splitNul_length _⟩

/-- C18 (amended) at the payload "AB", NUL, "C", NUL: the last byte is NUL and
the strings "AB" and "C" are returned. -/
theorem C18_DecodeASCII_trailing_nul_witness :
    DecodeASCII 5 [65, 66, 0, 67, 0] .LittleEndian = .ok [[65, 66], [67]] ∧
    (((∃ e, DecodeASCII 5 [65, 66, 0, 67, 0] .LittleEndian = .error e) ↔
        [65, 66, 0, 67, 0].getLast (by decide) ≠ 0) ∧
      ([65, 66, 0, 67, 0].getLast (by decide) ≠ 0 →
        DecodeASCII 5 [65, 66, 0, 67, 0] .LittleEndian =
          .error (.other "decode ASCII: last byte is not 0")) ∧
      ([65, 66, 0, 67, 0].getLast (by decide) = 0 →
        ∃ ps, DecodeASCII 5 [65, 66, 0, 67, 0] .LittleEndian = .ok ps ∧
          List.intercalate [0] ps = [65, 66, 0, 67, 0].dropLast ∧
          (∀ p ∈ ps, ∀ b ∈ p, b ≠ 0) ∧
          ps.length = [65, 66, 0, 67, 0].dropLast.count 0 + 1)) :=
  ⟨by rfl, C18_DecodeASCII_trailing_nul 5 [65, 66, 0, 67, 0] .LittleEndian (by decide) (by decide)⟩


/-- C19: terminal error state of the iterator.  A call to `Next` whose
directory decode fails with an error `e` (an error return, not a panic)
returns false, records `e` as `Err()` and leaves the index and the current
image as they were; and once `Err()` is non-nil, `Next` returns false and
leaves the whole iterator (error, index, current image) unchanged, after any
number of further calls. -/
theorem C19_terminal_error_state (it : Iter) :
    (∀ cur e, it.err = none → it.im = some cur → cur.OffsetNext ≠ 0 →
      it.dec.decodeDirectories cur.OffsetNext = .error e → e.isFatal = false →
      it.Next.2 = false ∧ it.Next.1.Err = some e ∧ it.Next.1.index = it.index ∧
        it.Next.1.im = it.im ∧ it.Next.1.dec = it.dec) ∧
    (it.Err ≠ none → it.Next = (it, false)) ∧
    (it.Err ≠ none → ∀ n : Nat,
      (fun s : Iter => s.Next.1)^[n] it = it ∧
      (((fun s : Iter => s.Next.1)^[n] it).Next).2 = false) := by
  have hstep : it.Err ≠ none → it.Next = (it, false) := by
    intro h
    have hs : it.err.isSome = true := by
      unfold Iter.Err at h
      cases he : it.err with
      | none => exact absurd he h
      | some x => rfl
    unfold Iter.Next
    rw [if_pos hs]
  refine ⟨?_, hstep, ?_⟩
  · intro cur e herr him hoff hdec _
    have hs : ¬ it.err.isSome = true := by rw [herr]; decide
    have hn : it.Next = ({ it with err := some e }, false) := by
      unfold Iter.Next
      rw [if_neg hs, him]
      dsimp only
      rw [if_neg hoff, hdec]
    rw [hn]
    exact ⟨rfl, rfl, rfl, rfl, rfl⟩
  · intro h n
    have hfix : ∀ n : Nat, (fun s : Iter => s.Next.1)^[n] it = it := by
      intro n
      induction n with
      | zero => rfl
      | succ n ih =>
        rw [Function.iterate_succ_apply']
        rw [ih]
        show it.Next.1 = it
        rw [hstep h]
    rw [hfix n, hstep h]
    exact ⟨rfl, rfl⟩

/-- C19 at the file `danglingFile`, whose header points beyond the end of the
file: the first `Next` fails with "cannot read IFD", the index stays -1 and the
current image stays the initial one; every later `Next` returns false and
changes nothing. -/
theorem C19_terminal_error_state_witness :
    ∃ it : Iter, fileIter danglingFile = some it ∧
      it.Next.2 = false ∧ it.Next.1.Err = some (.other "cannot read IFD") ∧
      it.Next.1.index = -1 ∧ it.Next.1.im = it.im ∧
      it.Next.1.Next = (it.Next.1, false) ∧
      (fun s : Iter => s.Next.1)^[5] it.Next.1 = it.Next.1 :=
  ⟨(Decoder.mk (Header.mk .LittleEndian VersionClassicTIFF 100) danglingFile).Iter, by rfl,
    ((C19_terminal_error_state
      (Decoder.mk (Header.mk .LittleEndian VersionClassicTIFF 100) danglingFile).Iter).1
      _ (.other "cannot read IFD") rfl rfl (by decide) (by rfl) rfl).1,
    by rfl, by rfl, by rfl,
    (C19_terminal_error_state
      (Decoder.mk (Header.mk .LittleEndian VersionClassicTIFF 100) danglingFile).Iter.Next.1).2.1
      (by intro h; cases h),
    ((C19_terminal_error_state
      (Decoder.mk (Header.mk .LittleEndian VersionClassicTIFF 100) danglingFile).Iter.Next.1).2.2
      (by intro h; cases h) 5).1⟩


/-- C20: end of data is distinguishable from failure.  When `Next` finds the
next-pointer of the current directory equal to 0 it returns false, `Err()` is
nil, and the current image becomes nil; one more `Next` returns false and sets
`Err()` to `io.EOF`; a `Next` whose directory decode fails records the error of
the decode; and no error of a directory decode is `io.EOF`. -/
theorem C20_end_of_data_distinguishable (it : Iter) :
    (∀ cur, it.err = none → it.im = some cur → cur.OffsetNext = 0 →
      it.Next.2 = false ∧ it.Next.1.Err = none ∧ it.Next.1.im = none ∧
        it.Next.1.index = it.index ∧
      it.Next.1.Next.2 = false ∧ it.Next.1.Next.1.Err = some .eof) ∧
    (∀ cur e, it.err = none → it.im = some cur → cur.OffsetNext ≠ 0 →
      it.dec.decodeDirectories cur.OffsetNext = .error e →
      it.Next.2 = false ∧ it.Next.1.Err = some e ∧ it.Next.1.Err ≠ some .eof) ∧
    (∀ offset e, it.dec.decodeDirectories offset = .error e → e ≠ .eof) := by
  refine ⟨?_, ?_, ?_⟩
  · intro cur herr him hoff
    have hs : ¬ it.err.isSome = true := by rw [herr]; decide
    have hn : it.Next = ({ it with im := none }, false) := by
      unfold Iter.Next
      rw [if_neg hs, him]
      dsimp only
      rw [if_pos hoff]
    have hn2 : ({ it with im := none } : Iter).Next =
        ({ it with im := none, err := some .eof }, false) := by
      unfold Iter.Next
      dsimp only
      rw [if_neg hs]
    rw [hn]
    dsimp only
    rw [hn2]
    exact ⟨rfl, herr, rfl, rfl, rfl, rfl⟩
  · intro cur e herr him hoff hdec
    have hs : ¬ it.err.isSome = true := by rw [herr]; decide
    have hn : it.Next = ({ it with err := some e }, false) := by
      unfold Iter.Next
      rw [if_neg hs, him]
      dsimp only
      rw [if_neg hoff, hdec]
    rw [hn]
    refine ⟨rfl, rfl, ?_⟩
    intro hc
    have : e = .eof := Option.some.inj hc
    exact decodeDirectories_ne_eof _ _ _ hdec this
  · intro offset e h
    exact decodeDirectories_ne_eof _ _ _ h

/-- C20 at the file `unsortedClassicFile`, which has one directory: the first
`Next` succeeds, the second returns false with a nil error, the third returns
false with the error `io.EOF`; and at `danglingFile` the failed `Next` records
an error that is not `io.EOF`. -/
theorem C20_end_of_data_distinguishable_witness :
    ∃ it it1 : Iter, fileIter unsortedClassicFile = some it ∧ it.Next = (it1, true) ∧
      it1.Next.2 = false ∧ it1.Next.1.Err = none ∧
      it1.Next.1.Next.2 = false ∧ it1.Next.1.Next.1.Err = some .eof ∧
      ∃ jt : Iter, fileIter danglingFile = some jt ∧ jt.Next.2 = false ∧
        jt.Next.1.Err = some (.other "cannot read IFD") ∧ jt.Next.1.Err ≠ some .eof :=
  ⟨(Decoder.mk (Header.mk .LittleEndian VersionClassicTIFF 8) unsortedClassicFile).Iter,
    (Decoder.mk (Header.mk .LittleEndian VersionClassicTIFF 8) unsortedClassicFile).Iter.Next.1,
    by rfl, by rfl,
    ((C20_end_of_data_distinguishable
      (Decoder.mk (Header.mk .LittleEndian VersionClassicTIFF 8)
        unsortedClassicFile).Iter.Next.1).1 _ (by rfl) (by rfl) (by rfl)).1,
    by rfl, by rfl, by rfl,
    (Decoder.mk (Header.mk .LittleEndian VersionClassicTIFF 100) danglingFile).Iter,
    by rfl, by rfl, by rfl,
    ((C20_end_of_data_distinguishable
      (Decoder.mk (Header.mk .LittleEndian VersionClassicTIFF 100) danglingFile).Iter).2.1
      _ (.other "cannot read IFD") rfl rfl (by decide) (by rfl)).2.2⟩


/-! ## Sub-images of a decoded directory -/

theorem decodeSubIFDs_map (d : Decoder) (os : List Nat) :
    ∀ subs, decodeSubIFDs d os = .ok subs →
      os.map (fun o => d.DecodeIFD o) = subs.map (fun s => Except.ok s) := by
  induction os with
  | nil =>
    intro subs h
    cases h
    rfl
  | cons o os ih =>
    intro subs h
    unfold decodeSubIFDs at h
    split at h
    · cases h
    · rename_i sub hsub
      split at h
      · cases h
      · rename_i rest hrest
        cases h
        rw [List.map_cons, List.map_cons, hsub, ih rest hrest]

/-- The parts of a successful `decodeDirectories`: the directory that
`DecodeIFD` returns, the value of its SubIFDs tag and the decoded
sub-directories; the result has the tags of the directory and these
sub-images. -/
theorem decodeDirectories_parts (d : Decoder) (offset : Nat) (im : Image)
    (h : d.decodeDirectories offset = .ok im) :
    ∃ im0 offs has subs, d.DecodeIFD offset = .ok im0 ∧
      Tag.UintSlice (TagMap.find im0.Tag TagSubIFDs) = .ok (offs, has) ∧
      (if has = true ∧ offs.length > 0 then decodeSubIFDs d offs else .ok []) = .ok subs ∧
      im.Tag = im0.Tag ∧ im.SubImage = subs := by
  unfold Decoder.decodeDirectories at h
  dsimp only at h
  split at h
  · cases h
  · rename_i im0 h0
    split at h
    · cases h
    · rename_i offs has hu
      split at h
      · cases h
      · rename_i subs hsub
        refine ⟨im0, offs, has, subs, h0, hu, hsub, ?_, ?_⟩
        · repeat' (first | (cases h; done) | (injection h with h; rw [← h]) | split at h)
        · repeat' (first | (cases h; done) | (injection h with h; rw [← h]) | split at h)


/-! ## The validation of `DecodeImage` and `EncodeImage`, case by case -/

theorem DecodeImage_layout (c : Codecs) (im : Image) (buffer : Buffer) (g : Geometry)
    (hval : im.validate buffer = .ok g) :
    im.DecodeImage c buffer =
      if im.NumStrips > 0 then im.decodeStripMode c g buffer
      else if im.NumTiles > 0 then im.decodeTileMode c g buffer
      else (buffer, some (.other "no strip or tile found")) := by
  unfold Image.DecodeImage Image.decodeStripMode Image.decodeTileMode
  rw [hval]

theorem StripReader_congr (c : Codecs) (im im2 : Image) (ids : List Nat)
    (h : im.agreesExcept ids im2)
    (h1 : TagStripOffsets ∉ ids) (h2 : TagStripByteCounts ∉ ids) (h3 : TagCompression ∉ ids)
    (h4 : TagJPEGTables ∉ ids) (i : Nat) :
    im.StripReader c i = im2.StripReader c i := by
  obtain ⟨_, hrd, hf⟩ := h
  unfold Image.StripReader rawSegmentReader Image.decodeRawSegment Image.Compression
    Image.decodeJPEGSegment
  rw [hf _ h1, hf _ h2, hf _ h3, hf _ h4, hrd]

theorem TileReader_congr (c : Codecs) (im im2 : Image) (ids : List Nat)
    (h : im.agreesExcept ids im2)
    (h1 : TagTileOffsets ∉ ids) (h2 : TagTileByteCounts ∉ ids) (h3 : TagCompression ∉ ids)
    (h4 : TagJPEGTables ∉ ids) (i : Nat) :
    im.TileReader c i = im2.TileReader c i := by
  obtain ⟨_, hrd, hf⟩ := h
  unfold Image.TileReader rawSegmentReader Image.decodeRawSegment Image.Compression
    Image.decodeJPEGSegment
  rw [hf _ h1, hf _ h2, hf _ h3, hf _ h4, hrd]

theorem decodeStrips_congr (c : Codecs) (im im2 : Image) (g : Geometry) (rowsPerStrip ny : Nat)
    (hhdr : im.Header = im2.Header) (hr : ∀ i, im.StripReader c i = im2.StripReader c i)
    (n : Nat) :
    ∀ (iy : Nat) (buffer : Buffer) (destOffset : Nat),
      decodeStrips c im g rowsPerStrip ny n iy buffer destOffset =
        decodeStrips c im2 g rowsPerStrip ny n iy buffer destOffset := by
  induction n with
  | zero =>
    intro iy buffer destOffset
    rfl
  | succ n ih =>
    intro iy buffer destOffset
    unfold decodeStrips
    rw [hr iy, hhdr]
    dsimp only
    split
    · rfl
    · split
      · rfl
      · split
        · rfl
        · exact ih _ _ _

theorem decodeTile_congr (c : Codecs) (im im2 : Image) (g : Geometry)
    (tileWidth tileHeight nx ny : Nat)
    (hhdr : im.Header = im2.Header) (hr : ∀ i, im.TileReader c i = im2.TileReader c i)
    (iy ix : Nat) (buffer : Buffer) :
    decodeTile c im g tileWidth tileHeight nx ny iy ix buffer =
      decodeTile c im2 g tileWidth tileHeight nx ny iy ix buffer := by
  unfold decodeTile
  rw [hr, hhdr]

theorem decodeTileRow_congr (c : Codecs) (im im2 : Image) (g : Geometry)
    (tileWidth tileHeight nx ny : Nat)
    (hhdr : im.Header = im2.Header) (hr : ∀ i, im.TileReader c i = im2.TileReader c i)
    (iy n : Nat) :
    ∀ (ix : Nat) (buffer : Buffer),
      decodeTileRow c im g tileWidth tileHeight nx ny iy n ix buffer =
        decodeTileRow c im2 g tileWidth tileHeight nx ny iy n ix buffer := by
  induction n with
  | zero =>
    intro ix buffer
    rfl
  | succ n ih =>
    intro ix buffer
    unfold decodeTileRow
    rw [decodeTile_congr c im im2 g tileWidth tileHeight nx ny hhdr hr]
    split
    · rfl
    · exact ih _ _

theorem decodeTileRows_congr (c : Codecs) (im im2 : Image) (g : Geometry)
    (tileWidth tileHeight nx ny : Nat)
    (hhdr : im.Header = im2.Header) (hr : ∀ i, im.TileReader c i = im2.TileReader c i)
    (n : Nat) :
    ∀ (iy : Nat) (buffer : Buffer),
      decodeTileRows c im g tileWidth tileHeight nx ny n iy buffer =
        decodeTileRows c im2 g tileWidth tileHeight nx ny n iy buffer := by
  induction n with
  | zero =>
    intro iy buffer
    rfl
  | succ n ih =>
    intro iy buffer
    unfold decodeTileRows
    rw [decodeTileRow_congr c im im2 g tileWidth tileHeight nx ny hhdr hr]
    split
    · rfl
    · exact ih _ _

/-- The strip block reads no tile tag: two images that differ only in their
tile tags give the same result. -/
theorem decodeStripMode_congr (c : Codecs) (im im2 : Image) (g : Geometry) (buffer : Buffer)
    (h : im.agreesExcept tileTagIDs im2) :
    im.decodeStripMode c g buffer = im2.decodeStripMode c g buffer := by
  have hr := StripReader_congr c im im2 tileTagIDs h (by decide) (by decide) (by decide)
    (by decide)
  obtain ⟨hhdr, hrd, hf⟩ := h
  have hn : im.NumStrips = im2.NumStrips := by
    unfold Image.NumStrips
    rw [hf TagStripOffsets (by decide), hf TagStripByteCounts (by decide)]
  unfold Image.decodeStripMode
  rw [hf TagRowsPerStrip (by decide), hn]
  split
  · rfl
  · dsimp only
    split
    · rfl
    · split
      · rfl
      · exact decodeStrips_congr c im im2 g _ _ hhdr hr _ _ _ _

/-- The tile block reads no strip tag: two images that differ only in their
strip tags give the same result. -/
theorem decodeTileMode_congr (c : Codecs) (im im2 : Image) (g : Geometry) (buffer : Buffer)
    (h : im.agreesExcept stripTagIDs im2) :
    im.decodeTileMode c g buffer = im2.decodeTileMode c g buffer := by
  have hr := TileReader_congr c im im2 stripTagIDs h (by decide) (by decide) (by decide)
    (by decide)
  obtain ⟨hhdr, hrd, hf⟩ := h
  have hn : im.NumTiles = im2.NumTiles := by
    unfold Image.NumTiles
    rw [hf TagTileOffsets (by decide), hf TagTileByteCounts (by decide)]
  unfold Image.decodeTileMode
  rw [hf TagTileLength (by decide), hf TagTileWidth (by decide), hn]
  split
  · rfl
  · dsimp only
    split
    · rfl
    · split
      · rfl
      · split
        · rfl
        · split
          · rfl
          · exact decodeTileRows_congr c im im2 g _ _ _ _ hhdr hr _ _ _


theorem WidthHeight_congr (im im2 : Image) (ids : List Nat) (h : im.agreesExcept ids im2)
    (h1 : TagImageWidth ∉ ids) (h2 : TagImageLength ∉ ids) :
    im.WidthHeight = im2.WidthHeight := by
  unfold Image.WidthHeight
  rw [h.2.2 _ h1, h.2.2 _ h2]

theorem SamplesPerPixel_congr (im im2 : Image) (ids : List Nat) (h : im.agreesExcept ids im2)
    (h1 : TagSamplesPerPixel ∉ ids) : im.SamplesPerPixel = im2.SamplesPerPixel := by
  unfold Image.SamplesPerPixel
  rw [h.2.2 _ h1]

theorem BitDepth_congr (im im2 : Image) (ids : List Nat) (h : im.agreesExcept ids im2)
    (h1 : TagSamplesPerPixel ∉ ids) (h2 : TagBitsPerSample ∉ ids) :
    im.BitDepth = im2.BitDepth := by
  unfold Image.BitDepth
  rw [h.2.2 _ h2, SamplesPerPixel_congr im im2 ids h h1]

theorem PlanarConfig_congr (im im2 : Image) (ids : List Nat) (h : im.agreesExcept ids im2)
    (h1 : TagPlanarConfig ∉ ids) : im.PlanarConfig = im2.PlanarConfig := by
  unfold Image.PlanarConfig
  rw [h.2.2 _ h1]

/-- The validation reads the tags ImageWidth, ImageLength, SamplesPerPixel,
BitsPerSample and PlanarConfiguration only. -/
theorem validate_congr (im im2 : Image) (ids : List Nat) (buffer : Buffer)
    (h : im.agreesExcept ids im2)
    (h1 : TagImageWidth ∉ ids) (h2 : TagImageLength ∉ ids) (h3 : TagSamplesPerPixel ∉ ids)
    (h4 : TagBitsPerSample ∉ ids) (h5 : TagPlanarConfig ∉ ids) :
    im.validate buffer = im2.validate buffer := by
  unfold Image.validate
  rw [WidthHeight_congr im im2 ids h h1 h2, SamplesPerPixel_congr im im2 ids h h3,
    BitDepth_congr im im2 ids h h3 h4, PlanarConfig_congr im im2 ids h h5]

theorem stripAndTile_agrees : stripAndTileImage.agreesExcept tileTagIDs stripOnlyImage := by
  refine ⟨rfl, rfl, ?_⟩
  intro id hid
  have e1 : stripAndTileImage.Tag =
      [intTag 256 TagTypeLong freshEncoder.Header 4 [1],
       intTag 257 TagTypeLong freshEncoder.Header 4 [1],
       intTag 258 TagTypeLong freshEncoder.Header 4 [8],
       intTag 273 TagTypeLong freshEncoder.Header 4 [0],
       intTag 277 TagTypeLong freshEncoder.Header 4 [1],
       intTag 278 TagTypeLong freshEncoder.Header 4 [1],
       intTag 279 TagTypeLong freshEncoder.Header 4 [1],
       intTag 322 TagTypeLong freshEncoder.Header 4 [1],
       intTag 323 TagTypeLong freshEncoder.Header 4 [1],
       intTag 324 TagTypeLong freshEncoder.Header 4 [1],
       intTag 325 TagTypeLong freshEncoder.Header 4 [1]] := by rfl
  have e2 : stripOnlyImage.Tag =
      [intTag 256 TagTypeLong freshEncoder.Header 4 [1],
       intTag 257 TagTypeLong freshEncoder.Header 4 [1],
       intTag 258 TagTypeLong freshEncoder.Header 4 [8],
       intTag 273 TagTypeLong freshEncoder.Header 4 [0],
       intTag 277 TagTypeLong freshEncoder.Header 4 [1],
       intTag 278 TagTypeLong freshEncoder.Header 4 [1],
       intTag 279 TagTypeLong freshEncoder.Header 4 [1]] := by rfl
  have hid2 : ¬ (322 = id) ∧ ¬ (323 = id) ∧ ¬ (324 = id) ∧ ¬ (325 = id) := by
    refine ⟨?_, ?_, ?_, ?_⟩ <;> intro hc <;> apply hid <;> rw [← hc] <;> decide
  rw [e1, e2]
  simp only [find_intTag, find_nil, if_neg hid2.1, if_neg hid2.2.1, if_neg hid2.2.2.1,
    if_neg hid2.2.2.2]


/-! ## Tag lookups after an assignment -/

theorem encodeLayout_header (im : Image) (w h : Nat) :
    (im.encodeLayout w h).1.Header = im.Header := by
  unfold Image.encodeLayout
  dsimp only
  repeat' split
  all_goals first
    | rfl
    | (dsimp only
       rw [Image.SetTag_header, Image.SetTag_header])

/-- C21: usage error before the first advance.  On the fresh iterator that
`Decoder.Iter` returns, `Image()` returns no image (nil) and sets `Err()` to a
usage error, which is not `io.EOF`; and after a `Next` that returned true,
`Image()` returns the current image, which is the directory just decoded at
the next-pointer of the image before (with the reader and the header of that
image), its `Offset` is that pointer and is not 0, and `Image()` leaves the
iterator, and so `Err()`, unchanged. -/
theorem C21_usage_error_before_first_advance (d : Decoder) (it it1 : Iter) :
    (d.Iter.Image.2 = none ∧
      d.Iter.Image.1.Err = some (.other "acesss image before first call of Next()") ∧
      d.Iter.Image.1.Err ≠ some .eof ∧ d.Iter.Err = none) ∧
    (it.Next = (it1, true) →
      ∃ cur dim, it.im = some cur ∧ cur.OffsetNext ≠ 0 ∧
        it.dec.decodeDirectories cur.OffsetNext = .ok dim ∧
        it1.Image = (it1, some { dim with rd := cur.rd, Header := cur.Header }) ∧
        it1.Image.2 = it1.im ∧
        dim.Offset = cur.OffsetNext ∧ dim.Offset ≠ 0 ∧
        it1.Image.1.Err = it1.Err ∧ it1.Err = it.Err ∧ it1.index = it.index + 1) := by
  refine ⟨⟨rfl, rfl, ?_, rfl⟩, ?_⟩
  · intro hc
    cases hc
  · intro hn
    unfold Iter.Next at hn
    split at hn
    · cases hn
    · split at hn
      · cases hn
      · rename_i cur hcur
        split at hn
        · cases hn
        · rename_i hoff
          split at hn
          · cases hn
          · rename_i dim hdim
            have hdo := decodeDirectories_offset hdim
            have h1 : it1 = Iter.mk (it.index + 1) it.dec
                (some { dim with rd := cur.rd, Header := cur.Header }) it.err := by
              cases hn
              rfl
            have hi : it1.Image = (it1, some { dim with rd := cur.rd, Header := cur.Header }) := by
              rw [h1]
              unfold Iter.Image
              dsimp only
              rw [if_neg (by rw [hdo]; exact hoff)]
            refine ⟨cur, dim, hcur, hoff, hdim, hi, ?_, hdo, by rw [hdo]; exact hoff, ?_, ?_, ?_⟩
            · rw [hi, h1]
            · rw [hi]
            · rw [h1]
              rfl
            · rw [h1]

/-- C21 at the file `unsortedClassicFile`: `Image()` on the fresh iterator
gives nil and the usage error; after the first `Next`, `Image()` gives the
directory at offset 8 and no error. -/
theorem C21_usage_error_before_first_advance_witness :
    ∃ it it1 : Iter, fileIter unsortedClassicFile = some it ∧
      it.Image.2 = none ∧
      it.Image.1.Err = some (.other "acesss image before first call of Next()") ∧
      it.Next = (it1, true) ∧
      ∃ cur dim, it.im = some cur ∧ cur.OffsetNext ≠ 0 ∧
        it.dec.decodeDirectories cur.OffsetNext = .ok dim ∧
        it1.Image = (it1, some { dim with rd := cur.rd, Header := cur.Header }) ∧
        it1.Image.2 = it1.im ∧
        dim.Offset = cur.OffsetNext ∧ dim.Offset ≠ 0 ∧
        it1.Image.1.Err = it1.Err ∧ it1.Err = it.Err ∧ it1.index = it.index + 1 :=
  ⟨(Decoder.mk (Header.mk .LittleEndian VersionClassicTIFF 8) unsortedClassicFile).Iter,
    (Decoder.mk (Header.mk .LittleEndian VersionClassicTIFF 8) unsortedClassicFile).Iter.Next.1,
    by rfl, by rfl, by rfl, by rfl,
    (C21_usage_error_before_first_advance
      (Decoder.mk (Header.mk .LittleEndian VersionClassicTIFF 8) unsortedClassicFile)
      (Decoder.mk (Header.mk .LittleEndian VersionClassicTIFF 8) unsortedClassicFile).Iter
      (Decoder.mk (Header.mk .LittleEndian VersionClassicTIFF 8)
        unsortedClassicFile).Iter.Next.1).2 (by rfl)⟩


/-- C22: unknown compression on decode.  On the 1 x 1 strip image and the
1 x 1 tiled image whose Compression tag holds 99 (and which decode to the
sample 7 when the tag holds 1), `StripReader` and `TileReader` return an
`UnsupportedError`, but `DecodeImage` returns the error made with
`fmt.Errorf("cannot get strip %d: %v", ...)` (resp. "cannot get tile"), which
is neither an `UnsupportedError` nor a `FormatError`; the buffer is left
unchanged. -/
theorem C22_DecodeImage_loses_UnsupportedError (c : Codecs) :
    (compressedStripImage 99).Compression = .ok 99 ∧
    (compressedStripImage 1).DecodeImage c (.u8 [0]) = (.u8 [7], none) ∧
    (compressedTileImage 1).DecodeImage c (.u8 [0]) = (.u8 [7], none) ∧
    (compressedStripImage 99).StripReader c 0 = .error (.unsupported "compression") ∧
    (compressedTileImage 99).TileReader c 0 = .error (.unsupported "compression") ∧
    (Error.unsupported "compression").isUnsupported = true ∧
    (compressedStripImage 99).DecodeImage c (.u8 [0]) =
      (.u8 [0], some (.other "cannot get strip")) ∧
    (compressedTileImage 99).DecodeImage c (.u8 [0]) =
      (.u8 [0], some (.other "cannot get tile")) ∧
    (Error.other "cannot get strip").isUnsupported = false ∧
    (Error.other "cannot get tile").isUnsupported = false ∧
    (Error.other "cannot get strip").isFormat = false := by
  refine ⟨by rfl, by rfl, by rfl, by rfl, by rfl, by rfl, by rfl, by rfl, by rfl, by rfl, by rfl⟩


/-- C23: Zstd-compressed images.  On the 1 x 1 strip image whose Compression
tag holds 50000 (`CompressionZstd`), and which decodes to the sample 7 when
the tag holds 1, `StripReader` returns an `UnsupportedError` and no reader,
and `DecodeImage` fails with "cannot get strip" and leaves the buffer
unchanged: `decodeRawSegment` has no case for the identifier. -/
theorem C23_Zstd_is_not_decoded (c : Codecs) :
    (compressedStripImage CompressionZstd).Compression = .ok 50000 ∧
    (compressedStripImage CompressionNone).DecodeImage c (.u8 [0]) = (.u8 [7], none) ∧
    (compressedStripImage CompressionZstd).StripReader c 0 =
      .error (.unsupported "compression") ∧
    (∀ raw, (compressedStripImage CompressionZstd).decodeRawSegment c raw =
      .error (.unsupported "compression")) ∧
    (compressedStripImage CompressionZstd).DecodeImage c (.u8 [0]) =
      (.u8 [0], some (.other "cannot get strip")) := by
  refine ⟨by rfl, by rfl, by rfl, fun raw => by rfl, by rfl⟩


/-- C25 (counterexample): the image `stripAndTileImage` carries a TileWidth tag
(and the other tile tags, `NumTiles()` is 1) and strip tags; `DecodeImage`
decodes it from its strip, the byte 7, and not from its tile, the byte 9,
which the same image without the strip tags decodes to; and the image
`noLayoutImage`, which has no TileWidth tag, is not decoded in strip layout:
`DecodeImage` fails on it. -/
theorem C25_counterexample_TileWidth_with_strips :
    (TagMap.find stripAndTileImage.Tag TagTileWidth).isSome = true ∧
    stripAndTileImage.NumTiles = 1 ∧ stripAndTileImage.NumStrips = 1 ∧
    stripAndTileImage.TileReader idCodecs 0 = .ok [9] ∧
    tileOnlyImage.DecodeImage idCodecs (.u8 [0]) = (.u8 [9], none) ∧
    stripAndTileImage.DecodeImage idCodecs (.u8 [0]) = (.u8 [7], none) ∧
    TagMap.find noLayoutImage.Tag TagTileWidth = none ∧
    noLayoutImage.DecodeImage idCodecs (.u8 [0]) =
      (.u8 [0], some (.other "no strip or tile found")) := by
  refine ⟨by rfl, by rfl, by rfl, by rfl, by rfl, by rfl, by rfl, by rfl⟩

/-- C25 (amended): layout selection.  For an image that passes the
validation, `DecodeImage` runs its strip block if and only if `NumStrips() > 0`
and its tile block if and only if `NumStrips()` is 0 and `NumTiles() > 0`;
with both counts 0 it fails with "no strip or tile found".  The presence of
the TileWidth tag does not select the layout: the strip block reads no tile
tag and the tile block reads no strip tag, so that an image with
`NumStrips() > 0` is decoded to the same result as every image that differs
from it in the tile tags only. -/
theorem C25_layout_selection (c : Codecs) (im : Image) (buffer : Buffer) (g : Geometry)
    (hval : im.validate buffer = .ok g) :
    (im.NumStrips > 0 → im.DecodeImage c buffer = im.decodeStripMode c g buffer) ∧
    (im.NumStrips = 0 → im.NumTiles > 0 →
      im.DecodeImage c buffer = im.decodeTileMode c g buffer) ∧
    (im.NumStrips = 0 → im.NumTiles = 0 →
      im.DecodeImage c buffer = (buffer, some (.other "no strip or tile found"))) ∧
    (∀ im2, im.agreesExcept tileTagIDs im2 →
      im.decodeStripMode c g buffer = im2.decodeStripMode c g buffer) ∧
    (∀ im2, im.agreesExcept stripTagIDs im2 →
      im.decodeTileMode c g buffer = im2.decodeTileMode c g buffer) ∧
    (∀ im2, im.NumStrips > 0 → im.agreesExcept tileTagIDs im2 →
      im2.NumStrips > 0 ∧ im.DecodeImage c buffer = im2.DecodeImage c buffer) := by
  have hl := DecodeImage_layout c im buffer g hval
  refine ⟨?_, ?_, ?_, ?_, ?_, ?_⟩
  · intro hs
    rw [hl, if_pos hs]
  · intro hs ht
    rw [hl, if_neg (by omega), if_pos ht]
  · intro hs ht
    rw [hl, if_neg (by omega), if_neg (by omega)]
  · intro im2 ha
    exact decodeStripMode_congr c im im2 g buffer ha
  · intro im2 ha
    exact decodeTileMode_congr c im im2 g buffer ha
  · intro im2 hs ha
    have hv2 : im2.validate buffer = .ok g := by
      rw [← validate_congr im im2 tileTagIDs buffer ha (by decide) (by decide) (by decide)
        (by decide) (by decide)]
      exact hval
    have hn : im.NumStrips = im2.NumStrips := by
      unfold Image.NumStrips
      rw [ha.2.2 TagStripOffsets (by decide), ha.2.2 TagStripByteCounts (by decide)]
    refine ⟨by omega, ?_⟩
    rw [hl, if_pos hs, DecodeImage_layout c im2 buffer g hv2, if_pos (by omega)]
    exact decodeStripMode_congr c im im2 g buffer ha

/-- C25 (amended) at the image `stripAndTileImage`, which has one strip and
carries the tile tags: it is decoded by the strip block, to the same result,
the byte 7, as the image `stripOnlyImage` without the tile tags; and the image
`tileOnlyImage`, with no strip, is decoded by the tile block. -/
theorem C25_layout_selection_witness :
    stripAndTileImage.validate (.u8 [0]) = .ok (Geometry.mk 1 1 1 8) ∧
    stripAndTileImage.DecodeImage idCodecs (.u8 [0]) =
      stripAndTileImage.decodeStripMode idCodecs (Geometry.mk 1 1 1 8) (.u8 [0]) ∧
    (stripOnlyImage.NumStrips > 0 ∧
      stripAndTileImage.DecodeImage idCodecs (.u8 [0]) =
        stripOnlyImage.DecodeImage idCodecs (.u8 [0])) ∧
    stripOnlyImage.DecodeImage idCodecs (.u8 [0]) = (.u8 [7], none) ∧
    tileOnlyImage.DecodeImage idCodecs (.u8 [0]) =
      tileOnlyImage.decodeTileMode idCodecs (Geometry.mk 1 1 1 8) (.u8 [0]) :=
  ⟨by rfl,
    (C25_layout_selection idCodecs stripAndTileImage (.u8 [0]) (Geometry.mk 1 1 1 8)
      (by rfl)).1 (by decide),
    (C25_layout_selection idCodecs stripAndTileImage (.u8 [0]) (Geometry.mk 1 1 1 8)
      (by rfl)).2.2.2.2.2 stripOnlyImage (by decide) stripAndTile_agrees,
    by rfl,
    (C25_layout_selection idCodecs tileOnlyImage (.u8 [0]) (Geometry.mk 1 1 1 8)
      (by rfl)).2.1 (by decide) (by decide)⟩


/-- C26: tile-mode encoding.  On a fresh encoder, `EncodeImage` of the 2 x 2
image `tileModeImage` (tiles of 16 x 16 set, validation passed) returns the
`UnsupportedError` "tile mode is not yet supported" only after it has written
the 8 bytes of the header and the 126 bytes of a directory to the sink: the
sink holds 134 bytes, the write offset of the encoder is 134 instead of 0,
and the image has the three tags Compression, StripOffsets and
StripByteCounts that it did not have before. -/
theorem C26_tile_mode_encode_writes_before_failing :
    tileModeImage.validate (.u8 [1, 2, 3, 4]) = .ok (Geometry.mk 2 2 1 8) ∧
    Tag.Uint (TagMap.find tileModeImage.Tag TagTileWidth) = .ok (16, true) ∧
    Tag.Uint (TagMap.find tileModeImage.Tag TagTileLength) = .ok (16, true) ∧
    freshEncoder.w.data = [] ∧ freshEncoder.offset = 0 ∧
    (tileModeImage.EncodeImage idCodecs freshEncoder (.u8 [1, 2, 3, 4])).2.2 =
      some (.unsupported "tile mode is not yet supported") ∧
    (tileModeImage.EncodeImage idCodecs freshEncoder (.u8 [1, 2, 3, 4])).1.w.data.length = 134 ∧
    (tileModeImage.EncodeImage idCodecs freshEncoder (.u8 [1, 2, 3, 4])).1.w.data.take 8 =
      [73, 73, 42, 0, 8, 0, 0, 0] ∧
    (tileModeImage.EncodeImage idCodecs freshEncoder (.u8 [1, 2, 3, 4])).1.offset = 134 ∧
    tileModeImage.TagID = [256, 257, 258, 262, 277, 322, 323] ∧
    (tileModeImage.EncodeImage idCodecs freshEncoder (.u8 [1, 2, 3, 4])).2.1.TagID =
      [256, 257, 258, 259, 262, 273, 277, 279, 322, 323] := by
  refine ⟨by rfl, by rfl, by rfl, by rfl, by rfl, by rfl, by rfl, by rfl, by rfl, by rfl, by rfl⟩

/-- The law of `NumStrips` and `NumTiles` for a pair of tags whose payload
lengths and products `Type.Size() * Count` are in the range of `int`: the
count is the `Count` of the offsets tag when both tags are present, both have
a payload of `Type.Size() * Count` bytes and both have the same `Count`, and 0
in every other case. -/
theorem numSegments_in_range (x y : Option Tag)
    (hx : ∀ o, x = some o → o.Data.length < 2 ^ 63 ∧ TagType.Size o.Typ * o.Count < 2 ^ 63)
    (hy : ∀ b, y = some b → b.Data.length < 2 ^ 63 ∧ TagType.Size b.Typ * b.Count < 2 ^ 63) :
    (∀ o b, x = some o → y = some b →
      o.Data.length = TagType.Size o.Typ * o.Count →
      b.Data.length = TagType.Size b.Typ * b.Count → o.Count = b.Count →
      numSegments x y = o.Count) ∧
    ((¬ ∃ o b, x = some o ∧ y = some b ∧
        o.Data.length = TagType.Size o.Typ * o.Count ∧
        b.Data.length = TagType.Size b.Typ * b.Count ∧ o.Count = b.Count) →
      numSegments x y = 0) := by
  constructor
  · intro o b hxo hyb h1 h2 h3
    rw [hxo, hyb]
    unfold numSegments
    dsimp only
    rw [if_neg (by rw [h1]; exact fun h => h rfl), if_neg (by rw [h2]; exact fun h => h rfl),
      if_neg (by rw [h3]; exact fun h => h rfl)]
  · intro hn
    cases x with
    | none => rfl
    | some o =>
      cases y with
      | none => rfl
      | some b =>
        obtain ⟨ho1, ho2⟩ := hx o rfl
        obtain ⟨hb1, hb2⟩ := hy b rfl
        unfold numSegments
        dsimp only
        rw [toInt64_of_lt _ ho1, toInt64_of_lt _ ho2, toInt64_of_lt _ hb1, toInt64_of_lt _ hb2]
        by_cases h1 : o.Data.length = TagType.Size o.Typ * o.Count
        · by_cases h2 : b.Data.length = TagType.Size b.Typ * b.Count
          · by_cases h3 : o.Count = b.Count
            · exact absurd ⟨o, b, rfl, rfl, h1, h2, h3⟩ hn
            · rw [if_neg (fun h => h (by rw [h1])), if_neg (fun h => h (by rw [h2])), if_pos h3]
          · rw [if_neg (fun h => h (by rw [h1])),
              if_pos (fun h => h2 (by exact_mod_cast h))]
        · rw [if_pos (fun h => h1 (by exact_mod_cast h))]

/-- C28 (the code at the failing input): in the image that the iterator yields
for the BigTIFF file `hugeCountFile`, the StripOffsets, StripByteCounts,
TileOffsets and TileByteCounts tags have the type Long8, the count `2^61` and
an empty `Data`.  The length 0 of the payloads is not
`Type.Size() * Count = 2^64`, yet `NumStrips` and `NumTiles` return `2^61`
and not 0: the product wraps to 0 in the size tests. -/
theorem C28_NumStrips_counts_overflowing_tags :
    (firstImage hugeCountFile).map (fun im =>
        (im.NumStrips, im.NumTiles,
          im.Tag.map (fun t => (t.ID, t.Typ, t.Count, t.Data.length)))) =
      some (2 ^ 61, 2 ^ 61,
        [(TagStripOffsets, TagTypeLong8, 2 ^ 61, 0), (TagStripByteCounts, TagTypeLong8, 2 ^ 61, 0),
         (TagTileOffsets, TagTypeLong8, 2 ^ 61, 0), (TagTileByteCounts, TagTypeLong8, 2 ^ 61, 0)]) ∧
    TagType.Size TagTypeLong8 * 2 ^ 61 = 2 ^ 64 ∧
    toInt64 (TagType.Size TagTypeLong8 * 2 ^ 61) = 0 := by
  refine ⟨by rfl, by decide, by decide⟩


/-- C29: segment index out of range.  On the image `mismatchedStripImage`
(three strip offsets, two strip byte counts) `NumStrips()` is 0, yet
`RawStripReader(1)` does not panic: it returns the section of one byte at
offset 1; it panics only from index 2 on.  And on `byteTypedStripImage`
(offsets and byte counts of type Byte) `NumStrips()` is 1, yet
`RawStripReader(0)` panics, because `UintSlice` yields no value for a tag of
type Byte. -/
theorem C29_RawStripReader_disagrees_with_NumStrips :
    mismatchedStripImage.NumStrips = 0 ∧
    rawSegmentReader mismatchedStripImage TagStripOffsets TagStripByteCounts 0 = .ok [7] ∧
    rawSegmentReader mismatchedStripImage TagStripOffsets TagStripByteCounts 1 = .ok [8] ∧
    rawSegmentReader mismatchedStripImage TagStripOffsets TagStripByteCounts 2 =
      .error (.fatal "tiff: RawStripReader: index out of range") ∧
    byteTypedStripImage.NumStrips = 1 ∧
    Tag.UintSlice (TagMap.find byteTypedStripImage.Tag TagStripOffsets) = .ok ([], false) ∧
    rawSegmentReader byteTypedStripImage TagStripOffsets TagStripByteCounts 0 =
      .error (.fatal "tiff: RawStripReader: index out of range") := by
  refine ⟨by rfl, by rfl, by rfl, by rfl, by rfl, by rfl, by rfl⟩


/-- C30: sub-image resolution.  For every directory `im` that
`decodeDirectories` returns (the directory of a successful chain step, to
which `Next` only adds the reader and the header): when its SubIFDs tag holds
the offsets `offs` (an `UintSlice` value, so of type Short, Long, IFD, Long8 or
IFD8) and there is at least one, `SubImage` has as many elements as `offs` and
its element `i` is the directory that `DecodeIFD` returns at `offs[i]`, in
array order; and when the tag is absent, is not an unsigned-integer tag or has
no value, `SubImage` is empty. -/
theorem C30_sub_image_resolution (d : Decoder) (offset : Nat) (im : Image)
    (h : d.decodeDirectories offset = .ok im) :
    (∀ offs, Tag.UintSlice (TagMap.find im.Tag TagSubIFDs) = .ok (offs, true) → offs ≠ [] →
      im.SubImage.length = offs.length ∧
      offs.map (fun o => d.DecodeIFD o) = im.SubImage.map (fun s => Except.ok s) ∧
      ∀ (i : Nat) (sub : Image), im.SubImage[i]? = some sub →
        ∃ o, offs[i]? = some o ∧ d.DecodeIFD o = .ok sub) ∧
    (TagMap.find im.Tag TagSubIFDs = none → im.SubImage = []) ∧
    (∀ offs, Tag.UintSlice (TagMap.find im.Tag TagSubIFDs) = .ok (offs, false) →
      im.SubImage = []) ∧
    (∀ ok, Tag.UintSlice (TagMap.find im.Tag TagSubIFDs) = .ok ([], ok) → im.SubImage = []) ∧
    (∀ it it1 : Iter, it.dec = d → it.Next = (it1, true) →
      (∃ cur, it.im = some cur ∧ cur.OffsetNext = offset) →
      ∃ cur, it1.im = some cur ∧ cur.SubImage = im.SubImage ∧ cur.Tag = im.Tag) := by
  obtain ⟨im0, offs0, has, subs, h0, hu, hsub, htag, hsubs⟩ := decodeDirectories_parts d offset im h
  rw [htag, hsubs]
  refine ⟨?_, ?_, ?_, ?_, ?_⟩
  · intro offs hs hne
    rw [hu] at hs
    cases hs
    have hpos : offs0.length > 0 := List.length_pos.mpr hne
    rw [if_pos ⟨rfl, hpos⟩] at hsub
    have hmap := decodeSubIFDs_map d offs0 subs hsub
    have hlen : subs.length = offs0.length := by
      have := congrArg List.length hmap
      rw [List.length_map, List.length_map] at this
      exact this.symm
    refine ⟨hlen, hmap, ?_⟩
    intro i sub hi
    have hlt : i < subs.length := by
      rcases Nat.lt_or_ge i subs.length with hl | hl
      · exact hl
      · rw [List.getElem?_eq_none hl] at hi
        cases hi
    have hlt2 : i < offs0.length := by omega
    refine ⟨offs0[i], List.getElem?_eq_getElem hlt2, ?_⟩
    have h1 := congrArg (fun l => l[i]?) hmap
    simp only [List.getElem?_map, List.getElem?_eq_getElem hlt2, hi, Option.map_some'] at h1
    exact Option.some.inj h1
  · intro hnone
    rw [hnone] at hu
    cases hu
    rw [if_neg (by rintro ⟨hc, _⟩; cases hc)] at hsub
    cases hsub
    rfl
  · intro offs hs
    rw [hu] at hs
    cases hs
    rw [if_neg (by rintro ⟨hc, _⟩; cases hc)] at hsub
    cases hsub
    rfl
  · intro ok hs
    rw [hu] at hs
    cases hs
    rw [if_neg (by rintro ⟨_, hc⟩; exact absurd hc (by decide))] at hsub
    cases hsub
    rfl
  · rintro it it1 hd hn ⟨cur, hcur, hoff⟩
    unfold Iter.Next at hn
    split at hn
    · cases hn
    · rw [hcur] at hn
      dsimp only at hn
      split at hn
      · cases hn
      · rw [hd, hoff, h] at hn
        dsimp only at hn
        cases hn
        exact ⟨_, rfl, hsubs, htag⟩

/-- C30 at the file `subIFDFile`: the directory at offset 8 has the SubIFDs
value 26 and exactly one sub-image, the directory that `DecodeIFD` returns at
offset 26. -/
theorem C30_sub_image_resolution_witness :
    NewDecoder subIFDFile = .ok subIFDDecoder ∧
    subIFDDecoder.decodeDirectories 8 = .ok subIFDParent ∧
    Tag.UintSlice (TagMap.find subIFDParent.Tag TagSubIFDs) = .ok ([26], true) ∧
    subIFDDecoder.DecodeIFD 26 = .ok subIFDChild ∧
    subIFDParent.SubImage = [subIFDChild] ∧
    (subIFDParent.SubImage.length = [26].length ∧
      [26].map (fun o => subIFDDecoder.DecodeIFD o) =
        subIFDParent.SubImage.map (fun s => Except.ok s) ∧
      ∀ (i : Nat) (sub : Image), subIFDParent.SubImage[i]? = some sub →
        ∃ o, [26][i]? = some o ∧ subIFDDecoder.DecodeIFD o = .ok sub) :=
  ⟨by rfl, by rfl, by rfl, by rfl, by rfl,
    (C30_sub_image_resolution subIFDDecoder 8 subIFDParent (by rfl)).1 [26] (by rfl)
      (by decide)⟩


/-! ## The entry loop of `DecodeIFD`, entry by entry -/

/-- The body of the entry loop on a readable entry, in terms of the fields of
the entry. -/
theorem decodeEntry_eq (d : Decoder) (offset i : Nat)
    (hread : d.entryOffset offset i + d.Header.bytesOfEntry ≤ d.r.length) :
    decodeEntry d offset i =
      if ¬ d.Header.Version = VersionClassicTIFF ∧ d.entryCount offset i > maxInt then
        .error (.other "invalid IFD: count overflows int")
      else if d.entrySize offset i < 0 then .error (.fatal "makeslice: len out of range")
      else if d.entrySize offset i > d.Header.byteOfOffset then
        if ¬ d.Header.Version = VersionClassicTIFF ∧ d.entryPointer offset i > maxInt64 then
          .error (.other "invalid IFD: offset to data overflows int64")
        else
          (ReadAt d.r (d.entrySize offset i).toNat (d.entryPointer offset i)).elim
            (.error (.other "cannot read IFD"))
            (fun data =>
              .ok (Tag.mk (d.entryID offset i) (d.entryType offset i) (d.entryCount offset i)
                data (some d.Header) (d.entryOffset offset i) (d.entryPointer offset i)))
      else
        .ok (Tag.mk (d.entryID offset i) (d.entryType offset i) (d.entryCount offset i)
          ((d.valueField offset i).take (d.entrySize offset i).toNat)
          (some d.Header) (d.entryOffset offset i) 0) := by
  have hR : ReadAt d.r d.Header.bytesOfEntry (d.entryOffset offset i) =
      some (d.entryBytes offset i) := by
    unfold ReadAt
    rw [if_pos hread]
    rfl
  have u02 : d.Header.ByteOrder.Uint16 (slice (d.entryBytes offset i) 0 2) =
      d.Header.ByteOrder.Uint (slice (d.entryBytes offset i) 0 2) :=
    Uint16_slice _ _ 0
  have u24 : d.Header.ByteOrder.Uint16 (slice (d.entryBytes offset i) 2 4) =
      d.Header.ByteOrder.Uint (slice (d.entryBytes offset i) 2 4) :=
    Uint16_slice _ _ 2
  have u48 : d.Header.ByteOrder.Uint32 (slice (d.entryBytes offset i) 4 8) =
      d.Header.ByteOrder.Uint (slice (d.entryBytes offset i) 4 8) :=
    Uint32_slice _ _ 4
  have u812 : d.Header.ByteOrder.Uint32 (slice (d.entryBytes offset i) 8 12) =
      d.Header.ByteOrder.Uint (slice (d.entryBytes offset i) 8 12) :=
    Uint32_slice _ _ 8
  have v412 : d.Header.ByteOrder.Uint64 (slice (d.entryBytes offset i) 4 12) =
      d.Header.ByteOrder.Uint (slice (d.entryBytes offset i) 4 12) :=
    Uint64_slice _ _ 4
  have v1220 : d.Header.ByteOrder.Uint64 (slice (d.entryBytes offset i) 12 20) =
      d.Header.ByteOrder.Uint (slice (d.entryBytes offset i) 12 20) :=
    Uint64_slice _ _ 12
  unfold decodeEntry
  unfold Decoder.entryOffset Header.bytesOfEntry Header.bytesOfNumTags at hR
  unfold Decoder.entrySize Decoder.entryPointer Decoder.valueField Decoder.entryCount
    Decoder.entryType Decoder.entryID Decoder.entryOffset Header.byteOfOffset
    Header.bytesOfEntry Header.bytesOfNumTags
  by_cases hc : d.Header.Version = VersionClassicTIFF
  · simp only [hc, if_true, not_true_eq_false, false_and, if_false] at hR ⊢
    rw [hR]
    simp only [u02, u24, u48, u812, Nat.reduceAdd, Nat.cast_ofNat]
    generalize ReadAt d.r _ (d.Header.ByteOrder.Uint (slice (d.entryBytes offset i) 8 12)) = x
    cases x <;> rfl
  · simp only [hc, if_false, not_false_eq_true, true_and] at hR ⊢
    rw [hR]
    simp only [u02, u24, v412, v1220, Nat.reduceAdd, Nat.cast_ofNat]
    generalize ReadAt d.r _ (d.Header.ByteOrder.Uint (slice (d.entryBytes offset i) 12 20)) = x
    cases x <;> rfl


/-! ## The tags of a decoded directory come from its entries -/

theorem ReadAt_some (r : List Nat) (n off : Nat) (data : List Nat)
    (h : ReadAt r n off = some data) :
    off + n ≤ r.length ∧ data = slice r off (off + n) := by
  unfold ReadAt at h
  split at h
  · rename_i hle
    cases h
    exact ⟨hle, rfl⟩
  · cases h

theorem decodeEntry_unreadable (d : Decoder) (offset i : Nat)
    (hread : ¬ d.entryOffset offset i + d.Header.bytesOfEntry ≤ d.r.length) :
    decodeEntry d offset i = .error (.other "cannot read IFD") := by
  have hR : ReadAt d.r d.Header.bytesOfEntry (d.entryOffset offset i) = none := by
    unfold ReadAt
    rw [if_neg hread]
  unfold Decoder.entryOffset Header.bytesOfEntry Header.bytesOfNumTags at hR
  unfold decodeEntry
  dsimp only
  rw [hR]

theorem decodeEntries_mem (d : Decoder) (offset : Nat) (last : Int) (n : Nat) :
    ∀ (i : Nat) (m tags : List Tag), decodeEntries d offset last n i m = .ok tags →
      ∀ t ∈ tags, t ∈ m ∨ ∃ j, i ≤ j ∧ j < i + n ∧ decodeEntry d offset j = .ok t := by
  induction n with
  | zero =>
    intro i m tags h t ht
    simp only [decodeEntries] at h
    cases h
    exact Or.inl ht
  | succ n ih =>
    intro i m tags h t ht
    unfold decodeEntries at h
    split at h
    · cases h
    · rename_i t0 ht0
      split at h
      · cases h
      · rcases ih _ _ _ h t ht with h1 | ⟨j, hj1, hj2, hj3⟩
        · rcases TagMap.mem_insert h1 with h2 | h2
          · right
            refine ⟨i, Nat.le_refl _, by omega, ?_⟩
            rw [h2]
            exact ht0
          · exact Or.inl h2
        · right
          exact ⟨j, by omega, by omega, hj3⟩

theorem decodeEntries_all_ok (d : Decoder) (offset : Nat) (last : Int) (n : Nat) :
    ∀ (i : Nat) (m tags : List Tag), decodeEntries d offset last n i m = .ok tags →
      ∀ j, i ≤ j → j < i + n → ∃ t, decodeEntry d offset j = .ok t := by
  induction n with
  | zero =>
    intro i m tags h j h1 h2
    omega
  | succ n ih =>
    intro i m tags h j h1 h2
    unfold decodeEntries at h
    split at h
    · cases h
    · rename_i t0 ht0
      split at h
      · cases h
      · by_cases hij : j = i
        · rw [hij]
          exact ⟨t0, ht0⟩
        · exact ih _ _ _ h j (by omega) (by omega)

theorem DecodeIFD_entries (d : Decoder) (offset : Nat) (im : Image)
    (h : d.DecodeIFD offset = .ok im) :
    decodeEntries d offset 0 (d.numEntries offset) 0 [] = .ok im.Tag := by
  unfold Decoder.DecodeIFD at h
  unfold Decoder.numEntries Header.bytesOfNumTags
  dsimp only at h
  split at h
  · cases h
  · split at h
    · cases h
    · rename_i buf hbuf
      split at h
      · cases h
      · rename_i tags htags
        have hT : im.Tag = tags := by
          repeat' split at h
          all_goals first
            | (cases h; rfl)
            | cases h
        rw [hT]
        by_cases hc : d.Header.Version = VersionClassicTIFF
        · simp only [hc, if_true, Int.toNat_ofNat] at htags ⊢
          exact htags
        · simp only [hc, if_false] at htags ⊢
          exact htags

/-- Every tag of a directory that `DecodeIFD` returns was built by the body of
the entry loop from one of the entries, and every entry was decoded. -/
theorem DecodeIFD_tags (d : Decoder) (offset : Nat) (im : Image)
    (h : d.DecodeIFD offset = .ok im) :
    (∀ t ∈ im.Tag, ∃ j, j < d.numEntries offset ∧ decodeEntry d offset j = .ok t) ∧
    (∀ j, j < d.numEntries offset → ∃ t, decodeEntry d offset j = .ok t) := by
  have he := DecodeIFD_entries d offset im h
  constructor
  · intro t ht
    rcases decodeEntries_mem d offset 0 _ 0 [] im.Tag he t ht with h1 | ⟨j, _, hj2, hj3⟩
    · cases h1
    · exact ⟨j, by omega, hj3⟩
  · intro j hj
    exact decodeEntries_all_ok d offset 0 _ 0 [] im.Tag he j (Nat.zero_le _) (by omega)

/-- What the body of the entry loop returns on success, in terms of the fields
of the entry. -/
theorem decodeEntry_ok (d : Decoder) (offset i : Nat) (t : Tag)
    (h : decodeEntry d offset i = .ok t) :
    d.entryOffset offset i + d.Header.bytesOfEntry ≤ d.r.length ∧
    t.ID = d.entryID offset i ∧ t.Typ = d.entryType offset i ∧
    t.Count = d.entryCount offset i ∧ t.Header = some d.Header ∧
    t.OffsetEntry = d.entryOffset offset i ∧ 0 ≤ d.entrySize offset i ∧
    (d.entrySize offset i ≤ d.Header.byteOfOffset →
      t.Data = (d.valueField offset i).take (d.entrySize offset i).toNat ∧ t.OffsetData = 0) ∧
    ((d.Header.byteOfOffset : Int) < d.entrySize offset i →
      t.OffsetData = d.entryPointer offset i ∧
      ReadAt d.r (d.entrySize offset i).toNat (d.entryPointer offset i) = some t.Data) := by
  by_cases hread : d.entryOffset offset i + d.Header.bytesOfEntry ≤ d.r.length
  · refine ⟨hread, ?_⟩
    rw [decodeEntry_eq d offset i hread] at h
    split at h
    · cases h
    · split at h
      · cases h
      · rename_i hneg
        split at h
        · rename_i hgt
          split at h
          · cases h
          · rcases hR : ReadAt d.r (d.entrySize offset i).toNat (d.entryPointer offset i)
              with _ | data
            · rw [hR] at h
              cases h
            · rw [hR] at h
              simp only [Option.elim] at h
              cases h
              refine ⟨rfl, rfl, rfl, rfl, rfl, by omega, ?_, ?_⟩
              · intro hle
                omega
              · intro _
                exact ⟨rfl, rfl⟩
        · rename_i hgt
          cases h
          refine ⟨rfl, rfl, rfl, rfl, rfl, by omega, ?_, ?_⟩
          · intro _
            exact ⟨rfl, rfl⟩
          · intro hlt
            omega
  · rw [decodeEntry_unreadable d offset i hread] at h
    cases h

theorem slice_length (r : List Nat) (a b : Nat) (hb : b ≤ r.length) :
    (slice r a b).length = b - a := by
  simp only [slice, List.length_take, List.length_drop]
  omega

theorem Decoder.valueField_length (d : Decoder) (offset i : Nat)
    (hread : d.entryOffset offset i + d.Header.bytesOfEntry ≤ d.r.length) :
    (d.valueField offset i).length = d.Header.byteOfOffset := by
  have he : (d.entryBytes offset i).length = d.Header.bytesOfEntry := by
    unfold Decoder.entryBytes
    rw [slice_length _ _ _ hread]
    omega
  have hp : 4 + d.Header.byteOfOffset + d.Header.byteOfOffset = d.Header.bytesOfEntry := by
    unfold Header.byteOfOffset Header.bytesOfEntry
    split <;> rfl
  unfold Decoder.valueField
  rw [slice_length _ _ _ (by rw [he, hp])]
  omega

/-- The payload of a tag built by the body of the entry loop has the length
that the source computes as `Type.Size() * Count`. -/
theorem decodeEntry_length (d : Decoder) (offset i : Nat) (t : Tag)
    (h : decodeEntry d offset i = .ok t) :
    (t.Data.length : Int) = toInt64 (TagType.Size t.Typ * t.Count) := by
  obtain ⟨hread, _, hty, hct, _, _, h0, hle, hgt⟩ := decodeEntry_ok d offset i t h
  have hn : toInt64 (TagType.Size t.Typ * t.Count) = d.entrySize offset i := by
    rw [hty, hct]
    rfl
  rw [hn]
  by_cases hc : d.entrySize offset i ≤ d.Header.byteOfOffset
  · obtain ⟨hd, _⟩ := hle hc
    rw [hd, List.length_take, Decoder.valueField_length d offset i hread]
    omega
  · obtain ⟨_, hr⟩ := hgt (by omega)
    obtain ⟨hb, hs⟩ := ReadAt_some _ _ _ _ hr
    rw [hs, slice_length _ _ _ hb]
    omega



/-! ## The error of a chain step whose nested directory fails -/

theorem wrapErrText_of_not_fatal (msg : String) (e : Error) (h : e.isFatal = false) :
    wrapErrText msg e = .other (msg ++ e.message) := by
  cases e with
  | fatal m => cases h
  | format m => rfl
  | unsupported m => rfl
  | other m => rfl
  | eof => rfl

theorem decodeSubIFDs_fail (d : Decoder) (o : Nat) (after : List Nat) (e : Error)
    (ho : d.DecodeIFD o = .error e) :
    ∀ before : List Nat, (∀ x ∈ before, isOk (d.DecodeIFD x) = true) →
      decodeSubIFDs d (before ++ o :: after) =
        .error (wrapErrText "cannot decode SubIFD: " e) := by
  intro before
  induction before with
  | nil =>
    intro _
    simp only [List.nil_append, decodeSubIFDs, ho]
  | cons x xs ih =>
    intro hall
    have hx : isOk (d.DecodeIFD x) = true := hall x (List.mem_cons_self _ _)
    have hxs : ∀ y ∈ xs, isOk (d.DecodeIFD y) = true :=
      fun y hy => hall y (List.mem_cons_of_mem _ hy)
    rcases hd : d.DecodeIFD x with e1 | im1
    · rw [hd] at hx
      cases hx
    · rw [List.cons_append]
      unfold decodeSubIFDs
      rw [hd]
      dsimp only
      rw [ih hxs]

theorem decodeSubIFDs_ok_of_all (d : Decoder) :
    ∀ offs : List Nat, (∀ x ∈ offs, isOk (d.DecodeIFD x) = true) →
      ∃ subs, decodeSubIFDs d offs = .ok subs := by
  intro offs
  induction offs with
  | nil =>
    intro _
    exact ⟨[], rfl⟩
  | cons x xs ih =>
    intro hall
    have hx : isOk (d.DecodeIFD x) = true := hall x (List.mem_cons_self _ _)
    obtain ⟨rest, hrest⟩ := ih (fun y hy => hall y (List.mem_cons_of_mem _ hy))
    rcases hd : d.DecodeIFD x with e1 | im1
    · rw [hd] at hx
      cases hx
    · exact ⟨im1 :: rest, by simp only [decodeSubIFDs, hd, hrest]⟩

theorem subImages_stage (d : Decoder) (im : Image) (h : SubImagesDecoded d im) :
    ∃ offs has subs, Tag.UintSlice (TagMap.find im.Tag TagSubIFDs) = .ok (offs, has) ∧
      (if has = true ∧ offs.length > 0 then decodeSubIFDs d offs else .ok []) = .ok subs := by
  obtain ⟨offs, has, hU, hall⟩ := h
  by_cases hc : has = true ∧ offs.length > 0
  · obtain ⟨subs, hs⟩ := decodeSubIFDs_ok_of_all d offs (hall hc)
    exact ⟨offs, has, subs, hU, by rw [if_pos hc, hs]⟩
  · exact ⟨offs, has, [], hU, by rw [if_neg hc]⟩

theorem exif_stage (d : Decoder) (im : Image) (h : ExifDecoded d im) :
    ∃ off has, Tag.Uint (TagMap.find im.Tag TagExifIFD) = .ok (off, has) ∧
      (has = false ∨ (has = true ∧ ∃ x, d.DecodeExifIFD off = .ok x)) := by
  obtain ⟨off, has, hU, hok⟩ := h
  refine ⟨off, has, hU, ?_⟩
  cases has with
  | false => exact Or.inl rfl
  | true =>
    right
    have := hok rfl
    rcases hd : d.DecodeExifIFD off with e1 | x
    · rw [hd] at this
      cases this
    · exact ⟨rfl, x, rfl⟩

theorem gps_stage (d : Decoder) (im : Image) (h : GPSDecoded d im) :
    ∃ off has, Tag.Uint (TagMap.find im.Tag TagGPSIFD) = .ok (off, has) ∧
      (has = false ∨ (has = true ∧ ∃ x, d.DecodeGPSIFD off = .ok x)) := by
  obtain ⟨off, has, hU, hok⟩ := h
  refine ⟨off, has, hU, ?_⟩
  cases has with
  | false => exact Or.inl rfl
  | true =>
    right
    have := hok rfl
    rcases hd : d.DecodeGPSIFD off with e1 | x
    · rw [hd] at this
      cases this
    · exact ⟨rfl, x, rfl⟩

/-- A chain step whose directory is decoded and whose nested directory of
kind `k` is the first to fail, with the error `e`, returns `e` wrapped with
the message for that kind. -/
theorem decodeDirectories_nested_failure (d : Decoder) (offset : Nat) (im : Image)
    (k : NestedKind) (e : Error) (hmain : d.DecodeIFD offset = .ok im)
    (hfail : NestedFailure d im k e) :
    d.decodeDirectories offset =
      .error (wrapErrText ("cannot decode " ++ k.word ++ ": ") e) := by
  unfold Decoder.decodeDirectories
  rw [hmain]
  dsimp only
  cases k with
  | subIFD =>
    obtain ⟨before, o, after, hU, hall, ho⟩ := hfail
    have hc : true = true ∧ (before ++ o :: after).length > 0 := by
      refine ⟨rfl, ?_⟩
      rw [List.length_append, List.length_cons]
      omega
    rw [hU]
    dsimp only
    rw [if_pos hc, decodeSubIFDs_fail d o after e ho before hall]
    rfl
  | exifIFD =>
    obtain ⟨hsub, off, hU, hE⟩ := hfail
    obtain ⟨offs, has, subs, hS, hsubs⟩ := subImages_stage d im hsub
    rw [hS]
    dsimp only
    rw [hsubs]
    dsimp only
    rw [hU]
    dsimp only
    rw [if_pos rfl, hE]
    rfl
  | gpsIFD =>
    obtain ⟨hsub, hexif, off, hU, hE⟩ := hfail
    obtain ⟨offs, has, subs, hS, hsubs⟩ := subImages_stage d im hsub
    obtain ⟨offE, hasE, hUE, hex⟩ := exif_stage d im hexif
    rw [hS]
    dsimp only
    rw [hsubs]
    dsimp only
    rw [hUE]
    dsimp only
    rcases hex with hex | ⟨hex, x, hx⟩
    · rw [if_neg (by rw [hex]; decide)]
      dsimp only
      rw [hU]
      dsimp only
      rw [if_pos rfl, hE]
      rfl
    · rw [if_pos hex, hx]
      dsimp only
      rw [hU]
      dsimp only
      rw [if_pos rfl, hE]
      rfl
  | interoperabilityIFD =>
    obtain ⟨hsub, hexif, hgps, off, hU, hE⟩ := hfail
    obtain ⟨offs, has, subs, hS, hsubs⟩ := subImages_stage d im hsub
    obtain ⟨offE, hasE, hUE, hex⟩ := exif_stage d im hexif
    obtain ⟨offG, hasG, hUG, hgp⟩ := gps_stage d im hgps
    rw [hS]
    dsimp only
    rw [hsubs]
    dsimp only
    rw [hUE]
    dsimp only
    have hfin : ∀ ex : Option ExifIFD,
        (match Tag.Uint (TagMap.find im.Tag TagGPSIFD) with
        | .error e => .error e
        | .ok (offsetGPSIFD, hasGPS) =>
          match (if hasGPS = true then
              match d.DecodeGPSIFD offsetGPSIFD with
              | .error e => .error (wrapErrText "cannot decode GPSIFD: " e)
              | .ok x => .ok (some x)
            else (.ok none : Except Error (Option GPSIFD))) with
          | .error e => .error e
          | .ok gp =>
            match Tag.Uint (TagMap.find im.Tag TagInteroperabilityIFD) with
            | .error e => .error e
            | .ok (offsetInteroperabilityIFD, hasInteroperability) =>
              match (if hasInteroperability = true then
                  match d.DecodeInteroperabilityIFD offsetInteroperabilityIFD with
                  | .error e => .error (wrapErrText "cannot decode Interoperability: " e)
                  | .ok x => .ok (some x)
                else (.ok none : Except Error (Option InteroperabilityIFD))) with
              | .error e => .error e
              | .ok io1 =>
                .ok (Image.mk im.Tag subs ex gp io1 im.Header im.Offset im.OffsetNext im.rd)) =
          (.error (wrapErrText ("cannot decode " ++
            NestedKind.interoperabilityIFD.word ++ ": ") e) : Except Error Image) := by
      intro ex
      rw [hUG]
      dsimp only
      rcases hgp with hgp | ⟨hgp, x, hx⟩
      · rw [if_neg (by rw [hgp]; decide)]
        dsimp only
        rw [hU]
        dsimp only
        rw [if_pos rfl, hE]
        rfl
      · rw [if_pos hgp, hx]
        dsimp only
        rw [hU]
        dsimp only
        rw [if_pos rfl, hE]
        rfl
    rcases hex with hex | ⟨hex, x, hx⟩
    · rw [if_neg (by rw [hex]; decide)]
      dsimp only
      exact hfin none
    · rw [if_pos hex, hx]
      dsimp only
      exact hfin (some x)

theorem containsText_middle (a w b : String) : containsText (a ++ w ++ b) w = true := by
  unfold containsText
  rw [decide_eq_true_iff]
  refine ⟨a.toList, b.toList, ?_⟩
  simp [String.toList]


/-! ## The layout of an encoded directory -/

theorem slice_append_left (a b : List Nat) (lo hi : Nat) (h : hi ≤ a.length) :
    slice (a ++ b) lo hi = slice a lo hi := by
  unfold slice
  by_cases hl : lo ≤ a.length
  · rw [List.drop_append_of_le_length hl, List.take_append_of_le_length]
    rw [List.length_drop]
    omega
  · have h0 : hi - lo = 0 := by omega
    rw [h0, List.take_zero, List.take_zero]

theorem slice_append_right (a b : List Nat) (lo hi : Nat) :
    slice (a ++ b) (a.length + lo) (a.length + hi) = slice b lo hi := by
  unfold slice
  rw [List.drop_append]
  congr 1
  omega

theorem outOfLineLength_cons (p : Nat) (t : Tag) (ts : List Tag) :
    outOfLineLength p (t :: ts) =
      (if t.Data.length ≤ p then 0 else t.Data.length) + outOfLineLength p ts := by
  unfold outOfLineLength
  rw [List.map_cons, List.sum_cons]

/-- Entry `i` of the entry table that the loop of `EncodeTags` writes is the
entry of the `i`-th tag, written with the position that the out-of-line area
has reached after the payloads of the tags before it. -/
theorem encodeEntries_entry (h : Header) (offset p : Nat) (ts : List Tag) :
    ∀ (ext i : Nat) (t : Tag), ts[i]? = some t →
      slice (encodeEntries h offset p ts ext).1 (i * h.bytesOfEntry)
          (i * h.bytesOfEntry + h.bytesOfEntry) =
        encodeEntry h offset (ext + outOfLineLength p (ts.take i)) t := by
  induction ts with
  | nil =>
    intro ext i t ht
    simp at ht
  | cons x xs ih =>
    intro ext i t ht
    cases i with
    | zero =>
      simp only [List.getElem?_cons_zero, Option.some.injEq] at ht
      subst ht
      have hl := encodeEntry_length h offset ext x
      have hs : ∀ r : List Nat, slice (encodeEntry h offset ext x ++ r) (0 * h.bytesOfEntry)
          (0 * h.bytesOfEntry + h.bytesOfEntry) = encodeEntry h offset ext x := by
        intro r
        rw [Nat.zero_mul, Nat.zero_add, ← hl]
        exact slice_initial _ _
      have h0 : ext + outOfLineLength p (List.take 0 (x :: xs)) = ext := by
        simp [outOfLineLength]
      rw [h0]
      unfold encodeEntries
      split
      · exact hs _
      · exact hs _
    | succ k =>
      simp only [List.getElem?_cons_succ] at ht
      have hl : ∀ e1, (encodeEntry h offset e1 x).length = h.bytesOfEntry :=
        fun e1 => encodeEntry_length h offset e1 x
      have hs : ∀ (e1 : Nat) (r : List Nat),
          slice (encodeEntry h offset e1 x ++ r) ((k + 1) * h.bytesOfEntry)
            ((k + 1) * h.bytesOfEntry + h.bytesOfEntry) =
          slice r (k * h.bytesOfEntry) (k * h.bytesOfEntry + h.bytesOfEntry) := by
        intro e1 r
        have := slice_append_right (encodeEntry h offset e1 x) r (k * h.bytesOfEntry)
          (k * h.bytesOfEntry + h.bytesOfEntry)
        rw [hl e1] at this
        rw [← this]
        congr 1 <;> ring
      rw [List.take_succ_cons, outOfLineLength_cons]
      unfold encodeEntries
      by_cases hc : x.Data.length ≤ p
      · rw [if_pos hc, if_pos hc]
        dsimp only
        rw [hs, ih ext k t ht, Nat.zero_add]
      · rw [if_neg hc, if_neg hc]
        dsimp only
        rw [hs, ih (ext + x.Data.length) k t ht, Nat.add_assoc]

/-- The payload of the `i`-th tag, when longer than `p` bytes, lies in the
out-of-line area after the payloads of the tags before it. -/
theorem encodeEntries_payload (h : Header) (offset p : Nat) (ts : List Tag) :
    ∀ (ext i : Nat) (t : Tag), ts[i]? = some t → p < t.Data.length →
      slice (encodeEntries h offset p ts ext).2 (outOfLineLength p (ts.take i))
          (outOfLineLength p (ts.take i) + t.Data.length) = t.Data := by
  induction ts with
  | nil =>
    intro ext i t ht
    simp at ht
  | cons x xs ih =>
    intro ext i t ht hlt
    cases i with
    | zero =>
      simp only [List.getElem?_cons_zero, Option.some.injEq] at ht
      subst ht
      have h0 : outOfLineLength p (List.take 0 (x :: xs)) = 0 := by
        simp [outOfLineLength]
      rw [h0, Nat.zero_add]
      unfold encodeEntries
      rw [if_neg (by omega)]
      exact slice_initial _ _
    | succ k =>
      simp only [List.getElem?_cons_succ] at ht
      rw [List.take_succ_cons, outOfLineLength_cons]
      unfold encodeEntries
      by_cases hc : x.Data.length ≤ p
      · rw [if_pos hc, if_pos hc]
        dsimp only
        rw [Nat.zero_add]
        exact ih ext k t ht hlt
      · rw [if_neg hc, if_neg hc]
        dsimp only
        rw [Nat.add_assoc, slice_append_right]
        exact ih (ext + x.Data.length) k t ht hlt

theorem encodeEntries_snd_eq (h : Header) (offset p : Nat) (ts : List Tag) (ext : Nat) :
    (encodeEntries h offset p ts ext).2.length = outOfLineLength p ts :=
  encodeEntries_snd_length h offset p ts ext

/-- The bytes that `EncodeTags` returns for an image with tags on a Classic or
BigTIFF header: count field, entry table, next-directory pointer and
out-of-line area. -/
theorem EncodeTags_bytes (im : Image) (h : Header) (offset : Nat) (hh : im.Header = some h)
    (hv : h.Version = VersionClassicTIFF ∨ h.Version = VersionBigTIFF) (hne : im.Tag ≠ []) :
    (im.EncodeTags offset).2 = .ok (
      h.ByteOrder.PutUint h.bytesOfNumTags (im.Tag.length % 2 ^ (8 * h.bytesOfNumTags)) ++
      (encodeEntries h offset h.byteOfOffset im.Tag
        (h.bytesOfNumTags + im.Tag.length * h.bytesOfEntry + h.byteOfOffset)).1 ++
      h.ByteOrder.PutUint h.byteOfOffset (im.OffsetNext % 2 ^ (8 * h.byteOfOffset)) ++
      (encodeEntries h offset h.byteOfOffset im.Tag
        (h.bytesOfNumTags + im.Tag.length * h.bytesOfEntry + h.byteOfOffset)).2) := by
  have hl : ¬ (im.Tag.map (fun t => t.ID)).length = 0 := by
    rw [List.length_map]
    intro h0
    exact hne (List.length_eq_zero.mp h0)
  unfold Image.EncodeTags Image.TagID
  dsimp only
  rw [if_neg hl, hh]
  dsimp only
  unfold Header.bytesOfNumTags Header.bytesOfEntry Header.byteOfOffset
  rcases hv with hc | hb
  · rw [if_pos hc]
    simp only [hc, if_true, List.length_map]
    rfl
  · have hnc : ¬ h.Version = VersionClassicTIFF := by
      rw [hb]
      decide
    rw [if_neg hnc, if_pos hb]
    simp only [hnc, if_false, List.length_map]
    rfl

/-- The parts of an entry written by the loop of `EncodeTags`. -/
theorem encodeEntry_parts (h : Header) (offset ext : Nat) (t : Tag) :
    slice (encodeEntry h offset ext t) 0 2 = h.ByteOrder.PutUint16 (t.ID % 2 ^ 16) ∧
    (t.Data.length ≤ h.byteOfOffset →
      encodedValueField h (encodeEntry h offset ext t) =
        t.Data ++ List.replicate (h.byteOfOffset - t.Data.length) 0) ∧
    (h.byteOfOffset < t.Data.length →
      encodedValueField h (encodeEntry h offset ext t) =
        h.ByteOrder.PutUint h.byteOfOffset ((offset + ext) % 2 ^ (8 * h.byteOfOffset))) := by
  unfold encodeEntry encodedValueField Header.byteOfOffset
  by_cases hc : h.Version = VersionClassicTIFF
  · simp only [hc, if_true]
    by_cases hl : t.Data.length ≤ 4
    · simp only [hl, if_true]
      have hlen : (t.Data ++ List.replicate (4 - t.Data.length) 0).length = 4 := by
        rw [List.length_append, List.length_replicate]
        omega
      obtain ⟨h1, _, _, h4⟩ := slice_entry (h.ByteOrder.PutUint16 (t.ID % 2 ^ 16))
        (h.ByteOrder.PutUint16 (t.Typ % 2 ^ 16)) (h.ByteOrder.PutUint32 (t.Count % 2 ^ 32))
        (t.Data ++ List.replicate (4 - t.Data.length) 0) 4 (4 + 4) (4 + 4 + 4)
        (ByteOrder.PutUint_length _ _ _) (ByteOrder.PutUint_length _ _ _)
        (ByteOrder.PutUint_length _ _ _) hlen rfl rfl
      exact ⟨h1, fun _ => h4, fun hlt => absurd hl (by omega)⟩
    · simp only [hl, if_false]
      obtain ⟨h1, _, _, h4⟩ := slice_entry (h.ByteOrder.PutUint16 (t.ID % 2 ^ 16))
        (h.ByteOrder.PutUint16 (t.Typ % 2 ^ 16)) (h.ByteOrder.PutUint32 (t.Count % 2 ^ 32))
        (h.ByteOrder.PutUint32 ((offset + ext) % 2 ^ 32)) 4 (4 + 4) (4 + 4 + 4)
        (ByteOrder.PutUint_length _ _ _) (ByteOrder.PutUint_length _ _ _)
        (ByteOrder.PutUint_length _ _ _) (ByteOrder.PutUint_length _ _ _) rfl rfl
      exact ⟨h1, fun hle => False.elim hle, fun _ => h4⟩
  · simp only [hc, if_false]
    by_cases hl : t.Data.length ≤ 8
    · simp only [hl, if_true]
      have hlen : (t.Data ++ List.replicate (8 - t.Data.length) 0).length = 8 := by
        rw [List.length_append, List.length_replicate]
        omega
      obtain ⟨h1, _, _, h4⟩ := slice_entry (h.ByteOrder.PutUint16 (t.ID % 2 ^ 16))
        (h.ByteOrder.PutUint16 (t.Typ % 2 ^ 16)) (h.ByteOrder.PutUint64 (t.Count % 2 ^ 64))
        (t.Data ++ List.replicate (8 - t.Data.length) 0) 8 (4 + 8) (4 + 8 + 8)
        (ByteOrder.PutUint_length _ _ _) (ByteOrder.PutUint_length _ _ _)
        (ByteOrder.PutUint_length _ _ _) hlen rfl rfl
      exact ⟨h1, fun _ => h4, fun hlt => absurd hl (by omega)⟩
    · simp only [hl, if_false]
      obtain ⟨h1, _, _, h4⟩ := slice_entry (h.ByteOrder.PutUint16 (t.ID % 2 ^ 16))
        (h.ByteOrder.PutUint16 (t.Typ % 2 ^ 16)) (h.ByteOrder.PutUint64 (t.Count % 2 ^ 64))
        (h.ByteOrder.PutUint64 ((offset + ext) % 2 ^ 64)) 8 (4 + 8) (4 + 8 + 8)
        (ByteOrder.PutUint_length _ _ _) (ByteOrder.PutUint_length _ _ _)
        (ByteOrder.PutUint_length _ _ _) (ByteOrder.PutUint_length _ _ _) rfl rfl
      exact ⟨h1, fun hle => False.elim hle, fun _ => h4⟩


/-! ## C31: the error of a failed nested directory -/

/-- C31 (amended): when a chain step decodes its directory and the decoding of
a nested directory fails with an error `e` (an error return, not a panic),
`Next` returns false and the iterator's error is the text "cannot decode ",
the word for the kind of the nested directory - "SubIFD", "ExifIFD", "GPSIFD"
or "Interoperability" -, ": " and the text of `e`; the message contains that
word. -/
theorem C31_nested_failure_is_wrapped (it : Iter) (cur im : Image) (k : NestedKind)
    (e : Error) (herr : it.err = none) (hcur : it.im = some cur)
    (hnext : cur.OffsetNext ≠ 0) (hmain : it.dec.DecodeIFD cur.OffsetNext = .ok im)
    (hfail : NestedFailure it.dec im k e) (hnf : e.isFatal = false) :
    (it.Next).2 = false ∧
    (it.Next).1.Err = some (.other ("cannot decode " ++ k.word ++ ": " ++ e.message)) ∧
    containsText ("cannot decode " ++ k.word ++ ": " ++ e.message) k.word = true := by
  have hdec := decodeDirectories_nested_failure it.dec cur.OffsetNext im k e hmain hfail
  rw [wrapErrText_of_not_fatal _ e hnf] at hdec
  have hs : ¬ it.err.isSome = true := by rw [herr]; decide
  have hn : it.Next = (Iter.mk it.index it.dec it.im
      (some (.other ("cannot decode " ++ k.word ++ ": " ++ e.message))), false) := by
    unfold Iter.Next
    rw [if_neg hs, hcur]
    dsimp only
    rw [if_neg hnext, hdec]
  rw [hn]
  refine ⟨rfl, rfl, ?_⟩
  have := containsText_middle "cannot decode " k.word (": " ++ e.message)
  rw [← String.append_assoc] at this
  exact this

/-- C31 (witness): in `interoperabilityFile` the directory at offset 8 is
decoded, it has no sub-image, Exif or GPS directory, and the decoding of its
Interoperability directory at offset 100 fails with "cannot read IFD"; `Next`
returns false with the error "cannot decode Interoperability: cannot read
IFD". -/
theorem C31_nested_failure_is_wrapped_witness :
    NestedFailure interoperabilityDecoder
      (Image.mk [Tag.mk 40965 4 1 [100, 0, 0, 0] (some interoperabilityDecoder.Header) 10 0]
        [] none none none none 8 0 none)
      .interoperabilityIFD (.other "cannot read IFD") ∧
    (interoperabilityDecoder.Iter.Next).2 = false ∧
    (interoperabilityDecoder.Iter.Next).1.Err =
      some (.other "cannot decode Interoperability: cannot read IFD") := by
  have hfail : NestedFailure interoperabilityDecoder
      (Image.mk [Tag.mk 40965 4 1 [100, 0, 0, 0] (some interoperabilityDecoder.Header) 10 0]
        [] none none none none 8 0 none)
      .interoperabilityIFD (.other "cannot read IFD") :=
    ⟨⟨[], false, by rfl, fun h => absurd h.1 (by decide)⟩,
     ⟨0, false, by rfl, fun h => absurd h (by decide)⟩,
     ⟨0, false, by rfl, fun h => absurd h (by decide)⟩,
     ⟨100, by rfl, by rfl⟩⟩
  have h := C31_nested_failure_is_wrapped interoperabilityDecoder.Iter
    (Image.mk [] [] none none none (some interoperabilityDecoder.Header) 0 8
      (some interoperabilityFile))
    (Image.mk [Tag.mk 40965 4 1 [100, 0, 0, 0] (some interoperabilityDecoder.Header) 10 0]
      [] none none none none 8 0 none)
    .interoperabilityIFD (.other "cannot read IFD") rfl rfl (by decide) (by rfl) hfail rfl
  exact ⟨hfail, h.1, h.2.1⟩

/-- C31 (counterexample): on `interoperabilityFile`, whose Interoperability
directory cannot be read, `Next` returns false and the iterator's error is
"cannot decode Interoperability: cannot read IFD"; this text does not contain
"InteroperabilityIFD". -/
theorem C31_counterexample_Interoperability_message :
    errorOf (interoperabilityDecoder.DecodeInteroperabilityIFD 100) =
      some (.other "cannot read IFD") ∧
    (fileIter interoperabilityFile).map (fun it => ((it.Next).2, (it.Next).1.Err)) =
      some (false, some (.other "cannot decode Interoperability: cannot read IFD")) ∧
    containsText "cannot decode Interoperability: cannot read IFD" "InteroperabilityIFD" =
      false ∧
    containsText "cannot decode Interoperability: cannot read IFD" "Interoperability" =
      true := by
  refine ⟨by decide, by decide, by decide, by decide⟩


/-! ## C32: the header of nested directories -/

theorem DecodeIFD_Header_none (d : Decoder) (offset : Nat) (im : Image)
    (h : d.DecodeIFD offset = .ok im) : im.Header = none ∧ im.rd = none := by
  unfold Decoder.DecodeIFD at h
  dsimp only at h
  repeat' split at h
  all_goals first
    | (cases h; exact ⟨rfl, rfl⟩)
    | cases h

/-- C32 (the code at the failing inputs): the image that the iterator yields
for each of the four files has the decoder's header, and so has every tag of
the nested directory, but the element of `SubImage` (file `subIFDFile`) and
the Exif, GPS and Interoperability directories (files `nestedDirectoryFile`)
have a nil `Header`; no directory that `DecodeIFD` returns has a header. -/
theorem C32_nested_directories_have_nil_Header :
    (firstImage subIFDFile).map (fun im => (im.Header, im.SubImage.map (fun s => s.Header),
        im.SubImage.map (fun s => s.Tag.map (fun t => t.Header)))) =
      some (some subIFDDecoder.Header, [none], [[some subIFDDecoder.Header]]) ∧
    (firstImage (nestedDirectoryFile TagExifIFD)).map (fun im =>
        (im.Header, im.Exif.map (fun x => (x.Header, x.Tag.map (fun t => t.Header))))) =
      some (some exifDecoder.Header, some (none, [some exifDecoder.Header])) ∧
    (firstImage (nestedDirectoryFile TagGPSIFD)).map (fun im =>
        (im.Header, im.GPS.map (fun x => (x.Header, x.Tag.map (fun t => t.Header))))) =
      some (some exifDecoder.Header, some (none, [some exifDecoder.Header])) ∧
    (firstImage (nestedDirectoryFile TagInteroperabilityIFD)).map (fun im =>
        (im.Header, im.Interoperability.map (fun x =>
          (x.Header, x.Tag.map (fun t => t.Header))))) =
      some (some exifDecoder.Header, some (none, [some exifDecoder.Header])) ∧
    (∀ (d : Decoder) (offset : Nat) (im : Image), d.DecodeIFD offset = .ok im →
      im.Header = none) := by
  refine ⟨by decide, by decide, by decide, by decide, ?_⟩
  intro d offset im h
  exact (DecodeIFD_Header_none d offset im h).1


/-! ## Inline and out-of-line payloads on decode -/

/-- Placement of a payload on decode.  Let `i` be the index of an entry that `DecodeIFD` reads in the
directory at `offset`, `p` the pointer width of the header's version and `n`
the product `Type.Size() * Count` of the decoded tag as the source computes it
(an `int`).  If `DecodeIFD` succeeds, the entry was decoded to a tag `t` with
`0 ≤ n`; if `n ≤ p`, `Data` is the first `n` bytes of the entry's value field
and `OffsetData` is 0; if `n > p`, `OffsetData` is the value field read in the
header's byte order and `Data` is the `n` bytes of the source from
`OffsetData`, which lie inside the source.  If the entry is readable, `n > p`
and the `n` bytes from the pointer are not all in the source, `DecodeIFD`
fails.  Every tag of the returned directory is the tag of such an entry. -/
theorem DecodeIFD_placement (d : Decoder) (offset i : Nat)
    (hi : i < d.numEntries offset) :
    (∀ im, d.DecodeIFD offset = .ok im →
      ∃ t, decodeEntry d offset i = .ok t ∧
        0 ≤ toInt64 (TagType.Size t.Typ * t.Count) ∧
        (toInt64 (TagType.Size t.Typ * t.Count) ≤ d.Header.byteOfOffset →
          t.Data = (d.valueField offset i).take (toInt64 (TagType.Size t.Typ * t.Count)).toNat ∧
          t.OffsetData = 0) ∧
        ((d.Header.byteOfOffset : Int) < toInt64 (TagType.Size t.Typ * t.Count) →
          t.OffsetData = d.entryPointer offset i ∧
          t.OffsetData + (toInt64 (TagType.Size t.Typ * t.Count)).toNat ≤ d.r.length ∧
          t.Data = slice d.r t.OffsetData
            (t.OffsetData + (toInt64 (TagType.Size t.Typ * t.Count)).toNat))) ∧
    (d.entryOffset offset i + d.Header.bytesOfEntry ≤ d.r.length →
      (d.Header.byteOfOffset : Int) < d.entrySize offset i →
      d.r.length < d.entryPointer offset i + (d.entrySize offset i).toNat →
      isError (d.DecodeIFD offset) = true) ∧
    (∀ im, d.DecodeIFD offset = .ok im →
      ∀ t ∈ im.Tag, ∃ j, j < d.numEntries offset ∧ decodeEntry d offset j = .ok t) := by
  refine ⟨?_, ?_, ?_⟩
  · intro im him
    obtain ⟨t, ht⟩ := (DecodeIFD_tags d offset im him).2 i hi
    obtain ⟨_, _, hty, hct, _, _, h0, hle, hgt⟩ := decodeEntry_ok d offset i t ht
    have hn : toInt64 (TagType.Size t.Typ * t.Count) = d.entrySize offset i := by
      rw [hty, hct]
      rfl
    refine ⟨t, ht, ?_⟩
    rw [hn]
    refine ⟨h0, hle, ?_⟩
    intro hlt
    obtain ⟨hp, hr⟩ := hgt hlt
    obtain ⟨hb, hs⟩ := ReadAt_some _ _ _ _ hr
    rw [hp]
    exact ⟨rfl, hb, hs⟩
  · intro _ hlt hlen
    cases hD : d.DecodeIFD offset with
    | error e => rfl
    | ok im =>
      obtain ⟨t, ht⟩ := (DecodeIFD_tags d offset im hD).2 i hi
      obtain ⟨_, _, _, _, _, _, _, _, hgt⟩ := decodeEntry_ok d offset i t ht
      obtain ⟨_, hr⟩ := hgt hlt
      obtain ⟨hb, _⟩ := ReadAt_some _ _ _ _ hr
      omega
  · intro im him
    exact (DecodeIFD_tags d offset im him).1

/-- Placement in `outOfLineFile`: in that file the directory at offset 8 has two
entries; entry 1 (BitsPerSample, three Shorts, 6 bytes) is decoded with
`OffsetData` 38 and the six bytes stored there, and entry 0 (ImageWidth, one
Short) with the first two bytes of its value field. -/
theorem DecodeIFD_placement_outOfLineFile :
    1 < outOfLineDecoder.numEntries 8 ∧
    (∃ t, decodeEntry outOfLineDecoder 8 1 = .ok t ∧
      t.OffsetData = 38 ∧ t.Data = [8, 0, 8, 0, 8, 0]) ∧
    (decodeEntry outOfLineDecoder 8 0).toOption.map (fun t => (t.Data, t.OffsetData)) =
      some ([7, 0], 0) := by
  refine ⟨by decide, ?_, by decide⟩
  have hD : ∃ im, outOfLineDecoder.DecodeIFD 8 = .ok im := by
    cases h : outOfLineDecoder.DecodeIFD 8 with
    | ok im => exact ⟨im, rfl⟩
    | error e =>
      have : isOk (outOfLineDecoder.DecodeIFD 8) = true := by decide
      rw [h] at this
      cases this
  obtain ⟨im, him⟩ := hD
  have hi : 1 < outOfLineDecoder.numEntries 8 := by decide
  obtain ⟨t, ht, _, _, hgt⟩ := (DecodeIFD_placement outOfLineDecoder 8 1 hi).1 im him
  have hev : decodeEntry outOfLineDecoder 8 1 =
      .ok (Tag.mk 258 3 3 [8, 0, 8, 0, 8, 0] (some outOfLineDecoder.Header) 22 38) := by rfl
  rw [hev] at ht
  cases ht
  obtain ⟨h1, _, h3⟩ := hgt (by decide)
  refine ⟨_, hev, ?_, ?_⟩
  · rw [h1]
    decide
  · rw [h3]
    decide

/-- C33 (the code at the failing input): `NewDecoder` accepts the BigTIFF file
`overflowInlineFile`, whose entry has the type Long8 and the count `2^61 + 1`.
The exact payload size `Type.Size() * Count` is `2^64 + 8` bytes, more than
the pointer width 8 and more than the 52 bytes of the file, but the product
wraps to 8 in the source, and `DecodeIFD(16)` returns the tag with the eight
bytes of the value field as `Data` and with `OffsetData` 0: the payload is
neither read from the position that the value field points to nor is the
directory rejected. -/
theorem C33_overflowing_size_is_placed_inline :
    (NewDecoder overflowInlineFile).toOption = some overflowInlineDecoder ∧
    (overflowInlineDecoder.DecodeIFD 16).toOption.map
        (fun im => im.Tag.map (fun t => (t.ID, t.Typ, t.Count, t.Data, t.OffsetData))) =
      some [(256, TagTypeLong8, 2 ^ 61 + 1, [1, 2, 3, 4, 5, 6, 7, 8], 0)] ∧
    TagType.Size TagTypeLong8 * (2 ^ 61 + 1) = 2 ^ 64 + 8 ∧
    toInt64 (TagType.Size TagTypeLong8 * (2 ^ 61 + 1)) = 8 ∧
    overflowInlineDecoder.Header.byteOfOffset = 8 ∧
    overflowInlineFile.length = 52 := by
  refine ⟨by rfl, by rfl, by decide, by decide, by rfl, by rfl⟩


/-! ## C34: the layout of an encoded directory -/

/-- C34 (amended): for an image with at least one tag (the tag map in
identifier order, identifiers below 2^16) and a Classic or BigTIFF header,
`EncodeTags(offset)` returns `c + n*e + p + X` bytes, `X` being the total
length of the payloads longer than `p`; entry `i` holds the identifier of the
`i`-th tag in identifier order, so the identifiers of the entries increase
strictly; a payload of at most `p` bytes is stored at the start of the value
field of its entry (followed by zero bytes); and the entry of a tag with a
longer payload stores the pointer `offset + c + n*e + p + S` reduced modulo
`2^(8p)`, `S` being the total length of the out-of-line payloads of the tags
before it, while the payload is at position `c + n*e + p + S` of the returned
bytes. -/
theorem C34_directory_layout (im : Image) (h : Header) (offset : Nat)
    (hh : im.Header = some h)
    (hv : h.Version = VersionClassicTIFF ∨ h.Version = VersionBigTIFF)
    (hne : im.Tag ≠ []) (hs : TagMap.Sorted im.Tag) (hid : ∀ t ∈ im.Tag, t.ID < 2 ^ 16) :
    ∃ bytes, (im.EncodeTags offset).2 = .ok bytes ∧
      bytes.length = h.bytesOfNumTags + im.Tag.length * h.bytesOfEntry + h.byteOfOffset +
        outOfLineLength h.byteOfOffset im.Tag ∧
      (∀ i t, im.Tag[i]? = some t →
        h.ByteOrder.Uint (slice (encodedEntry h bytes i) 0 2) = t.ID ∧
        (t.Data.length ≤ h.byteOfOffset →
          encodedValueField h (encodedEntry h bytes i) =
            t.Data ++ List.replicate (h.byteOfOffset - t.Data.length) 0) ∧
        (h.byteOfOffset < t.Data.length →
          h.ByteOrder.Uint (encodedValueField h (encodedEntry h bytes i)) =
            (offset + (h.bytesOfNumTags + im.Tag.length * h.bytesOfEntry + h.byteOfOffset +
              outOfLineLength h.byteOfOffset (im.Tag.take i))) % 2 ^ (8 * h.byteOfOffset) ∧
          slice bytes
            (h.bytesOfNumTags + im.Tag.length * h.bytesOfEntry + h.byteOfOffset +
              outOfLineLength h.byteOfOffset (im.Tag.take i))
            (h.bytesOfNumTags + im.Tag.length * h.bytesOfEntry + h.byteOfOffset +
              outOfLineLength h.byteOfOffset (im.Tag.take i) + t.Data.length) = t.Data)) ∧
      (∀ i j ti tj, i < j → im.Tag[i]? = some ti → im.Tag[j]? = some tj →
        h.ByteOrder.Uint (slice (encodedEntry h bytes i) 0 2) <
          h.ByteOrder.Uint (slice (encodedEntry h bytes j) 0 2)) := by
  have hb := EncodeTags_bytes im h offset hh hv hne
  generalize hE : h.bytesOfNumTags + im.Tag.length * h.bytesOfEntry + h.byteOfOffset = ext at hb ⊢
  generalize hC : h.ByteOrder.PutUint h.bytesOfNumTags
    (im.Tag.length % 2 ^ (8 * h.bytesOfNumTags)) = C at hb
  generalize hN : h.ByteOrder.PutUint h.byteOfOffset
    (im.OffsetNext % 2 ^ (8 * h.byteOfOffset)) = N at hb
  have hCl : C.length = h.bytesOfNumTags := by rw [← hC, ByteOrder.PutUint_length]
  have hNl : N.length = h.byteOfOffset := by rw [← hN, ByteOrder.PutUint_length]
  have hEl := encodeEntries_fst_length h offset h.byteOfOffset im.Tag ext
  have hXl := encodeEntries_snd_eq h offset h.byteOfOffset im.Tag ext
  generalize hT : (encodeEntries h offset h.byteOfOffset im.Tag ext).1 = T at hb hEl
  generalize hX : (encodeEntries h offset h.byteOfOffset im.Tag ext).2 = X at hb hXl
  have hpow : (256 : Nat) ^ h.byteOfOffset = 2 ^ (8 * h.byteOfOffset) := by
    rw [show (256 : Nat) = 2 ^ 8 from rfl, ← Nat.pow_mul]
  -- the entry at index i
  have hentry : ∀ i t, im.Tag[i]? = some t →
      encodedEntry h (C ++ T ++ N ++ X) i =
        encodeEntry h offset (ext + outOfLineLength h.byteOfOffset (im.Tag.take i)) t := by
    intro i t ht
    have hi : i < im.Tag.length := by
      rcases Nat.lt_or_ge i im.Tag.length with hlt | hge
      · exact hlt
      · rw [List.getElem?_eq_none hge] at ht
        cases ht
    have hbound : i * h.bytesOfEntry + h.bytesOfEntry ≤ T.length := by
      rw [hEl]
      have : (i + 1) * h.bytesOfEntry ≤ im.Tag.length * h.bytesOfEntry :=
        Nat.mul_le_mul_right _ hi
      rw [Nat.add_mul, Nat.one_mul] at this
      exact this
    unfold encodedEntry
    rw [List.append_assoc, List.append_assoc, ← hCl, Nat.add_assoc, slice_append_right,
      slice_append_left _ _ _ _ hbound, ← hT]
    exact encodeEntries_entry h offset h.byteOfOffset im.Tag ext i t ht
  have hidf : ∀ i t, im.Tag[i]? = some t →
      h.ByteOrder.Uint (slice (encodedEntry h (C ++ T ++ N ++ X) i) 0 2) = t.ID := by
    intro i t ht
    rw [hentry i t ht, (encodeEntry_parts h offset _ t).1]
    have hlt : t.ID < 2 ^ 16 := hid t (List.getElem?_mem ht)
    unfold ByteOrder.PutUint16
    rw [ByteOrder.Uint_PutUint, Nat.mod_eq_of_lt hlt]
    exact Nat.mod_eq_of_lt (by
      have : (2 : Nat) ^ 16 = 256 ^ 2 := by norm_num
      omega)
  refine ⟨C ++ T ++ N ++ X, hb, ?_, ?_, ?_⟩
  · simp only [List.length_append, hCl, hEl, hNl, hXl, ← hE]
  · intro i t ht
    refine ⟨hidf i t ht, ?_, ?_⟩
    · intro hle
      rw [hentry i t ht]
      exact (encodeEntry_parts h offset _ t).2.1 hle
    · intro hlt
      constructor
      · rw [hentry i t ht, (encodeEntry_parts h offset _ t).2.2 hlt, ByteOrder.Uint_PutUint,
          hpow, Nat.mod_mod]
      · have hpos : (C ++ T ++ N).length = ext := by
          simp only [List.length_append, hCl, hEl, hNl, ← hE]
        rw [← hpos, Nat.add_assoc, slice_append_right, ← hX]
        exact encodeEntries_payload h offset h.byteOfOffset im.Tag ext i t ht hlt
  · intro i j ti tj hij hti htj
    rw [hidf i ti hti, hidf j tj htj]
    have hj : j < im.Tag.length := by
      rcases Nat.lt_or_ge j im.Tag.length with hlt | hge
      · exact hlt
      · rw [List.getElem?_eq_none hge] at htj
        cases htj
    have hi : i < im.Tag.length := by omega
    have hp := (List.pairwise_iff_getElem.mp hs) i j hi hj hij
    rw [List.getElem?_eq_getElem hi] at hti
    rw [List.getElem?_eq_getElem hj] at htj
    cases hti
    cases htj
    exact hp

/-- C34 (witness): `twoTagImage` has an inline tag (ImageWidth) and a tag with
a 6-byte payload (BitsPerSample); `EncodeTags(8)` returns 36 bytes, the entry
of BitsPerSample stores the pointer 38 and the payload is at position 30 of the
returned bytes. -/
theorem C34_directory_layout_witness :
    TagMap.Sorted twoTagImage.Tag ∧
    ∃ bytes, (twoTagImage.EncodeTags 8).2 = .ok bytes ∧ bytes.length = 36 ∧
      (Header.mk .LittleEndian VersionClassicTIFF 8).ByteOrder.Uint
        (encodedValueField (Header.mk .LittleEndian VersionClassicTIFF 8)
          (encodedEntry (Header.mk .LittleEndian VersionClassicTIFF 8) bytes 1)) = 38 ∧
      slice bytes 30 36 = [8, 0, 8, 0, 8, 0] := by
  have hs : TagMap.Sorted twoTagImage.Tag := by
    unfold TagMap.Sorted
    decide
  have hid : ∀ t ∈ twoTagImage.Tag, t.ID < 2 ^ 16 := by decide
  obtain ⟨bytes, hb, hl, hent, _⟩ := C34_directory_layout twoTagImage
    (Header.mk .LittleEndian VersionClassicTIFF 8) 8 rfl (Or.inl rfl) (by decide) hs hid
  have ht : twoTagImage.Tag[1]? =
      some (Tag.mk 258 3 3 [8, 0, 8, 0, 8, 0]
        (some (Header.mk .LittleEndian VersionClassicTIFF 8)) 0 0) := by decide
  obtain ⟨_, _, hout⟩ := hent 1 _ ht
  obtain ⟨hp, hd⟩ := hout (by decide)
  refine ⟨hs, bytes, hb, ?_, ?_, ?_⟩
  · rw [hl]
    decide
  · rw [hp]
    decide
  · exact hd

/-- C34 (counterexample): for `twoTagImage`, on a Classic header,
`EncodeTags(2^32)` succeeds and the entry of BitsPerSample, whose payload is
out-of-line, stores the pointer 30, whereas `offset + c + n*e + p` is
2^32 + 30. -/
theorem C34_counterexample_pointer_truncated :
    ((twoTagImage.EncodeTags (2 ^ 32)).2.toOption.map (fun bytes =>
        ByteOrder.LittleEndian.Uint
          (encodedValueField (Header.mk .LittleEndian VersionClassicTIFF 8)
            (encodedEntry (Header.mk .LittleEndian VersionClassicTIFF 8) bytes 1)))) =
      some 30 ∧
    2 ^ 32 + (2 + twoTagImage.Tag.length * 12 + 4 +
      outOfLineLength 4 (twoTagImage.Tag.take 1)) = 2 ^ 32 + 30 ∧
    twoTagImage.Header = some (Header.mk .LittleEndian VersionClassicTIFF 8) := by
  refine ⟨by decide, by decide, by decide⟩


/-! ## The length of a payload -/

/-- The length of a payload: every tag that `NewTag` returns without error has a payload of
exactly `Type.Size() * Count` bytes, and every tag of a directory that
`DecodeIFD` returns has a payload whose length is the product
`Type.Size() * Count` as the source computes it (an `int`), which is the exact
product whenever that is below 2^63. -/
theorem payload_length_as_computed :
    (∀ (id tagType : Nat) (value : Value) (header : Option Header) (t : Tag),
      NewTag id tagType value header = .ok t →
      t.Data.length = TagType.Size t.Typ * t.Count) ∧
    (∀ (d : Decoder) (offset : Nat) (im : Image), d.DecodeIFD offset = .ok im →
      ∀ t ∈ im.Tag,
        (t.Data.length : Int) = toInt64 (TagType.Size t.Typ * t.Count) ∧
        (TagType.Size t.Typ * t.Count < 2 ^ 63 →
          t.Data.length = TagType.Size t.Typ * t.Count)) := by
  constructor
  · intro id tagType value header t h
    exact (NewTag_ok h).2.2.1
  · intro d offset im him t ht
    obtain ⟨j, _, hj⟩ := (DecodeIFD_tags d offset im him).1 t ht
    have hl := decodeEntry_length d offset j t hj
    refine ⟨hl, ?_⟩
    intro hlt
    rw [toInt64_of_lt _ hlt] at hl
    exact_mod_cast hl

/-- The length of a payload at concrete tags: the tag that `NewTag` builds for three Shorts has 6 bytes,
and each of the two tags decoded from `outOfLineFile` has `Type.Size() * Count`
bytes: 2 for ImageWidth and 6 for BitsPerSample. -/
theorem payload_length_outOfLineFile :
    (∀ t, NewTag 258 TagTypeShort (.uint16s [8, 8, 8]) (some outOfLineDecoder.Header) = .ok t →
      t.Data.length = TagType.Size t.Typ * t.Count) ∧
    isOk (NewTag 258 TagTypeShort (.uint16s [8, 8, 8]) (some outOfLineDecoder.Header)) = true ∧
    (∀ im, outOfLineDecoder.DecodeIFD 8 = .ok im → ∀ t ∈ im.Tag,
      (t.Data.length : Int) = toInt64 (TagType.Size t.Typ * t.Count)) ∧
    (outOfLineDecoder.DecodeIFD 8).toOption.map (fun im =>
        im.Tag.map (fun t => (t.Data.length, TagType.Size t.Typ * t.Count))) =
      some [(2, 2), (6, 6)] :=
  ⟨fun t h => payload_length_as_computed.1 258 TagTypeShort (.uint16s [8, 8, 8]) (some outOfLineDecoder.Header) t h,
   by decide,
   fun im h t ht => (payload_length_as_computed.2 outOfLineDecoder 8 im h t ht).1,
   by decide⟩

/-- C35 (the code at the failing input): in the BigTIFF file `overflowFile 32`
the entry has the type Long8 and the count `2^61`; `DecodeIFD(16)` returns a
directory whose tag has that count and an empty `Data`, so `len(Data)` is 0
whereas `Type.Size() * Count` is `2^64` (the product wraps to 0 in the
source). -/
theorem C35_decoded_tag_with_empty_payload :
    (NewDecoder (overflowFile 32)).toOption = some (overflowDecoder 32) ∧
    ((overflowDecoder 32).DecodeIFD 16).toOption.map
        (fun im => im.Tag.map (fun t => (t.Typ, t.Count, t.Data.length))) =
      some [(TagTypeLong8, 2 ^ 61, 0)] ∧
    TagType.Size TagTypeLong8 * 2 ^ 61 = 2 ^ 64 ∧
    toInt64 (TagType.Size TagTypeLong8 * 2 ^ 61) = 0 := by
  refine ⟨by rfl, by rfl, by decide, by decide⟩

/-! ## The two passes of `EncodeImage` over the directory -/

theorem validate_header_irrelevant (im : Image) (h : Option Header) (buffer : Buffer) :
    ({ im with Header := h } : Image).validate buffer = im.validate buffer := rfl

theorem EncodeImage_header_irrelevant (c : Codecs) (enc : Encoder) (im : Image) (buffer : Buffer) :
    ({ im with Header := some enc.Header } : Image).EncodeImage c enc buffer =
      im.EncodeImage c enc buffer := rfl

theorem directoryPasses_header_irrelevant (c : Codecs) (enc : Encoder) (im : Image)
    (buffer : Buffer) :
    ({ im with Header := some enc.Header } : Image).directoryPasses c enc buffer =
      im.directoryPasses c enc buffer := rfl

/-- C37 (the code at the failing inputs): the only image of `hugeTileFile` has
1 x 1 pixel, one 8-bit sample and one tile, with TileWidth and TileLength
2^32.  With a buffer of one element it passes the validation of `DecodeImage`,
its tile count 1 is the expected count and its tile dimensions are at least 1;
the length of the tile buffer, `int(tileWidth*tileHeight) * samplePerPixel *
bitDepth / 8`, wraps to 0, so the read of the tile succeeds and the copy of the
first line reads `tileBuf[0:1]` outside the tile buffer: `DecodeImage` panics
with "slice bounds out of range".  In strip layout the image of `hugeRowFile`
(width 2^61, height 8, whose sample count wraps to 0) with an empty buffer
gets a row buffer of length 0 and panics at `buf[0:2^61]`. -/
theorem C37_scratch_buffer_size_overflow :
    (firstImage hugeTileFile).map (fun im => (im.validate (.u8 [0])).toOption) =
      some (some (Geometry.mk 1 1 1 8)) ∧
    (firstImage hugeTileFile).map (fun im => (im.NumStrips, im.NumTiles,
        (Tag.Uint (TagMap.find im.Tag TagTileWidth)).toOption,
        (Tag.Uint (TagMap.find im.Tag TagTileLength)).toOption,
        (im.TileReader idCodecs 0).toOption)) =
      some (0, 1, some (2 ^ 32, true), some (2 ^ 32, true), some [7]) ∧
    ceilDiv 1 (2 ^ 32) * ceilDiv 1 (2 ^ 32) = 1 ∧
    scratchLen (2 ^ 32 * 2 ^ 32 * 1) 8 = 0 ∧
    decodeFirstImage idCodecs hugeTileFile (.u8 [0]) =
      some (.u8 [0], some (.fatal "slice bounds out of range")) ∧
    (firstImage hugeRowFile).map (fun im => ((im.validate (.u8 [])).toOption, im.NumStrips,
        (Tag.Uint (TagMap.find im.Tag TagRowsPerStrip)).toOption)) =
      some (some (Geometry.mk (2 ^ 61) 8 1 8), 1, some (8, true)) ∧
    scratchLen (2 ^ 61 * 1) 8 = 0 ∧
    decodeFirstImage idCodecs hugeRowFile (.u8 []) =
      some (.u8 [], some (.fatal "slice bounds out of range")) := by
  refine ⟨by decide, by rfl, by decide, by decide, by decide, by rfl, by decide,
    by decide⟩


/-! ## C38: the payload size of a BigTIFF entry -/

/-- C38 (the code at the failing inputs): in the BigTIFF file `overflowFile 32`
the entry has the type Long8 and the count 2^61, so its exact payload size is
2^64 bytes; `NewDecoder` accepts the file and `DecodeIFD(16)` returns the tag
with that count and an empty payload.  With the count 2^60 (`overflowFile 16`,
exact size 2^63) the call ends in the panic of `make`, and with the count 2^63
(`overflowFile 128`) the error is not a FormatError. -/
theorem C38_overflowing_payload_size_is_accepted :
    (NewDecoder (overflowFile 32)).toOption = some (overflowDecoder 32) ∧
    ((overflowDecoder 32).DecodeIFD 16).toOption.map
        (fun im => im.Tag.map (fun t => (t.ID, t.Typ, t.Count, t.Data))) =
      some [(256, TagTypeLong8, 2 ^ 61, [])] ∧
    TagType.Size TagTypeLong8 * 2 ^ 61 = 2 ^ 64 ∧
    errorOf ((overflowDecoder 16).DecodeIFD 16) =
      some (.fatal "makeslice: len out of range") ∧
    errorOf ((overflowDecoder 128).DecodeIFD 16) =
      some (.other "invalid IFD: count overflows int") ∧
    (Error.other "invalid IFD: count overflows int").isFormat = false := by
  refine ⟨by rfl, by decide, by decide, by decide, by decide, by decide⟩


/-! ## C39: a sorted directory that starts with the identifier 0 -/

/-- C39 (the code at the failing input): the GPS directory at offset 26 of
`gpsFile` has two readable entries with the strictly increasing identifiers 0
and 1, yet `DecodeIFD(26)`, `DecodeGPSIFD(26)`, `DecodeExifIFD(26)` and
`DecodeInteroperabilityIFD(26)` fail with the error "entries are not sorted by
tag", and the first `Next` on the file returns false with
that error wrapped as a GPSIFD failure. -/
theorem C39_sorted_directory_from_zero_is_rejected :
    (decodeEntry gpsDecoder 26 0).toOption.map (fun t => t.ID) = some 0 ∧
    (decodeEntry gpsDecoder 26 1).toOption.map (fun t => t.ID) = some 1 ∧
    errorOf (gpsDecoder.DecodeIFD 26) =
      some (.other "invalid IFD: entries are not sorted by tag") ∧
    errorOf (gpsDecoder.DecodeGPSIFD 26) =
      some (.other "invalid IFD: entries are not sorted by tag") ∧
    errorOf (gpsDecoder.DecodeExifIFD 26) =
      some (.other "invalid IFD: entries are not sorted by tag") ∧
    errorOf (gpsDecoder.DecodeInteroperabilityIFD 26) =
      some (.other "invalid IFD: entries are not sorted by tag") ∧
    (fileIter gpsFile).map (fun it => ((it.Next).2, (it.Next).1.err)) =
      some (false,
        some (.other "cannot decode GPSIFD: invalid IFD: entries are not sorted by tag")) := by
  refine ⟨by decide, by decide, by decide, by decide, by decide, by decide, by decide⟩


/-! ## C40: `Image` and the later results of `Next` -/

theorem Iter.nextResults_of_err (n : Nat) :
    ∀ it : Iter, it.err.isSome = true → Iter.nextResults n it = List.replicate n false := by
  induction n with
  | zero => intro it _; rfl
  | succ n ih =>
    intro it h
    have hN : it.Next = (it, false) := by
      unfold Iter.Next
      rw [if_pos h]
    simp only [Iter.nextResults, hN, List.replicate_succ]
    rw [ih it h]

theorem Iter.nextResults_after_false (it : Iter) (h : (it.Next).2 = false) (n : Nat) :
    Iter.nextResults n (it.Next).1 = List.replicate n false := by
  by_cases he : it.err.isSome = true
  · have hN : it.Next = (it, false) := by
      unfold Iter.Next
      rw [if_pos he]
    rw [hN]
    exact Iter.nextResults_of_err n it he
  · rcases him : it.im with _ | cur
    · have hN : it.Next = (Iter.mk it.index it.dec it.im (some .eof), false) := by
        unfold Iter.Next
        rw [if_neg he, him]
      rw [hN]
      exact Iter.nextResults_of_err n _ rfl
    · by_cases h0 : cur.OffsetNext = 0
      · have hN : it.Next = (Iter.mk it.index it.dec none it.err, false) := by
          unfold Iter.Next
          rw [if_neg he, him]
          dsimp only
          rw [if_pos h0]
        rw [hN]
        cases n with
        | zero => rfl
        | succ n =>
          have hN2 : (Iter.mk it.index it.dec none it.err).Next =
              (Iter.mk it.index it.dec none (some .eof), false) := by
            unfold Iter.Next
            rw [if_neg he]
          simp only [Iter.nextResults, hN2, List.replicate_succ]
          rw [Iter.nextResults_of_err n (Iter.mk it.index it.dec none (some .eof)) rfl]
      · rcases hd : it.dec.decodeDirectories cur.OffsetNext with e | im
        · have hN : it.Next = (Iter.mk it.index it.dec it.im (some e), false) := by
            unfold Iter.Next
            rw [if_neg he, him]
            dsimp only
            rw [if_neg h0, hd]
          rw [hN]
          exact Iter.nextResults_of_err n _ rfl
        · have hN : (it.Next).2 = true := by
            unfold Iter.Next
            rw [if_neg he, him]
            dsimp only
            rw [if_neg h0, hd]
          rw [hN] at h
          cases h

theorem Iter.nextResults_of_false (it : Iter) (h : (it.Next).2 = false) (n : Nat) :
    Iter.nextResults n it = List.replicate n false := by
  cases n with
  | zero => rfl
  | succ n =>
    simp only [Iter.nextResults, h, List.replicate_succ]
    rw [Iter.nextResults_after_false it h n]

/-- C40 (amended): except in the state before the first successful `Next`
(no recorded error, current image with `Offset` 0) on which `Next` would
return true, a call of `Image` leaves the results of all later calls of `Next`
unchanged. -/
theorem C40_Image_keeps_later_Next_results (it : Iter)
    (h : ¬ (it.err = none ∧ it.beforeFirst = true ∧ (it.Next).2 = true)) (n : Nat) :
    Iter.nextResults n (it.Image).1 = Iter.nextResults n it := by
  unfold Iter.Image
  rcases him : it.im with _ | cur
  · rfl
  · dsimp only
    by_cases h0 : cur.Offset = 0
    · rw [if_pos h0]
      rw [Iter.nextResults_of_err n
        (Iter.mk it.index it.dec (some cur)
          (some (.other "acesss image before first call of Next()"))) rfl]
      by_cases he : it.err.isSome = true
      · rw [Iter.nextResults_of_err n it he]
      · have hen : it.err = none := by
          cases hx : it.err with
          | none => rfl
          | some x => rw [hx] at he; exact absurd rfl he
        have hb : it.beforeFirst = true := by
          unfold Iter.beforeFirst
          rw [him]
          simp [h0]
        have hf : (it.Next).2 = false := by
          cases hx : (it.Next).2 with
          | false => rfl
          | true => exact absurd ⟨hen, hb, hx⟩ h
        rw [Iter.nextResults_of_false it hf n]
    · rw [if_neg h0]

/-- C40 (witness): after the first `Next` on `exifFile` the current image has
the offset 8, and a call of `Image` leaves the results of the next three calls
of `Next` unchanged. -/
theorem C40_Image_keeps_later_Next_results_witness :
    (exifDecoder.Iter.Next).1.beforeFirst = false ∧
    Iter.nextResults 3 ((exifDecoder.Iter.Next).1.Image).1 =
      Iter.nextResults 3 (exifDecoder.Iter.Next).1 :=
  ⟨by decide, C40_Image_keeps_later_Next_results (exifDecoder.Iter.Next).1 (by decide) 3⟩

/-- C40 (counterexample): on the fresh iterator over `exifFile`, a file with
one directory, `Next` returns true; after a call of `Image`, which returns nil
and records the error "acesss image before first call of Next()", `Next`
returns false and the iterator has not advanced. -/
theorem C40_counterexample_Image_before_first_Next :
    (fileIter exifFile).map (fun it => (it.Next).2) = some true ∧
    (fileIter exifFile).map (fun it => ((it.Image).1.Next).2) = some false ∧
    (fileIter exifFile).map (fun it => ((it.Image).1.Next).1.index) = some (-1) ∧
    (fileIter exifFile).map (fun it => (it.Image).2.isNone) = some true ∧
    (fileIter exifFile).map (fun it => (it.Image).1.err) =
      some (some (.other "acesss image before first call of Next()")) := by
  refine ⟨by decide, by decide, by decide, by decide, by decide⟩

end Tiff
